import Mathlib

/-!
StringPoolL (cppexamples/StringPoolL.cpp): shallow embedding.

The pool is embedded as a record of its data members with explicit state
passing.  Memory blocks are lists of cells; a cell obtained from `new char[n]`
and not yet written is indeterminate (`none`).  A null pointer is `none`.
`StringPoolL::Error` terminates the program, so every `Error(k, _)` call is an
exception carrying the message number; an access outside an allocated block,
through a null pointer, or a signed overflow has no defined behaviour in C++
and is reported as `ErrorCode.Undefined`.

The file only compiles where `size_t` is `unsigned int` (the declaration of
`SetToSubstring` uses `size_t`, its definition `unsigned int`), so all unsigned
arithmetic is taken modulo 2^32.  `USE_ASMLIB` is not defined: `MemPadding = 0`
and the string functions are the ones of the C library.
-/

namespace StringPoolL

/-- The message numbers of `StringPoolL::Error`, named as in the specification,
and `Undefined` for executions the C++ standard leaves undefined. -/
inductive ErrorCode where
  /-- Message 1, "Index out of range". -/
  | InvalidHandle
  /-- Message 2, "Going beyond end of string". -/
  | OutOfBounds
  /-- Message 3, "Memory allocation failed". -/
  | OutOfMemory
  /-- Message 4, "Formatted string too long". -/
  | FormatTooLong
  /-- Message 5, "String too long". -/
  | StringTooLong
  /-- Not a call of `Error`: null or out-of-block access, read of an
  indeterminate byte, signed overflow. -/
  | Undefined
  deriving DecidableEq, Repr

/-- A byte of a `char` block; `none` is the indeterminate value of a cell that
`new char[n]` returned and nothing has written yet. -/
abbrev Cell := Option Nat

/-- A `char` block. -/
abbrev Mem := List Cell

/-- Result of a member function that may call `Error` or leave defined behaviour. -/
abbrev Result (α : Type) := Except ErrorCode α

/-- Reduction of an `unsigned int` / `size_t` value. -/
def u32 (x : Nat) : Nat := x % 4294967296

/-- Reduction to `LengthType` (`unsigned short int`). -/
def u16 (x : Nat) : Nat := x % 65536

/-- The conversion `(unsigned int)i` of an `int`. -/
def toUnsigned (i : Int) : Nat := (i % 4294967296).toNat

/-- Unsigned subtraction `a - b` of two `unsigned int` values. -/
def sub32 (a b : Nat) : Nat := (a + (4294967296 - b % 4294967296)) % 4294967296

/-- `sizeof(LengthType)`. -/
def sizeofLengthType : Nat := 2

/-- `AllocateSpace1`: minimum number of characters to allocate in the string buffer. -/
def AllocateSpace1 : Nat := 4096

/-- `AllocateSpace2`: minimum number of indices to allocate in the offsets buffer. -/
def AllocateSpace2 : Nat := 1024

/-- `MemPadding` (`MEM_PADDING` without `USE_ASMLIB`). -/
def MemPadding : Nat := 0

/-- `(size_t)(LengthType)(-1)`. -/
def maxLength : Nat := 65535

/-! ## Memory blocks -/

/-- The block `new char[n]`: `n` indeterminate cells. -/
def newChars (n : Nat) : Mem := List.replicate n none

/-- The effect of `memset_(_, 0, n * sizeof(unsigned int))`: `n` zero entries. -/
def zeroFill (n : Nat) : List Nat := List.replicate n 0

/-- The `n` cells at `m + off`; outside the block the read is undefined. -/
def readCells (m : Mem) (off n : Nat) : Result (List Cell) :=
  if off + n ≤ m.length then .ok ((m.drop off).take n) else .error .Undefined

/-- `memcpy(m + off, data, |data|)` on the destination side. -/
def writeCells (m : Mem) (off : Nat) (data : List Cell) : Result Mem :=
  if off + data.length ≤ m.length then
    .ok (m.take off ++ data ++ m.drop (off + data.length))
  else .error .Undefined

/-- `*(LengthType*)(m + off)` as an rvalue (little endian). -/
def readU16 (m : Mem) (off : Nat) : Result Nat :=
  match readCells m off 2 with
  | .ok [some lo, some hi] => .ok (lo + 256 * hi)
  | _ => .error .Undefined

/-- `*(LengthType*)(m + off) = v` (little endian). -/
def writeU16 (m : Mem) (off v : Nat) : Result Mem :=
  writeCells m off [some (v % 256), some (v / 256 % 256)]

/-- What `strlen` computes on the block starting at a pointer: the number of
cells before the first zero byte.  Without a zero in the block, or across an
indeterminate cell, there is no defined result. -/
def strlenCells : List Cell → Option Nat
  | [] => none
  | none :: _ => none
  | some b :: cs => if b = 0 then some 0 else (strlenCells cs).map (· + 1)

/-- The bytes of the zero-terminated string starting a block, terminator excluded. -/
def cstrCells : List Cell → Option (List Nat)
  | [] => none
  | none :: _ => none
  | some b :: cs => if b = 0 then some [] else (cstrCells cs).map (b :: ·)

/-- The result of `strstr(h, n)` as an offset from `h`: the first position at
which `n` occurs in `h`, or `none` for a null result. -/
def strstr_ : List Nat → List Nat → Option Nat
  | [], n => if n.isEmpty then some 0 else none
  | b :: h, n =>
    if n.isPrefixOf (b :: h) then some 0 else (strstr_ h n).map (· + 1)

/-! ## Character pointers -/

/-- A value of type `PChar` (`char const *`). -/
inductive PChar where
  /-- The null pointer. -/
  | null
  /-- A pointer to the start of a block owned by the caller, holding `block`. -/
  | mem (block : List Nat)
  /-- The pointer `Buffer + off` into the buffer that the pool owns at the
  time of the call (what `Get` returns). -/
  | pool (off : Nat)
  deriving DecidableEq, Repr

/-- The pointer to a zero-terminated string with bytes `s`, held in caller memory. -/
def cstr (s : List Nat) : PChar := .mem (s ++ [0])

/-- Pointer arithmetic `s + k`. -/
def PChar.add : PChar → Nat → PChar
  | .null, _ => .null
  | .mem block, k => .mem (block.drop k)
  | .pool off, k => .pool (off + k)

/-- The readable cells starting at a pointer; `cur` is the block a pool
pointer refers to. -/
def PChar.deref (cur : Option Mem) : PChar → Result Mem
  | .null => .error .Undefined
  | .mem block => .ok (block.map some)
  | .pool off =>
    match cur with
    | none => .error .Undefined
    | some m => if off ≤ m.length then .ok (m.drop off) else .error .Undefined

/-- `strlen_(s)`. -/
def strlen_ (cur : Option Mem) (s : PChar) : Result Nat := do
  let m ← s.deref cur
  match strlenCells m with
  | some n => .ok n
  | none => .error .Undefined

/-- The source side of `memcpy(_, s, n)`: the `n` cells at `s`. -/
def PChar.read (cur : Option Mem) (s : PChar) (n : Nat) : Result (List Cell) := do
  let m ← s.deref cur
  readCells m 0 n

/-- The bytes of the zero-terminated string at `s`. -/
def PChar.string (cur : Option Mem) (s : PChar) : Result (List Nat) := do
  let m ← s.deref cur
  match cstrCells m with
  | some bs => .ok bs
  | none => .error .Undefined

/-! ## The pool -/

/-- The data members of `class StringPoolL`. -/
structure Pool where
  /-- Memory block containing strings. -/
  Buffer : Option Mem
  /-- Save old Buffer during copying of string. -/
  OldBuffer : Option Mem
  /-- Memory block containing offsets to strings. -/
  Offsets : Option (List Nat)
  /-- Size of buffer block. -/
  BufferSize : Nat
  /-- Size of Offsets block. -/
  OffsetsSize : Nat
  /-- Used part of Buffer, including garbage. -/
  DataSize : Nat
  /-- Total size of garbage in Buffer. -/
  GarbageSize : Nat
  /-- Highest used Offset. -/
  Top : Nat
  /-- Number of strings = highest used index in Offsets + 1. -/
  Num : Int
  deriving DecidableEq, Repr

/-- The default constructor: everything is set to zero. -/
def fresh : Pool :=
  { Buffer := none, OldBuffer := none, Offsets := none, BufferSize := 0,
    OffsetsSize := 0, DataSize := 0, GarbageSize := 0, Top := 0, Num := 0 }

/-- `GetNum()`. -/
def GetNum (P : Pool) : Int := P.Num

/-- The rvalue `Offsets[i]`. -/
def offsetAt (P : Pool) (i : Int) : Result Nat :=
  match P.Offsets with
  | none => .error .Undefined
  | some o =>
    if i < 0 then .error .Undefined
    else match o.get? i.toNat with
      | some v => .ok v
      | none => .error .Undefined

/-- The assignment `Offsets[i] = v`. -/
def setOffset (P : Pool) (i : Int) (v : Nat) : Result Pool :=
  match P.Offsets with
  | none => .error .Undefined
  | some o =>
    if i < 0 then .error .Undefined
    else if i.toNat < o.length then .ok { P with Offsets := some (o.set i.toNat v) }
    else .error .Undefined

/-- `StringPoolL::Clear`. -/
def Clear (P : Pool) : Result Pool :=
  match P.Offsets with
  | some o =>
    if P.Num.toNat ≤ o.length then
      .ok { P with Offsets := some (zeroFill P.Num.toNat ++ o.drop P.Num.toNat),
                   DataSize := 0, GarbageSize := 0 }
    else .error .Undefined
  | none => .ok { P with DataSize := 0, GarbageSize := 0 }

/-- `StringPoolL::Len`. -/
def Len (P : Pool) (i : Int) : Result Nat :=
  if toUnsigned i ≥ toUnsigned P.Num then .error .InvalidHandle
  else do
    let off ← offsetAt P i
    match P.Buffer with
    | none => .error .Undefined
    | some b => readU16 b off

/-- `StringPoolL::Get`; the result is the offset of the returned pointer from `Buffer`. -/
def Get (P : Pool) (i : Int) : Result Nat :=
  if toUnsigned i ≥ toUnsigned P.Num then .error .InvalidHandle
  else do
    let off ← offsetAt P i
    .ok (sizeofLengthType + off)

/-- `StringPoolL::ReserveNum`.  The allocation itself is taken to succeed: the
branch `if (Offsets2 == 0) Error(3, newsize)` is not taken, whatever the size
of the block.  (With `Offsets` null and `OffsetsSize` not zero the old entries
of the new block would stay indeterminate; that state is reported as
undefined.) -/
def ReserveNum (P : Pool) (newsize : Nat) : Result Pool :=
  if newsize ≤ P.OffsetsSize then .ok P
  else do
    let newsize :=
      if newsize < u32 (P.OffsetsSize * 2 + AllocateSpace2) then
        u32 (P.OffsetsSize * 2 + AllocateSpace2)
      else newsize
    let old ← match P.Offsets with
      | some o =>
        if P.OffsetsSize ≤ o.length then .ok (o.take P.OffsetsSize) else .error .Undefined
      | none => if P.OffsetsSize = 0 then .ok [] else .error .Undefined
    .ok { P with Offsets := some (old ++ zeroFill (newsize - P.OffsetsSize)),
                 OffsetsSize := newsize }

/-- The loop of `ReserveBuf` over the indices `i, i+1, ...` (`n` of them):
`P` is `*this` with the old `Buffer`, `b2` is `Buffer2`, `d2` is `DataSize2`. -/
def ReserveBufLoop (old : Mem) : Nat → Int → Pool → Mem → Nat → Result (Pool × Mem × Nat)
  | 0, _, P, b2, d2 => .ok (P, b2, d2)
  | n + 1, i, P, b2, d2 => do
    let off ← offsetAt P i
    if off ≠ 0 then
      let Strlen ← Len P i
      if Strlen ≠ 0 then
        let rec_ ← readCells old off (Strlen + sizeofLengthType + 1)
        let b2 ← writeCells b2 d2 rec_
        let P ← setOffset { P with Top := d2 } i d2
        ReserveBufLoop old n (i + 1) P b2 (u32 (d2 + (Strlen + sizeofLengthType + 1)))
      else
        let P ← setOffset P i 0
        ReserveBufLoop old n (i + 1)
          { P with GarbageSize := u32 (P.GarbageSize + (sizeofLengthType + 1)) } b2 d2
    else ReserveBufLoop old n (i + 1) P b2 d2

/-- `StringPoolL::ReserveBuf`.  The allocation itself is taken to succeed: the
branch `if (Buffer2 == 0) Error(3, newsize)` is not taken, whatever the size of
the block.  The size of the block is computed in `unsigned int`, as the source
does. -/
def ReserveBuf (P : Pool) (newsize : Nat) : Result Pool := do
  let live2 := u32 (sub32 P.DataSize P.GarbageSize * 2 + AllocateSpace1)
  let newsize := if newsize < live2 then live2 else newsize
  let Buffer2 : Mem := newChars (u32 (newsize + 1 + sizeofLengthType + MemPadding))
  let Buffer2 ← writeU16 Buffer2 0 0
  let Buffer2 ← writeCells Buffer2 sizeofLengthType [some 0]
  let P := { P with Top := sizeofLengthType + 1 }
  let (P, Buffer2, DataSize2) ← match P.Buffer with
    | some old => do
      let (P, b2, d2) ← ReserveBufLoop old P.Num.toNat 0 P Buffer2 (sizeofLengthType + 1)
      pure ({ P with OldBuffer := some old }, b2, d2)
    | none => pure (P, Buffer2, sizeofLengthType + 1)
  .ok { P with Buffer := some Buffer2, BufferSize := u32 (newsize + sizeofLengthType + 1),
               DataSize := DataSize2, GarbageSize := 0 }

/-- The tail of `Allocate`: put the new string at the end of `Buffer`. -/
def AllocateAtEnd (P : Pool) (i : Int) (len : Nat) : Result (Pool × Nat × Bool) := do
  let need := u32 (P.DataSize + sizeofLengthType + 1 + len)
  let moved := decide (need > P.BufferSize)
  let P ← if moved then ReserveBuf P need else pure P
  let P ← setOffset { P with Top := P.DataSize } i P.DataSize
  let P := { P with DataSize := u32 (P.DataSize + (sizeofLengthType + 1 + len)) }
  .ok (P, P.Top, moved)

/-- `StringPoolL::Allocate`.  The result is the pool, the offset of the
returned pointer from the (possibly new) `Buffer`, and whether `ReserveBuf`
replaced the buffer, which is what decides where pointers obtained before the
call now point. -/
def Allocate (P : Pool) (i : Int) (len : Nat) : Result (Pool × Nat × Bool) := do
  let off ← offsetAt P i
  if off ≠ 0 then
    if off = P.Top then
      let need := u32 (P.Top + sizeofLengthType + 1 + len)
      let moved := decide (need > P.BufferSize)
      let P ← if moved then ReserveBuf P need else pure P
      let P := { P with DataSize := u32 (P.Top + sizeofLengthType + 1 + len) }
      .ok (P, P.Top, moved)
    else
      let OldLen ← Len P i
      if OldLen ≥ len then
        .ok ({ P with GarbageSize := u32 (P.GarbageSize + (OldLen - len)) }, off, false)
      else
        AllocateAtEnd { P with GarbageSize := u32 (P.GarbageSize + (OldLen + sizeofLengthType + 1)) } i len
  else AllocateAtEnd P i len

/-- The common opening of both `Set` overloads: reject a negative index and
make `i` a valid index, growing `Num` and the offsets block. -/
def SetIndex (P : Pool) (i : Int) : Result Pool :=
  if i < 0 then .error .InvalidHandle
  else if i ≥ P.Num then
    if i + 1 > 2147483647 then .error .Undefined
    else
      let P := { P with Num := i + 1 }
      if toUnsigned i ≥ P.OffsetsSize then ReserveNum P (toUnsigned (i + 1)) else .ok P
  else .ok P

/-- The branch "Erase string" of both `Set` overloads. -/
def SetErase (P : Pool) (i : Int) : Result Pool := do
  let off ← offsetAt P i
  if off ≠ 0 then
    let l ← Len P i
    setOffset { P with GarbageSize := u32 (P.GarbageSize + (l + 1 + sizeofLengthType)) } i 0
  else .ok P

/-- The block a pointer taken before `Allocate` refers to afterwards. -/
def sourceBlock (P : Pool) (moved : Bool) : Option Mem :=
  if moved then P.OldBuffer else P.Buffer

/-- Whether `memcpy_(Buffer + dst, s, n)` copies between two different,
overlapping regions of one block: `s` points into the buffer, the buffer was
not replaced, and the regions share a byte.  Copying a region onto itself
(`s = Buffer + dst`) is not counted: it leaves the block as it is. -/
def overlaps (moved : Bool) (s : PChar) (dst n : Nat) : Bool :=
  match s with
  | .pool off => !moved && decide (off ≠ dst) && decide (off < dst + n) && decide (dst < off + n)
  | _ => false

/-- The source side of `memcpy_(Buffer + dst, s, n)` after `Allocate`: the `n`
cells at `s`; `memcpy` between overlapping regions has no defined behaviour. -/
def memcpySource (P : Pool) (moved : Bool) (s : PChar) (dst n : Nat) : Result (List Cell) :=
  if overlaps moved s dst n then .error .Undefined else s.read (sourceBlock P moved) n

/-- `StringPoolL::Set(int i, PChar s)`: insert zero-terminated string. -/
def Set (P : Pool) (i : Int) (s : PChar) : Result Pool := do
  let P ← SetIndex P i
  let len ← if s = .null then pure 0 else strlen_ P.Buffer s
  if len = 0 then SetErase P i
  else if len > maxLength then .error .StringTooLong
  else
    let (P, p, moved) ← Allocate P i (u32 len)
    match P.Buffer with
    | none => .error .Undefined
    | some b =>
      let b ← writeU16 b p (u16 len)
      let P := { P with Buffer := some b }
      let src ← memcpySource P moved s (p + sizeofLengthType) (len + 1)
      let b ← writeCells b (p + sizeofLengthType) src
      .ok { P with Buffer := some b, OldBuffer := none }

/-- `StringPoolL::Set(int i, PChar s, unsigned int len)`: insert non
zero-terminated string. -/
def SetN (P : Pool) (i : Int) (s : PChar) (len : Nat) : Result Pool := do
  let P ← SetIndex P i
  if len ≤ 0 then SetErase P i
  else
    let (P, p, moved) ← Allocate P i len
    match P.Buffer with
    | none => .error .Undefined
    | some b =>
      let b ← writeU16 b p (u16 len)
      let P := { P with Buffer := some b }
      let src ← memcpySource P moved s (p + sizeofLengthType) len
      let b ← writeCells b (p + sizeofLengthType) src
      let b ← writeCells b (p + (len + sizeofLengthType)) [some 0]
      .ok { P with Buffer := some b, OldBuffer := none }

/-- `StringPoolL::Concatenate`. -/
def Concatenate (P : Pool) (i : Int) (s : PChar) : Result Pool := do
  let len1 ← Len P i
  let len2 ← if s = .null then pure 0 else strlen_ P.Buffer s
  if len2 = 0 then .ok P
  else if len2 > maxLength then .error .StringTooLong
  else if toUnsigned i ≥ toUnsigned P.Num then .error .InvalidHandle
  else if len1 = 0 then Set P i s
  else
    let string1 ← Get P i
    let (P, p, moved) ← Allocate P i (u32 (len1 + len2))
    match P.Buffer with
    | none => .error .Undefined
    | some b =>
      let b ← writeU16 b p (u16 (len1 + len2))
      let P := { P with Buffer := some b }
      let src1 ← memcpySource P moved (.pool string1) (p + sizeofLengthType) len1
      let b ← writeCells b (p + sizeofLengthType) src1
      let P := { P with Buffer := some b }
      let src2 ← memcpySource P moved s (p + sizeofLengthType + len1) (len2 + 1)
      let b ← writeCells b (p + sizeofLengthType + len1) src2
      .ok { P with Buffer := some b, OldBuffer := none }

/-! ## StringElement: the operations on `strings[index]` -/

namespace StringElement

/-- `operator = (PChar s)`. -/
def assign (P : Pool) (index : Int) (s : PChar) : Result Pool := Set P index s

/-- `operator = (StringElement const & s)` with `s = strings[src]` of the same pool. -/
def assignElement (P : Pool) (index src : Int) : Result Pool := do
  let p ← Get P src
  let l ← Len P src
  SetN P index (.pool p) l

/-- `operator += (const char * s)`. -/
def append (P : Pool) (index : Int) (s : PChar) : Result Pool := Concatenate P index s

/-- `operator PChar()` followed by a read of the zero-terminated string it points to. -/
def content (P : Pool) (index : Int) : Result (List Nat) := do
  let p ← Get P index
  (PChar.pool p).string P.Buffer

/-- `StringElement::SearchForSubstring`.  Both pointers of `n - h` lie in the
same string, so the difference is the position itself. -/
def SearchForSubstring (P : Pool) (index : Int) (s : PChar) : Result Int := do
  let h ← Get P index
  let hs ← (PChar.pool h).string P.Buffer
  let ns ← s.string P.Buffer
  match strstr_ hs ns with
  | some n => .ok (n : Int)
  | none => .ok (-1)

/-- `StringElement::SetToSubstring`. -/
def SetToSubstring (P : Pool) (index : Int) (s : PChar) (start len : Nat) : Result Pool := do
  let len1 ← if s = .null then pure 0 else strlen_ P.Buffer s
  if u32 (start + len) > len1 then .error .OutOfBounds
  else SetN P index (s.add start) len

/-- `StringElement::operator[] (int i)`.  The result is the offset from
`Buffer` of the character that the returned reference designates. -/
def opIndex (P : Pool) (index : Int) (i : Int) : Result Nat := do
  let len ← Len P index
  if toUnsigned i ≥ len then .error .OutOfBounds
  else
    let p ← Get P index
    .ok (p + i.toNat)

/-- Reading through the reference returned by `operator[]`: `c = strings[index][i]`. -/
def readChar (P : Pool) (index : Int) (i : Int) : Result Nat := do
  let p ← opIndex P index i
  match P.Buffer with
  | none => .error .Undefined
  | some b =>
    match b.get? p with
    | some (some v) => .ok v
    | _ => .error .Undefined

/-- Writing through the reference returned by `operator[]`: `strings[index][i] = v`. -/
def writeChar (P : Pool) (index : Int) (i : Int) (v : Nat) : Result Pool := do
  let p ← opIndex P index i
  match P.Buffer with
  | none => .error .Undefined
  | some b =>
    let b ← writeCells b p [some v]
    .ok { P with Buffer := some b }

/-- `FormatLength`: maximum length of strings written with Printf. -/
def FormatLength : Nat := 1023

/-- The library call `vsnprintf(strbuf, n, format, args)` as the C standard
defines it (for `n > 0`), when the complete formatted output is `r`: at most
`n - 1` characters are stored, then a zero; the value returned is the length
of the complete output.  The first component is what the call stores. -/
def vsnprintf (n : Nat) (r : List Nat) : List Nat × Int :=
  (r.take (n - 1) ++ [0], (r.length : Int))

/-- `StringElement::Printf`, for a format and arguments whose complete
formatted output is `r`.  `strbuf` is given by the cells that `vsnprintf`
stored; `Set` reads nothing behind the first zero, so neither the
indeterminate cells behind them nor `strbuf[FormatLength] = 0` are read. -/
def Printf (P : Pool) (index : Int) (r : List Nat) : Result Pool :=
  let strbuf := (vsnprintf FormatLength r).1
  let len := (vsnprintf FormatLength r).2
  if toUnsigned len > FormatLength then .error .FormatTooLong
  else Set P index (.mem strbuf)

/-- The bytes of the record of `strings[index]` that its length field
announces: `Len(index)` bytes from `Get(index)` on. -/
def payload (P : Pool) (index : Int) : Result (List Cell) := do
  let len ← Len P index
  let p ← Get P index
  (PChar.pool p).read P.Buffer len

end StringElement

/-- The bytes of an ASCII string literal. -/
def bytes (s : String) : List Nat := s.data.map Char.toNat

deriving instance DecidableEq for Except

/-- The state after a sequence of calls on a newly constructed pool; the run
stops at the first call that does not return. -/
def runOps (ops : List (Pool → Result Pool)) : Result Pool :=
  ops.foldlM (fun P f => f P) fresh

/-- A string of 4090 characters `x`: with two one-character strings stored
before it, it is the shortest string that no longer fits the first buffer
(`BufferSize = 4099`) behind the record at offset 7. -/
def longString : List Nat := List.replicate 4090 120

/-- The byte sequence `n` occurs in `c` starting at position `p`. -/
def occursAt (n c : List Nat) (p : Nat) : Prop := p ≤ c.length ∧ n <+: c.drop p

instance (n c : List Nat) (p : Nat) : Decidable (occursAt n c p) := by
  unfold occursAt; infer_instance

/-- A pool holding the single string "abc" under handle 0, in blocks that are
just large enough. -/
def samplePool : Pool :=
  { Buffer := some [some 0, some 0, some 0, some 3, some 0, some 97, some 98, some 99, some 0],
    OldBuffer := none, Offsets := some [3], BufferSize := 9, OffsetsSize := 1,
    DataSize := 9, GarbageSize := 0, Top := 3, Num := 1 }

/-! ## The example of `main`, as far as the specification replays it -/

/-- `strings[4] = "Hello "; strings[4] += "Dolly";` on a new pool. -/
def helloDolly : Result Pool :=
  runOps [(StringElement.assign · 4 (cstr (bytes "Hello "))),
          (StringElement.append · 4 (cstr (bytes "Dolly")))]

/-- Then `strings[5] = strings[4];`. -/
def helloCopied : Result Pool := helloDolly >>= (StringElement.assignElement · 5 4)

/-- Then `strings[4] += "!";`. -/
def helloBang : Result Pool := helloCopied >>= (StringElement.append · 4 (cstr (bytes "!")))

/-- `strings[index].SetToSubstring(strings[src], start, len)`: the source is
the pointer that `operator PChar()` of `strings[src]` returns. -/
def StringElement.SetToSubstringOf (P : Pool) (index src : Int) (start len : Nat) : Result Pool := do
  let p ← Get P src
  StringElement.SetToSubstring P index (.pool p) start len

/-! ## Pools with a single record, for the traces of long strings -/

/-- The pool after `SetIndex` for handle 0 on a new pool. -/
def indexedPool : Pool :=
  { fresh with Num := 1, Offsets := some (0 :: zeroFill 1023), OffsetsSize := 1024 }

/-- The cells of a record: length bytes, payload, terminating zero. -/
def recordCells (len : Nat) (payload : List Nat) : List Cell :=
  some (len % 256) :: some (len / 256 % 256) :: (payload.map some ++ [some 0])

/-- The pool whose only record belongs to handle 0 and lies at offset 3. -/
def singleRecordPool (buf : Mem) (bufSize dataSize : Nat) : Pool :=
  { Buffer := some buf, OldBuffer := none, Offsets := some (3 :: zeroFill 1023),
    BufferSize := bufSize, OffsetsSize := 1024, DataSize := dataSize, GarbageSize := 0,
    Top := 3, Num := 1 }

/-! ## Sequences of calls -/

/-- The calls a client makes on a pool `strings`. -/
inductive Op where
  /-- The call `strings[index] = s`. -/
  | assign (index : Int) (s : PChar)
  /-- The call `strings[index] = strings[src]`. -/
  | assignElement (index src : Int)
  /-- The call `strings.Set(index, s, len)`. -/
  | SetN (index : Int) (s : PChar) (len : Nat)
  /-- The call `strings[index] += s`. -/
  | append (index : Int) (s : PChar)
  /-- The call `strings[index].SetToSubstring(s, start, len)`. -/
  | SetToSubstring (index : Int) (s : PChar) (start len : Nat)
  /-- The call `strings[index].SetToSubstring(strings[src], start, len)`. -/
  | SetToSubstringOf (index src : Int) (start len : Nat)
  /-- The call `strings[index].Printf(...)` with complete output `r`. -/
  | Printf (index : Int) (r : List Nat)
  /-- The call `strings[index][i] = v`. -/
  | writeChar (index i : Int) (v : Nat)
  /-- The read `c = strings[index][i]`. -/
  | readChar (index i : Int)
  /-- The call `strings.Clear()`. -/
  | Clear
  /-- The call `strings.ReserveBuf(newsize)`. -/
  | ReserveBuf (newsize : Nat)
  /-- The call `strings.ReserveNum(newsize)`. -/
  | ReserveNum (newsize : Nat)

/-- The effect of one call. -/
def Op.run : Op → Pool → Result Pool
  | .assign index s, P => StringElement.assign P index s
  | .assignElement index src, P => StringElement.assignElement P index src
  | .SetN index s len, P => StringPoolL.SetN P index s len
  | .append index s, P => StringElement.append P index s
  | .SetToSubstring index s start len, P => StringElement.SetToSubstring P index s start len
  | .SetToSubstringOf index src start len, P =>
    StringElement.SetToSubstringOf P index src start len
  | .Printf index r, P => StringElement.Printf P index r
  | .writeChar index i v, P => StringElement.writeChar P index i v
  | .readChar index i, P => StringElement.readChar P index i >>= fun _ => pure P
  | .Clear, P => StringPoolL.Clear P
  | .ReserveBuf newsize, P => StringPoolL.ReserveBuf P newsize
  | .ReserveNum newsize, P => StringPoolL.ReserveNum P newsize

/-- The handle that a call passes to `Set` for assignment, if it assigns:
`operator =`, `SetToSubstring` and `Printf` all store their result by
`Set(index, ...)`.  (`operator +=` passes its handle to `Set` only when that
handle is valid and empty.) -/
def Op.assigned : Op → Option Int
  | .assign index _ => some index
  | .assignElement index _ => some index
  | .SetN index _ _ => some index
  | .SetToSubstring index _ _ _ => some index
  | .SetToSubstringOf index _ _ _ => some index
  | .Printf index _ => some index
  | _ => none

/-- The state after a sequence of calls, starting in state `P`; there is no
state when one of the calls does not return. -/
def runFrom (P : Pool) (ops : List Op) : Result Pool :=
  ops.foldlM (fun P op => op.run P) P

/-- The state after a sequence of calls on a newly constructed pool. -/
def runAll (ops : List Op) : Result Pool := runFrom fresh ops

/-- One more than the highest handle assigned so far, when it was `n` before
the call `op`. -/
def countStep (n : Int) (op : Op) : Int :=
  match op.assigned with
  | some index => max n (index + 1)
  | none => n

/-- One more than the highest handle that the calls `ops` assign to; zero
when they assign to none. -/
def countAfter (ops : List Op) : Int := ops.foldl countStep 0

/-- The calls of the example that write handles 4 and 5:
`strings[4] = "Hello "; strings[4] += "Dolly"; strings[5] = strings[4];`. -/
def helloOps : List Op :=
  [.assign 4 (cstr (bytes "Hello ")), .append 4 (cstr (bytes "Dolly")), .assignElement 5 4]

/-- The state that the calls `helloOps` leave. -/
def helloPool : Pool :=
  match runAll helloOps with
  | .ok P => P
  | .error _ => fresh

/-! ## Failures together with the state in which they occur

The functions above give the error code of a call that does not return.  The
functions below are the same functions, but a failure also carries the state
of the pool at the moment `Error` is called (for the code `Undefined`: at the
moment the undefined step is taken).  Steps that only read the pool, or that
change it with their last action, fail in the state in which they start. -/

/-- A result, or an error code together with the state of the pool in which
the failure occurs. -/
abbrev Traced (α : Type) := Except (ErrorCode × Pool) α

/-- A step that leaves the pool as it is until it returns: when it fails, the
pool is `P`. -/
def atState {α : Type} (P : Pool) (r : Result α) : Traced α :=
  match r with
  | .ok a => .ok a
  | .error e => .error (e, P)

/-- The result without the state of the failure. -/
def forget {α : Type} (t : Traced α) : Result α :=
  match t with
  | .ok a => .ok a
  | .error z => .error z.1

/-- The loop of `ReserveBuf`, see `ReserveBufLoop`. -/
def ReserveBufLoopT (old : Mem) : Nat → Int → Pool → Mem → Nat → Traced (Pool × Mem × Nat)
  | 0, _, P, b2, d2 => .ok (P, b2, d2)
  | n + 1, i, P, b2, d2 => do
    let off ← atState P (offsetAt P i)
    if off ≠ 0 then
      let Strlen ← atState P (Len P i)
      if Strlen ≠ 0 then
        let rec_ ← atState P (readCells old off (Strlen + sizeofLengthType + 1))
        let b2 ← atState P (writeCells b2 d2 rec_)
        let P ← atState { P with Top := d2 } (setOffset { P with Top := d2 } i d2)
        ReserveBufLoopT old n (i + 1) P b2 (u32 (d2 + (Strlen + sizeofLengthType + 1)))
      else
        let P ← atState P (setOffset P i 0)
        ReserveBufLoopT old n (i + 1)
          { P with GarbageSize := u32 (P.GarbageSize + (sizeofLengthType + 1)) } b2 d2
    else ReserveBufLoopT old n (i + 1) P b2 d2

/-- `StringPoolL::ReserveBuf`, see `ReserveBuf`. -/
def ReserveBufT (P : Pool) (newsize : Nat) : Traced Pool := do
  let live2 := u32 (sub32 P.DataSize P.GarbageSize * 2 + AllocateSpace1)
  let newsize := if newsize < live2 then live2 else newsize
  let Buffer2 : Mem := newChars (u32 (newsize + 1 + sizeofLengthType + MemPadding))
  let Buffer2 ← atState P (writeU16 Buffer2 0 0)
  let Buffer2 ← atState P (writeCells Buffer2 sizeofLengthType [some 0])
  let P := { P with Top := sizeofLengthType + 1 }
  let (P, Buffer2, DataSize2) ← match P.Buffer with
    | some old => do
      let (P, b2, d2) ← ReserveBufLoopT old P.Num.toNat 0 P Buffer2 (sizeofLengthType + 1)
      pure ({ P with OldBuffer := some old }, b2, d2)
    | none => pure (P, Buffer2, sizeofLengthType + 1)
  .ok { P with Buffer := some Buffer2, BufferSize := u32 (newsize + sizeofLengthType + 1),
               DataSize := DataSize2, GarbageSize := 0 }

/-- The tail of `Allocate`, see `AllocateAtEnd`. -/
def AllocateAtEndT (P : Pool) (i : Int) (len : Nat) : Traced (Pool × Nat × Bool) := do
  let need := u32 (P.DataSize + sizeofLengthType + 1 + len)
  let moved := decide (need > P.BufferSize)
  let P ← if moved then ReserveBufT P need else pure P
  let P ← atState { P with Top := P.DataSize } (setOffset { P with Top := P.DataSize } i P.DataSize)
  let P := { P with DataSize := u32 (P.DataSize + (sizeofLengthType + 1 + len)) }
  .ok (P, P.Top, moved)

/-- `StringPoolL::Allocate`, see `Allocate`. -/
def AllocateT (P : Pool) (i : Int) (len : Nat) : Traced (Pool × Nat × Bool) := do
  let off ← atState P (offsetAt P i)
  if off ≠ 0 then
    if off = P.Top then
      let need := u32 (P.Top + sizeofLengthType + 1 + len)
      let moved := decide (need > P.BufferSize)
      let P ← if moved then ReserveBufT P need else pure P
      let P := { P with DataSize := u32 (P.Top + sizeofLengthType + 1 + len) }
      .ok (P, P.Top, moved)
    else
      let OldLen ← atState P (Len P i)
      if OldLen ≥ len then
        .ok ({ P with GarbageSize := u32 (P.GarbageSize + (OldLen - len)) }, off, false)
      else
        AllocateAtEndT { P with GarbageSize := u32 (P.GarbageSize + (OldLen + sizeofLengthType + 1)) } i len
  else AllocateAtEndT P i len

/-- The common opening of both `Set` overloads, see `SetIndex`: `Error(1, i)`
is called before anything is changed; `ReserveNum` is called after `Num` has
been set. -/
def SetIndexT (P : Pool) (i : Int) : Traced Pool :=
  if i < 0 then .error (.InvalidHandle, P)
  else if i ≥ P.Num then
    if i + 1 > 2147483647 then .error (.Undefined, P)
    else
      let P := { P with Num := i + 1 }
      if toUnsigned i ≥ P.OffsetsSize then atState P (ReserveNum P (toUnsigned (i + 1)))
      else .ok P
  else .ok P

/-- The branch "Erase string" of both `Set` overloads, see `SetErase`. -/
def SetEraseT (P : Pool) (i : Int) : Traced Pool := do
  let off ← atState P (offsetAt P i)
  if off ≠ 0 then
    let l ← atState P (Len P i)
    atState { P with GarbageSize := u32 (P.GarbageSize + (l + 1 + sizeofLengthType)) }
      (setOffset { P with GarbageSize := u32 (P.GarbageSize + (l + 1 + sizeofLengthType)) } i 0)
  else .ok P

/-- `StringPoolL::Set(int i, PChar s)`, see `Set`: `Error(5, len)` is called
after the opening has made `i` a valid index. -/
def SetT (P : Pool) (i : Int) (s : PChar) : Traced Pool := do
  let P ← SetIndexT P i
  let len ← atState P (if s = .null then pure 0 else strlen_ P.Buffer s)
  if len = 0 then SetEraseT P i
  else if len > maxLength then .error (.StringTooLong, P)
  else
    let (P, p, moved) ← AllocateT P i (u32 len)
    match P.Buffer with
    | none => .error (.Undefined, P)
    | some b =>
      let b ← atState P (writeU16 b p (u16 len))
      let P := { P with Buffer := some b }
      let src ← atState P (memcpySource P moved s (p + sizeofLengthType) (len + 1))
      let b ← atState P (writeCells b (p + sizeofLengthType) src)
      .ok { P with Buffer := some b, OldBuffer := none }

/-- `StringPoolL::Set(int i, PChar s, unsigned int len)`, see `SetN`. -/
def SetNT (P : Pool) (i : Int) (s : PChar) (len : Nat) : Traced Pool := do
  let P ← SetIndexT P i
  if len ≤ 0 then SetEraseT P i
  else
    let (P, p, moved) ← AllocateT P i len
    match P.Buffer with
    | none => .error (.Undefined, P)
    | some b =>
      let b ← atState P (writeU16 b p (u16 len))
      let P := { P with Buffer := some b }
      let src ← atState P (memcpySource P moved s (p + sizeofLengthType) len)
      let b ← atState P (writeCells b (p + sizeofLengthType) src)
      let P := { P with Buffer := some b }
      let b ← atState P (writeCells b (p + (len + sizeofLengthType)) [some 0])
      .ok { P with Buffer := some b, OldBuffer := none }

/-- `StringPoolL::Concatenate`, see `Concatenate`. -/
def ConcatenateT (P : Pool) (i : Int) (s : PChar) : Traced Pool := do
  let len1 ← atState P (Len P i)
  let len2 ← atState P (if s = .null then pure 0 else strlen_ P.Buffer s)
  if len2 = 0 then .ok P
  else if len2 > maxLength then .error (.StringTooLong, P)
  else if toUnsigned i ≥ toUnsigned P.Num then .error (.InvalidHandle, P)
  else if len1 = 0 then SetT P i s
  else
    let string1 ← atState P (Get P i)
    let (P, p, moved) ← AllocateT P i (u32 (len1 + len2))
    match P.Buffer with
    | none => .error (.Undefined, P)
    | some b =>
      let b ← atState P (writeU16 b p (u16 (len1 + len2)))
      let P := { P with Buffer := some b }
      let src1 ← atState P (memcpySource P moved (.pool string1) (p + sizeofLengthType) len1)
      let b ← atState P (writeCells b (p + sizeofLengthType) src1)
      let P := { P with Buffer := some b }
      let src2 ← atState P (memcpySource P moved s (p + sizeofLengthType + len1) (len2 + 1))
      let b ← atState P (writeCells b (p + sizeofLengthType + len1) src2)
      .ok { P with Buffer := some b, OldBuffer := none }

namespace StringElement

/-- `operator = (StringElement const & s)`, see `assignElement`. -/
def assignElementT (P : Pool) (index src : Int) : Traced Pool := do
  let p ← atState P (Get P src)
  let l ← atState P (Len P src)
  SetNT P index (.pool p) l

/-- `StringElement::SetToSubstring`, see `SetToSubstring`: the bounds are
checked before `Set` is called. -/
def SetToSubstringT (P : Pool) (index : Int) (s : PChar) (start len : Nat) : Traced Pool := do
  let len1 ← atState P (if s = .null then pure 0 else strlen_ P.Buffer s)
  if u32 (start + len) > len1 then .error (.OutOfBounds, P)
  else SetNT P index (s.add start) len

/-- `StringElement::Printf`, see `Printf`: the length is checked before `Set`
is called. -/
def PrintfT (P : Pool) (index : Int) (r : List Nat) : Traced Pool :=
  let strbuf := (vsnprintf FormatLength r).1
  let len := (vsnprintf FormatLength r).2
  if toUnsigned len > FormatLength then .error (.FormatTooLong, P)
  else SetT P index (.mem strbuf)

/-- Writing through the reference returned by `operator[]`, see `writeChar`. -/
def writeCharT (P : Pool) (index : Int) (i : Int) (v : Nat) : Traced Pool := do
  let p ← atState P (opIndex P index i)
  match P.Buffer with
  | none => .error (.Undefined, P)
  | some b =>
    let b ← atState P (writeCells b p [some v])
    .ok { P with Buffer := some b }

end StringElement

/-- `strings[index].SetToSubstring(strings[src], start, len)`, see
`StringElement.SetToSubstringOf`. -/
def StringElement.SetToSubstringOfT (P : Pool) (index src : Int) (start len : Nat) :
    Traced Pool := do
  let p ← atState P (Get P src)
  StringElement.SetToSubstringT P index (.pool p) start len

/-- The effect of one call, see `Op.run`. -/
def Op.runT : Op → Pool → Traced Pool
  | .assign index s, P => SetT P index s
  | .assignElement index src, P => StringElement.assignElementT P index src
  | .SetN index s len, P => SetNT P index s len
  | .append index s, P => ConcatenateT P index s
  | .SetToSubstring index s start len, P => StringElement.SetToSubstringT P index s start len
  | .SetToSubstringOf index src start len, P =>
    StringElement.SetToSubstringOfT P index src start len
  | .Printf index r, P => StringElement.PrintfT P index r
  | .writeChar index i v, P => StringElement.writeCharT P index i v
  | .readChar index i, P => atState P (StringElement.readChar P index i >>= fun _ => pure P)
  | .Clear, P => atState P (StringPoolL.Clear P)
  | .ReserveBuf newsize, P => ReserveBufT P newsize
  | .ReserveNum newsize, P => atState P (StringPoolL.ReserveNum P newsize)

end StringPoolL

/-! ## SortedList (`src/cppexamples/SortedList.cpp`)

`SortedList<OBJTYPE, MAXSIZE>` keeps `num` objects in the array
`list[MAXSIZE]`.  The array is a function from indices to objects, the
template parameter `MAXSIZE` is a field that no operation changes, and
`operator <` of `OBJTYPE` is the parameter `lt`.  `num` and all indices are
`unsigned int`: sums are reduced modulo `2 ^ 32`.  The binary-search loop
takes a bound on the number of iterations and gives `none` when the bound is
used up before the loop ends. -/

/-- Data members of `SortedList<OBJTYPE, MAXSIZE>`. -/
structure SortedList (α : Type) where
  /-- Template parameter `MAXSIZE`. -/
  MAXSIZE : Nat
  /-- Number of objects in list. -/
  num : Nat
  /-- Storage buffer `list[MAXSIZE]`. -/
  list : Nat → α

namespace SortedList

variable {α : Type}

/-- Reduction of a value to `unsigned int`. -/
def uint (x : Nat) : Nat := x % 4294967296

/-- Constructor: `num = 0`; the storage buffer is not initialized and holds
whatever `garbage` it holds. -/
def empty (MAXSIZE : Nat) (garbage : Nat → α) : SortedList α :=
  { MAXSIZE := MAXSIZE, num := 0, list := garbage }

/-- Library function `memmove(list + d, list + s, n * sizeof(OBJTYPE))`: the
objects `list[s .. s+n)` as they were before the call are stored in
`list[d .. d+n)`. -/
def memmove (list : Nat → α) (d s n : Nat) : Nat → α :=
  fun i => if d ≤ i ∧ i < d + n then list (s + (i - d)) else list i

/-- The `while (a < b)` loop of `Search`, with at most `fuel` evaluations of
the loop condition.  `c = (a + b) / 2` is computed in `unsigned int`. -/
def SearchLoop (lt : α → α → Bool) (list : Nat → α) (x : α) : Nat → Nat → Nat → Option Nat
  | 0, _, _ => none
  | fuel + 1, a, b =>
    if a < b then
      let c := uint (a + b) / 2
      if lt (list c) x then SearchLoop lt list x fuel (uint (c + 1)) b
      else SearchLoop lt list x fuel a c
    else some a

/-- `Search(x)`: `a = 0; b = num;` then the loop; returns `a`. -/
def Search (lt : α → α → Bool) (fuel : Nat) (L : SortedList α) (x : α) : Option Nat :=
  SearchLoop lt L.list x fuel 0 L.num

/-- `Put(x)`: `false` when the list is full; otherwise the objects from the
index found by `Search` on are moved up one place, `x` is stored there and
`num` is incremented.  The result is `none` when `Search` does not return. -/
def Put (lt : α → α → Bool) (fuel : Nat) (L : SortedList α) (x : α) :
    Option (Bool × SortedList α) :=
  if L.num ≥ L.MAXSIZE then some (false, L)
  else
    match Search lt fuel L x with
    | none => none
    | some a =>
      let list1 := if L.num > a then memmove L.list (a + 1) a (L.num - a) else L.list
      some (true, { L with list := Function.update list1 a x, num := uint (L.num + 1) })

/-- `PutUnique(x)`: as `Put`, but returns `true` without storing `x` when the
object found by `Search` is not greater than `x`. -/
def PutUnique (lt : α → α → Bool) (fuel : Nat) (L : SortedList α) (x : α) :
    Option (Bool × SortedList α) :=
  if L.num ≥ L.MAXSIZE then some (false, L)
  else
    match Search lt fuel L x with
    | none => none
    | some a =>
      if a < L.num ∧ lt x (L.list a) = false then some (true, L)
      else
        let list1 := if L.num > a then memmove L.list (a + 1) a (L.num - a) else L.list
        some (true, { L with list := Function.update list1 a x, num := uint (L.num + 1) })

/-- `Remove(i)`: nothing when `i >= num`; otherwise the objects behind index
`i` are moved down one place and `num` is decremented. -/
def Remove (L : SortedList α) (i : Nat) : SortedList α :=
  if i ≥ L.num then L
  else
    { L with list := if L.num > uint (i + 1) then memmove L.list i (i + 1) (L.num - i - 1)
                     else L.list,
             num := L.num - 1 }

/-- The objects `list[0 .. num)` in order. -/
def entries (L : SortedList α) : List α := (List.range L.num).map L.list

/-- The objects `list[0 .. num)` are in non-decreasing order: no object is
less than an object in front of it. -/
def Sorted (lt : α → α → Bool) (L : SortedList α) : Prop :=
  ∀ i j, i < j → j < L.num → lt (L.list j) (L.list i) = false

/-- The relation `lt` is a strict weak order: irreflexive, transitive, and
incomparability is transitive. -/
structure StrictWeakOrder (lt : α → α → Bool) : Prop where
  irrefl : ∀ a, lt a a = false
  trans : ∀ a b c, lt a b = true → lt b c = true → lt a c = true
  incomp : ∀ a b c, lt a b = false → lt b a = false → lt b c = false → lt c b = false →
    lt a c = false ∧ lt c a = false

/-- The lists that are reached from an empty list of capacity `MAXSIZE` by
calls of `Put`, `PutUnique` and `Remove` that return. -/
inductive Reachable (lt : α → α → Bool) (MAXSIZE : Nat) : SortedList α → Prop
  | empty (garbage : Nat → α) : Reachable lt MAXSIZE (empty MAXSIZE garbage)
  | put (L L' : SortedList α) (fuel : Nat) (x : α) (ok : Bool) :
      Reachable lt MAXSIZE L → Put lt fuel L x = some (ok, L') → Reachable lt MAXSIZE L'
  | putUnique (L L' : SortedList α) (fuel : Nat) (x : α) (ok : Bool) :
      Reachable lt MAXSIZE L → PutUnique lt fuel L x = some (ok, L') →
      Reachable lt MAXSIZE L'
  | remove (L : SortedList α) (i : Nat) :
      Reachable lt MAXSIZE L → Reachable lt MAXSIZE (Remove L i)

/-- The operator `<` of `unsigned int` objects. -/
def ltNat (a b : Nat) : Bool := decide (a < b)

/-- The list of `unsigned int` objects reached from the empty list by
`Put(0), Put(1), ..., Put(2147483648)`: `list[i] = i` and
`num = 2147483649`, with `MAXSIZE = 4294967295`. -/
def countingList : SortedList Nat :=
  { MAXSIZE := 4294967295, num := 2147483649, list := fun i => i }

/-- A small list for examples: 10, 20, 20, 30 with room for 8 objects. -/
def sampleList : SortedList Nat :=
  { MAXSIZE := 8, num := 4, list := fun i => [10, 20, 20, 30].getD i 0 }

end SortedList

/-! ## FIFOlist (`src/cppexamples/FIFOlist.cpp`)

`FIFOlist<OBJTYPE, MAXSIZE>` is a circular buffer `list[MAXSIZE]` with the
pointers `head` and `tail` and the count `n`.  The pointers are given by their
offsets from `list`, the buffer is a function from indices to objects, and the
template parameter `MAXSIZE` is a field that no operation changes.  `MAXSIZE`
is an `int`, so `n++` below `MAXSIZE` cannot overflow.  `Get` on an empty list
calls `exit(1)`: it has no result. -/

/-- Data members of `FIFOlist<OBJTYPE, MAXSIZE>`. -/
structure FIFOlist (α : Type) where
  /-- Template parameter `MAXSIZE`. -/
  MAXSIZE : Nat
  /-- Pointer to current head, as an offset from `list`. -/
  head : Nat
  /-- Pointer to current tail, as an offset from `list`. -/
  tail : Nat
  /-- Number of objects in list. -/
  n : Int
  /-- Circular buffer. -/
  list : Nat → α

namespace FIFOlist

variable {α : Type}

/-- Constructor: `head = tail = list; n = 0`; the buffer is not initialized
and holds whatever `garbage` it holds. -/
def empty (MAXSIZE : Nat) (garbage : Nat → α) : FIFOlist α :=
  { MAXSIZE := MAXSIZE, head := 0, tail := 0, n := 0, list := garbage }

/-- `Put(x)`: the result and the list afterwards. -/
def Put (L : FIFOlist α) (x : α) : Bool × FIFOlist α :=
  if L.n ≥ L.MAXSIZE then (false, L)
  else
    let head := L.head + 1
    (true, { L with n := L.n + 1, list := Function.update L.list L.head x,
                    head := if head ≥ L.MAXSIZE then 0 else head })

/-- `Get()`: the object returned and the list afterwards; `none` when the
list is empty and `exit(1)` is called. -/
def Get (L : FIFOlist α) : Option (α × FIFOlist α) :=
  if L.n ≤ 0 then none
  else
    let p := L.tail
    let tail := L.tail + 1
    some (L.list p, { L with n := L.n - 1, tail := if tail ≥ L.MAXSIZE then 0 else tail })

/-- `NumObjects()`. -/
def NumObjects (L : FIFOlist α) : Int := L.n

/-- A call of `Put` or `Get`. -/
inductive Call (α : Type) where
  | put (x : α)
  | get
  deriving DecidableEq, Repr

/-- What a call returns. -/
inductive Reply (α : Type) where
  | accepted (ok : Bool)
  | got (x : α)
  deriving DecidableEq, Repr

/-- The replies of a sequence of calls and the list afterwards; `none` when
one of the calls is a `Get` on an empty list. -/
def run : List (Call α) → FIFOlist α → Option (List (Reply α) × FIFOlist α)
  | [], L => some ([], L)
  | .put x :: cs, L =>
    (run cs (L.Put x).2).map fun r => (.accepted (L.Put x).1 :: r.1, r.2)
  | .get :: cs, L =>
    match L.Get with
    | none => none
    | some (x, L1) => (run cs L1).map fun r => (.got x :: r.1, r.2)

/-- Specification of `Put` on a bounded first-in-first-out queue, given by the
objects it holds, oldest first: a full queue refuses the object and stays as
it is, otherwise the object becomes the newest one. -/
def specPut (MAXSIZE : Nat) (q : List α) (x : α) : Bool × List α :=
  if q.length = MAXSIZE then (false, q) else (true, q ++ [x])

/-- Specification of `Get`: the oldest object is returned and removed; there
is no result on an empty queue. -/
def specGet : List α → Option (α × List α)
  | [] => none
  | x :: q => some (x, q)

/-- The replies that the specification gives for a sequence of calls and the
queue afterwards. -/
def specRun (MAXSIZE : Nat) : List (Call α) → List α → Option (List (Reply α) × List α)
  | [], q => some ([], q)
  | .put x :: cs, q =>
    (specRun MAXSIZE cs (specPut MAXSIZE q x).2).map
      fun r => (.accepted (specPut MAXSIZE q x).1 :: r.1, r.2)
  | .get :: cs, q =>
    match specGet q with
    | none => none
    | some (x, q1) => (specRun MAXSIZE cs q1).map fun r => (.got x :: r.1, r.2)

/-- The number of accepted `Put` calls minus the number of `Get` calls among
the replies. -/
def balance : List (Reply α) → Int
  | [] => 0
  | .accepted true :: rs => balance rs + 1
  | .accepted false :: rs => balance rs
  | .got _ :: rs => balance rs - 1

/-- The index `i` of the circular buffer, for `i` below `2 * MAXSIZE`. -/
def wrap (MAXSIZE i : Nat) : Nat := if i ≥ MAXSIZE then i - MAXSIZE else i

/-- The objects in the list, oldest first: the `n` objects from `tail` on,
around the end of the buffer. -/
def contents (L : FIFOlist α) : List α :=
  (List.range L.n.toNat).map fun k => L.list (wrap L.MAXSIZE (L.tail + k))

/-- What holds in every state that calls of `Put` and `Get` reach: the count
is between 0 and `MAXSIZE`, `tail` is inside the buffer, and `head` is `n`
places behind `tail`, around the end of the buffer. -/
def Inv (L : FIFOlist α) : Prop :=
  0 ≤ L.n ∧ L.n ≤ L.MAXSIZE ∧ (L.tail < L.MAXSIZE ∨ (L.MAXSIZE = 0 ∧ L.tail = 0)) ∧
    L.head = wrap L.MAXSIZE (L.tail + L.n.toNat)

end FIFOlist

/-! ## FILOlist (`src/cppexamples/FILOlist.cpp`)

`FILOlist<OBJTYPE, MAXSIZE>` is a stack in the array `list[MAXSIZE]` with the
pointer `top` and the count `n`.  The pointer is given by its offset from
`list`.  `Get` on an empty list calls `exit(1)`, and decrementing `top` below
`list` is undefined: in both cases `Get` has no result. -/

/-- Data members of `FILOlist<OBJTYPE, MAXSIZE>`. -/
structure FILOlist (α : Type) where
  /-- Template parameter `MAXSIZE`. -/
  MAXSIZE : Nat
  /-- Pointer to top of stack, as an offset from `list`. -/
  top : Nat
  /-- Number of objects in list. -/
  n : Int
  /-- Data buffer. -/
  list : Nat → α

namespace FILOlist

variable {α : Type}

/-- Constructor: `top = list; n = 0`; the buffer is not initialized. -/
def empty (MAXSIZE : Nat) (garbage : Nat → α) : FILOlist α :=
  { MAXSIZE := MAXSIZE, top := 0, n := 0, list := garbage }

/-- `Put(x)`: the result and the list afterwards. -/
def Put (L : FILOlist α) (x : α) : Bool × FILOlist α :=
  if L.n ≥ L.MAXSIZE then (false, L)
  else (true, { L with n := L.n + 1, list := Function.update L.list L.top x, top := L.top + 1 })

/-- `Get()`: the object returned and the list afterwards. -/
def Get (L : FILOlist α) : Option (α × FILOlist α) :=
  if L.n ≤ 0 then none
  else if L.top = 0 then none
  else some (L.list (L.top - 1), { L with n := L.n - 1, top := L.top - 1 })

/-- `NumObjects()`. -/
def NumObjects (L : FILOlist α) : Int := L.n

/-- The states that calls of `Put` and `Get` reach from an empty list of
capacity `MAXSIZE`. -/
inductive Reachable (MAXSIZE : Nat) : FILOlist α → Prop
  | empty (garbage : Nat → α) : Reachable MAXSIZE (empty MAXSIZE garbage)
  | put (L : FILOlist α) (x : α) : Reachable MAXSIZE L → Reachable MAXSIZE (L.Put x).2
  | get (L L1 : FILOlist α) (x : α) :
      Reachable MAXSIZE L → L.Get = some (x, L1) → Reachable MAXSIZE L1

/-- The objects in the list, from the bottom of the stack to its top. -/
def contents (L : FILOlist α) : List α := (List.range L.n.toNat).map L.list

/-- The list of capacity 3 after `Put(10); Put(20)`, for examples. -/
def sampleStack : FILOlist Int := (((empty 3 (fun _ => 0)).Put 10).2.Put 20).2

/-- The loop `while (List.NumObjects() > 0) { printf("\n%3i ", List.Get()); }`
of the example: the objects printed, in the order of printing.  `fuel` bounds
the number of iterations; every iteration decrements `n`, so `n` iterations
are enough, and the loop has no result when a `Get` has none. -/
def printAll : Nat → FILOlist α → Option (List α)
  | 0, L => if NumObjects L > 0 then none else some []
  | fuel + 1, L =>
    if NumObjects L > 0 then
      match L.Get with
      | none => none
      | some (x, L1) => (printAll fuel L1).map (fun out => x :: out)
    else some []

/-- The example `main` at the end of `FILOlist.cpp`: a list of at most 1000
`int` (its buffer holds `garbage` at first) receives 10, 20 and 30 and is then
emptied by the printing loop.  The result is the sequence of numbers printed. -/
def exampleMain (garbage : Nat → Int) : Option (List Int) :=
  let List0 : FILOlist Int := empty 1000 garbage
  let List1 := (List0.Put 10).2
  let List2 := (List1.Put 20).2
  let List3 := (List2.Put 30).2
  printAll (NumObjects List3).toNat List3

end FILOlist

/-! ## StochasticLib1::Shuffle (`src/testp/TestScripts/shufflelist.cpp`)

`Shuffle(list, min, n)` fills `list[0..n)` with `min, min+1, ...` and then
swaps `list[i]` with `list[IRandom(i, n-1)]` for `i = 0, ..., n-2`.  The array
`list` of `size` elements is a function from indices to `int` values.  The
random number generator is a parameter: `IRandom k lo hi` is what the call
`IRandom(lo, hi)` returns when `k` calls have been made before.  A store
outside the array and an overflow of an `int` counter have no defined
behaviour; `Shuffle` then has no result. -/

namespace StochasticLib1

/-- The largest `int`. -/
def INT_MAX : Int := 2147483647

/-- The smallest `int`. -/
def INT_MIN : Int := -2147483648

/-- The loop `for (i=0, j=min; i<n; i++, j++) list[i] = j;` with `k` iterations
to go. -/
def fillLoop (size : Nat) : Nat → Nat → Int → (Nat → Int) → Option (Nat → Int)
  | 0, _, _, list => some list
  | k + 1, i, j, list =>
    if i ≥ size then none
    else if j + 1 > INT_MAX then none
    else fillLoop size k (i + 1) (j + 1) (Function.update list i j)

/-- The loop `for (i=0; i<n-1; i++) { j = IRandom(i,n-1); swap = list[j];
list[j] = list[i]; list[i] = swap; }` with `k` iterations to go. -/
def shuffleLoop (IRandom : Nat → Int → Int → Int) (size : Nat) (n : Int) :
    Nat → Nat → (Nat → Int) → Option (Nat → Int)
  | 0, _, list => some list
  | k + 1, i, list =>
    let j := IRandom i i (n - 1)
    if j < 0 ∨ j ≥ size then none
    else if i ≥ size then none
    else
      let swap := list j.toNat
      shuffleLoop IRandom size n k (i + 1)
        (Function.update (Function.update list j.toNat (list i)) i swap)

/-- `StochasticLib1::Shuffle`: the array afterwards. -/
def Shuffle (IRandom : Nat → Int → Int → Int) (size : Nat) (list : Nat → Int) (min n : Int) :
    Option (Nat → Int) :=
  match fillLoop size n.toNat 0 min list with
  | none => none
  | some list =>
    if n - 1 < INT_MIN then none
    else shuffleLoop IRandom size n (n - 1).toNat 0 list

/-- The entries `list[0..n)`. -/
def entries (list : Nat → Int) (n : Int) : List Int := (List.range n.toNat).map list

/-- The numbers `min, min+1, ..., min+n-1`. -/
def numbers (min n : Int) : List Int :=
  (List.range n.toNat).map fun i : Nat => min + (i : Int)

/-- A random number generator whose `IRandom(lo, hi)` always returns `lo`. -/
def firstChoice : Nat → Int → Int → Int := fun _ lo _ => lo

/-- A random number generator whose `IRandom(lo, hi)` always returns `hi`. -/
def lastChoice : Nat → Int → Int → Int := fun _ _ hi => hi

end StochasticLib1

/-! ## MixedPool (`src/cppexamples/MixedPool.cpp`)

The pool is the record of its data members.  The buffer is a list of bytes
(every byte of a new buffer is set by `memset`), a null pointer is `none`.
All sizes and offsets are `int`: an arithmetic result outside the range of
`int`, a division by zero, and a copy outside a block have no defined
behaviour, and `Error` terminates the program; in all these cases a call has
no result (`none`).  Allocation is taken to succeed. -/

/-- Data members of `class MixedPool`. -/
structure MixedPool where
  /-- Buffer containing binary data. -/
  buffer : Option (List Nat)
  /-- Size of allocated buffer. -/
  BufferSize : Int
  /-- Number of objects pushed. -/
  NumEntries : Int
  /-- Size of data, offset to vacant space. -/
  DataSize : Int
  deriving DecidableEq, Repr

namespace MixedPool

/-- `AllocateSpace`: minimum size of allocated memory block. -/
def AllocateSpace : Int := 1024

/-- The `int` result of an arithmetic operation whose exact result is `x`. -/
def int (x : Int) : Option Int :=
  if -2147483648 ≤ x ∧ x ≤ 2147483647 then some x else none

/-- The value of `x & (-16)`: the multiple of 16 next below or at `x`. -/
def and16 (x : Int) : Int := x / 16 * 16

/-- Constructor: `buffer = 0; NumEntries = DataSize = BufferSize = 0`. -/
def fresh : MixedPool := { buffer := none, BufferSize := 0, NumEntries := 0, DataSize := 0 }

/-- The new buffer `buffer2 = new char[size]; memset(buffer2, 0, size);
if (buffer) memcpy(buffer2, buffer, BufferSize);`. -/
def newBuffer (buffer : Option (List Nat)) (BufferSize size : Int) : Option (List Nat) :=
  if size < 0 then none
  else
    match buffer with
    | none => some (List.replicate size.toNat 0)
    | some b =>
      if 0 ≤ BufferSize ∧ BufferSize.toNat ≤ b.length ∧ BufferSize ≤ size then
        some (b.take BufferSize.toNat ++ List.replicate (size - BufferSize).toNat 0)
      else none

/-- The block `b` after `memcpy(b + off, obj, size)`. -/
def memcpyAt (b : List Nat) (off : Int) (obj : List Nat) (size : Int) : Option (List Nat) :=
  if 0 ≤ off ∧ 0 ≤ size ∧ size.toNat ≤ obj.length ∧ off.toNat + size.toNat ≤ b.length then
    some (b.take off.toNat ++ obj.take size.toNat ++ b.drop (off.toNat + size.toNat))
  else none

/-- The block `b` after `memset(b + off, 0, size)`. -/
def memsetZero (b : List Nat) (off size : Int) : Option (List Nat) :=
  if 0 ≤ off ∧ 0 ≤ size ∧ off.toNat + size.toNat ≤ b.length then
    some (b.take off.toNat ++ List.replicate size.toNat 0 ++ b.drop (off.toNat + size.toNat))
  else none

/-- `MixedPool::ReserveSize`. -/
def ReserveSize (S : MixedPool) (size : Int) : Option MixedPool :=
  if size ≤ S.BufferSize then
    if size ≤ 0 then
      if size < 0 then none
      else some { buffer := none, BufferSize := 0, NumEntries := 0, DataSize := 0 }
    else some S
  else
    match int (size + 15) with
    | none => none
    | some s =>
      match newBuffer S.buffer S.BufferSize (and16 s) with
      | none => none
      | some buffer2 => some { S with buffer := some buffer2, BufferSize := and16 s }

/-- `MixedPool::SetDataSize`. -/
def SetDataSize (S : MixedPool) (size : Int) : Option MixedPool :=
  if size < 0 then none
  else if size > S.BufferSize then
    match int (size + AllocateSpace) with
    | none => none
    | some a =>
      match int (a + 15) with
      | none => none
      | some a =>
        match ReserveSize S (and16 a) with
        | none => none
        | some S => some { S with DataSize := size }
  else if size < S.DataSize then
    match S.buffer with
    | none => none
    | some b =>
      match memsetZero b size (S.DataSize - size) with
      | none => none
      | some b => some { S with buffer := some b, DataSize := size }
  else some { S with DataSize := size }

/-- The end of `Push`: `if (size) {DataSize = NewOffset; NumEntries++;}
return OldOffset;`. -/
def PushEnd (S : MixedPool) (NewOffset size : Int) : Option (Int × MixedPool) :=
  if size ≠ 0 then
    match int (S.NumEntries + 1) with
    | none => none
    | some e => some (S.DataSize, { S with DataSize := NewOffset, NumEntries := e })
  else some (S.DataSize, S)

/-- `MixedPool::Push(obj, size)`: the offset returned and the pool afterwards;
`obj` is `none` for a null pointer, else the bytes at `obj`. -/
def Push (S : MixedPool) (obj : Option (List Nat)) (size : Int) : Option (Int × MixedPool) :=
  match int (S.DataSize + size) with
  | none => none
  | some NewOffset =>
    if NewOffset > S.BufferSize then
      match int (NewOffset * 2) with
      | none => none
      | some t =>
        match int (t + AllocateSpace) with
        | none => none
        | some t =>
          match int (t + 15) with
          | none => none
          | some t =>
            match newBuffer S.buffer S.BufferSize (and16 t) with
            | none => none
            | some buffer2 =>
              match obj with
              | some o =>
                if size ≠ 0 then
                  match memcpyAt buffer2 S.DataSize o size with
                  | none => none
                  | some buffer2 =>
                    PushEnd { S with buffer := some buffer2, BufferSize := and16 t } NewOffset size
                else PushEnd { S with buffer := some buffer2, BufferSize := and16 t } NewOffset size
              | none => PushEnd { S with buffer := some buffer2, BufferSize := and16 t } NewOffset size
    else
      match obj with
      | some o =>
        if size ≠ 0 then
          match S.buffer with
          | none => none
          | some b =>
            match memcpyAt b S.DataSize o size with
            | none => none
            | some b => PushEnd { S with buffer := some b } NewOffset size
        else PushEnd S NewOffset size
      | none => PushEnd S NewOffset size

/-- `MixedPool::Align`; the division of `int` values truncates. -/
def Align (S : MixedPool) (a : Int) : Option MixedPool :=
  match int (S.DataSize + a) with
  | none => none
  | some t =>
    match int (t - 1) with
    | none => none
    | some t =>
      if a = 0 then none
      else
        match int (t.tdiv a) with
        | none => none
        | some q =>
          match int (q * a) with
          | none => none
          | some NewOffset =>
            if NewOffset > S.BufferSize then
              match int (NewOffset * 2) with
              | none => none
              | some r =>
                match int (r + AllocateSpace) with
                | none => none
                | some r =>
                  match ReserveSize S r with
                  | none => none
                  | some S => some { S with DataSize := NewOffset }
            else some { S with DataSize := NewOffset }

/-- The bytes of the buffer. -/
def bytes (S : MixedPool) : List Nat := S.buffer.getD []

/-- The data of the pool: the bytes `[0, DataSize)` of the buffer. -/
def data (S : MixedPool) : List Nat := (bytes S).take S.DataSize.toNat

/-- The bytes `[DataSize, BufferSize)` of the buffer. -/
def vacant (S : MixedPool) : List Nat :=
  ((bytes S).take S.BufferSize.toNat).drop S.DataSize.toNat

/-- The bytes that `Push(obj, size)` appends to the data: the first `size`
bytes at `obj`, or, when `obj` is null, the `size` bytes that are already in
the buffer - zero in a pool in good order. -/
def pushed (obj : Option (List Nat)) (size : Int) : List Nat :=
  match obj with
  | some o => o.take size.toNat
  | none => List.replicate size.toNat 0

/-- The states reached from a new pool by calls of `Push` with `size >= 0`,
`SetDataSize`, `ReserveSize`, and `Align` with an argument that `aligns`
admits. -/
inductive ReachableBy (aligns : Int → Prop) : MixedPool → Prop
  | fresh : ReachableBy aligns fresh
  | push (S S1 : MixedPool) (obj : Option (List Nat)) (size off : Int) :
      ReachableBy aligns S → 0 ≤ size → Push S obj size = some (off, S1) →
      ReachableBy aligns S1
  | setDataSize (S S1 : MixedPool) (size : Int) :
      ReachableBy aligns S → SetDataSize S size = some S1 → ReachableBy aligns S1
  | align (S S1 : MixedPool) (a : Int) :
      ReachableBy aligns S → aligns a → Align S a = some S1 → ReachableBy aligns S1
  | reserveSize (S S1 : MixedPool) (size : Int) :
      ReachableBy aligns S → ReserveSize S size = some S1 → ReachableBy aligns S1

/-- The pool after `Push` of the four bytes 1, 2, 3, 4 on a new pool. -/
def fourBytes : MixedPool :=
  ((Push fresh (some [1, 2, 3, 4]) 4).map Prod.snd).getD fresh

/-- The pool is in good order: `0 <= DataSize <= BufferSize`, `NumEntries` is
not negative, the buffer has
`BufferSize` bytes (none when there is no buffer), and the bytes from
`DataSize` on are zero. -/
def Inv (S : MixedPool) : Prop :=
  0 ≤ S.DataSize ∧ S.DataSize ≤ S.BufferSize ∧ 0 ≤ S.NumEntries ∧
    ∃ d : List Nat, d.length = S.DataSize.toNat ∧
      bytes S = d ++ List.replicate (S.BufferSize - S.DataSize).toNat 0

end MixedPool

namespace StringPoolL

open StringElement

/-! ## Writes of a payload to a handle -/

/-- The buffer `b` with the record of `payload` stored at offset `p`: the bytes
outside the record are those of `b`. -/
def putRecord (b : Mem) (p : Nat) (payload : List Nat) : Mem :=
  b.take p ++ recordCells payload.length payload ++ b.drop (p + (payload.length + 3))

/-- A call that stores a payload under a handle.  The argument is a pointer:
to a block in caller memory, or into the buffer of the pool, as `Get` returns
it. -/
inductive Write where
  /-- The call `Set(h, s)` with the zero-terminated string at `s`. -/
  | assign (s : PChar)
  /-- The call `Set(h, s, len)`. -/
  | assignN (s : PChar) (len : Nat)
  /-- The call `Concatenate(h, t)` with the zero-terminated string at `t`. -/
  | append (t : PChar)
  deriving DecidableEq, Repr

/-- The effect of a write to handle `h`. -/
def Write.run (w : Write) (P : Pool) (h : Int) : Result Pool :=
  match w with
  | .assign s => Set P h s
  | .assignN s len => SetN P h s len
  | .append t => Concatenate P h t

/-- The call takes the bytes `a` from its argument: the zero-terminated string
at the pointer for `Set(h, s)` and `Concatenate(h, t)`, the `len` bytes at the
pointer for `Set(h, s, len)`.  An appended string is not empty (appending an
empty string returns at once). -/
def Write.Takes (w : Write) (P : Pool) (a : List Nat) : Prop :=
  match w with
  | .assign s => s.string P.Buffer = .ok a
  | .assignN s len => s.read P.Buffer len = .ok (a.map some)
  | .append t => t.string P.Buffer = .ok a ∧ a ≠ []

instance (w : Write) (P : Pool) (a : List Nat) : Decidable (w.Takes P a) := by
  cases w <;> unfold Write.Takes <;> infer_instance

/-- The payload a write gives the handle, when `c` was its payload before and
the call takes the bytes `a` from its argument. -/
def Write.newPayload (w : Write) (c a : List Nat) : List Nat :=
  match w with
  | .assign _ => a
  | .assignN _ _ => a
  | .append _ => c ++ a

/-- The bytes that `memcpy` reads at the argument of the call, `a` and for a
zero-terminated string its terminator, are apart from the record that the call
stores at offset `p`: an argument in caller memory always is; an argument in
the buffer is when these bytes end at or before `p` or start at or behind the
end `p + 2 + L + 1` of the record, and for an assignment also when they start
at `p + 2`, where the call copies them onto themselves. -/
def Write.Apart (w : Write) (p : Nat) (c a : List Nat) : Prop :=
  match w with
  | .assign (.pool q) => q + (a.length + 1) ≤ p ∨ q = p + 2 ∨ p + (a.length + 3) ≤ q
  | .assignN (.pool q) _ => q + a.length ≤ p ∨ q = p + 2 ∨ p + (a.length + 3) ≤ q
  | .append (.pool q) => q + (a.length + 1) ≤ p ∨ p + (c.length + a.length + 3) ≤ q
  | _ => True

instance (w : Write) (p : Nat) (c a : List Nat) : Decidable (w.Apart p c a) := by
  unfold Write.Apart
  split <;> infer_instance

/-- A pool holding "abc" under handle 0 in the last record, with room for 7
more bytes. -/
def roomyPool : Pool :=
  { Buffer := some ([some 0, some 0, some 0, some 3, some 0, some 97, some 98, some 99, some 0]
      ++ newChars 7),
    OldBuffer := none, Offsets := some [3], BufferSize := 16, OffsetsSize := 1,
    DataSize := 9, GarbageSize := 0, Top := 3, Num := 1 }

/-- A pool holding "abc" under handle 0 and "x" under handle 1, whose record
is the last one, with room for 11 more bytes. -/
def twoRecords : Pool :=
  { Buffer := some ([some 0, some 0, some 0, some 3, some 0, some 97, some 98, some 99, some 0,
      some 1, some 0, some 120, some 0] ++ newChars 11),
    OldBuffer := none, Offsets := some [3, 9], BufferSize := 24, OffsetsSize := 2,
    DataSize := 13, GarbageSize := 0, Top := 9, Num := 2 }

/-! ## Compaction: the live records and their layout -/

/-- The size that `ReserveBuf(newsize)` decides on:
`if (newsize < (DataSize - GarbageSize) * 2 + AllocateSpace1) newsize = ...`. -/
def newArenaSize (P : Pool) (newsize : Nat) : Nat :=
  if newsize < u32 (sub32 P.DataSize P.GarbageSize * 2 + AllocateSpace1) then
    u32 (sub32 P.DataSize P.GarbageSize * 2 + AllocateSpace1)
  else newsize

/-- The bytes that the record of handle `k` occupies when it is live (nonzero
offset, nonzero length): header + payload + terminator; 0 otherwise. -/
def liveSize (P : Pool) (k : Nat) : Nat :=
  match offsetAt P k, Len P k with
  | .ok off, .ok len => if off ≠ 0 ∧ len ≠ 0 then 2 + len + 1 else 0
  | _, _ => 0

/-- The sum of the sizes of the live records of the handles below `n`. -/
def liveBytes (P : Pool) : Nat → Nat
  | 0 => 0
  | n + 1 => liveBytes P n + liveSize P n

/-- The cells of the record of handle `k` when it is live; nothing otherwise. -/
def recordOf (P : Pool) (k : Nat) : List Cell :=
  match offsetAt P k, Len P k, P.Buffer with
  | .ok off, .ok len, some old =>
    if off ≠ 0 ∧ len ≠ 0 then (old.drop off).take (2 + len + 1) else []
  | _, _, _ => []

/-- The live records of the handles below `n`, one after the other in
increasing handle order. -/
def liveCells (P : Pool) : Nat → List Cell
  | 0 => []
  | n + 1 => liveCells P n ++ recordOf P n

/-- The place of the record of handle `k` when the live records are laid out
in handle order behind the empty record at offset 0; 0 when `k` is not live. -/
def newOffset (P : Pool) (k : Nat) : Nat :=
  if liveSize P k = 0 then 0 else 3 + liveBytes P k

/-- The pool has a buffer and an offsets table for its `Num` handles, offset 0
holds the empty record, and every nonzero offset in the table points at a
record, with a length of at most 65535, inside the used part of the buffer. -/
def WellFormed (P : Pool) : Prop :=
  ∃ old o, P.Buffer = some old ∧ P.Offsets = some o ∧ 0 ≤ P.Num ∧ P.Num ≤ 2147483647 ∧
    P.Num.toNat ≤ o.length ∧ P.DataSize ≤ old.length ∧
    old.take 3 = [some 0, some 0, some 0] ∧
    ∀ k off, k < P.Num.toNat → o.get? k = some off → off ≠ 0 →
      ∃ s : List Nat, s.length ≤ 65535 ∧ off + (s.length + 3) ≤ P.DataSize ∧
        (old.drop off).take (s.length + 3) = recordCells s.length s

/-- The string that a read of the payload `s` as a zero-terminated string
gives: the bytes before the first zero byte. -/
def upToZero (s : List Nat) : List Nat := s.takeWhile (fun x => decide (x ≠ 0))

/-- A pool after a relocation: "abcd" under handle 0 at offset 13, "x" under
handle 1 at offset 9, and 6 bytes of garbage (the old record "abc" of handle
0) at offset 3. -/
def gappyPool : Pool :=
  { Buffer := some ([some 0, some 0, some 0, some 3, some 0, some 97, some 98, some 99, some 0,
      some 1, some 0, some 120, some 0,
      some 4, some 0, some 97, some 98, some 99, some 100, some 0] ++ newChars 4),
    OldBuffer := none, Offsets := some [13, 9], BufferSize := 24, OffsetsSize := 2,
    DataSize := 20, GarbageSize := 6, Top := 13, Num := 2 }

/-- A string of 24 characters. -/
def shortString : List Nat := bytes "bcdefghijklmnopqrstuvwxy"

/-- A string of 4160 characters `x`. -/
def longerString : List Nat := List.replicate 4160 120

/-- A pool state (not a reachable one) whose counters say that 2^31 bytes are
live. -/
def hugePool : Pool := { fresh with DataSize := 2147483648 }

/-- The number of entries that `ReserveNum(newsize)` decides on when it grows
the table:
`if (newsize < OffsetsSize * 2 + AllocateSpace2) newsize = OffsetsSize * 2 + AllocateSpace2`. -/
def newTableSize (P : Pool) (newsize : Nat) : Nat :=
  if newsize < u32 (P.OffsetsSize * 2 + AllocateSpace2) then
    u32 (P.OffsetsSize * 2 + AllocateSpace2)
  else newsize

/-- The state of the table of offsets that every call keeps: `Num` is an
`int` that is not negative; a new pool has no table, `OffsetsSize` 0 and `Num`
0; otherwise the block `Offsets` has `OffsetsSize` entries, `Num` of them are
in use, and the entries that are not in use are 0. -/
def TableOK (P : Pool) : Prop :=
  0 ≤ P.Num ∧ P.Num ≤ 2147483647 ∧
    ((P.Offsets = none ∧ P.OffsetsSize = 0 ∧ P.Num = 0) ∨
     ∃ o, P.Offsets = some o ∧ o.length = P.OffsetsSize ∧ P.Num.toNat ≤ P.OffsetsSize ∧
       ∀ k, P.Num.toNat ≤ k → k < P.OffsetsSize → o.get? k = some 0)

/-- The arguments of the call are values of their C++ types: an `int` lies
between -2^31 and 2^31 - 1, an `unsigned int` is less than 2^32. -/
def Op.Typed : Op → Prop
  | .assign index _ => -2147483648 ≤ index ∧ index ≤ 2147483647
  | .assignElement index src =>
    (-2147483648 ≤ index ∧ index ≤ 2147483647) ∧ -2147483648 ≤ src ∧ src ≤ 2147483647
  | .SetN index _ len => (-2147483648 ≤ index ∧ index ≤ 2147483647) ∧ len < 4294967296
  | .append index _ => -2147483648 ≤ index ∧ index ≤ 2147483647
  | .SetToSubstring index _ start len =>
    (-2147483648 ≤ index ∧ index ≤ 2147483647) ∧ start < 4294967296 ∧ len < 4294967296
  | .SetToSubstringOf index src start len =>
    (-2147483648 ≤ index ∧ index ≤ 2147483647) ∧ (-2147483648 ≤ src ∧ src ≤ 2147483647) ∧
      start < 4294967296 ∧ len < 4294967296
  | .Printf index _ => -2147483648 ≤ index ∧ index ≤ 2147483647
  | .writeChar index i _ =>
    (-2147483648 ≤ index ∧ index ≤ 2147483647) ∧ -2147483648 ≤ i ∧ i ≤ 2147483647
  | .readChar index i =>
    (-2147483648 ≤ index ∧ index ≤ 2147483647) ∧ -2147483648 ≤ i ∧ i ≤ 2147483647
  | .Clear => True
  | .ReserveBuf newsize => newsize < 4294967296
  | .ReserveNum newsize => newsize < 4294967296

instance (op : Op) : Decidable op.Typed := by
  cases op <;> unfold Op.Typed <;> infer_instance

/-- The layout of the pool is in order: the table is in order, the buffer has
`BufferSize` bytes, `DataSize` is 0 or at least 3, and every handle in use
with a nonzero offset has a record with a length between 1 and 65535 that
starts at or after offset 3, ends at or before `DataSize` - exactly at
`DataSize` when it is the record at `Top` - and shares no byte with the
record of another such handle. -/
def Sound (P : Pool) : Prop :=
  TableOK P ∧ P.BufferSize < 4294967296 ∧ (P.DataSize = 0 ∨ 3 ≤ P.DataSize) ∧
  (∀ b, P.Buffer = some b → b.length = P.BufferSize) ∧
  (∀ k off : Nat, k < P.Num.toNat → offsetAt P (k : Int) = .ok off → off ≠ 0 →
    ∃ l, Len P (k : Int) = .ok l ∧ 1 ≤ l ∧ l ≤ 65535 ∧ 3 ≤ off ∧
      off + (l + 3) ≤ P.DataSize ∧ (off = P.Top → off + (l + 3) = P.DataSize)) ∧
  (∀ k1 k2 off1 off2 l1 l2 : Nat, k1 < P.Num.toNat → k2 < P.Num.toNat → k1 ≠ k2 →
    offsetAt P (k1 : Int) = .ok off1 → offsetAt P (k2 : Int) = .ok off2 →
    off1 ≠ 0 → off2 ≠ 0 → Len P (k1 : Int) = .ok l1 → Len P (k2 : Int) = .ok l2 →
    off1 + (l1 + 3) ≤ off2 ∨ off2 + (l2 + 3) ≤ off1)

/-- The pool after `Allocate` has returned the offset `p` for a record of
length `L`, before the record is stored: as `Sound`, but the bytes from `p` to
`p + L + 3` are free for the new record - the records of the handles whose
offset is not `p` lie outside them - and at most one handle has the offset
`p`. -/
def Ready (P : Pool) (p L : Nat) : Prop :=
  TableOK P ∧ P.BufferSize < 4294967296 ∧
  (∀ b, P.Buffer = some b → b.length = P.BufferSize) ∧
  p + (L + 3) ≤ P.DataSize ∧ (P.Top = p → p + (L + 3) = P.DataSize) ∧
  (∀ k1 k2 : Nat, k1 < P.Num.toNat → k2 < P.Num.toNat → p ≠ 0 →
    offsetAt P (k1 : Int) = .ok p → offsetAt P (k2 : Int) = .ok p → k1 = k2) ∧
  (∀ k off : Nat, k < P.Num.toNat → offsetAt P (k : Int) = .ok off → off ≠ 0 →
    3 ≤ off ∧ (off ≠ p →
      ∃ l, Len P (k : Int) = .ok l ∧ 1 ≤ l ∧ l ≤ 65535 ∧ off + (l + 3) ≤ P.DataSize ∧
        (off + (l + 3) ≤ p ∨ p + (L + 3) ≤ off) ∧
        (off = P.Top → off + (l + 3) = P.DataSize))) ∧
  (∀ k1 k2 off1 off2 l1 l2 : Nat, k1 < P.Num.toNat → k2 < P.Num.toNat → k1 ≠ k2 →
    offsetAt P (k1 : Int) = .ok off1 → offsetAt P (k2 : Int) = .ok off2 →
    off1 ≠ 0 → off2 ≠ 0 → off1 ≠ p → off2 ≠ p →
    Len P (k1 : Int) = .ok l1 → Len P (k2 : Int) = .ok l2 →
    off1 + (l1 + 3) ≤ off2 ∨ off2 + (l2 + 3) ≤ off1)


/-- Whether the call `op`, made in state `P`, stays within the limit of 65535
characters for the string it stores, and is one of the calls that store or
remove strings as a whole: assignment, append, substring, `Printf`, `Clear`,
a read of a character or a direct `ReserveBuf`.  `Set(i, s)` checks the limit
itself; for the calls with a length argument the argument is compared, for an
append the sum of the two lengths, for the copy of an element the length of
its source.  The handle of an append is an `int`. -/
def Op.withinLimit (P : Pool) : Op → Bool
  | .assign _ _ => true
  | .assignElement _ src =>
    match Len P src with
    | .ok l => decide (l ≤ 65535)
    | .error _ => true
  | .SetN _ _ len => decide (len ≤ 65535)
  | .append index s =>
    decide (index ≤ 2147483647) &&
      match Len P index, strlen_ P.Buffer s with
      | .ok l1, .ok l2 => decide (l1 + l2 ≤ 65535)
      | _, _ => true
  | .SetToSubstring _ _ _ len => decide (len ≤ 65535)
  | .SetToSubstringOf _ _ _ len => decide (len ≤ 65535)
  | .Printf _ _ => true
  | .writeChar _ _ _ => false
  | .readChar _ _ => true
  | .Clear => true
  | .ReserveBuf newsize => decide (newsize < 4294967296)
  | .ReserveNum _ => false

/-- Whether each of the calls `ops`, made one after the other from state `P`,
is within the limit in the state it is made in.  Nothing is asked of the calls
behind one that does not return. -/
def withinLimits : Pool → List Op → Bool
  | _, [] => true
  | P, op :: ops =>
    op.withinLimit P &&
      match op.run P with
      | .ok Q => withinLimits Q ops
      | .error _ => true

/-- The calls `strings[0] = "abc"; strings[1] = "x"; strings[0] += "de";`. -/
def threeCalls : List Op :=
  [Op.assign 0 (cstr (bytes "abc")), Op.assign 1 (cstr (bytes "x")),
   Op.append 0 (cstr (bytes "de"))]

end StringPoolL

/-! ## Theorems -/

namespace StringPoolL

open StringElement

/-! ### Failing inputs of assignment, append and erasure -/

/-- C1, failing inputs.  After `Set(1, "a"); Set(0, "b")` the record of handle 0
is the last one (`Offsets[0] = Top = 7`).  `Set(0, longString)` takes the
tail-growth branch of `Allocate`, which calls `ReserveBuf`; the compaction
moves handle 0 to offset 3 and leaves `Top` at the record of handle 1, so the
new string is written over handle 1: handle 0 still has length 1 and reads
"b", handle 1 reads the new string.  And after `Clear` the next record is
stored at offset 0, so that `Set(0, "")` afterwards leaves length 1. -/
theorem C1_assign_not_read_back :
    (runOps [(Set · 1 (cstr (bytes "a"))), (Set · 0 (cstr (bytes "b"))),
             (Set · 0 (cstr longString))] >>= (Len · 0)) = .ok 1 ∧
    (runOps [(Set · 1 (cstr (bytes "a"))), (Set · 0 (cstr (bytes "b"))),
             (Set · 0 (cstr longString))] >>= (content · 0)) = .ok (bytes "b") ∧
    (runOps [(Set · 1 (cstr (bytes "a"))), (Set · 0 (cstr (bytes "b"))),
             (Set · 0 (cstr longString))] >>= (content · 1)) = .ok longString ∧
    (runOps [(Set · 0 (cstr (bytes "a"))), Clear, (Set · 0 (cstr (bytes "b"))),
             (Set · 0 (cstr []))] >>= (Len · 0)) = .ok 1 := by
  decide!

/-- C2, failing inputs.  With handle 1 holding "a", `Set(0, "b")` followed by
`Concatenate(0, longString)` leaves handle 0 with content "b" and length 1:
the combined string is written over the record of handle 1 (tail growth
through `ReserveBuf`).  On a new pool, `Set(0, "")` followed by
`Concatenate(0, "a")` reads the length through the null `Buffer`. -/
theorem C2_append_not_concatenation :
    (runOps [(Set · 1 (cstr (bytes "a"))), (Set · 0 (cstr (bytes "b"))),
             (Concatenate · 0 (cstr longString))] >>= (content · 0)) = .ok (bytes "b") ∧
    (runOps [(Set · 1 (cstr (bytes "a"))), (Set · 0 (cstr (bytes "b"))),
             (Concatenate · 0 (cstr longString))] >>= (Len · 0)) = .ok 1 ∧
    (runOps [(Set · 1 (cstr (bytes "a"))), (Set · 0 (cstr (bytes "b"))),
             (Concatenate · 0 (cstr longString))] >>= (content · 1))
      = .ok (bytes "b" ++ longString) ∧
    runOps [(Set · 0 (cstr [])), (Concatenate · 0 (cstr (bytes "a")))]
      = .error .Undefined := by
  decide!

/-- C3, failing inputs.  After `Set(0, "a"); Clear(); Set(0, "b")` the record
"b" lies at offset 0, the offset of every empty handle: `Set(1, "")` leaves
handle 1 with length 1 and content "b".  On a new pool `Set(0, "")` allocates
no buffer, and `Len(0)` reads through the null `Buffer`. -/
theorem C3_erased_handle_not_empty :
    (runOps [(Set · 0 (cstr (bytes "a"))), Clear, (Set · 0 (cstr (bytes "b"))),
             (Set · 1 (cstr []))] >>= (Len · 1)) = .ok 1 ∧
    (runOps [(Set · 0 (cstr (bytes "a"))), Clear, (Set · 0 (cstr (bytes "b"))),
             (Set · 1 (cstr []))] >>= (content · 1)) = .ok (bytes "b") ∧
    (runOps [(Set · 0 (cstr []))] >>= (Len · 0)) = .error .Undefined := by
  decide!

/-- C5, failing inputs.  Handle 0 is never assigned.  After
`Set(1, "a"); Clear(); Set(1, "b")` it has length 1 and reads "b"; after
`Set(1, "")` on a new pool (no buffer yet) reading its length or its content
goes through the null `Buffer`. -/
theorem C5_unused_handle_not_empty :
    (runOps [(Set · 1 (cstr (bytes "a"))), Clear, (Set · 1 (cstr (bytes "b")))]
      >>= (Len · 0)) = .ok 1 ∧
    (runOps [(Set · 1 (cstr (bytes "a"))), Clear, (Set · 1 (cstr (bytes "b")))]
      >>= (content · 0)) = .ok (bytes "b") ∧
    (GetNum <$> runOps [(Set · 1 (cstr []))]) = .ok 2 ∧
    (runOps [(Set · 1 (cstr []))] >>= (Len · 0)) = .error .Undefined ∧
    (runOps [(Set · 1 (cstr []))] >>= (content · 0)) = .error .Undefined := by
  decide!

/-- C9, failing input.  For the string "abc", `start = 4294967295` and `len = 1`
the sum is 4294967296 > 3, but the `unsigned int` sum is 0: no `Error(2)`, and
`Set` copies from `s + 4294967295`, outside the string.  Without wrap-around
the error is raised (`start = 3`, `len = 1`). -/
theorem C9_wrapped_sum_not_rejected :
    SetToSubstring fresh 0 (cstr (bytes "abc")) 4294967295 1 = .error .Undefined ∧
    SetToSubstring fresh 0 (cstr (bytes "abc")) 3 1 = .error .OutOfBounds := by
  decide!

/-! ### The worked example -/

/-- C4.  On a new pool: after `strings[4] = "Hello "; strings[4] += "Dolly"`
handle 4 reads "Hello Dolly" with length 11; after `strings[5] = strings[4]`
handle 5 reads "Hello Dolly" and searching "Doll" in it gives 6; after
`strings[4] += "!"` handle 5 still reads "Hello Dolly" (handle 4 reads
"Hello Dolly!"); and `strings[7].SetToSubstring(strings[4], 6, 5)`, before or
after that append, stores "Dolly" in handle 7. -/
theorem C4_hello_dolly :
    (helloDolly >>= (content · 4)) = .ok (bytes "Hello Dolly") ∧
    (helloDolly >>= (Len · 4)) = .ok 11 ∧
    (helloCopied >>= (content · 5)) = .ok (bytes "Hello Dolly") ∧
    (helloCopied >>= (Len · 5)) = .ok 11 ∧
    (helloCopied >>= (SearchForSubstring · 5 (cstr (bytes "Doll")))) = .ok 6 ∧
    (helloBang >>= (content · 4)) = .ok (bytes "Hello Dolly!") ∧
    (helloBang >>= (content · 5)) = .ok (bytes "Hello Dolly") ∧
    (helloBang >>= (Len · 5)) = .ok 11 ∧
    (helloCopied >>= (SetToSubstringOf · 7 4 6 5) >>= (content · 7)) = .ok (bytes "Dolly") ∧
    (helloBang >>= (SetToSubstringOf · 7 4 6 5) >>= (content · 7)) = .ok (bytes "Dolly") ∧
    (helloBang >>= (SetToSubstringOf · 7 4 6 5) >>= (Len · 7)) = .ok 5 := by
  decide!

/-! ### Reads with an index out of range -/

theorem offsetAt_ne_invalid (P : Pool) (i : Int) : offsetAt P i ≠ .error .InvalidHandle := by
  unfold offsetAt
  split
  · simp
  · split
    · simp
    · split <;> simp

theorem readU16_ne_invalid (m : Mem) (off : Nat) : readU16 m off ≠ .error .InvalidHandle := by
  unfold readU16
  split <;> simp

theorem toUnsigned_ge_iff (h n : Int) (hn0 : 0 ≤ n) (hn1 : n ≤ 2147483647)
    (hh0 : -2147483648 ≤ h) (hh1 : h ≤ 2147483647) :
    toUnsigned h ≥ toUnsigned n ↔ (h < 0 ∨ h ≥ n) := by
  unfold toUnsigned
  omega

/-- C6.  In a pool whose count `Num` is a non-negative `int`, for every `int`
handle `h`: `Len(h)` fails with message 1 (InvalidHandle) exactly when `h < 0`
or `h >= GetNum()`, and so does `Get(h)`; in particular neither fails with
InvalidHandle for `0 <= h < GetNum()`. -/
theorem C6_invalid_handle_iff (P : Pool) (h : Int) (hn0 : 0 ≤ P.Num) (hn1 : P.Num ≤ 2147483647)
    (hh0 : -2147483648 ≤ h) (hh1 : h ≤ 2147483647) :
    (Len P h = .error .InvalidHandle ↔ (h < 0 ∨ h ≥ GetNum P)) ∧
    (Get P h = .error .InvalidHandle ↔ (h < 0 ∨ h ≥ GetNum P)) := by
  have key := toUnsigned_ge_iff h P.Num hn0 hn1 hh0 hh1
  constructor
  · unfold Len GetNum
    by_cases hc : toUnsigned h ≥ toUnsigned P.Num
    · simp only [hc, if_true, true_iff]
      exact key.mp hc
    · simp only [hc, if_false]
      rw [← key]
      simp only [hc, iff_false]
      cases ho : offsetAt P h with
      | error e =>
        have := offsetAt_ne_invalid P h
        rw [ho] at this
        simpa [bind, Except.bind] using this
      | ok off =>
        cases hb : P.Buffer with
        | none => simp [bind, Except.bind]
        | some b => simpa [bind, Except.bind] using readU16_ne_invalid b off
  · unfold Get GetNum
    by_cases hc : toUnsigned h ≥ toUnsigned P.Num
    · simp only [hc, if_true, true_iff]
      exact key.mp hc
    · simp only [hc, if_false]
      rw [← key]
      simp only [hc, iff_false]
      cases ho : offsetAt P h with
      | error e =>
        have := offsetAt_ne_invalid P h
        rw [ho] at this
        simpa [bind, Except.bind] using this
      | ok off => simp [bind, Except.bind]

/-- Witness of C6 on the pool holding "abc" under handle 0 (count 1), at the
out-of-range handle 1. -/
theorem C6_invalid_handle_iff_witness :
    (0 ≤ samplePool.Num ∧ samplePool.Num ≤ 2147483647) ∧
    (Len samplePool 1 = .error .InvalidHandle ↔ ((1 : Int) < 0 ∨ (1 : Int) ≥ GetNum samplePool)) ∧
    (Get samplePool 1 = .error .InvalidHandle ↔ ((1 : Int) < 0 ∨ (1 : Int) ≥ GetNum samplePool)) :=
  ⟨by decide, C6_invalid_handle_iff samplePool 1 (by decide) (by decide) (by decide) (by decide)⟩

/-! ### Search -/

theorem occursAt_zero (n c : List Nat) : occursAt n c 0 ↔ n <+: c := by
  simp [occursAt]

theorem occursAt_succ (n : List Nat) (b : Nat) (t : List Nat) (q : Nat) :
    occursAt n (b :: t) (q + 1) ↔ occursAt n t q := by
  simp [occursAt]

theorem strstr_some (h n : List Nat) (p : Nat) (hp : strstr_ h n = some p) :
    occursAt n h p ∧ ∀ q, q < p → ¬ occursAt n h q := by
  induction h generalizing p with
  | nil =>
    unfold strstr_ at hp
    split at hp
    · rename_i he
      injection hp with hp
      subst hp
      have : n = [] := by simpa using he
      subst this
      exact ⟨by simp [occursAt], fun q hq => absurd hq (Nat.not_lt_zero q)⟩
    · exact absurd hp (by simp)
  | cons b t ih =>
    unfold strstr_ at hp
    split at hp
    · rename_i hpre
      injection hp with hp
      subst hp
      refine ⟨(occursAt_zero n (b :: t)).mpr ( List.isPrefixOf_iff_prefix.mp hpre), ?_⟩
      intro q hq
      exact absurd hq (Nat.not_lt_zero q)
    · rename_i hpre
      cases hr : strstr_ t n with
      | none => rw [hr] at hp; exact absurd hp (by simp)
      | some r =>
        rw [hr] at hp
        simp only [Option.map_some', Option.some.injEq] at hp
        subst hp
        obtain ⟨h1, h2⟩ := ih r hr
        refine ⟨(occursAt_succ n b t r).mpr h1, ?_⟩
        intro q hq
        cases q with
        | zero =>
          rw [occursAt_zero]
          intro hcon
          exact hpre ( List.isPrefixOf_iff_prefix.mpr hcon)
        | succ q =>
          rw [occursAt_succ]
          exact h2 q (by omega)

theorem strstr_none (h n : List Nat) (hp : strstr_ h n = none) : ∀ q, ¬ occursAt n h q := by
  induction h with
  | nil =>
    unfold strstr_ at hp
    split at hp
    · exact absurd hp (by simp)
    · rename_i he
      intro q hq
      apply he
      have h2 := hq.2
      simp at h2
      simp [h2]
  | cons b t ih =>
    unfold strstr_ at hp
    split at hp
    · exact absurd hp (by simp)
    · rename_i hpre
      have hr : strstr_ t n = none := by
        cases hr : strstr_ t n with
        | none => rfl
        | some r => rw [hr] at hp; exact absurd hp (by simp)
      intro q
      cases q with
      | zero =>
        rw [occursAt_zero]
        intro hcon
        exact hpre ( List.isPrefixOf_iff_prefix.mpr hcon)
      | succ q =>
        rw [occursAt_succ]
        exact ih hr q

/-- What `SearchForSubstring` returns where the string of the handle can be
read.  When handle `h` reads as the string `c` and the argument `s` points to
the zero-terminated string `n`, `SearchForSubstring` returns a value `r` with:
`r = -1` exactly when `n` occurs nowhere in `c`; otherwise `r >= 0`, `n` occurs
in `c` at position `r`, and at no position before `r`. -/
theorem SearchForSubstring_first_occurrence (P : Pool) (h : Int) (s : PChar) (c n : List Nat)
    (hc : content P h = .ok c) (hn : s.string P.Buffer = .ok n) :
    ∃ r : Int, SearchForSubstring P h s = .ok r ∧
      (r = -1 ↔ ∀ q, ¬ occursAt n c q) ∧
      (r ≠ -1 → 0 ≤ r ∧ occursAt n c r.toNat ∧ ∀ q, q < r.toNat → ¬ occursAt n c q) := by
  unfold content at hc
  unfold SearchForSubstring
  cases hg : Get P h with
  | error e => rw [hg] at hc; simp [bind, Except.bind] at hc
  | ok p =>
    rw [hg] at hc
    simp only [bind, Except.bind] at hc ⊢
    rw [hc, hn]
    simp only []
    cases hs : strstr_ c n with
    | none =>
      refine ⟨-1, rfl, ?_, ?_⟩
      · simp only [true_iff]; exact strstr_none c n hs
      · intro hne; exact absurd rfl hne
    | some r =>
      obtain ⟨h1, h2⟩ := strstr_some c n r hs
      refine ⟨(r : Int), rfl, ?_, ?_⟩
      · constructor
        · intro hr; omega
        · intro hall; exact absurd h1 (hall r)
      · intro _
        refine ⟨by omega, ?_, ?_⟩
        · simpa using h1
        · intro q hq; exact h2 q (by simpa using hq)

/-- Searching "bc" in the pool that holds "abc" under handle 0. -/
theorem SearchForSubstring_first_occurrence_example :
    content samplePool 0 = .ok [97, 98, 99] ∧
    ∃ r : Int, SearchForSubstring samplePool 0 (cstr [98, 99]) = .ok r ∧
      (r = -1 ↔ ∀ q, ¬ occursAt [98, 99] [97, 98, 99] q) ∧
      (r ≠ -1 → 0 ≤ r ∧ occursAt [98, 99] [97, 98, 99] r.toNat ∧
        ∀ q, q < r.toNat → ¬ occursAt [98, 99] [97, 98, 99] q) :=
  ⟨by decide,
   SearchForSubstring_first_occurrence samplePool 0 (cstr [98, 99]) [97, 98, 99] [98, 99]
     (by decide) (by decide)⟩

/-- C10, failing input.  After `Set(0, "")` on a new pool the count is 1, so
handle 0 is valid, but the pool has no buffer yet: `SearchForSubstring(0, "a")`
reads the string of handle 0 through the null `Buffer`, where the claim says
that it returns -1, as "a" does not occur in the empty string. -/
theorem C10_search_reads_null_buffer :
    (runOps [(Set · 0 (cstr []))] >>= fun P =>
      pure (GetNum P, P.Buffer, SearchForSubstring P 0 (cstr (bytes "a"))))
      = .ok (1, none, .error .Undefined) := by
  decide!

/-! ### Strings longer than the length field -/

@[simp]
theorem length_newChars (n : Nat) : (newChars n).length = n := by simp [newChars]
@[simp]
theorem drop_newChars (n k : Nat) : (newChars n).drop k = newChars (n - k) := by
  simp [newChars]
theorem newChars_succ (n : Nat) : newChars (n + 1) = none :: newChars n := rfl
@[simp]
theorem newChars_zero : newChars 0 = [] := rfl
@[simp]
theorem length_zeroFill (n : Nat) : (zeroFill n).length = n := by simp [zeroFill]

theorem writeCells_append (A B data : List Cell) (off : Nat) (hoff : off = A.length)
    (h : data.length ≤ B.length) :
    writeCells (A ++ B) off data = .ok (A ++ (data ++ B.drop data.length)) := by
  subst hoff
  unfold writeCells
  rw [if_pos (by simp; omega)]
  simp

theorem readCells_append (A B : List Cell) (off n : Nat) (hoff : off = A.length)
    (h : n ≤ B.length) :
    readCells (A ++ B) off n = .ok (B.take n) := by
  subst hoff
  unfold readCells
  rw [if_pos (by simp; omega)]
  simp

theorem writeU16_append (A B : List Cell) (x y : Cell) (off v : Nat) (hoff : off = A.length) :
    writeU16 (A ++ x :: y :: B) off v = .ok (A ++ some (v % 256) :: some (v / 256 % 256) :: B) := by
  unfold writeU16
  rw [writeCells_append A (x :: y :: B) _ off hoff (by simp)]
  simp

theorem readU16_append (A B : List Cell) (lo hi off : Nat) (hoff : off = A.length) :
    readU16 (A ++ some lo :: some hi :: B) off = .ok (lo + 256 * hi) := by
  unfold readU16
  rw [readCells_append A _ off 2 hoff (by simp)]
  simp

theorem ReserveBuf_null (P : Pool) (n ns k : Nat) (hb : P.Buffer = none)
    (hns : ns = if n < u32 (sub32 P.DataSize P.GarbageSize * 2 + AllocateSpace1)
      then u32 (sub32 P.DataSize P.GarbageSize * 2 + AllocateSpace1) else n)
    (hk : u32 (ns + 1 + sizeofLengthType + MemPadding) = k + 3) :
    ReserveBuf P n = .ok { P with
      Top := 3, Buffer := some (some 0 :: some 0 :: some 0 :: newChars k),
      BufferSize := u32 (ns + sizeofLengthType + 1), DataSize := 3, GarbageSize := 0 } := by
  unfold ReserveBuf
  simp only [← hns, hk, hb]
  have h1 : writeU16 (newChars (k + 3)) 0 0 = .ok (some 0 :: some 0 :: none :: newChars k) := by
    have := writeU16_append [] (newChars (k + 1)) none none 0 0 rfl
    simpa [newChars_succ] using this
  have h2 : writeCells (some 0 :: some 0 :: none :: newChars k) 2 [some 0]
      = .ok (some 0 :: some 0 :: some 0 :: newChars k) := by
    have := writeCells_append [some 0, some 0] (none :: newChars k) [some 0] 2 rfl (by simp)
    simpa using this
  simp only [h1, bind, Except.bind, sizeofLengthType, h2, pure, Except.pure]

theorem SetIndex_fresh_zero : SetIndex fresh 0 = .ok indexedPool := by
  decide!

theorem Allocate_indexedPool (len cap : Nat) (hlen : len + 6 < 4294967296)
    (hcap : cap = if 3 + len < 4096 then 4096 else 3 + len) :
    Allocate indexedPool 0 len = .ok
      (singleRecordPool (some 0 :: some 0 :: some 0 :: newChars cap) (cap + 3) (len + 6),
        3, true) := by
  have hcap3 : 3 + len ≤ cap ∧ cap < 4294967296 - 3 := by
    rw [hcap]; split <;> omega
  unfold Allocate
  have h1 : offsetAt indexedPool 0 = .ok 0 := by decide
  rw [h1]
  simp only [bind, Except.bind, ne_eq, not_true_eq_false, if_false]
  unfold AllocateAtEnd
  have hneed : u32 (indexedPool.DataSize + sizeofLengthType + 1 + len) = 3 + len := by
    simp only [indexedPool, fresh, sizeofLengthType, u32]; omega
  have hgt : decide (3 + len > indexedPool.BufferSize) = true := by
    simp [indexedPool, fresh]
  have hR := ReserveBuf_null indexedPool (3 + len) cap cap rfl
    (by simp only [indexedPool, fresh, sub32, u32, AllocateSpace1]; rw [hcap])
    (by simp only [sizeofLengthType, MemPadding, u32]; omega)
  simp only [hneed]
  rw [if_pos hgt, hR, hgt]
  have hu : u32 (cap + sizeofLengthType + 1) = cap + 3 := by
    simp only [sizeofLengthType, u32]; omega
  have hd : u32 (3 + (sizeofLengthType + 1 + len)) = len + 6 := by
    simp only [sizeofLengthType, u32]; omega
  simp only [bind, Except.bind, hu]
  simp only [setOffset, indexedPool, fresh, Int.toNat_zero, List.length_cons, length_zeroFill,
    List.set_cons_zero, lt_self_iff_false, if_false, Nat.zero_lt_succ, if_true, hd,
    singleRecordPool]

theorem strlenCells_cstr (s : List Nat) (rest : List Cell) (h0 : ∀ b ∈ s, b ≠ 0) :
    strlenCells (s.map some ++ some 0 :: rest) = some s.length := by
  induction s with
  | nil => simp [strlenCells]
  | cons b t ih =>
    have hb : b ≠ 0 := h0 b (by simp)
    have ht : ∀ x ∈ t, x ≠ 0 := fun x hx => h0 x (by simp [hx])
    simp [strlenCells, hb, ih ht]

theorem cstrCells_cstr (s : List Nat) (rest : List Cell) (h0 : ∀ b ∈ s, b ≠ 0) :
    cstrCells (s.map some ++ some 0 :: rest) = some s := by
  induction s with
  | nil => simp [cstrCells]
  | cons b t ih =>
    have hb : b ≠ 0 := h0 b (by simp)
    have ht : ∀ x ∈ t, x ≠ 0 := fun x hx => h0 x (by simp [hx])
    simp [cstrCells, hb, ih ht]

theorem strlen_cstr (cur : Option Mem) (s : List Nat) (h0 : ∀ b ∈ s, b ≠ 0) :
    strlen_ cur (cstr s) = .ok s.length := by
  have := strlenCells_cstr s [] h0
  simp [strlen_, cstr, PChar.deref, bind, Except.bind, this]

theorem memcpySource_moved (P : Pool) (s : PChar) (dst n : Nat) :
    memcpySource P true s dst n = s.read P.OldBuffer n := by
  cases s <;> simp [memcpySource, overlaps, sourceBlock]

theorem newChars_two (cap : Nat) (h : 2 ≤ cap) :
    newChars cap = none :: none :: newChars (cap - 2) := by
  obtain ⟨c, rfl⟩ : ∃ c, cap = c + 2 := ⟨cap - 2, by omega⟩
  rfl

theorem cstr_ne_null (s : List Nat) : cstr s ≠ PChar.null := by
  simp [cstr]

theorem read_cstr (cur : Option Mem) (s : List Nat) :
    (cstr s).read cur (s.length + 1) = .ok (s.map some ++ [some 0]) := by
  unfold PChar.read cstr PChar.deref
  simp only [bind, Except.bind]
  unfold readCells
  rw [if_pos (by simp)]
  simp

theorem Set_fresh_zero (s : List Nat) (cap : Nat) (h0 : ∀ b ∈ s, b ≠ 0) (hpos : 0 < s.length)
    (hmax : s.length ≤ 65535)
    (hcap : cap = if 3 + s.length < 4096 then 4096 else 3 + s.length) :
    Set fresh 0 (cstr s) = .ok (singleRecordPool
      (some 0 :: some 0 :: some 0 :: (recordCells s.length s ++ newChars (cap - (s.length + 3))))
      (cap + 3) (s.length + 6)) := by
  have hcap3 : 3 + s.length ≤ cap := by rw [hcap]; split <;> omega
  unfold Set
  rw [SetIndex_fresh_zero]
  simp only [bind, Except.bind]
  rw [if_neg (cstr_ne_null s), strlen_cstr _ s h0]
  simp only []
  rw [if_neg (by omega), if_neg (by unfold maxLength; omega)]
  have hu : u32 s.length = s.length := by unfold u32; omega
  have hu16 : u16 s.length = s.length := by unfold u16; omega
  rw [hu, hu16, Allocate_indexedPool s.length cap (by omega) hcap]
  simp only [singleRecordPool]
  rw [newChars_two cap (by omega)]
  have hw := writeU16_append [some 0, some 0, some 0] (newChars (cap - 2)) none none 3 s.length rfl
  simp only [List.cons_append, List.nil_append] at hw
  rw [hw]
  simp only [memcpySource_moved, read_cstr]
  have hc := writeCells_append
    [some 0, some 0, some 0, some (s.length % 256), some (s.length / 256 % 256)]
    (newChars (cap - 2)) (s.map some ++ [some 0]) (3 + sizeofLengthType) rfl (by simp; omega)
  simp only [List.cons_append, List.nil_append] at hc
  rw [hc]
  simp only [drop_newChars, List.length_append, List.length_map, List.length_singleton,
    recordCells, List.cons_append, List.nil_append, List.append_assoc]
  rw [show cap - 2 - (s.length + 1) = cap - (s.length + 3) by omega]

theorem Len_singleRecordPool (lo hi : Nat) (rest : List Cell) (bs ds : Nat) :
    Len (singleRecordPool (some 0 :: some 0 :: some 0 :: some lo :: some hi :: rest) bs ds) 0
      = .ok (lo + 256 * hi) := by
  have hr := readU16_append [some 0, some 0, some 0] rest lo hi 3 rfl
  simp only [List.cons_append, List.nil_append] at hr
  have ho : offsetAt (singleRecordPool (some 0 :: some 0 :: some 0 :: some lo :: some hi :: rest)
      bs ds) 0 = .ok 3 := by
    simp [offsetAt, singleRecordPool]
  unfold Len
  rw [if_neg (by simp [singleRecordPool, toUnsigned]), ho]
  simp only [bind, Except.bind, singleRecordPool, hr]

theorem content_singleRecordPool (x y : Cell) (s : List Nat) (rest : List Cell) (bs ds : Nat)
    (h0 : ∀ b ∈ s, b ≠ 0) :
    content (singleRecordPool
      (some 0 :: some 0 :: some 0 :: x :: y :: (s.map some ++ some 0 :: rest)) bs ds) 0
      = .ok s := by
  have ho : offsetAt (singleRecordPool
      (some 0 :: some 0 :: some 0 :: x :: y :: (s.map some ++ some 0 :: rest)) bs ds) 0
      = .ok 3 := by
    simp [offsetAt, singleRecordPool]
  unfold content Get
  rw [if_neg (by simp [singleRecordPool, toUnsigned]), ho]
  simp only [bind, Except.bind, PChar.string, PChar.deref, singleRecordPool, sizeofLengthType]
  rw [if_pos (by simp)]
  simp only [Nat.reduceAdd, List.drop_succ_cons, List.drop_zero, cstrCells_cstr s rest h0]

theorem SetN_fresh_zero (blk : List Nat) (len cap : Nat) (hpos : 0 < len) (hlen : len ≤ blk.length)
    (hbound : len + 6 < 4294967296)
    (hcap : cap = if 3 + len < 4096 then 4096 else 3 + len) :
    SetN fresh 0 (.mem blk) len = .ok (singleRecordPool
      (some 0 :: some 0 :: some 0 ::
        (recordCells (u16 len) (blk.take len) ++ newChars (cap - (len + 3))))
      (cap + 3) (len + 6)) := by
  have hcap3 : 3 + len ≤ cap := by rw [hcap]; split <;> omega
  unfold SetN
  rw [SetIndex_fresh_zero]
  simp only [bind, Except.bind]
  rw [if_neg (by omega), Allocate_indexedPool len cap hbound hcap]
  simp only [singleRecordPool]
  rw [newChars_two cap (by omega)]
  have hw := writeU16_append [some 0, some 0, some 0] (newChars (cap - 2)) none none 3 (u16 len) rfl
  simp only [List.cons_append, List.nil_append] at hw
  rw [hw]
  have hsrc : (PChar.mem blk).read none len = .ok ((blk.take len).map some) := by
    unfold PChar.read PChar.deref
    simp only [bind, Except.bind]
    unfold readCells
    rw [if_pos (by simp; omega)]
    simp [List.map_take]
  simp only [memcpySource_moved, hsrc]
  have hc := writeCells_append
    [some 0, some 0, some 0, some (u16 len % 256), some (u16 len / 256 % 256)]
    (newChars (cap - 2)) ((blk.take len).map some) (3 + sizeofLengthType) rfl
    (by simp; omega)
  simp only [List.cons_append, List.nil_append] at hc
  rw [hc]
  have hl : ((blk.take len).map some).length = len := by simp; omega
  have hz := writeCells_append
    ([some 0, some 0, some 0, some (u16 len % 256), some (u16 len / 256 % 256)]
      ++ (blk.take len).map some)
    (newChars (cap - 2 - len)) [some 0] (3 + (len + sizeofLengthType))
    (by simp [sizeofLengthType]; omega) (by simp; omega)
  simp only [List.cons_append, List.nil_append, List.append_assoc] at hz
  simp only [drop_newChars, hl]
  rw [hz]
  simp only [drop_newChars, List.length_singleton, recordCells, List.cons_append,
    List.nil_append, List.append_assoc]
  rw [show cap - 2 - len - 1 = cap - (len + 3) by omega]

theorem Set_too_long (s : List Nat) (h0 : ∀ b ∈ s, b ≠ 0) (hlong : 65535 < s.length) :
    Set fresh 0 (cstr s) = .error .StringTooLong := by
  unfold Set
  rw [SetIndex_fresh_zero]
  simp only [bind, Except.bind]
  rw [if_neg (cstr_ne_null s), strlen_cstr _ s h0]
  simp only []
  rw [if_neg (by omega), if_pos (by unfold maxLength; omega)]

theorem SetToSubstring_whole_truncates (s : List Nat) (len : Nat) (h0 : ∀ b ∈ s, b ≠ 0)
    (hlen : s.length = len) (h65 : len = 65536) :
    ∃ Q, SetToSubstring fresh 0 (cstr s) 0 len = .ok Q ∧ Len Q 0 = .ok 0 ∧
      content Q 0 = .ok s ∧ Set fresh 0 (cstr s) = .error .StringTooLong := by
  have hS : SetToSubstring fresh 0 (cstr s) 0 len = SetN fresh 0 (.mem (s ++ [0])) len := by
    unfold SetToSubstring
    rw [if_neg (cstr_ne_null s), strlen_cstr _ s h0]
    simp only [bind, Except.bind]
    rw [if_neg (by unfold u32; omega)]
    simp only [cstr, PChar.add, List.drop_zero]
  have hN := SetN_fresh_zero (s ++ [0]) len (len + 3) (by omega) (by simp; omega) (by omega)
    (by rw [if_neg (by omega)]; omega)
  have ht : (s ++ [0]).take len = s := by
    rw [← hlen]; simp
  have hu : u16 len = 0 := by unfold u16; omega
  rw [ht, hu] at hN
  refine ⟨_, hS.trans hN, ?_, ?_, Set_too_long s h0 (by omega)⟩
  · have := Len_singleRecordPool (0 % 256) (0 / 256 % 256)
      (s.map some ++ [some 0] ++ newChars (len + 3 - (len + 3))) (len + 3 + 3) (len + 6)
    simpa [recordCells] using this
  · have := content_singleRecordPool (some (0 % 256)) (some (0 / 256 % 256)) s
      (newChars (len + 3 - (len + 3))) (len + 3 + 3) (len + 6) h0
    simpa [recordCells] using this

/-- C7, failing input.  `SetToSubstring` with a source of 65536 non-zero bytes,
`start = 0` and `len = 65536` passes the bounds test and calls the
explicit-length `Set`, which has no length check: the call returns, the record
holds all 65536 bytes, and its length field is `(LengthType)65536 = 0`.  The
zero-terminated `Set` rejects the same string with message 5 (StringTooLong). -/
theorem C7_explicit_length_truncated :
    ∃ Q, SetToSubstring fresh 0 (cstr (List.replicate 65536 97)) 0 65536 = .ok Q ∧
      Len Q 0 = .ok 0 ∧ content Q 0 = .ok (List.replicate 65536 97) ∧
      Set fresh 0 (cstr (List.replicate 65536 97)) = .error .StringTooLong :=
  SetToSubstring_whole_truncates (List.replicate 65536 97) 65536
    (fun b hb => by rw [List.eq_of_mem_replicate hb]; decide)
    (List.length_replicate _ _) rfl

theorem decode_length (n : Nat) (h : n ≤ 65535) : n % 256 + 256 * (n / 256 % 256) = n := by
  omega

theorem ok_bind {α β : Type} (a : α) (f : α → Result β) :
    (Except.ok a >>= f : Result β) = f a := by
  have h : ∀ x : Result α, x = .ok a → (x >>= f) = f a := by
    intro x hx; subst hx; rfl
  exact h _ rfl

theorem offsetAt_single (b o : Option Mem) (x y z w v : Nat) (rest : List Nat) (off : Nat) :
    offsetAt { Buffer := b, OldBuffer := o, Offsets := some (off :: rest),
               BufferSize := x, OffsetsSize := y, DataSize := z, GarbageSize := w, Top := v,
               Num := 1 } 0 = .ok off := by
  simp [offsetAt]

theorem Len_record0 (o : Option Mem) (lo hi : Nat) (rest : List Cell) (offs : List Nat)
    (x y z w v : Nat) :
    Len { Buffer := some (some 0 :: some 0 :: some 0 :: some lo :: some hi :: rest),
          OldBuffer := o, Offsets := some (3 :: offs), BufferSize := x, OffsetsSize := y,
          DataSize := z, GarbageSize := w, Top := v, Num := 1 } 0 = .ok (lo + 256 * hi) := by
  have hr := readU16_append [some 0, some 0, some 0] rest lo hi 3 rfl
  simp only [List.cons_append, List.nil_append] at hr
  unfold Len
  rw [if_neg (by simp [toUnsigned]), offsetAt_single, ok_bind]
  simp only [hr]

theorem setOffset_single (b o : Option Mem) (x y z w v : Nat) (rest : List Nat) (off new : Nat) :
    setOffset { Buffer := b, OldBuffer := o, Offsets := some (off :: rest),
                BufferSize := x, OffsetsSize := y, DataSize := z, GarbageSize := w, Top := v,
                Num := 1 } 0 new
      = .ok { Buffer := b, OldBuffer := o, Offsets := some (new :: rest),
              BufferSize := x, OffsetsSize := y, DataSize := z, GarbageSize := w, Top := v,
              Num := 1 } := by
  simp [setOffset]

theorem ReserveBuf_single (n0 : Nat) (s : List Nat) (bs ds need ns k : Nat)
    (hn : s.length = n0) (hn0pos : 0 < n0) (hn0 : n0 ≤ 65535)
    (hns : ns = if need < u32 (sub32 ds 0 * 2 + AllocateSpace1)
      then u32 (sub32 ds 0 * 2 + AllocateSpace1) else need)
    (hfit : ns + 3 < 4294967296) (hk : n0 + 3 + k = ns) :
    ReserveBuf (singleRecordPool (some 0 :: some 0 :: some 0 :: recordCells n0 s) bs ds) need
      = .ok { singleRecordPool (some 0 :: some 0 :: some 0 :: (recordCells n0 s ++ newChars k))
                (ns + 3) (n0 + 6) with
              OldBuffer := some (some 0 :: some 0 :: some 0 :: recordCells n0 s) } := by
  unfold ReserveBuf
  have hsz : u32 (ns + 1 + sizeofLengthType + MemPadding) = ns + 3 := by
    simp only [sizeofLengthType, MemPadding, u32]; omega
  have hbs : u32 (ns + sizeofLengthType + 1) = ns + 3 := by
    simp only [sizeofLengthType, u32]; omega
  have h1 : writeU16 (newChars (ns + 3)) 0 0 = .ok (some 0 :: some 0 :: none :: newChars ns) := by
    have := writeU16_append [] (newChars (ns + 1)) none none 0 0 rfl
    simpa [newChars_succ] using this
  have h2 : writeCells (some 0 :: some 0 :: none :: newChars ns) sizeofLengthType [some 0]
      = .ok (some 0 :: some 0 :: some 0 :: newChars ns) := by
    have := writeCells_append [some 0, some 0] (none :: newChars ns) [some 0] 2 rfl (by simp)
    simpa using this
  simp only [singleRecordPool]
  rw [← hns, hsz, hbs, h1, ok_bind, h2, ok_bind]
  have hnum : Int.toNat 1 = 0 + 1 := rfl
  rw [hnum, ReserveBufLoop, offsetAt_single, ok_bind, if_pos (by decide)]
  simp only [recordCells]
  rw [Len_record0, decode_length n0 hn0, ok_bind, if_pos (by omega)]
  have hrd := readCells_append [some 0, some 0, some 0]
    (some (n0 % 256) :: some (n0 / 256 % 256) :: (s.map some ++ [some 0])) 3
    (n0 + sizeofLengthType + 1) rfl (by simp [sizeofLengthType]; omega)
  rw [List.take_of_length_le (by simp [sizeofLengthType]; omega)] at hrd
  simp only [List.cons_append, List.nil_append] at hrd
  rw [hrd, ok_bind]
  have hwr := writeCells_append [some 0, some 0, some 0] (newChars ns)
    (some (n0 % 256) :: some (n0 / 256 % 256) :: (s.map some ++ [some 0])) (sizeofLengthType + 1)
    rfl (by simp; omega)
  simp only [List.cons_append, List.nil_append, drop_newChars, List.length_cons,
    List.length_append, List.length_map, List.length_singleton, List.length_nil] at hwr
  rw [hwr, ok_bind, setOffset_single, ok_bind, ReserveBufLoop, ok_bind]
  have e1 : u32 (2 + 1 + (n0 + 2 + 1)) = n0 + 6 := by unfold u32; omega
  have e2 : ns - (s.length + (0 + 1) + 1 + 1) = k := by omega
  simp only [pure, Except.pure, ok_bind, sizeofLengthType, singleRecordPool, recordCells,
    List.cons_append, List.append_assoc, e1, e2]

theorem Allocate_full_single (s : List Nat) (n0 L ns k : Nat)
    (hn : s.length = n0) (hn0pos : 0 < n0) (hn0 : n0 ≤ 65535)
    (hL : n0 < L) (hLmax : L ≤ 131070)
    (hns : ns = if 6 + L < u32 (sub32 (n0 + 6) 0 * 2 + AllocateSpace1)
      then u32 (sub32 (n0 + 6) 0 * 2 + AllocateSpace1) else 6 + L)
    (hk : n0 + 3 + k = ns) :
    Allocate (singleRecordPool (some 0 :: some 0 :: some 0 :: recordCells n0 s) (n0 + 6) (n0 + 6))
        0 L
      = .ok ({ singleRecordPool (some 0 :: some 0 :: some 0 :: (recordCells n0 s ++ newChars k))
                 (ns + 3) (L + 6) with
               OldBuffer := some (some 0 :: some 0 :: some 0 :: recordCells n0 s) }, 3, true) := by
  have hns2 : 6 + L ≤ ns ∧ ns < 4294967296 - 3 := by
    rw [hns]; unfold u32 sub32 AllocateSpace1; split <;> omega
  have hR := ReserveBuf_single n0 s (n0 + 6) (n0 + 6) (6 + L) ns k hn hn0pos hn0 hns
    (by omega) hk
  unfold Allocate
  simp only [singleRecordPool] at hR ⊢
  rw [offsetAt_single, ok_bind, if_pos (by decide), if_pos rfl]
  have hneed : u32 (3 + sizeofLengthType + 1 + L) = 6 + L := by
    unfold u32 sizeofLengthType; omega
  have hgt : decide (6 + L > n0 + 6) = true := by simp; omega
  simp only [hneed, hgt, if_true]
  rw [hR, ok_bind]
  have hd : u32 (3 + sizeofLengthType + 1 + L) = L + 6 := by
    unfold u32 sizeofLengthType; omega
  simp only [hd]

theorem Get_single (b o : Option Mem) (x y z w v : Nat) (rest : List Nat) (off : Nat) :
    Get { Buffer := b, OldBuffer := o, Offsets := some (off :: rest),
          BufferSize := x, OffsetsSize := y, DataSize := z, GarbageSize := w, Top := v,
          Num := 1 } 0 = .ok (sizeofLengthType + off) := by
  unfold Get
  rw [if_neg (by simp [toUnsigned]), offsetAt_single, ok_bind]

theorem read_pool_payload (a b c d e : Cell) (s : List Nat) (rest : List Cell) (n : Nat)
    (hn : s.length = n) :
    (PChar.pool (sizeofLengthType + 3)).read
        (some (a :: b :: c :: d :: e :: (s.map some ++ rest))) n = .ok (s.map some) := by
  unfold PChar.read PChar.deref
  simp only [sizeofLengthType]
  rw [if_pos (by simp), ok_bind]
  unfold readCells
  rw [if_pos (by simp; omega)]
  simp [← hn]

theorem Concatenate_full_single (s t : List Nat) (n1 n2 ns k : Nat)
    (h0t : ∀ b ∈ t, b ≠ 0)
    (hs : s.length = n1) (ht : t.length = n2) (h1pos : 0 < n1) (h1 : n1 ≤ 65535)
    (h2pos : 0 < n2) (h2 : n2 ≤ 65535)
    (hns : ns = if 6 + (n1 + n2) < u32 (sub32 (n1 + 6) 0 * 2 + AllocateSpace1)
      then u32 (sub32 (n1 + 6) 0 * 2 + AllocateSpace1) else 6 + (n1 + n2))
    (hk : n1 + n2 + 3 + k = ns) :
    Concatenate (singleRecordPool (some 0 :: some 0 :: some 0 :: recordCells n1 s)
        (n1 + 6) (n1 + 6)) 0 (cstr t)
      = .ok (singleRecordPool
          (some 0 :: some 0 :: some 0 :: (recordCells (u16 (n1 + n2)) (s ++ t) ++ newChars k))
          (ns + 3) (n1 + n2 + 6)) := by
  have hA := Allocate_full_single s n1 (n1 + n2) ns (n2 + k) hs h1pos h1 (by omega) (by omega)
    hns (by omega)
  unfold Concatenate
  simp only [singleRecordPool, recordCells] at hA ⊢
  rw [Len_record0, decode_length n1 h1, ok_bind, if_neg (cstr_ne_null t), strlen_cstr _ t h0t,
    ok_bind, ht, if_neg (by omega), if_neg (by unfold maxLength; omega),
    if_neg (by simp [toUnsigned]), if_neg (by omega), Get_single, ok_bind]
  have hu : u32 (n1 + n2) = n1 + n2 := by unfold u32; omega
  rw [hu, hA, ok_bind]
  simp only [List.cons_append, List.nil_append, List.append_assoc, memcpySource_moved]
  have hw := writeU16_append [some 0, some 0, some 0]
    (s.map some ++ ([some 0] ++ newChars (n2 + k))) (some (n1 % 256)) (some (n1 / 256 % 256))
    3 (u16 (n1 + n2)) rfl
  simp only [List.cons_append, List.nil_append] at hw
  rw [hw, ok_bind, read_pool_payload _ _ _ _ _ s _ n1 hs, ok_bind]
  have hc := writeCells_append
    [some 0, some 0, some 0, some (u16 (n1 + n2) % 256), some (u16 (n1 + n2) / 256 % 256)]
    (s.map some ++ (some 0 :: newChars (n2 + k))) (s.map some) (3 + sizeofLengthType) rfl
    (by simp)
  rw [List.drop_left] at hc
  simp only [List.cons_append, List.nil_append] at hc
  have hrc := fun cur => read_cstr cur t
  rw [ht] at hrc
  rw [hc, ok_bind, hrc, ok_bind]
  have hz := writeCells_append
    ([some 0, some 0, some 0, some (u16 (n1 + n2) % 256), some (u16 (n1 + n2) / 256 % 256)]
      ++ s.map some)
    (some 0 :: newChars (n2 + k)) (t.map some ++ [some 0]) (3 + sizeofLengthType + n1)
    (by simp [sizeofLengthType]; omega) (by simp; omega)
  simp only [List.cons_append, List.nil_append, List.append_assoc, List.length_append,
    List.length_map, List.length_singleton, List.drop_succ_cons, drop_newChars, ht] at hz
  rw [hz, ok_bind]
  simp only [List.map_append, List.append_assoc, List.cons_append, List.nil_append]
  rw [show n2 + k - n2 = k by omega]

theorem Concatenate_length_wraps (s t : List Nat) (n1 n2 : Nat)
    (h0s : ∀ b ∈ s, b ≠ 0) (h0t : ∀ b ∈ t, b ≠ 0)
    (hs : s.length = n1) (ht : t.length = n2) (h1 : n1 = 65535) (h2 : n2 = 1) :
    ∃ Q1 Q2, Set fresh 0 (cstr s) = .ok Q1 ∧ Len Q1 0 = .ok n1 ∧
      Concatenate Q1 0 (cstr t) = .ok Q2 ∧ Len Q2 0 = .ok 0 ∧ content Q2 0 = .ok (s ++ t) := by
  have hS := Set_fresh_zero s (n1 + 3) h0s (by omega) (by omega)
    (by rw [if_neg (by omega)]; omega)
  rw [hs, show n1 + 3 - (n1 + 3) = 0 by omega, newChars_zero, List.append_nil] at hS
  have hC := Concatenate_full_single s t n1 n2 135178 69639 h0t hs ht (by omega) (by omega)
    (by omega) (by omega)
    (by rw [if_pos (by unfold u32 sub32 AllocateSpace1; omega)]
        unfold u32 sub32 AllocateSpace1; omega)
    (by omega)
  have hu : u16 (n1 + n2) = 0 := by unfold u16; omega
  rw [hu] at hC
  refine ⟨_, _, hS, ?_, hC, ?_, ?_⟩
  · have := Len_singleRecordPool (n1 % 256) (n1 / 256 % 256) (s.map some ++ [some 0])
      (n1 + 3 + 3) (n1 + 6)
    rw [decode_length n1 (by omega)] at this
    simpa [recordCells] using this
  · have := Len_singleRecordPool (0 % 256) (0 / 256 % 256)
      ((s ++ t).map some ++ [some 0] ++ newChars 69639) (135178 + 3) (n1 + n2 + 6)
    simpa [recordCells] using this
  · have := content_singleRecordPool (some (0 % 256)) (some (0 / 256 % 256)) (s ++ t)
      (newChars 69639) (135178 + 3) (n1 + n2 + 6)
      (fun b hb => by
        rcases List.mem_append.mp hb with h | h
        · exact h0s b h
        · exact h0t b h)
    simpa [recordCells] using this

/-- C8, failing input.  Handle 0 of a new pool is set to a string of 65535
bytes (length 65535).  `Concatenate(0, "b")` only tests the length of the
second string: it returns, the record holds all 65536 bytes, and its length
field is `LengthType(65535 + 1) = 0`. -/
theorem C8_append_length_wraps :
    ∃ Q1 Q2, Set fresh 0 (cstr (List.replicate 65535 97)) = .ok Q1 ∧ Len Q1 0 = .ok 65535 ∧
      Concatenate Q1 0 (cstr [98]) = .ok Q2 ∧ Len Q2 0 = .ok 0 ∧
      content Q2 0 = .ok (List.replicate 65535 97 ++ [98]) :=
  Concatenate_length_wraps (List.replicate 65535 97) [98] 65535 1
    (fun b hb => by rw [List.eq_of_mem_replicate hb]; decide)
    (fun b hb => by rw [List.mem_singleton.mp hb]; decide)
    (List.length_replicate _ _) rfl rfl rfl

/-- C11, failing input.  After `Set(0,"a"); Clear(); Set(0,"b"); Set(1,"")`
handle 0 has length 1 and handle 1 is an erased handle whose content reads
"b", because `Clear` let the record of handle 0 land on offset 0, the record
every empty handle refers to.  The in-range indexed write `pool[0][0] = 'M'`
returns and changes the content of handle 1 from "b" to "M". -/
theorem C11_indexed_write_changes_other_handle :
    (runOps [(Set · 0 (cstr (bytes "a"))), Clear, (Set · 0 (cstr (bytes "b"))),
             (Set · 1 (cstr []))] >>= (Len · 0)) = .ok 1 ∧
    (runOps [(Set · 0 (cstr (bytes "a"))), Clear, (Set · 0 (cstr (bytes "b"))),
             (Set · 1 (cstr []))] >>= (readChar · 0 0)) = .ok 98 ∧
    (runOps [(Set · 0 (cstr (bytes "a"))), Clear, (Set · 0 (cstr (bytes "b"))),
             (Set · 1 (cstr []))] >>= (content · 1)) = .ok (bytes "b") ∧
    (runOps [(Set · 0 (cstr (bytes "a"))), Clear, (Set · 0 (cstr (bytes "b"))),
             (Set · 1 (cstr [])), (writeChar · 0 0 77)] >>= (content · 1))
      = .ok (bytes "M") := by
  decide!

/-- C12, failing input.  `Printf` hands `vsnprintf` a size of `FormatLength`
(1023), so at most 1022 characters are stored in front of the terminator.  A
formatted output of exactly 1023 characters passes the length test and is
stored cut to 1022 characters; 1022 characters are stored whole and 1024
characters raise the format error. -/
theorem C12_printf_1023_truncated :
    (Printf fresh 0 (List.replicate 1023 120) >>= (Len · 0)) = .ok 1022 ∧
    (Printf fresh 0 (List.replicate 1023 120) >>= (content · 0))
      = .ok (List.replicate 1022 120) ∧
    (Printf fresh 0 (List.replicate 1022 120) >>= (content · 0))
      = .ok (List.replicate 1022 120) ∧
    Printf fresh 0 (List.replicate 1024 120) = .error .FormatTooLong := by
  decide!

/-- C13, failing input.  After `Set(0,"a"); Clear(); Set(0,"b")` the record
of handle 0 lies at offset 0.  A second `Clear()` sets all offsets to zero
and leaves the arena as it is, so handle 0 still has length 1 and content
"b".  On a new pool `Set(0,""); Clear()` leaves the pool without a buffer,
and reading the length of handle 0 dereferences a null pointer. -/
theorem C13_clear_leaves_string :
    (runOps [(Set · 0 (cstr (bytes "a"))), Clear, (Set · 0 (cstr (bytes "b"))), Clear]
      >>= (Len · 0)) = .ok 1 ∧
    (runOps [(Set · 0 (cstr (bytes "a"))), Clear, (Set · 0 (cstr (bytes "b"))), Clear]
      >>= (content · 0)) = .ok (bytes "b") ∧
    (runOps [(Set · 0 (cstr [])), Clear] >>= (Len · 0)) = .error .Undefined := by
  decide!

/-- C15, failing input.  After `Set(1,"a"); Set(0,"b")` the string of 4090
characters is assigned to handle 0.  After one assignment handle 0 still
reads "b" (the record of handle 1 was overwritten instead); after the same
assignment is repeated handle 0 reads the long string.  Assigning twice does
not leave the state assigning once leaves. -/
theorem C15_assign_twice_differs :
    (runOps [(Set · 1 (cstr (bytes "a"))), (Set · 0 (cstr (bytes "b"))),
             (Set · 0 (cstr longString))] >>= (content · 0)) = .ok (bytes "b") ∧
    (runOps [(Set · 1 (cstr (bytes "a"))), (Set · 0 (cstr (bytes "b"))),
             (Set · 0 (cstr longString)), (Set · 0 (cstr longString))] >>= (content · 0))
      = .ok longString := by
  decide!

/-- C17, failing inputs.  Handle 0 of a new pool holds "ab" and is appended
to itself through the pointer to its own content: the string grows in place,
and the second `memcpy` copies 3 bytes from offset 5 to offset 7 of the same
buffer, an overlapping copy whose result is undefined.  When handle 1 holds
4080 characters and handle 0 holds "b", assigning handle 1 to handle 0
reallocates the buffer and leaves handle 0 with "b" and handle 1 with the
4080 characters, so the destination does not equal the source. -/
theorem C17_self_append_overlaps :
    (Set fresh 0 (cstr (bytes "ab")) >>= fun P => Get P 0 >>= fun p => Concatenate P 0 (.pool p))
      = .error .Undefined ∧
    (runOps [(Set · 1 (cstr (List.replicate 4080 120))), (Set · 0 (cstr (bytes "b"))),
             (assignElement · 0 1)] >>= (content · 0)) = .ok (bytes "b") ∧
    (runOps [(Set · 1 (cstr (List.replicate 4080 120))), (Set · 0 (cstr (bytes "b"))),
             (assignElement · 0 1)] >>= (content · 1)) = .ok (List.replicate 4080 120) := by
  decide!

/-- C18, failing input.  After `Set(0,"a"); Clear(); Set(0,"b")` the offset
of handle 0 is zero although its length is 1: the non-empty record was
stored at offset 0. -/
theorem C18_offset_zero_not_empty :
    (runOps [(Set · 0 (cstr (bytes "a"))), Clear, (Set · 0 (cstr (bytes "b")))]
      >>= (offsetAt · 0)) = .ok 0 ∧
    (runOps [(Set · 0 (cstr (bytes "a"))), Clear, (Set · 0 (cstr (bytes "b")))]
      >>= (Len · 0)) = .ok 1 := by
  decide!

/-! ### The number of strings -/

theorem error_bind {α β : Type} (e : ErrorCode) (f : α → Result β) :
    (Except.error e >>= f : Result β) = .error e := rfl

theorem bind_ok_iff {α β : Type} (x : Result α) (f : α → Result β) (b : β) :
    (x >>= f) = .ok b ↔ ∃ a, x = .ok a ∧ f a = .ok b := by
  cases x with
  | error e => simp [error_bind]
  | ok a => simp [ok_bind]

theorem setOffset_Num {P Q : Pool} {i : Int} {v : Nat} (h : setOffset P i v = .ok Q) :
    Q.Num = P.Num := by
  unfold setOffset at h
  split at h
  · simp at h
  · split_ifs at h
    all_goals simp at h
    rw [← h]

theorem ReserveNum_Num {P Q : Pool} {n : Nat} (h : ReserveNum P n = .ok Q) :
    Q.Num = P.Num := by
  unfold ReserveNum at h
  split_ifs at h
  · simp at h; rw [← h]
  all_goals
    dsimp only at h
    split at h
    · split_ifs at h <;> simp [ok_bind, error_bind] at h
      rw [← h]
    · simp [ok_bind, error_bind] at h
      try rw [← h]

theorem ReserveBufLoop_Num (old : Mem) :
    ∀ (n : Nat) (i : Int) (P : Pool) (b2 : Mem) (d2 : Nat) (Q : Pool) (b3 : Mem) (d3 : Nat),
      ReserveBufLoop old n i P b2 d2 = .ok (Q, b3, d3) → Q.Num = P.Num := by
  intro n
  induction n with
  | zero =>
    intro i P b2 d2 Q b3 d3 h
    simp [ReserveBufLoop] at h
    rw [← h.1]
  | succ n ih =>
    intro i P b2 d2 Q b3 d3 h
    unfold ReserveBufLoop at h
    simp only [bind_ok_iff] at h
    obtain ⟨off, _, h⟩ := h
    split_ifs at h
    · simp only [bind_ok_iff] at h
      obtain ⟨l, _, h⟩ := h
      split_ifs at h
      · simp only [bind_ok_iff] at h
        obtain ⟨_, _, _, _, P1, h1, h⟩ := h
        rw [ih _ _ _ _ _ _ _ h, setOffset_Num h1]
      · simp only [bind_ok_iff] at h
        obtain ⟨P1, h1, h⟩ := h
        have := ih _ _ _ _ _ _ _ h
        rw [this]
        exact (setOffset_Num h1 : P1.Num = P.Num)
    · exact ih _ _ _ _ _ _ _ h

theorem ReserveBuf_Num {P Q : Pool} {n : Nat} (h : ReserveBuf P n = .ok Q) :
    Q.Num = P.Num := by
  unfold ReserveBuf at h
  simp only [bind_ok_iff] at h
  obtain ⟨B1, _, B2, _, h⟩ := h
  split at h
  · simp only [bind_ok_iff] at h
    obtain ⟨⟨P2, b2, d2⟩, h2, y, hy, h⟩ := h
    simp only [pure, Except.pure, Except.ok.injEq] at hy h
    have e := ReserveBufLoop_Num _ _ _ _ _ _ _ _ _ h2
    rw [← h, ← hy]
    exact e
  · simp only [pure, Except.pure, ok_bind, Except.ok.injEq] at h
    rw [← h]

theorem AllocateAtEnd_Num {P Q : Pool} {i : Int} {len p : Nat} {moved : Bool}
    (h : AllocateAtEnd P i len = .ok (Q, p, moved)) : Q.Num = P.Num := by
  unfold AllocateAtEnd at h
  dsimp only at h
  split at h
  · simp only [bind_ok_iff, Except.ok.injEq, Prod.mk.injEq] at h
    obtain ⟨P1, h1, P2, h2, h, _⟩ := h
    have e1 := ReserveBuf_Num h1
    have e2 := setOffset_Num h2
    rw [← h]
    exact e2.trans e1
  · simp only [bind_ok_iff, pure, Except.pure, Except.ok.injEq, Prod.mk.injEq] at h
    obtain ⟨P1, h1, P2, h2, h, _⟩ := h
    subst h1
    have e2 := setOffset_Num h2
    rw [← h]
    exact e2

theorem Allocate_Num {P Q : Pool} {i : Int} {len p : Nat} {moved : Bool}
    (h : Allocate P i len = .ok (Q, p, moved)) : Q.Num = P.Num := by
  unfold Allocate at h
  simp only [bind_ok_iff] at h
  obtain ⟨off, _, h⟩ := h
  split at h
  · split at h
    · split at h
      · simp only [bind_ok_iff, Except.ok.injEq, Prod.mk.injEq] at h
        obtain ⟨P1, h1, h, _⟩ := h
        have e1 := ReserveBuf_Num h1
        rw [← h]
        exact e1
      · simp only [bind_ok_iff, pure, Except.pure, Except.ok.injEq, Prod.mk.injEq] at h
        obtain ⟨P1, h1, h, _⟩ := h
        rw [← h, ← h1]
    · simp only [bind_ok_iff] at h
      obtain ⟨OldLen, _, h⟩ := h
      split at h
      · simp only [Except.ok.injEq, Prod.mk.injEq] at h
        rw [← h.1]
      · have e := AllocateAtEnd_Num h
        exact e
  · exact AllocateAtEnd_Num h

theorem SetErase_Num {P Q : Pool} {i : Int} (h : SetErase P i = .ok Q) : Q.Num = P.Num := by
  unfold SetErase at h
  simp only [bind_ok_iff] at h
  obtain ⟨off, _, h⟩ := h
  split at h
  · simp only [bind_ok_iff] at h
    obtain ⟨l, _, h⟩ := h
    have e := setOffset_Num h
    exact e
  · simp only [Except.ok.injEq] at h
    rw [← h]

theorem SetIndex_Num {P Q : Pool} {i : Int} (h : SetIndex P i = .ok Q) :
    Q.Num = max P.Num (i + 1) ∧ 0 ≤ i ∧ i < Q.Num ∧
      (P.Num ≤ 2147483647 → Q.Num ≤ 2147483647) := by
  unfold SetIndex at h
  split at h
  · simp at h
  · split at h
    · split at h
      · simp at h
      · dsimp only at h
        have e : Q.Num = i + 1 := by
          split at h
          · exact ReserveNum_Num h
          · simp only [Except.ok.injEq] at h
            rw [← h]
        omega
    · simp only [Except.ok.injEq] at h
      rw [← h]
      omega

theorem Set_Num {P Q : Pool} {i : Int} {s : PChar} (h : Set P i s = .ok Q) :
    Q.Num = max P.Num (i + 1) ∧ 0 ≤ i ∧ i < Q.Num ∧
      (P.Num ≤ 2147483647 → Q.Num ≤ 2147483647) := by
  unfold Set at h
  simp only [bind_ok_iff] at h
  obtain ⟨P1, h1, h⟩ := h
  have e1 := SetIndex_Num h1
  suffices hQ : Q.Num = P1.Num by rw [hQ]; exact e1
  split at h
  all_goals
    simp only [bind_ok_iff] at h
    obtain ⟨len, _, h⟩ := h
    split at h
    · exact SetErase_Num h
    · split at h
      · simp at h
      · simp only [bind_ok_iff] at h
        obtain ⟨⟨P2, p, moved⟩, h2, h⟩ := h
        have e2 := Allocate_Num h2
        dsimp only at h
        split at h
        · simp at h
        · simp only [bind_ok_iff, Except.ok.injEq] at h
          obtain ⟨_, _, _, _, _, _, h⟩ := h
          rw [← h]
          exact e2

theorem SetN_Num {P Q : Pool} {i : Int} {s : PChar} {len : Nat} (h : SetN P i s len = .ok Q) :
    Q.Num = max P.Num (i + 1) ∧ 0 ≤ i ∧ i < Q.Num ∧
      (P.Num ≤ 2147483647 → Q.Num ≤ 2147483647) := by
  unfold SetN at h
  simp only [bind_ok_iff] at h
  obtain ⟨P1, h1, h⟩ := h
  have e1 := SetIndex_Num h1
  suffices hQ : Q.Num = P1.Num by rw [hQ]; exact e1
  split at h
  · exact SetErase_Num h
  · simp only [bind_ok_iff] at h
    obtain ⟨⟨P2, p, moved⟩, h2, h⟩ := h
    have e2 := Allocate_Num h2
    dsimp only at h
    split at h
    · simp at h
    · simp only [bind_ok_iff, Except.ok.injEq] at h
      obtain ⟨_, _, _, _, _, _, _, _, h⟩ := h
      rw [← h]
      exact e2

theorem Len_range {P : Pool} {i : Int} {l : Nat} (h : Len P i = .ok l) :
    toUnsigned i < toUnsigned P.Num ∧ 0 ≤ i := by
  unfold Len at h
  split at h
  · simp at h
  · simp only [bind_ok_iff] at h
    obtain ⟨off, h1, _⟩ := h
    refine ⟨by omega, ?_⟩
    unfold offsetAt at h1
    split at h1
    · simp at h1
    · split at h1
      · simp at h1
      · omega

theorem Concatenate_Num {P Q : Pool} {i : Int} {s : PChar}
    (hN : 0 ≤ P.Num ∧ P.Num ≤ 2147483647) (h : Concatenate P i s = .ok Q) :
    Q.Num = P.Num := by
  unfold Concatenate at h
  simp only [bind_ok_iff] at h
  obtain ⟨len1, hl, h⟩ := h
  have hr := Len_range hl
  split at h
  all_goals
    simp only [bind_ok_iff] at h
    obtain ⟨len2, _, h⟩ := h
    split at h
    · simp only [Except.ok.injEq] at h
      rw [← h]
    · split at h
      · simp at h
      · split at h
        · simp at h
        · split at h
          · have e := Set_Num h
            have e4 := e.2.2.2 hN.2
            have h1 : toUnsigned i < toUnsigned P.Num := hr.1
            unfold toUnsigned at h1
            omega
          · simp only [bind_ok_iff] at h
            obtain ⟨string1, _, ⟨P2, p, moved⟩, h2, h⟩ := h
            have e2 := Allocate_Num h2
            dsimp only at h
            split at h
            · simp at h
            · simp only [bind_ok_iff, Except.ok.injEq] at h
              obtain ⟨_, _, _, _, _, _, _, _, _, _, h⟩ := h
              rw [← h]
              exact e2

theorem Clear_Num {P Q : Pool} (h : Clear P = .ok Q) : Q.Num = P.Num := by
  unfold Clear at h
  split at h
  · split at h
    · simp only [Except.ok.injEq] at h
      rw [← h]
    · simp at h
  · simp only [Except.ok.injEq] at h
    rw [← h]

theorem writeChar_Num {P Q : Pool} {index i : Int} {v : Nat}
    (h : writeChar P index i v = .ok Q) : Q.Num = P.Num := by
  unfold writeChar at h
  simp only [bind_ok_iff] at h
  obtain ⟨p, _, h⟩ := h
  split at h
  · simp at h
  · simp only [bind_ok_iff, Except.ok.injEq] at h
    obtain ⟨_, _, h⟩ := h
    rw [← h]

theorem Op_run_Num {op : Op} {P Q : Pool} (hN : 0 ≤ P.Num ∧ P.Num ≤ 2147483647)
    (h : op.run P = .ok Q) :
    Q.Num = countStep P.Num op ∧ 0 ≤ Q.Num ∧ Q.Num ≤ 2147483647 := by
  suffices hs : Q.Num = countStep P.Num op ∧ Q.Num ≤ 2147483647 by
    refine ⟨hs.1, ?_, hs.2⟩
    rw [hs.1]
    unfold countStep
    split <;> omega
  cases op with
  | assign index s => exact ⟨(Set_Num h).1, (Set_Num h).2.2.2 hN.2⟩
  | assignElement index src =>
    simp only [Op.run, assignElement, bind_ok_iff] at h
    obtain ⟨_, _, _, _, h⟩ := h
    exact ⟨(SetN_Num h).1, (SetN_Num h).2.2.2 hN.2⟩
  | SetN index s len => exact ⟨(SetN_Num h).1, (SetN_Num h).2.2.2 hN.2⟩
  | append index s =>
    have e := Concatenate_Num hN h
    exact ⟨e, by rw [e]; exact hN.2⟩
  | SetToSubstring index s start len =>
    simp only [Op.run, SetToSubstring] at h
    split at h
    all_goals
      simp only [bind_ok_iff] at h
      obtain ⟨_, _, h⟩ := h
      split at h
      · simp at h
      · exact ⟨(SetN_Num h).1, (SetN_Num h).2.2.2 hN.2⟩
  | SetToSubstringOf index src start len =>
    simp only [Op.run, SetToSubstringOf, SetToSubstring, bind_ok_iff] at h
    obtain ⟨_, _, h⟩ := h
    split at h
    all_goals
      simp only [bind_ok_iff] at h
      obtain ⟨_, _, h⟩ := h
      split at h
      · simp at h
      · exact ⟨(SetN_Num h).1, (SetN_Num h).2.2.2 hN.2⟩
  | Printf index r =>
    simp only [Op.run, Printf] at h
    split at h
    · simp at h
    · exact ⟨(Set_Num h).1, (Set_Num h).2.2.2 hN.2⟩
  | writeChar index i v =>
    have e := writeChar_Num h
    exact ⟨e, by rw [e]; exact hN.2⟩
  | readChar index i =>
    simp only [Op.run, bind_ok_iff, pure, Except.pure, Except.ok.injEq] at h
    obtain ⟨_, _, h⟩ := h
    rw [← h]
    exact ⟨rfl, hN.2⟩
  | Clear =>
    have e := Clear_Num h
    exact ⟨e, by rw [e]; exact hN.2⟩
  | ReserveBuf newsize =>
    have e : Q.Num = P.Num := ReserveBuf_Num h
    exact ⟨e, by rw [e]; exact hN.2⟩
  | ReserveNum newsize =>
    have e : Q.Num = P.Num := ReserveNum_Num h
    exact ⟨e, by rw [e]; exact hN.2⟩

theorem runAll_Num (ops : List Op) (P : Pool) (h : runAll ops = .ok P) :
    P.Num = countAfter ops ∧ 0 ≤ P.Num ∧ P.Num ≤ 2147483647 := by
  have key : ∀ (ops : List Op) (P Q : Pool), 0 ≤ P.Num ∧ P.Num ≤ 2147483647 →
      runFrom P ops = .ok Q →
      Q.Num = ops.foldl countStep P.Num ∧ 0 ≤ Q.Num ∧ Q.Num ≤ 2147483647 := by
    intro ops
    induction ops with
    | nil =>
      intro P Q hN h
      simp only [runFrom, List.foldlM, pure, Except.pure, Except.ok.injEq] at h
      rw [← h]
      exact ⟨rfl, hN⟩
    | cons op ops ih =>
      intro P Q hN h
      simp only [runFrom, List.foldlM, bind_ok_iff] at h
      obtain ⟨P1, h1, h⟩ := h
      have e1 := Op_run_Num hN h1
      have e2 := ih P1 Q e1.2 h
      rw [e1.1] at e2
      exact e2
  exact key ops fresh P ⟨by decide, by decide⟩ h

/-- C14.  After any sequence of calls on a new pool that leaves a state `P`,
`GetNum` is one more than the highest handle that the calls assigned to (zero
when they assigned to none); and in that state an assignment to a handle
below `GetNum` (erasing included, the assignment of an empty string), an
append and `Clear` leave `GetNum` as it is. -/
theorem C14_count_is_highest_assigned (ops : List Op) (P : Pool)
    (h : runAll ops = .ok P) :
    GetNum P = countAfter ops ∧
    (∀ (i : Int) (s : PChar) (Q : Pool), i < GetNum P → Set P i s = .ok Q →
      GetNum Q = GetNum P) ∧
    (∀ (i : Int) (s : PChar) (Q : Pool), Concatenate P i s = .ok Q → GetNum Q = GetNum P) ∧
    (∀ Q : Pool, Clear P = .ok Q → GetNum Q = GetNum P) := by
  obtain ⟨h1, h2, h3⟩ := runAll_Num ops P h
  refine ⟨h1, ?_, ?_, ?_⟩
  · intro i s Q hi hS
    have e := (Set_Num hS).1
    unfold GetNum at *
    omega
  · intro i s Q hC
    exact Concatenate_Num ⟨h2, h3⟩ hC
  · intro Q hC
    exact Clear_Num hC

/-- C14, example.  The calls of the example write handles 4 and 5 only, and
`GetNum` is 6 afterwards. -/
theorem C14_count_is_highest_assigned_witness :
    runAll helloOps = .ok helloPool ∧ GetNum helloPool = 6 :=
  ⟨by decide!, (C14_count_is_highest_assigned helloOps helloPool (by decide!)).1.trans
    (by decide)⟩

/-! ### The state in which a call fails -/

theorem forget_atState {α : Type} (P : Pool) (r : Result α) : forget (atState P r) = r := by
  cases r <;> rfl

theorem forget_bind {α β : Type} (x : Traced α) (f : α → Traced β) :
    forget (x >>= f) = forget x >>= fun a => forget (f a) := by
  cases x <;> rfl

theorem forget_ok {α : Type} (a : α) : forget (Except.ok a : Traced α) = .ok a := rfl

theorem forget_pure {α : Type} (a : α) : forget (pure a : Traced α) = pure a := rfl

theorem forget_error {α : Type} (e : ErrorCode) (P : Pool) :
    forget (Except.error (e, P) : Traced α) = .error e := rfl

theorem bind_congr_fun {α β : Type} (x : Result α) (f g : α → Result β)
    (h : ∀ a, f a = g a) : (x >>= f) = (x >>= g) := by
  rw [funext h]

theorem forget_ReserveBufLoopT (old : Mem) :
    ∀ (n : Nat) (i : Int) (P : Pool) (b2 : Mem) (d2 : Nat),
      forget (ReserveBufLoopT old n i P b2 d2) = ReserveBufLoop old n i P b2 d2 := by
  intro n
  induction n with
  | zero => intro i P b2 d2; rfl
  | succ n ih =>
    intro i P b2 d2
    unfold ReserveBufLoopT ReserveBufLoop
    simp only [forget_bind, forget_atState, apply_ite forget, ih]

theorem forget_ReserveBufT (P : Pool) (n : Nat) : forget (ReserveBufT P n) = ReserveBuf P n := by
  unfold ReserveBufT ReserveBuf
  simp only [forget_bind, forget_atState, apply_ite forget, forget_ok]
  refine bind_congr_fun _ _ _ fun B1 => ?_
  refine bind_congr_fun _ _ _ fun B2 => ?_
  cases P.Buffer with
  | none => rfl
  | some old =>
    simp only [forget_bind, forget_ReserveBufLoopT, forget_pure]
    rfl

theorem forget_AllocateAtEndT (P : Pool) (i : Int) (len : Nat) :
    forget (AllocateAtEndT P i len) = AllocateAtEnd P i len := by
  unfold AllocateAtEndT AllocateAtEnd
  dsimp only
  split <;>
    simp only [forget_bind, forget_atState, forget_ok, forget_pure, forget_ReserveBufT]

theorem forget_AllocateT (P : Pool) (i : Int) (len : Nat) :
    forget (AllocateT P i len) = Allocate P i len := by
  unfold AllocateT Allocate
  simp only [forget_bind, forget_atState, apply_ite forget, forget_ok, forget_AllocateAtEndT]
  refine bind_congr_fun _ _ _ fun off => ?_
  split
  · split
    · split <;>
        simp only [forget_bind, forget_atState, forget_ok, forget_pure, forget_ReserveBufT]
    · rfl
  · rfl

theorem forget_SetIndexT (P : Pool) (i : Int) : forget (SetIndexT P i) = SetIndex P i := by
  unfold SetIndexT SetIndex
  simp only [apply_ite forget, forget_atState, forget_ok, forget_error]

theorem forget_SetEraseT (P : Pool) (i : Int) : forget (SetEraseT P i) = SetErase P i := by
  unfold SetEraseT SetErase
  simp only [forget_bind, forget_atState, apply_ite forget, forget_ok]

theorem forget_SetT (P : Pool) (i : Int) (s : PChar) : forget (SetT P i s) = Set P i s := by
  unfold SetT Set
  simp only [forget_bind, forget_atState, apply_ite forget, forget_ok, forget_error,
    forget_SetIndexT, forget_SetEraseT, forget_AllocateT]
  refine bind_congr_fun _ _ _ fun P1 => ?_
  split <;>
  · refine bind_congr_fun _ _ _ fun len => ?_
    split
    · rfl
    · split
      · rfl
      · refine bind_congr_fun _ _ _ fun x => ?_
        obtain ⟨P2, p, moved⟩ := x
        dsimp only
        cases P2.Buffer with
        | none => rfl
        | some b =>
          simp only [forget_bind, forget_atState, forget_ok]

theorem forget_SetNT (P : Pool) (i : Int) (s : PChar) (len : Nat) :
    forget (SetNT P i s len) = SetN P i s len := by
  unfold SetNT SetN
  simp only [forget_bind, forget_atState, apply_ite forget, forget_ok, forget_error,
    forget_SetIndexT, forget_SetEraseT, forget_AllocateT]
  refine bind_congr_fun _ _ _ fun P1 => ?_
  split
  · rfl
  · refine bind_congr_fun _ _ _ fun x => ?_
    obtain ⟨P2, p, moved⟩ := x
    dsimp only
    cases P2.Buffer with
    | none => rfl
    | some b =>
      simp only [forget_bind, forget_atState, forget_ok]

theorem forget_ConcatenateT (P : Pool) (i : Int) (s : PChar) :
    forget (ConcatenateT P i s) = Concatenate P i s := by
  unfold ConcatenateT Concatenate
  simp only [forget_bind, forget_atState, apply_ite forget, forget_ok, forget_error,
    forget_SetT, forget_AllocateT]
  refine bind_congr_fun _ _ _ fun len1 => ?_
  split <;>
  · refine bind_congr_fun _ _ _ fun len2 => ?_
    split
    · rfl
    · split
      · rfl
      · split
        · rfl
        · split
          · rfl
          · refine bind_congr_fun _ _ _ fun string1 => ?_
            refine bind_congr_fun _ _ _ fun x => ?_
            obtain ⟨P2, p, moved⟩ := x
            dsimp only
            cases P2.Buffer with
            | none => rfl
            | some b =>
              simp only [forget_bind, forget_atState, forget_ok]

theorem forget_SetToSubstringT (P : Pool) (index : Int) (s : PChar) (start len : Nat) :
    forget (SetToSubstringT P index s start len) = SetToSubstring P index s start len := by
  unfold SetToSubstringT SetToSubstring
  simp only [forget_bind, forget_atState, apply_ite forget, forget_error, forget_SetNT]
  split <;> rfl

/-- The functions that carry the state of a failure are the functions of the
pool: without that state, every call has the result that `Op.run` gives. -/
theorem forget_runT (op : Op) (P : Pool) : forget (op.runT P) = op.run P := by
  cases op with
  | assign index s => exact forget_SetT P index s
  | assignElement index src =>
    simp only [Op.runT, Op.run, assignElementT, assignElement, forget_bind, forget_atState,
      forget_SetNT]
  | SetN index s len => exact forget_SetNT P index s len
  | append index s => exact forget_ConcatenateT P index s
  | SetToSubstring index s start len => exact forget_SetToSubstringT P index s start len
  | SetToSubstringOf index src start len =>
    simp only [Op.runT, Op.run, SetToSubstringOfT, SetToSubstringOf, forget_bind,
      forget_atState, forget_SetToSubstringT]
  | Printf index r =>
    simp only [Op.runT, Op.run, PrintfT, Printf, apply_ite forget, forget_error, forget_SetT]
  | writeChar index i v =>
    simp only [Op.runT, Op.run, writeCharT, writeChar, forget_bind, forget_atState]
    refine bind_congr_fun _ _ _ fun p => ?_
    cases P.Buffer with
    | none => rfl
    | some b => simp only [forget_bind, forget_atState, forget_ok]
  | readChar index i => exact forget_atState _ _
  | Clear => exact forget_atState _ _
  | ReserveBuf newsize => exact forget_ReserveBufT P newsize
  | ReserveNum newsize => exact forget_atState _ _

theorem atState_eq_error {α : Type} (P Q : Pool) (r : Result α) (e : ErrorCode) :
    atState P r = .error (e, Q) ↔ r = .error e ∧ Q = P := by
  cases r with
  | ok a => simp [atState]
  | error e' =>
    simp only [atState, Except.error.injEq, Prod.mk.injEq]
    constructor
    · rintro ⟨h1, h2⟩; exact ⟨h1, h2.symm⟩
    · rintro ⟨h1, h2⟩; exact ⟨h1, h2.symm⟩

theorem atState_eq_ok {α : Type} (P : Pool) (r : Result α) (a : α) :
    atState P r = .ok a ↔ r = .ok a := by
  cases r <;> simp [atState]

theorem tbind_error_iff {α β : Type} (x : Traced α) (f : α → Traced β) (z : ErrorCode × Pool) :
    (x >>= f) = .error z ↔ x = .error z ∨ ∃ a, x = .ok a ∧ f a = .error z := by
  cases x with
  | error e => simp [bind, Except.bind]
  | ok a => simp [bind, Except.bind]

theorem tbind_ok_iff {α β : Type} (x : Traced α) (f : α → Traced β) (b : β) :
    (x >>= f) = .ok b ↔ ∃ a, x = .ok a ∧ f a = .ok b := by
  cases x with
  | error e => simp [bind, Except.bind]
  | ok a => simp [bind, Except.bind]

theorem forget_eq_ok {α : Type} (t : Traced α) (a : α) : forget t = .ok a ↔ t = .ok a := by
  cases t <;> simp [forget]

theorem offsetAt_error {P : Pool} {i : Int} {e : ErrorCode} (h : offsetAt P i = .error e) :
    e = .Undefined := by
  unfold offsetAt at h
  split at h
  · simp at h; exact h.symm
  · split at h
    · simp at h; exact h.symm
    · split at h
      · simp at h
      · simp at h; exact h.symm

theorem setOffset_error {P : Pool} {i : Int} {v : Nat} {e : ErrorCode}
    (h : setOffset P i v = .error e) : e = .Undefined := by
  unfold setOffset at h
  split at h
  · simp at h; exact h.symm
  · split at h
    · simp at h; exact h.symm
    · split at h
      · simp at h
      · simp at h; exact h.symm

theorem readCells_error {m : Mem} {off n : Nat} {e : ErrorCode}
    (h : readCells m off n = .error e) : e = .Undefined := by
  unfold readCells at h
  split at h
  · simp at h
  · simp at h; exact h.symm

theorem writeCells_error {m : Mem} {off : Nat} {d : List Cell} {e : ErrorCode}
    (h : writeCells m off d = .error e) : e = .Undefined := by
  unfold writeCells at h
  split at h
  · simp at h
  · simp at h; exact h.symm

theorem writeU16_error {m : Mem} {off v : Nat} {e : ErrorCode}
    (h : writeU16 m off v = .error e) : e = .Undefined :=
  writeCells_error h

theorem readU16_error {m : Mem} {off : Nat} {e : ErrorCode}
    (h : readU16 m off = .error e) : e = .Undefined := by
  unfold readU16 at h
  split at h
  · simp at h
  · simp at h; exact h.symm

theorem Len_error {P : Pool} {i : Int} {e : ErrorCode} (h : Len P i = .error e) :
    e = .Undefined ∨ (e = .InvalidHandle ∧ toUnsigned i ≥ toUnsigned P.Num) := by
  unfold Len at h
  split at h
  · simp at h
    exact Or.inr ⟨h.symm, by assumption⟩
  · left
    cases ho : offsetAt P i with
    | error e' =>
      rw [ho, error_bind] at h
      simp at h
      rw [← h]
      exact offsetAt_error ho
    | ok off =>
      rw [ho, ok_bind] at h
      split at h
      · simp at h; exact h.symm
      · exact readU16_error h

theorem Get_error {P : Pool} {i : Int} {e : ErrorCode} (h : Get P i = .error e) :
    e = .Undefined ∨ (e = .InvalidHandle ∧ toUnsigned i ≥ toUnsigned P.Num) := by
  unfold Get at h
  split at h
  · simp at h
    exact Or.inr ⟨h.symm, by assumption⟩
  · left
    cases ho : offsetAt P i with
    | error e' =>
      rw [ho, error_bind] at h
      simp at h
      rw [← h]
      exact offsetAt_error ho
    | ok off =>
      rw [ho, ok_bind] at h
      simp at h

theorem Len_error_valid {P : Pool} {i : Int} {e : ErrorCode} (h : Len P i = .error e)
    (hr : toUnsigned i < toUnsigned P.Num) : e = .Undefined := by
  rcases Len_error h with h | ⟨_, h⟩
  · exact h
  · omega

theorem Len_error_inRange {P : Pool} {i : Int} {e : ErrorCode} (h : Len P i = .error e)
    (h0 : 0 ≤ i) (h1 : i < P.Num) (h2 : P.Num ≤ 2147483647) : e = .Undefined := by
  rcases Len_error h with h | ⟨_, h⟩
  · exact h
  · unfold toUnsigned at h
    omega

theorem ReserveBufLoopT_error (old : Mem) :
    ∀ (n : Nat) (i : Int) (P : Pool) (b2 : Mem) (d2 : Nat) (e : ErrorCode) (Q : Pool),
      ReserveBufLoopT old n i P b2 d2 = .error (e, Q) → 0 ≤ i → i + n ≤ P.Num →
      P.Num ≤ 2147483647 → e = .Undefined := by
  intro n
  induction n with
  | zero =>
    intro i P b2 d2 e Q h
    simp [ReserveBufLoopT] at h
  | succ n ih =>
    intro i P b2 d2 e Q h h0 h1 h2
    unfold ReserveBufLoopT at h
    simp only [tbind_error_iff, atState_eq_error, atState_eq_ok] at h
    rcases h with ⟨h, _⟩ | ⟨off, _, h⟩
    · exact offsetAt_error h
    · split at h
      · simp only [tbind_error_iff, atState_eq_error, atState_eq_ok] at h
        rcases h with ⟨h, _⟩ | ⟨l, _, h⟩
        · exact Len_error_inRange h h0 (by push_cast at h1; omega) h2
        · split at h
          · simp only [tbind_error_iff, atState_eq_error, atState_eq_ok] at h
            rcases h with ⟨h, _⟩ | ⟨r, _, ⟨h, _⟩ | ⟨b3, _, ⟨h, _⟩ | ⟨P1, hP1, h⟩⟩⟩
            · exact readCells_error h
            · exact writeCells_error h
            · exact setOffset_error h
            · have e1 := setOffset_Num hP1
              have e2 : P1.Num = P.Num := e1
              exact ih _ _ _ _ _ _ h (by omega) (by rw [e2]; push_cast at h1; omega)
                (by rw [e2]; exact h2)
          · simp only [tbind_error_iff, atState_eq_error, atState_eq_ok] at h
            rcases h with ⟨h, _⟩ | ⟨P1, hP1, h⟩
            · exact setOffset_error h
            · have e1 := setOffset_Num hP1
              exact ih _ _ _ _ _ _ h (by omega)
                (by show i + 1 + (n : Int) ≤ P1.Num; rw [e1]; push_cast at h1; omega)
                (by show P1.Num ≤ 2147483647; rw [e1]; exact h2)
      · exact ih _ _ _ _ _ _ h (by omega) (by push_cast at h1; omega) h2

theorem deref_error {cur : Option Mem} {s : PChar} {e : ErrorCode}
    (h : s.deref cur = .error e) : e = .Undefined := by
  unfold PChar.deref at h
  split at h
  · simp at h; exact h.symm
  · simp at h
  · split at h
    · simp at h; exact h.symm
    · split at h
      · simp at h
      · simp at h; exact h.symm

theorem strlen_error {cur : Option Mem} {s : PChar} {e : ErrorCode}
    (h : strlen_ cur s = .error e) : e = .Undefined := by
  unfold strlen_ at h
  cases hd : s.deref cur with
  | error e' =>
    rw [hd, error_bind] at h
    simp at h
    rw [← h]
    exact deref_error hd
  | ok m =>
    rw [hd, ok_bind] at h
    split at h
    · simp at h
    · simp at h; exact h.symm

theorem strlenOrZero_error {cur : Option Mem} {s : PChar} {e : ErrorCode}
    (h : (if s = .null then pure 0 else strlen_ cur s : Result Nat) = .error e) :
    e = .Undefined := by
  split at h
  · simp [pure, Except.pure] at h
  · exact strlen_error h

theorem read_error {cur : Option Mem} {s : PChar} {n : Nat} {e : ErrorCode}
    (h : s.read cur n = .error e) : e = .Undefined := by
  unfold PChar.read at h
  cases hd : s.deref cur with
  | error e' =>
    rw [hd, error_bind] at h
    simp at h
    rw [← h]
    exact deref_error hd
  | ok m =>
    rw [hd, ok_bind] at h
    exact readCells_error h

theorem memcpySource_error {P : Pool} {moved : Bool} {s : PChar} {dst n : Nat} {e : ErrorCode}
    (h : memcpySource P moved s dst n = .error e) : e = .Undefined := by
  unfold memcpySource at h
  split at h
  · simp at h; exact h.symm
  · exact read_error h

theorem ReserveNum_error {P : Pool} {n : Nat} {e : ErrorCode}
    (h : ReserveNum P n = .error e) : e = .Undefined := by
  unfold ReserveNum at h
  split at h
  · simp at h
  · dsimp only at h
    split at h
    · split at h
      · simp [ok_bind] at h
      · simp [error_bind] at h; exact h.symm
    · split at h
      · simp [ok_bind] at h
      · simp [error_bind] at h; exact h.symm

theorem ReserveBufT_ok {P Q : Pool} {n : Nat} (h : ReserveBufT P n = .ok Q) :
    ReserveBuf P n = .ok Q := by
  rw [← forget_ReserveBufT]
  exact (forget_eq_ok _ _).mpr h

theorem AllocateT_ok {P Q : Pool} {i : Int} {len p : Nat} {moved : Bool}
    (h : AllocateT P i len = .ok (Q, p, moved)) : Allocate P i len = .ok (Q, p, moved) := by
  rw [← forget_AllocateT]
  exact (forget_eq_ok _ _).mpr h

theorem SetIndexT_ok {P Q : Pool} {i : Int} (h : SetIndexT P i = .ok Q) :
    SetIndex P i = .ok Q := by
  rw [← forget_SetIndexT]
  exact (forget_eq_ok _ _).mpr h

theorem ReserveBufT_error {P Q : Pool} {n : Nat} {e : ErrorCode}
    (h : ReserveBufT P n = .error (e, Q)) (h0 : 0 ≤ P.Num) (h2 : P.Num ≤ 2147483647) :
    e = .Undefined := by
  unfold ReserveBufT at h
  simp only [tbind_error_iff, atState_eq_error, atState_eq_ok] at h
  rcases h with ⟨h, _⟩ | ⟨B1, _, ⟨h, _⟩ | ⟨B2, _, h⟩⟩
  · exact writeU16_error h
  · exact writeCells_error h
  · split at h
    · simp only [tbind_error_iff, pure, Except.pure] at h
      rcases h with h | ⟨x, _, h | ⟨y, _, h⟩⟩
      · exact ReserveBufLoopT_error _ _ _ _ _ _ _ _ h (Int.le_refl 0)
          (by show (0 : Int) + (P.Num.toNat : Int) ≤ P.Num; omega) h2
      · simp at h
      · simp at h
    · simp only [tbind_error_iff, pure, Except.pure] at h
      rcases h with h | ⟨y, _, h⟩
      · simp at h
      · simp at h

theorem AllocateAtEndT_error {P Q : Pool} {i : Int} {len : Nat} {e : ErrorCode}
    (h : AllocateAtEndT P i len = .error (e, Q)) (h0 : 0 ≤ P.Num) (h2 : P.Num ≤ 2147483647) :
    e = .Undefined := by
  unfold AllocateAtEndT at h
  dsimp only at h
  split at h
  · simp only [tbind_error_iff, atState_eq_error, atState_eq_ok] at h
    rcases h with h | ⟨P1, _, ⟨h, _⟩ | ⟨P2, _, h⟩⟩
    · exact ReserveBufT_error h h0 h2
    · exact setOffset_error h
    · simp at h
  · simp only [tbind_error_iff, atState_eq_error, atState_eq_ok, pure, Except.pure] at h
    rcases h with h | ⟨P1, _, ⟨h, _⟩ | ⟨P2, _, h⟩⟩
    · simp at h
    · exact setOffset_error h
    · simp at h

theorem AllocateT_error {P Q : Pool} {i : Int} {len : Nat} {e : ErrorCode}
    (h : AllocateT P i len = .error (e, Q)) (hr : toUnsigned i < toUnsigned P.Num)
    (h0 : 0 ≤ P.Num) (h2 : P.Num ≤ 2147483647) : e = .Undefined := by
  unfold AllocateT at h
  simp only [tbind_error_iff, atState_eq_error, atState_eq_ok] at h
  rcases h with ⟨h, _⟩ | ⟨off, _, h⟩
  · exact offsetAt_error h
  · split at h
    · split at h
      · split at h
        · simp only [tbind_error_iff] at h
          rcases h with h | ⟨P1, _, h⟩
          · exact ReserveBufT_error h h0 h2
          · simp at h
        · simp only [tbind_error_iff, pure, Except.pure] at h
          rcases h with h | ⟨P1, _, h⟩
          · simp at h
          · simp at h
      · simp only [tbind_error_iff, atState_eq_error, atState_eq_ok] at h
        rcases h with ⟨h, _⟩ | ⟨OldLen, _, h⟩
        · exact Len_error_valid h hr
        · split at h
          · simp at h
          · exact AllocateAtEndT_error h (by show 0 ≤ P.Num; exact h0) h2
    · exact AllocateAtEndT_error h h0 h2

theorem SetEraseT_error {P Q : Pool} {i : Int} {e : ErrorCode}
    (h : SetEraseT P i = .error (e, Q)) (hr : toUnsigned i < toUnsigned P.Num) :
    e = .Undefined := by
  unfold SetEraseT at h
  simp only [tbind_error_iff, atState_eq_error, atState_eq_ok] at h
  rcases h with ⟨h, _⟩ | ⟨off, _, h⟩
  · exact offsetAt_error h
  · split at h
    · simp only [tbind_error_iff, atState_eq_error, atState_eq_ok] at h
      rcases h with ⟨h, _⟩ | ⟨l, _, h, _⟩
      · exact Len_error_valid h hr
      · exact setOffset_error h
    · simp at h

theorem SetIndexT_error {P Q : Pool} {i : Int} {e : ErrorCode}
    (h : SetIndexT P i = .error (e, Q)) : e = .Undefined ∨ Q = P := by
  unfold SetIndexT at h
  split at h
  · simp only [Except.error.injEq, Prod.mk.injEq] at h
    exact Or.inr h.2.symm
  · split at h
    · split at h
      · simp only [Except.error.injEq, Prod.mk.injEq] at h
        exact Or.inl h.1.symm
      · dsimp only at h
        split at h
        · rw [atState_eq_error] at h
          exact Or.inl (ReserveNum_error h.1)
        · simp at h
    · simp at h

theorem toUnsigned_lt_of_range {i n : Int} (hi : 0 ≤ i) (h1 : i < n) (h2 : n ≤ 2147483647) :
    toUnsigned i < toUnsigned n := by
  unfold toUnsigned
  omega

theorem SetIndex_below {P Q : Pool} {i : Int} (h : SetIndex P i = .ok Q) (hi : i < P.Num) :
    Q = P := by
  unfold SetIndex at h
  split at h
  · simp at h
  · split at h
    · omega
    · simp only [Except.ok.injEq] at h
      exact h.symm

theorem ReserveNum_fields {P Q : Pool} {n : Nat} (h : ReserveNum P n = .ok Q) :
    Q = { P with Offsets := Q.Offsets, OffsetsSize := Q.OffsetsSize } := by
  unfold ReserveNum at h
  split_ifs at h
  · simp at h; rw [← h]
  all_goals
    dsimp only at h
    split at h
    · split_ifs at h <;> simp [ok_bind, error_bind] at h
      rw [← h]
    · simp [ok_bind, error_bind] at h
      try rw [← h]

theorem SetIndex_fields {P Q : Pool} {i : Int} (h : SetIndex P i = .ok Q) :
    Q = { P with Offsets := Q.Offsets, OffsetsSize := Q.OffsetsSize, Num := Q.Num } := by
  unfold SetIndex at h
  split at h
  · simp at h
  · split at h
    · split at h
      · simp at h
      · dsimp only at h
        split at h
        · have e := ReserveNum_fields h
          have e2 := ReserveNum_Num h
          rw [e]
        · simp only [Except.ok.injEq] at h
          rw [← h]
    · simp only [Except.ok.injEq] at h
      rw [← h]

theorem SetT_error {P Q : Pool} {i : Int} {s : PChar} {e : ErrorCode}
    (h : SetT P i s = .error (e, Q)) (h2 : P.Num ≤ 2147483647) :
    e = .Undefined ∨ Q = P ∨
      (e = .StringTooLong ∧ P.Num ≤ i ∧ SetIndex P i = .ok Q ∧
        ∃ len, (if s = .null then pure 0 else strlen_ Q.Buffer s : Result Nat) = .ok len ∧
          len > maxLength) := by
  unfold SetT at h
  simp only [tbind_error_iff, atState_eq_error, atState_eq_ok] at h
  rcases h with h | ⟨P1, hP1, h⟩
  · rcases SetIndexT_error h with h | h
    · exact Or.inl h
    · exact Or.inr (Or.inl h)
  · have hS := SetIndexT_ok hP1
    obtain ⟨_, hi, h1, hmax⟩ := SetIndex_Num hS
    have hmax := hmax h2
    have hr := toUnsigned_lt_of_range hi h1 hmax
    rcases h with ⟨h, _⟩ | ⟨len, hlen, h⟩
    · exact Or.inl (strlenOrZero_error h)
    · split at h
      · exact Or.inl (SetEraseT_error h hr)
      · split at h
        · simp only [Except.error.injEq, Prod.mk.injEq] at h
          obtain ⟨he, hQ⟩ := h
          subst hQ
          by_cases hlt : i < P.Num
          · exact Or.inr (Or.inl (SetIndex_below hS hlt))
          · exact Or.inr (Or.inr ⟨he.symm, by omega, hS, len, hlen, by assumption⟩)
        · left
          simp only [tbind_error_iff] at h
          rcases h with h | ⟨⟨P2, p, moved⟩, _, h⟩
          · exact AllocateT_error h hr (by omega) hmax
          · dsimp only at h
            split at h
            · simp only [Except.error.injEq, Prod.mk.injEq] at h
              exact h.1.symm
            · simp only [tbind_error_iff, atState_eq_error, atState_eq_ok] at h
              rcases h with ⟨h, _⟩ | ⟨_, _, ⟨h, _⟩ | ⟨_, _, ⟨h, _⟩ | ⟨_, _, h⟩⟩⟩
              · exact writeU16_error h
              · exact memcpySource_error h
              · exact writeCells_error h
              · simp at h

theorem SetNT_error {P Q : Pool} {i : Int} {s : PChar} {len : Nat} {e : ErrorCode}
    (h : SetNT P i s len = .error (e, Q)) (h2 : P.Num ≤ 2147483647) :
    e = .Undefined ∨ Q = P := by
  unfold SetNT at h
  simp only [tbind_error_iff, atState_eq_error, atState_eq_ok] at h
  rcases h with h | ⟨P1, hP1, h⟩
  · exact SetIndexT_error h
  · have hS := SetIndexT_ok hP1
    obtain ⟨_, hi, h1, hmax⟩ := SetIndex_Num hS
    have hmax := hmax h2
    have hr := toUnsigned_lt_of_range hi h1 hmax
    left
    split at h
    · exact SetEraseT_error h hr
    · simp only [tbind_error_iff] at h
      rcases h with h | ⟨⟨P2, p, moved⟩, _, h⟩
      · exact AllocateT_error h hr (by omega) hmax
      · dsimp only at h
        split at h
        · simp only [Except.error.injEq, Prod.mk.injEq] at h
          exact h.1.symm
        · simp only [tbind_error_iff, atState_eq_error, atState_eq_ok] at h
          rcases h with ⟨h, _⟩ | ⟨_, _, ⟨h, _⟩ | ⟨_, _, ⟨h, _⟩ | ⟨_, _, ⟨h, _⟩ | ⟨_, _, h⟩⟩⟩⟩
          · exact writeU16_error h
          · exact memcpySource_error h
          · exact writeCells_error h
          · exact writeCells_error h
          · simp at h

theorem ConcatenateT_error {P Q : Pool} {i : Int} {s : PChar} {e : ErrorCode}
    (h : ConcatenateT P i s = .error (e, Q)) (h0 : 0 ≤ P.Num) (h2 : P.Num ≤ 2147483647) :
    e = .Undefined ∨ Q = P := by
  unfold ConcatenateT at h
  simp only [tbind_error_iff, atState_eq_error, atState_eq_ok] at h
  rcases h with ⟨_, h⟩ | ⟨len1, hl, ⟨_, h⟩ | ⟨len2, _, h⟩⟩
  · exact Or.inr h
  · exact Or.inr h
  · have hr := Len_range hl
    split at h
    · simp at h
    · split at h
      · simp only [Except.error.injEq, Prod.mk.injEq] at h
        exact Or.inr h.2.symm
      · split at h
        · simp only [Except.error.injEq, Prod.mk.injEq] at h
          exact Or.inr h.2.symm
        · split at h
          · rcases SetT_error h h2 with h | h | ⟨_, hle, hS, _⟩
            · exact Or.inl h
            · exact Or.inr h
            · exfalso
              obtain ⟨_, _, hlt, hmax⟩ := SetIndex_Num hS
              have hmax := hmax h2
              have h1 : toUnsigned i < toUnsigned P.Num := hr.1
              unfold toUnsigned at h1
              omega
          · simp only [tbind_error_iff, atState_eq_error, atState_eq_ok] at h
            rcases h with ⟨_, h⟩ | ⟨string1, _, h | ⟨⟨P2, p, moved⟩, _, h⟩⟩
            · exact Or.inr h
            · exact Or.inl (AllocateT_error h hr.1 h0 h2)
            · left
              dsimp only at h
              split at h
              · simp only [Except.error.injEq, Prod.mk.injEq] at h
                exact h.1.symm
              · simp only [tbind_error_iff, atState_eq_error, atState_eq_ok] at h
                rcases h with ⟨h, _⟩ | ⟨_, _, ⟨h, _⟩ | ⟨_, _, ⟨h, _⟩ | ⟨_, _, ⟨h, _⟩ |
                  ⟨_, _, ⟨h, _⟩ | ⟨_, _, h⟩⟩⟩⟩⟩
                · exact writeU16_error h
                · exact memcpySource_error h
                · exact writeCells_error h
                · exact memcpySource_error h
                · exact writeCells_error h
                · simp at h

theorem strlenCells_lt : ∀ (m : List Cell) (n : Nat), strlenCells m = some n → n < m.length
  | [], n, h => by simp [strlenCells] at h
  | none :: _, n, h => by simp [strlenCells] at h
  | some b :: cs, n, h => by
    unfold strlenCells at h
    split at h
    · simp only [Option.some.injEq] at h
      rw [← h]
      simp
    · simp only [Option.map_eq_some'] at h
      obtain ⟨k, hk, rfl⟩ := h
      have := strlenCells_lt cs k hk
      simp only [List.length_cons]
      omega

theorem strlen_mem_lt {cur : Option Mem} {block : List Nat} {n : Nat}
    (h : strlen_ cur (.mem block) = .ok n) : n < block.length := by
  unfold strlen_ at h
  simp only [PChar.deref, ok_bind] at h
  split at h
  · rename_i k hk
    simp only [Except.ok.injEq] at h
    have := strlenCells_lt _ _ hk
    rw [List.length_map] at this
    omega
  · simp at h

/-- A call that fails with a code of `Error` fails in the state in which it
started, unless it is an assignment `strings[index] = s` of a string that is
too long to a handle that is not below `GetNum`. -/
theorem runT_error {op : Op} {P Q : Pool} {e : ErrorCode}
    (h : op.runT P = .error (e, Q)) (h0 : 0 ≤ P.Num) (h2 : P.Num ≤ 2147483647) :
    e = .Undefined ∨ Q = P ∨
      (e = .StringTooLong ∧ ∃ index s, op = .assign index s ∧ P.Num ≤ index ∧
        SetIndex P index = .ok Q) := by
  cases op with
  | assign index s =>
    rcases SetT_error h h2 with h | h | ⟨h3, h4, h5, _⟩
    · exact Or.inl h
    · exact Or.inr (Or.inl h)
    · exact Or.inr (Or.inr ⟨h3, index, s, rfl, h4, h5⟩)
  | assignElement index src =>
    simp only [Op.runT, assignElementT, tbind_error_iff, atState_eq_error, atState_eq_ok] at h
    rcases h with ⟨_, h⟩ | ⟨_, _, ⟨_, h⟩ | ⟨_, _, h⟩⟩
    · exact Or.inr (Or.inl h)
    · exact Or.inr (Or.inl h)
    · rcases SetNT_error h h2 with h | h
      · exact Or.inl h
      · exact Or.inr (Or.inl h)
  | SetN index s len =>
    rcases SetNT_error h h2 with h | h
    · exact Or.inl h
    · exact Or.inr (Or.inl h)
  | append index s =>
    rcases ConcatenateT_error h h0 h2 with h | h
    · exact Or.inl h
    · exact Or.inr (Or.inl h)
  | SetToSubstring index s start len =>
    simp only [Op.runT, SetToSubstringT, tbind_error_iff, atState_eq_error, atState_eq_ok] at h
    rcases h with ⟨_, h⟩ | ⟨_, _, h⟩
    · exact Or.inr (Or.inl h)
    · split at h
      · simp only [Except.error.injEq, Prod.mk.injEq] at h
        exact Or.inr (Or.inl h.2.symm)
      · rcases SetNT_error h h2 with h | h
        · exact Or.inl h
        · exact Or.inr (Or.inl h)
  | SetToSubstringOf index src start len =>
    simp only [Op.runT, SetToSubstringOfT, SetToSubstringT, tbind_error_iff, atState_eq_error,
      atState_eq_ok] at h
    rcases h with ⟨_, h⟩ | ⟨_, _, ⟨_, h⟩ | ⟨_, _, h⟩⟩
    · exact Or.inr (Or.inl h)
    · exact Or.inr (Or.inl h)
    · split at h
      · simp only [Except.error.injEq, Prod.mk.injEq] at h
        exact Or.inr (Or.inl h.2.symm)
      · rcases SetNT_error h h2 with h | h
        · exact Or.inl h
        · exact Or.inr (Or.inl h)
  | Printf index r =>
    simp only [Op.runT, PrintfT] at h
    split at h
    · simp only [Except.error.injEq, Prod.mk.injEq] at h
      exact Or.inr (Or.inl h.2.symm)
    · rcases SetT_error h h2 with h | h | ⟨_, _, _, len, hlen, hgt⟩
      · exact Or.inl h
      · exact Or.inr (Or.inl h)
      · exfalso
        rw [if_neg (by simp)] at hlen
        have := strlen_mem_lt hlen
        simp only [vsnprintf, FormatLength, List.length_append, List.length_take,
          List.length_singleton] at this
        unfold maxLength at hgt
        omega
  | writeChar index i v =>
    simp only [Op.runT, writeCharT, tbind_error_iff, atState_eq_error, atState_eq_ok] at h
    rcases h with ⟨_, h⟩ | ⟨_, _, h⟩
    · exact Or.inr (Or.inl h)
    · split at h
      · simp only [Except.error.injEq, Prod.mk.injEq] at h
        exact Or.inl h.1.symm
      · simp only [tbind_error_iff, atState_eq_error, atState_eq_ok] at h
        rcases h with ⟨h, _⟩ | ⟨_, _, h⟩
        · exact Or.inl (writeCells_error h)
        · simp at h
  | readChar index i =>
    simp only [Op.runT, atState_eq_error] at h
    exact Or.inr (Or.inl h.2)
  | Clear =>
    simp only [Op.runT, atState_eq_error] at h
    exact Or.inr (Or.inl h.2)
  | ReserveBuf newsize => exact Or.inl (ReserveBufT_error h h0 h2)
  | ReserveNum newsize =>
    simp only [Op.runT, atState_eq_error] at h
    exact Or.inr (Or.inl h.2)

theorem tok_bind {α β : Type} (a : α) (f : α → Traced β) :
    (Except.ok a >>= f : Traced β) = f a := by
  have h : ∀ x : Traced α, x = .ok a → (x >>= f) = f a := by
    intro x hx; subst hx; rfl
  exact h _ rfl

theorem SetT_too_long (s : List Nat) (h0 : ∀ b ∈ s, b ≠ 0) (hlong : 65535 < s.length) :
    SetT fresh 0 (cstr s) = .error (.StringTooLong, indexedPool) := by
  have hI : SetIndexT fresh 0 = .ok indexedPool := by decide!
  unfold SetT
  rw [hI, tok_bind, if_neg (cstr_ne_null s), strlen_cstr _ s h0]
  have hA : atState indexedPool (Except.ok s.length : Result Nat) = .ok s.length := rfl
  rw [hA, tok_bind, if_neg (by omega), if_pos (by unfold maxLength; omega)]

/-- C16, counterexample.  On a new pool, `strings[0] = s` with a string of
65536 characters fails with "String too long", and at that moment `GetNum`
is 1 and the offsets block has been allocated, whereas before the call
`GetNum` was 0 and there was no offsets block: the length is checked after
handle 0 has been made valid. -/
theorem C16_assign_too_long_raises_count :
    (Op.assign 0 (cstr (List.replicate 65536 97))).runT fresh
      = .error (.StringTooLong, indexedPool) ∧
    GetNum fresh = 0 ∧ GetNum indexedPool = 1 ∧
    fresh.Offsets = none ∧ indexedPool.Offsets ≠ none :=
  ⟨SetT_too_long (List.replicate 65536 97)
      (fun b hb => by rw [List.eq_of_mem_replicate hb]; decide)
      (by rw [List.length_replicate]; decide),
    rfl, rfl, rfl, by decide⟩

/-- C16, amended.  Let `P` be a state that a sequence of calls on a new pool
leaves, and let a call fail in it with a code of `Error` (any code other than
`Undefined`), the pool being in state `Q` at that moment.  Then `Q` is `P`,
unless the call is an assignment `strings[index] = s` with `index` not below
`GetNum` that fails with "String too long": then `Q` is `P` after the opening
of `Set` has made `index` valid, that is, `GetNum` is `index + 1`, the
offsets block may have grown, and the string buffer, `DataSize` and
`GarbageSize` are those of `P`. -/
theorem C16_failure_state (ops : List Op) (P : Pool) (hP : runAll ops = .ok P)
    (op : Op) (e : ErrorCode) (Q : Pool) (hf : op.runT P = .error (e, Q))
    (he : e ≠ .Undefined) :
    Q = P ∨
      (e = .StringTooLong ∧ ∃ index s, op = .assign index s ∧ GetNum P ≤ index ∧
        SetIndex P index = .ok Q ∧ GetNum Q = index + 1 ∧ Q.Buffer = P.Buffer ∧
        Q.DataSize = P.DataSize ∧ Q.GarbageSize = P.GarbageSize) := by
  obtain ⟨_, h0, h2⟩ := runAll_Num ops P hP
  rcases runT_error hf h0 h2 with h | h | ⟨h3, index, s, h4, h5, h6⟩
  · exact absurd h he
  · exact Or.inl h
  · refine Or.inr ⟨h3, index, s, h4, h5, h6, ?_, ?_, ?_, ?_⟩
    · have := (SetIndex_Num h6).1
      unfold GetNum
      omega
    · have e := congrArg Pool.Buffer (SetIndex_fields h6)
      exact e
    · have e := congrArg Pool.DataSize (SetIndex_fields h6)
      exact e
    · have e := congrArg Pool.GarbageSize (SetIndex_fields h6)
      exact e

/-- C16, example.  After the calls of the example, the write
`strings[5][11] = 'M'` behind the end of "Hello Dolly" fails with "Going
beyond end of string" and the pool is as it was. -/
theorem C16_failure_state_witness :
    runAll helloOps = .ok helloPool ∧
    (Op.writeChar 5 11 77).runT helloPool = .error (.OutOfBounds, helloPool) ∧
    (helloPool = helloPool ∨
      (ErrorCode.OutOfBounds = .StringTooLong ∧ ∃ index s,
        Op.writeChar 5 11 77 = .assign index s ∧ GetNum helloPool ≤ index ∧
        SetIndex helloPool index = .ok helloPool ∧ GetNum helloPool = index + 1 ∧
        helloPool.Buffer = helloPool.Buffer ∧ helloPool.DataSize = helloPool.DataSize ∧
        helloPool.GarbageSize = helloPool.GarbageSize)) :=
  ⟨by decide!, by decide!,
    C16_failure_state helloOps helloPool (by decide!) (.writeChar 5 11 77) .OutOfBounds
      helloPool (by decide!) (by decide)⟩

end StringPoolL

namespace SortedList

variable {α : Type}


theorem StrictWeakOrder.asymm {lt : α → α → Bool} (h : StrictWeakOrder lt) (a b : α)
    (hab : lt a b = true) : lt b a = false := by
  cases hba : lt b a with
  | false => rfl
  | true =>
    have := h.trans a b a hab hba
    rw [h.irrefl a] at this
    exact absurd this (by decide)

theorem StrictWeakOrder.negTrans {lt : α → α → Bool} (h : StrictWeakOrder lt) (a b c : α)
    (hab : lt a b = false) (hbc : lt b c = false) : lt a c = false := by
  cases hac : lt a c with
  | false => rfl
  | true =>
    exfalso
    cases hba : lt b a with
    | true =>
      have := h.trans b a c hba hac
      rw [hbc] at this
      exact absurd this (by decide)
    | false =>
      cases hcb : lt c b with
      | true =>
        have := h.trans a c b hac hcb
        rw [hab] at this
        exact absurd this (by decide)
      | false =>
        have := (h.incomp a b c hab hba hbc hcb).1
        rw [hac] at this
        exact absurd this (by decide)

theorem ltNat_strictWeakOrder : StrictWeakOrder ltNat where
  irrefl a := by simp [ltNat]
  trans a b c h1 h2 := by
    simp only [ltNat, decide_eq_true_eq] at *
    omega
  incomp a b c h1 h2 h3 h4 := by
    simp only [ltNat, decide_eq_false_iff_not] at *
    omega

theorem SearchLoop_spec (lt : α → α → Bool) (list : Nat → α) (x : α) (n : Nat)
    (hneg : ∀ a b c, lt a b = false → lt b c = false → lt a c = false)
    (hs : ∀ i j, i < j → j < n → lt (list j) (list i) = false)
    (hn : n ≤ 2147483648) :
    ∀ fuel a b, a ≤ b → b ≤ n → b - a < fuel →
      (∀ i, i < a → lt (list i) x = true) →
      (∀ i, b ≤ i → i < n → lt (list i) x = false) →
      ∃ r, SearchLoop lt list x fuel a b = some r ∧ r ≤ n ∧
        (∀ i, i < r → lt (list i) x = true) ∧
        (∀ i, r ≤ i → i < n → lt (list i) x = false) := by
  intro fuel
  induction fuel with
  | zero => intro a b _ _ h; omega
  | succ fuel ih =>
    intro a b hab hbn hf hlo hhi
    unfold SearchLoop
    by_cases hlt : a < b
    · have hc : uint (a + b) / 2 = (a + b) / 2 := by
        unfold uint
        rw [Nat.mod_eq_of_lt (by omega)]
      have hc1 : uint ((a + b) / 2 + 1) = (a + b) / 2 + 1 := by
        unfold uint
        rw [Nat.mod_eq_of_lt (by omega)]
      simp only [hlt, if_true, hc, hc1]
      cases hcx : lt (list ((a + b) / 2)) x with
      | true =>
        simp only [if_true]
        apply ih _ _ (by omega) hbn (by omega) _ hhi
        intro i hi
        by_cases hic : i = (a + b) / 2
        · rw [hic]; exact hcx
        · cases hix : lt (list i) x with
          | true => rfl
          | false =>
            have h1 := hs i ((a + b) / 2) (by omega) (by omega)
            have := hneg _ _ _ h1 hix
            rw [hcx] at this
            exact absurd this (by decide)
      | false =>
        simp only [Bool.false_eq_true, if_false]
        apply ih _ _ (by omega) (by omega) (by omega) hlo
        intro i hi hin
        by_cases hic : i = (a + b) / 2
        · rw [hic]; exact hcx
        · have h1 := hs ((a + b) / 2) i (by omega) hin
          exact hneg _ _ _ h1 hcx
    · simp only [hlt, if_false]
      refine ⟨a, rfl, by omega, hlo, ?_⟩
      intro i hi hin
      exact hhi i (by omega) hin

/-- For a sorted list of at most `2 ^ 31` objects `Search` returns, within
`num + 1` evaluations of the loop condition, the index of the first object
that is not less than `x`, or `num` when there is none. -/
theorem Search_spec (lt : α → α → Bool) (L : SortedList α) (x : α) (fuel : Nat)
    (hlt : StrictWeakOrder lt) (hs : Sorted lt L) (hn : L.num ≤ 2147483648)
    (hf : L.num < fuel) :
    ∃ r, Search lt fuel L x = some r ∧ r ≤ L.num ∧
      (∀ i, i < r → lt (L.list i) x = true) ∧
      (∀ i, r ≤ i → i < L.num → lt (L.list i) x = false) :=
  SearchLoop_spec lt L.list x L.num hlt.negTrans hs hn fuel 0 L.num (Nat.zero_le _)
    (Nat.le_refl _) (by omega) (fun i hi => absurd hi (Nat.not_lt_zero i))
    (fun i hi hin => absurd hin (by omega))

theorem SearchLoop_sound (lt : α → α → Bool) (list : Nat → α) (x : α) (n : Nat)
    (hneg : ∀ a b c, lt a b = false → lt b c = false → lt a c = false)
    (hs : ∀ i j, i < j → j < n → lt (list j) (list i) = false) :
    ∀ fuel a b r, a ≤ b → b ≤ n →
      (∀ i, i < a → lt (list i) x = true) →
      (∀ i, b ≤ i → i < n → lt (list i) x = false) →
      SearchLoop lt list x fuel a b = some r →
      r ≤ n ∧ (∀ i, i < r → lt (list i) x = true) ∧
        (∀ i, r ≤ i → i < n → lt (list i) x = false) := by
  intro fuel
  induction fuel with
  | zero => intro a b r _ _ _ _ h; simp [SearchLoop] at h
  | succ fuel ih =>
    intro a b r hab hbn hlo hhi hr
    unfold SearchLoop at hr
    by_cases hlt : a < b
    · have hcb : uint (a + b) / 2 < b := by
        unfold uint
        omega
      have hc1 : uint (uint (a + b) / 2 + 1) = uint (a + b) / 2 + 1 := by
        have : uint (a + b) / 2 < 2147483648 := by
          unfold uint
          omega
        generalize uint (a + b) / 2 = c at this
        unfold uint
        omega
      simp only [hlt, if_true, hc1] at hr
      generalize uint (a + b) / 2 = c at hr hcb
      cases hcx : lt (list c) x with
      | true =>
        simp only [hcx, if_true] at hr
        refine ih _ _ r (by omega) hbn ?_ hhi hr
        intro i hi
        by_cases hic : i = c
        · rw [hic]; exact hcx
        · cases hix : lt (list i) x with
          | true => rfl
          | false =>
            have h1 := hs i c (by omega) (by omega)
            have := hneg _ _ _ h1 hix
            rw [hcx] at this
            exact absurd this (by decide)
      | false =>
        simp only [hcx, Bool.false_eq_true, if_false] at hr
        have hac : a ≤ c := by
          by_contra hca
          have := hlo c (by omega)
          rw [hcx] at this
          exact absurd this (by decide)
        refine ih _ _ r hac (by omega) hlo ?_ hr
        intro i hi hin
        by_cases hic : i = c
        · rw [hic]; exact hcx
        · have h1 := hs c i (by omega) hin
          exact hneg _ _ _ h1 hcx
    · simp only [hlt, if_false, Option.some.injEq] at hr
      subst hr
      refine ⟨by omega, hlo, ?_⟩
      intro i hi hin
      exact hhi i (by omega) hin

/-- Whenever `Search` returns on a sorted list, it returns the index of the
first object that is not less than `x`, or `num` when there is none. -/
theorem Search_sound (lt : α → α → Bool) (L : SortedList α) (x : α) (fuel r : Nat)
    (hlt : StrictWeakOrder lt) (hs : Sorted lt L) (hr : Search lt fuel L x = some r) :
    r ≤ L.num ∧ (∀ i, i < r → lt (L.list i) x = true) ∧
      (∀ i, r ≤ i → i < L.num → lt (L.list i) x = false) :=
  SearchLoop_sound lt L.list x L.num hlt.negTrans hs fuel 0 L.num r (Nat.zero_le _)
    (Nat.le_refl _) (fun i hi => absurd hi (Nat.not_lt_zero i))
    (fun i hi hin => absurd hin (by omega)) hr

theorem insert_apply (list : Nat → α) (n a : Nat) (x : α) (i : Nat) :
    Function.update (if n > a then memmove list (a + 1) a (n - a) else list) a x i =
      if i < a then list i else if i = a then x else if i ≤ n then list (i - 1)
      else list i := by
  by_cases hia : i = a
  · subst hia; simp
  · rw [Function.update_noteq hia]
    by_cases hna : n > a
    · simp only [hna, if_true, memmove, hia, if_false]
      split_ifs <;> first | rfl | omega | (congr 1; omega)
    · simp only [hna, if_false, hia]
      split_ifs <;> first | rfl | omega

theorem insert_sorted (lt : α → α → Bool) (hlt : StrictWeakOrder lt) (list : Nat → α)
    (n a : Nat) (x : α) (ha : a ≤ n)
    (hs : ∀ i j, i < j → j < n → lt (list j) (list i) = false)
    (hlo : ∀ i, i < a → lt (list i) x = true)
    (hhi : ∀ i, a ≤ i → i < n → lt (list i) x = false) (i j : Nat) (hij : i < j)
    (hj : j < n + 1) :
    lt (Function.update (if n > a then memmove list (a + 1) a (n - a) else list) a x j)
       (Function.update (if n > a then memmove list (a + 1) a (n - a) else list) a x i)
      = false := by
  rw [insert_apply, insert_apply]
  by_cases hja : j < a
  · have hia : i < a := by omega
    simp only [hja, hia, if_true]
    exact hs i j hij (by omega)
  · by_cases hja2 : j = a
    · have hia : i < a := by omega
      simp only [hja, hja2, hia, if_true, if_false, lt_irrefl]
      exact hlt.asymm _ _ (hlo i hia)
    · have hjn : j ≤ n := by omega
      simp only [hja, hja2, hjn, if_true, if_false]
      by_cases hia : i < a
      · simp only [hia, if_true]
        exact hs i (j - 1) (by omega) (by omega)
      · by_cases hia2 : i = a
        · simp only [hia, hia2, if_true, if_false, lt_irrefl]
          exact hhi (j - 1) (by omega) (by omega)
        · have hin : i ≤ n := by omega
          simp only [hia, hia2, hin, if_true, if_false]
          exact hs (i - 1) (j - 1) (by omega) (by omega)

/-- `Put` on a full list returns `false` and changes nothing. -/
theorem Put_full (lt : α → α → Bool) (fuel : Nat) (L : SortedList α) (x : α)
    (h : L.MAXSIZE ≤ L.num) : Put lt fuel L x = some (false, L) := by
  unfold Put
  rw [if_pos h]

/-- Whenever `Put` returns on a sorted list that is not full, it returns
`true`, the objects in front of some index `a` are unchanged, `x` is at index
`a`, the objects from `a` on have moved up one place, and the list is
sorted. -/
theorem Put_sound (lt : α → α → Bool) (L L' : SortedList α) (x : α) (fuel : Nat) (ok : Bool)
    (hlt : StrictWeakOrder lt) (hs : Sorted lt L) (hM : L.MAXSIZE < 4294967296)
    (hn : L.num < L.MAXSIZE) (hp : Put lt fuel L x = some (ok, L')) :
    ok = true ∧ L'.MAXSIZE = L.MAXSIZE ∧ L'.num = L.num + 1 ∧ Sorted lt L' ∧
      ∃ a, a ≤ L.num ∧ (∀ i, i < a → L'.list i = L.list i) ∧ L'.list a = x ∧
        (∀ i, a < i → i ≤ L.num → L'.list i = L.list (i - 1)) := by
  unfold Put at hp
  rw [if_neg (by omega)] at hp
  cases hS : Search lt fuel L x with
  | none => rw [hS] at hp; simp at hp
  | some a =>
    rw [hS] at hp
    obtain ⟨ha, hlo, hhi⟩ := Search_sound lt L x fuel a hlt hs hS
    simp only [Option.some.injEq, Prod.mk.injEq] at hp
    obtain ⟨hok, hL⟩ := hp
    have hnum : uint (L.num + 1) = L.num + 1 := by
      unfold uint
      omega
    rw [hnum] at hL
    subst hL
    refine ⟨hok.symm, rfl, rfl, ?_, a, ha, ?_, ?_, ?_⟩
    · intro i j hij hj
      exact insert_sorted lt hlt L.list L.num a x ha hs hlo hhi i j hij hj
    · intro i hi
      dsimp only
      rw [insert_apply]
      simp [hi]
    · dsimp only
      simp
    · intro i hi hin
      dsimp only
      rw [insert_apply]
      have h1 : ¬ i < a := by omega
      have h2 : ¬ i = a := by omega
      simp [h1, h2, hin]

/-- For a sorted list of fewer than `MAXSIZE` objects, with `MAXSIZE` at
most `2 ^ 31`, `Put` returns `true` within `num + 1` evaluations of the loop
condition. -/
theorem Put_returns (lt : α → α → Bool) (L : SortedList α) (x : α) (fuel : Nat)
    (hlt : StrictWeakOrder lt) (hs : Sorted lt L) (hM : L.MAXSIZE ≤ 2147483648)
    (hn : L.num < L.MAXSIZE) (hf : L.num < fuel) :
    ∃ L', Put lt fuel L x = some (true, L') := by
  obtain ⟨r, hr, _⟩ := Search_spec lt L x fuel hlt hs (by omega) hf
  unfold Put
  rw [if_neg (by omega), hr]
  exact ⟨_, rfl⟩

theorem PutUnique_sound (lt : α → α → Bool) (L L' : SortedList α) (x : α) (fuel : Nat)
    (ok : Bool) (hlt : StrictWeakOrder lt) (hs : Sorted lt L) (hM : L.MAXSIZE < 4294967296)
    (hn : L.num ≤ L.MAXSIZE) (hp : PutUnique lt fuel L x = some (ok, L')) :
    L'.MAXSIZE = L.MAXSIZE ∧ L'.num ≤ L.MAXSIZE ∧ Sorted lt L' := by
  unfold PutUnique at hp
  by_cases hfull : L.num ≥ L.MAXSIZE
  · rw [if_pos hfull] at hp
    simp only [Option.some.injEq, Prod.mk.injEq] at hp
    rw [← hp.2]
    exact ⟨rfl, hn, hs⟩
  · rw [if_neg hfull] at hp
    cases hS : Search lt fuel L x with
    | none => rw [hS] at hp; simp at hp
    | some a =>
      rw [hS] at hp
      dsimp only at hp
      obtain ⟨ha, hlo, hhi⟩ := Search_sound lt L x fuel a hlt hs hS
      by_cases heq : a < L.num ∧ lt x (L.list a) = false
      · rw [if_pos heq] at hp
        simp only [Option.some.injEq, Prod.mk.injEq] at hp
        rw [← hp.2]
        exact ⟨rfl, hn, hs⟩
      · rw [if_neg heq] at hp
        simp only [Option.some.injEq, Prod.mk.injEq] at hp
        have hnum : uint (L.num + 1) = L.num + 1 := by
          unfold uint
          omega
        rw [hnum] at hp
        rw [← hp.2]
        refine ⟨rfl, ?_, ?_⟩
        · show L.num + 1 ≤ L.MAXSIZE
          omega
        · intro i j hij hj
          exact insert_sorted lt hlt L.list L.num a x ha hs hlo hhi i j hij hj

theorem Remove_sound (lt : α → α → Bool) (L : SortedList α) (i : Nat)
    (hs : Sorted lt L) (hM : L.num < 4294967296) :
    (Remove L i).MAXSIZE = L.MAXSIZE ∧ (Remove L i).num ≤ L.num ∧ Sorted lt (Remove L i) := by
  unfold Remove
  by_cases hi : i ≥ L.num
  · rw [if_pos hi]
    exact ⟨rfl, Nat.le_refl _, hs⟩
  · rw [if_neg hi]
    have hu : uint (i + 1) = i + 1 := by
      unfold uint
      omega
    rw [hu]
    refine ⟨rfl, Nat.sub_le _ _, ?_⟩
    intro j k hjk hk
    show lt ((if L.num > i + 1 then memmove L.list i (i + 1) (L.num - i - 1) else L.list) k)
      ((if L.num > i + 1 then memmove L.list i (i + 1) (L.num - i - 1) else L.list) j) = false
    have hk' : k < L.num - 1 := hk
    by_cases hni : L.num > i + 1
    · simp only [hni, if_true, memmove]
      split_ifs <;> first | omega | exact hs _ _ (by omega) (by omega)
    · simp only [hni, if_false]
      exact hs _ _ hjk (by omega)

/-- Every list reached from an empty list by `Put`, `PutUnique` and `Remove`
is sorted and holds at most `MAXSIZE` objects. -/
theorem Reachable_sorted (lt : α → α → Bool) (M : Nat) (L : SortedList α)
    (hlt : StrictWeakOrder lt) (hM : M < 4294967296) (h : Reachable lt M L) :
    L.MAXSIZE = M ∧ L.num ≤ M ∧ Sorted lt L := by
  induction h with
  | empty g =>
    refine ⟨rfl, Nat.zero_le _, ?_⟩
    intro i j _ hj
    exact absurd hj (Nat.not_lt_zero j)
  | put L L' fuel x ok _ hp ih =>
    obtain ⟨h1, h2, h3⟩ := ih
    by_cases hfull : L.MAXSIZE ≤ L.num
    · rw [Put_full lt fuel L x hfull] at hp
      simp only [Option.some.injEq, Prod.mk.injEq] at hp
      rw [← hp.2]
      exact ⟨h1, h2, h3⟩
    · obtain ⟨_, e1, e2, e3, _⟩ := Put_sound lt L L' x fuel ok hlt h3 (by omega) (by omega) hp
      exact ⟨by omega, by omega, e3⟩
  | putUnique L L' fuel x ok _ hp ih =>
    obtain ⟨h1, h2, h3⟩ := ih
    obtain ⟨e1, e2, e3⟩ := PutUnique_sound lt L L' x fuel ok hlt h3 (by omega) (by omega) hp
    exact ⟨by omega, by omega, e3⟩
  | remove L i _ ih =>
    obtain ⟨h1, h2, h3⟩ := ih
    obtain ⟨e1, e2, e3⟩ := Remove_sound lt L i h3 (by omega)
    exact ⟨by omega, by omega, e3⟩

/-- The list `countingList` grows by one object with each `Put` of the next
number, as long as it holds at most `2 ^ 31` objects. -/
theorem Put_counting (n : Nat) (hn : n ≤ 2147483648) :
    Put ltNat (n + 1) { MAXSIZE := 4294967295, num := n, list := fun i => i } n
      = some (true, { MAXSIZE := 4294967295, num := n + 1, list := fun i => i }) := by
  have hs : Sorted ltNat { MAXSIZE := 4294967295, num := n, list := fun i => i } := by
    intro i j hij _
    show ltNat j i = false
    simp only [ltNat, decide_eq_false_iff_not]
    omega
  obtain ⟨r, hr, hrn, hlo, hhi⟩ := Search_spec ltNat
    { MAXSIZE := 4294967295, num := n, list := fun i => i } n (n + 1)
    ltNat_strictWeakOrder hs hn (Nat.lt_succ_self n)
  have hrn2 : r = n := by
    by_contra hne
    have h1 : r < n := lt_of_le_of_ne hrn hne
    have := hhi r (Nat.le_refl _) h1
    simp only [ltNat, decide_eq_false_iff_not] at this
    exact this h1
  subst hrn2
  unfold Put
  have hlt : ¬ (r ≥ 4294967295) := by omega
  simp only [hlt, if_false, hr, gt_iff_lt, lt_irrefl]
  have hu : uint (r + 1) = r + 1 := by
    unfold uint
    omega
  rw [hu]
  congr 3
  funext i
  by_cases h : i = r
  · subst h; simp
  · rw [Function.update_noteq h]

theorem getElem?_map_range (f : Nat → α) (n i : Nat) :
    ((List.range n).map f)[i]? = if i < n then some (f i) else none := by
  by_cases h : i < n
  · rw [if_pos h, List.getElem?_map, List.getElem?_range h]
    rfl
  · rw [if_neg h, List.getElem?_eq_none (by simp; omega)]

theorem entries_insert (f g : Nat → α) (n a : Nat) (x : α) (ha : a ≤ n)
    (h1 : ∀ i, i < a → g i = f i) (h2 : g a = x)
    (h3 : ∀ i, a < i → i ≤ n → g i = f (i - 1)) :
    (List.range (n + 1)).map g
      = ((List.range n).map f).take a ++ x :: ((List.range n).map f).drop a := by
  apply List.ext_getElem?
  intro i
  rw [getElem?_map_range]
  by_cases hia : i < a
  · rw [List.getElem?_append_left (by simp; omega), List.getElem?_take_of_lt hia,
      getElem?_map_range, if_pos (by omega), if_pos (by omega), h1 i hia]
  · rw [List.getElem?_append_right (by simp; omega)]
    simp only [List.length_take, List.length_map, List.length_range, min_eq_left ha]
    by_cases hia2 : i = a
    · subst hia2
      rw [if_pos (by omega), Nat.sub_self, List.getElem?_cons_zero, h2]
    · obtain ⟨k, hk⟩ : ∃ k, i - a = k + 1 := ⟨i - a - 1, by omega⟩
      have e : a + k = i - 1 := by omega
      rw [hk, List.getElem?_cons_succ, List.getElem?_drop, getElem?_map_range, e]
      by_cases hin : i ≤ n
      · rw [if_pos (by omega), if_pos (by omega), h3 i (by omega) hin]
      · rw [if_neg (by omega), if_neg (by omega)]

/-- Whenever `Put` returns `true`, the objects of the list are the old
objects with one copy of `x` inserted. -/
theorem Put_entries (lt : α → α → Bool) (L L' : SortedList α) (x : α) (fuel : Nat) (ok : Bool)
    (hlt : StrictWeakOrder lt) (hs : Sorted lt L) (hM : L.MAXSIZE < 4294967296)
    (hn : L.num < L.MAXSIZE) (hp : Put lt fuel L x = some (ok, L')) :
    ∃ a, a ≤ L.num ∧ entries L' = (entries L).take a ++ x :: (entries L).drop a := by
  obtain ⟨_, _, e2, _, a, ha, h1, h2, h3⟩ := Put_sound lt L L' x fuel ok hlt hs hM hn hp
  refine ⟨a, ha, ?_⟩
  unfold entries
  rw [e2]
  exact entries_insert L.list L'.list L.num a x ha h1 h2 h3

/-- Examples on the list 10, 20, 20, 30: `Search(20)` is 1, `Search(35)` is
`num`, `Put(20)` stores a third 20, `PutUnique(20)` stores nothing and
`Remove(0)` leaves 20, 20, 30. -/
theorem sampleList_examples :
    Search ltNat 5 sampleList 20 = some 1 ∧ Search ltNat 5 sampleList 35 = some 4 ∧
    (Put ltNat 5 sampleList 20).map (fun r => (r.1, entries r.2))
      = some (true, [10, 20, 20, 20, 30]) ∧
    (PutUnique ltNat 5 sampleList 20).map (fun r => (r.1, entries r.2))
      = some (true, [10, 20, 20, 30]) ∧
    entries (Remove sampleList 0) = [20, 20, 30] := by
  decide

theorem SearchLoop_countingList (fuel : Nat) :
    ∀ a, a < 2147483649 →
      SearchLoop ltNat (fun i => i) 2147483649 fuel a 2147483649 = none := by
  induction fuel with
  | zero => intro a _; rfl
  | succ fuel ih =>
    intro a ha
    unfold SearchLoop
    have hc : uint (a + 2147483649) / 2 < 2147483648 := by
      unfold uint
      omega
    have hc1 : uint (uint (a + 2147483649) / 2 + 1) < 2147483649 := by
      have : uint (uint (a + 2147483649) / 2 + 1) = uint (a + 2147483649) / 2 + 1 := by
        generalize uint (a + 2147483649) / 2 = c at hc
        unfold uint
        omega
      omega
    have hb : ltNat (uint (a + 2147483649) / 2) 2147483649 = true := by
      simp only [ltNat, decide_eq_true_eq]
      omega
    simp only [ha, if_true, hb]
    exact ih _ hc1

/-- C19, failing input.  The list `countingList` is sorted and holds
`2 ^ 31 + 1` objects, all less than `x = 2147483649`.  The sum `a + b` in
`c = (a + b) / 2` exceeds the range of `unsigned int`, `c` is computed from
the reduced sum, and the loop of `Search` never ends: for no number of
iterations does `Search` return. -/
theorem C19_search_does_not_terminate :
    Sorted ltNat countingList ∧
    ∀ fuel, Search ltNat fuel countingList 2147483649 = none := by
  constructor
  · intro i j hij _
    show ltNat j i = false
    simp only [ltNat, decide_eq_false_iff_not]
    omega
  · intro fuel
    exact SearchLoop_countingList fuel 0 (by omega)

/-- C20, failing input.  The list `countingList` holds `2 ^ 31 + 1` objects
and is not full (`MAXSIZE = 4294967295`).  `Put(2147483649)` calls `Search`,
whose loop never ends: for no number of iterations does `Put` return. -/
theorem C20_put_does_not_return :
    countingList.num < countingList.MAXSIZE ∧
    ∀ fuel, Put ltNat fuel countingList 2147483649 = none := by
  constructor
  · decide
  · intro fuel
    have h : Search ltNat fuel countingList 2147483649 = none :=
      SearchLoop_countingList fuel 0 (by omega)
    unfold Put
    rw [h]
    rfl

end SortedList

namespace FIFOlist

variable {α : Type}

theorem fifo_Inv_empty (M : Nat) (g : Nat → α) : Inv (empty M g) := by
  refine ⟨le_refl _, by simp [empty], ?_, ?_⟩
  · show 0 < M ∨ (M = 0 ∧ 0 = 0)
    omega
  · simp only [empty, wrap]
    split <;> omega

theorem fifo_Put_full (L : FIFOlist α) (x : α) (h : L.n ≥ L.MAXSIZE) : L.Put x = (false, L) := by
  unfold Put
  rw [if_pos h]

theorem fifo_Put_spec (L : FIFOlist α) (x : α) (hI : Inv L) (h : L.n < L.MAXSIZE) :
    (L.Put x).1 = true ∧ Inv (L.Put x).2 ∧ (L.Put x).2.MAXSIZE = L.MAXSIZE ∧
      contents (L.Put x).2 = contents L ++ [x] := by
  obtain ⟨h0, h1, h2, h3⟩ := hI
  unfold Put
  rw [if_neg (by omega)]
  obtain ⟨k, hk⟩ : ∃ k : Nat, L.n = k := ⟨L.n.toNat, by omega⟩
  have ht : L.tail < L.MAXSIZE := by omega
  refine ⟨rfl, ⟨?_, ?_, ?_, ?_⟩, rfl, ?_⟩
  · show 0 ≤ L.n + 1
    omega
  · show L.n + 1 ≤ L.MAXSIZE
    omega
  · exact h2
  · show (if L.head + 1 ≥ L.MAXSIZE then 0 else L.head + 1)
      = wrap L.MAXSIZE (L.tail + (L.n + 1).toNat)
    rw [h3, hk]
    simp only [wrap]
    have : ((k : Int) + 1).toNat = k + 1 := by omega
    rw [this, Int.toNat_ofNat]
    split_ifs <;> omega
  · show (List.range (L.n + 1).toNat).map
        (fun j => Function.update L.list L.head x (wrap L.MAXSIZE (L.tail + j)))
      = contents L ++ [x]
    unfold contents
    rw [hk]
    have : ((k : Int) + 1).toNat = k + 1 := by omega
    rw [this, Int.toNat_ofNat, List.range_succ, List.map_append]
    congr 1
    · apply List.map_congr_left
      intro j hj
      rw [List.mem_range] at hj
      rw [Function.update_noteq]
      rw [h3, hk, Int.toNat_ofNat]
      simp only [wrap]
      split_ifs <;> omega
    · simp only [List.map_cons, List.map_nil, List.cons.injEq, and_true]
      rw [h3, hk, Int.toNat_ofNat]
      simp

theorem fifo_Get_empty (L : FIFOlist α) (h : L.n ≤ 0) : L.Get = none := by
  unfold Get
  rw [if_pos h]

theorem fifo_Get_spec (L : FIFOlist α) (hI : Inv L) (h : 0 < L.n) :
    ∃ x L1, L.Get = some (x, L1) ∧ Inv L1 ∧ L1.MAXSIZE = L.MAXSIZE ∧
      contents L = x :: contents L1 := by
  obtain ⟨h0, h1, h2, h3⟩ := hI
  unfold Get
  rw [if_neg (by omega)]
  obtain ⟨k, hk⟩ : ∃ k : Nat, L.n = k + 1 := ⟨(L.n - 1).toNat, by omega⟩
  have ht : L.tail < L.MAXSIZE := by omega
  refine ⟨_, _, rfl, ⟨?_, ?_, ?_, ?_⟩, rfl, ?_⟩
  · show 0 ≤ L.n - 1
    omega
  · show L.n - 1 ≤ L.MAXSIZE
    omega
  · show (if L.tail + 1 ≥ L.MAXSIZE then 0 else L.tail + 1) < L.MAXSIZE ∨ _
    left
    split_ifs <;> omega
  · show L.head = wrap L.MAXSIZE
      ((if L.tail + 1 ≥ L.MAXSIZE then 0 else L.tail + 1) + (L.n - 1).toNat)
    rw [h3, hk]
    have e1 : ((k : Int) + 1).toNat = k + 1 := by omega
    have e2 : ((k : Int) + 1 - 1).toNat = k := by omega
    rw [e1, e2]
    simp only [wrap]
    split_ifs <;> omega
  · unfold contents
    show _ = L.list L.tail :: (List.range (L.n - 1).toNat).map
      (fun j => L.list (wrap L.MAXSIZE ((if L.tail + 1 ≥ L.MAXSIZE then 0 else L.tail + 1) + j)))
    rw [hk]
    have e1 : ((k : Int) + 1).toNat = k + 1 := by omega
    have e2 : ((k : Int) + 1 - 1).toNat = k := by omega
    rw [e1, e2, List.range_succ_eq_map, List.map_cons, List.map_map]
    congr 1
    · simp only [wrap, Nat.add_zero]
      rw [if_neg (by omega)]
    · apply List.map_congr_left
      intro j hj
      rw [List.mem_range] at hj
      simp only [Function.comp, wrap]
      congr 1
      have : k + 1 ≤ L.MAXSIZE := by omega
      split_ifs <;> omega

theorem fifo_length_contents (L : FIFOlist α) : (contents L).length = L.n.toNat := by
  simp [contents]

theorem fifo_run_refines (cs : List (Call α)) :
    ∀ (L : FIFOlist α), Inv L →
      (run cs L = none ↔ specRun L.MAXSIZE cs (contents L) = none) ∧
      ∀ rs L1, run cs L = some (rs, L1) →
        Inv L1 ∧ L1.MAXSIZE = L.MAXSIZE ∧
        specRun L.MAXSIZE cs (contents L) = some (rs, contents L1) ∧
        L1.n = L.n + balance rs := by
  induction cs with
  | nil =>
    intro L hI
    refine ⟨by simp [run, specRun], ?_⟩
    intro rs L1 h
    simp only [run, Option.some.injEq, Prod.mk.injEq] at h
    obtain ⟨rfl, rfl⟩ := h
    exact ⟨hI, rfl, rfl, by simp [balance]⟩
  | cons c cs ih =>
    intro L hI
    have hlen := fifo_length_contents L
    have h0 : 0 ≤ L.n ∧ L.n ≤ L.MAXSIZE := ⟨hI.1, hI.2.1⟩
    cases c with
    | put x =>
      by_cases hfull : L.n ≥ L.MAXSIZE
      · have hn : L.n = L.MAXSIZE := le_antisymm hI.2.1 hfull
        have hP := fifo_Put_full L x hfull
        have hS : specPut L.MAXSIZE (contents L) x = (false, contents L) := by
          unfold specPut
          rw [if_pos (by rw [hlen]; omega)]
        obtain ⟨ih1, ih2⟩ := ih L hI
        simp only [run, specRun, hP, hS, Option.map_eq_none']
        refine ⟨ih1, ?_⟩
        intro rs L1 h
        simp only [Option.map_eq_some', Prod.mk.injEq] at h
        obtain ⟨⟨rs', L1'⟩, h, rfl, rfl⟩ := h
        obtain ⟨a, b, c, d⟩ := ih2 rs' L1' h
        refine ⟨a, b, ?_, ?_⟩
        · rw [c]; rfl
        · rw [d]; simp [balance]
      · obtain ⟨p1, p2, p3, p4⟩ := fifo_Put_spec L x hI (by omega)
        have hS : specPut L.MAXSIZE (contents L) x = (true, contents L ++ [x]) := by
          unfold specPut
          rw [if_neg (by rw [hlen]; omega)]
        obtain ⟨ih1, ih2⟩ := ih (L.Put x).2 p2
        rw [p3, p4] at ih1 ih2
        simp only [run, specRun, hS, Option.map_eq_none', p1]
        refine ⟨ih1, ?_⟩
        intro rs L1 h
        simp only [Option.map_eq_some', Prod.mk.injEq] at h
        obtain ⟨⟨rs', L1'⟩, h, rfl, rfl⟩ := h
        obtain ⟨a, b, c, d⟩ := ih2 rs' L1' h
        refine ⟨a, b, ?_, ?_⟩
        · rw [c]; rfl
        · rw [d]
          have : (L.Put x).2.n = L.n + 1 := by
            unfold Put
            rw [if_neg hfull]
          rw [this]
          simp only [balance]
          omega
    | get =>
      by_cases hemp : L.n ≤ 0
      · have hG := fifo_Get_empty L hemp
        have hc : contents L = [] := by
          apply List.eq_nil_of_length_eq_zero
          rw [hlen]; omega
        simp [run, specRun, hG, hc, specGet]
      · obtain ⟨x, L1, g1, g2, g3, g4⟩ := fifo_Get_spec L hI (by omega)
        obtain ⟨ih1, ih2⟩ := ih L1 g2
        rw [g3] at ih1 ih2
        simp only [run, specRun, g1, g4, specGet, Option.map_eq_none']
        refine ⟨ih1, ?_⟩
        intro rs L2 h
        simp only [Option.map_eq_some', Prod.mk.injEq] at h
        obtain ⟨⟨rs', L2'⟩, h, rfl, rfl⟩ := h
        obtain ⟨a, b, c, d⟩ := ih2 rs' L2' h
        refine ⟨a, b, ?_, ?_⟩
        · rw [c]; rfl
        · rw [d]
          have : L1.n = L.n - 1 := by
            unfold Get at g1
            rw [if_neg hemp] at g1
            simp only [Option.some.injEq, Prod.mk.injEq] at g1
            rw [← g1.2]
          rw [this]
          simp only [balance]
          omega

/-- C21.  For every sequence of `Put` and `Get` calls on an initially empty
`FIFOlist` of capacity `MAXSIZE`, the code gives the replies that the bounded
first-in-first-out queue of the specification gives (neither has a result
when a `Get` meets an empty list), and the objects in the circular buffer
from `tail` on are the queue of the specification.  In the state reached,
`NumObjects()` is the number of accepted `Put` calls minus the number of
`Get` calls, and `Put` returns `false` and changes nothing when
`NumObjects() == MAXSIZE` and returns `true` otherwise. -/
theorem C21_fifo_refines_queue (MAXSIZE : Nat) (garbage : Nat → α) (cs : List (Call α)) :
    (run cs (empty MAXSIZE garbage)).map (fun r => (r.1, contents r.2))
      = specRun MAXSIZE cs [] ∧
    ∀ rs L, run cs (empty MAXSIZE garbage) = some (rs, L) →
      NumObjects L = balance rs ∧ NumObjects L = (contents L).length ∧
      ∀ x, (NumObjects L = MAXSIZE → L.Put x = (false, L)) ∧
        (NumObjects L ≠ MAXSIZE → (L.Put x).1 = true ∧ contents (L.Put x).2 = contents L ++ [x]) := by
  have hc : contents (empty MAXSIZE garbage) = [] := by simp [contents, empty]
  obtain ⟨h1, h2⟩ := fifo_run_refines cs (empty MAXSIZE garbage) (fifo_Inv_empty MAXSIZE garbage)
  rw [hc] at h1 h2
  constructor
  · cases h : run cs (empty MAXSIZE garbage) with
    | none =>
      rw [Option.map_none']
      exact (h1.mp h).symm
    | some r =>
      obtain ⟨rs, L⟩ := r
      obtain ⟨_, _, h3, _⟩ := h2 rs L h
      rw [Option.map_some']
      exact h3.symm
  · intro rs L h
    obtain ⟨hI, hM, _, h4⟩ := h2 rs L h
    have hM' : L.MAXSIZE = MAXSIZE := hM
    have hn : L.n = balance rs := by
      rw [h4]
      show (0 : Int) + balance rs = balance rs
      omega
    refine ⟨hn, ?_, ?_⟩
    · rw [fifo_length_contents]
      have := hI.1
      unfold NumObjects
      omega
    · intro x
      constructor
      · intro hfull
        exact fifo_Put_full L x (by unfold NumObjects at hfull; rw [hfull, hM'])
      · intro hnot
        have hlt : L.n < L.MAXSIZE := by
          have := hI.2.1
          unfold NumObjects at hnot
          rw [hM'] at this ⊢
          omega
        obtain ⟨p1, _, _, p4⟩ := fifo_Put_spec L x hI hlt
        exact ⟨p1, p4⟩

/-- C21, examples.  `Put` 10, 20, 30 and three `Get` calls on a list of
capacity 1000 give 10, 20, 30; on a list of capacity 2 the third `Put` is
refused and, after the pointers have wrapped around, the objects still come
out in the order in which they were accepted. -/
theorem C21_fifo_refines_queue_witness :
    (run [.put 10, .put 20, .put 30, .get, .get, .get]
        (empty 1000 (fun _ => (0 : Int)))).map (fun r => (r.1, contents r.2))
      = some ([.accepted true, .accepted true, .accepted true, .got 10, .got 20, .got 30], []) ∧
    (run [.put 1, .put 2, .put 3, .get, .put 4, .get, .get, .put 5, .get]
        (empty 2 (fun _ => (0 : Int)))).map (fun r => (r.1, contents r.2))
      = some ([.accepted true, .accepted true, .accepted false, .got 1, .accepted true,
          .got 2, .got 4, .accepted true, .got 5], []) :=
  ⟨(C21_fifo_refines_queue 1000 (fun _ => (0 : Int)) _).1.trans (by decide),
   (C21_fifo_refines_queue 2 (fun _ => (0 : Int)) _).1.trans (by decide)⟩

end FIFOlist

namespace FILOlist

variable {α : Type}

/-- In every reachable state the count is between 0 and `MAXSIZE` and `top`
points `n` places behind the start of the buffer. -/
theorem filo_Reachable_inv (M : Nat) (L : FILOlist α) (h : Reachable M L) :
    L.MAXSIZE = M ∧ 0 ≤ L.n ∧ L.n ≤ M ∧ (L.top : Int) = L.n := by
  induction h with
  | empty g => exact ⟨rfl, le_refl _, by simp [empty], rfl⟩
  | put L x _ ih =>
    obtain ⟨h1, h2, h3, h4⟩ := ih
    unfold Put
    split
    · exact ⟨h1, h2, h3, h4⟩
    · refine ⟨h1, ?_, ?_, ?_⟩
      · show 0 ≤ L.n + 1
        omega
      · show L.n + 1 ≤ M
        omega
      · show ((L.top + 1 : Nat) : Int) = L.n + 1
        omega
  | get L L1 x _ hg ih =>
    obtain ⟨h1, h2, h3, h4⟩ := ih
    unfold Get at hg
    split at hg
    · simp at hg
    · split at hg
      · simp at hg
      · simp only [Option.some.injEq, Prod.mk.injEq] at hg
        rw [← hg.2]
        refine ⟨h1, ?_, ?_, ?_⟩
        · show 0 ≤ L.n - 1
          omega
        · show L.n - 1 ≤ M
          omega
        · show ((L.top - 1 : Nat) : Int) = L.n - 1
          omega

/-- C22.  In every state `L` that `Put` and `Get` calls reach from an empty
`FILOlist` of capacity `MAXSIZE`: when `NumObjects() < MAXSIZE`, `Put(x)`
returns `true` and the `Get` that follows returns `x` and leaves
`NumObjects()`, `top` and the objects in the list as they were in `L`; and
`Put` returns `false` exactly when `NumObjects() == MAXSIZE`, and then the
list is unchanged. -/
theorem C22_filo_put_get (MAXSIZE : Nat) (L : FILOlist α) (x : α)
    (hL : Reachable MAXSIZE L) :
    (NumObjects L < MAXSIZE →
      (L.Put x).1 = true ∧
      ∃ L2, (L.Put x).2.Get = some (x, L2) ∧ NumObjects L2 = NumObjects L ∧
        L2.top = L.top ∧ L2.MAXSIZE = L.MAXSIZE ∧ contents L2 = contents L ∧
        ∀ i, i ≠ L.top → L2.list i = L.list i) ∧
    ((L.Put x).1 = false ↔ NumObjects L = MAXSIZE) ∧
    (NumObjects L = MAXSIZE → L.Put x = (false, L)) := by
  obtain ⟨h1, h2, h3, h4⟩ := filo_Reachable_inv MAXSIZE L hL
  unfold NumObjects
  refine ⟨?_, ?_, ?_⟩
  · intro hlt
    have hne : ¬ L.n ≥ L.MAXSIZE := by rw [h1]; omega
    unfold Put
    rw [if_neg hne]
    refine ⟨rfl, ⟨{ L with list := Function.update L.list L.top x }, ?_, rfl, rfl, rfl, ?_, ?_⟩⟩
    · unfold Get
      rw [if_neg (by show ¬ L.n + 1 ≤ 0; omega), if_neg (by show ¬ L.top + 1 = 0; omega)]
      have e : L.n + 1 - 1 = L.n := by omega
      simp only [e]
      have e3 : Function.update L.list L.top x (L.top + 1 - 1) = x := by
        rw [Nat.add_sub_cancel, Function.update_same]
      exact congrArg (fun v => some (v, _)) e3
    · unfold contents
      apply List.map_congr_left
      intro i hi
      rw [List.mem_range] at hi
      show Function.update L.list L.top x i = L.list i
      rw [Function.update_noteq]
      have : i < L.n.toNat := hi
      omega
    · intro i hi
      show Function.update L.list L.top x i = L.list i
      rw [Function.update_noteq hi]
  · unfold Put
    rw [h1]
    split
    · simp only [true_iff]
      omega
    · simp only [Bool.true_eq_false, false_iff]
      omega
  · intro hfull
    unfold Put
    rw [if_pos (by rw [h1, hfull])]

/-- C22, example.  On the list reached by `Put(10); Put(20)` with capacity 3,
`Put(30)` returns `true` and the following `Get` returns 30 and leaves 10, 20
in the list. -/
theorem C22_filo_put_get_witness :
    NumObjects sampleStack < 3 ∧ (sampleStack.Put 30).1 = true ∧
      ∃ L2, (sampleStack.Put 30).2.Get = some (30, L2) ∧
        NumObjects L2 = NumObjects sampleStack ∧ contents L2 = [10, 20] := by
  have h : NumObjects sampleStack < 3 := by decide
  obtain ⟨h1, L2, h2, h3, _, _, h4, _⟩ :=
    (C22_filo_put_get 3 sampleStack 30
      (Reachable.put _ _ (Reachable.put _ _ (Reachable.empty _)))).1 h
  exact ⟨h, h1, L2, h2, h3, h4.trans (by decide)⟩

/-- C35, counterexample.  The example does not print 10, 20, 30: with a
zeroed buffer its output differs from that sequence. -/
theorem C35_example_does_not_print_in_insertion_order :
    exampleMain (fun _ => 0) ≠ some [10, 20, 30] := by
  decide

/-- C35, amended.  Whatever the buffer holds at first, the example runs to
its end and prints 30, 20, 10: the objects come out in the reverse of the
order in which they were put in. -/
theorem C35_example_prints_in_reverse_order (garbage : Nat → Int) :
    exampleMain garbage = some [30, 20, 10] := by
  simp [exampleMain, printAll, Put, Get, NumObjects, empty, Function.update]

end FILOlist

namespace StochasticLib1

/-- C24, counterexample.  With `min = INT_MAX - 1` and `n = 2` the numbers
`min` and `min + 1` are `int` values and `IRandom(i, n-1)` returns a number
between `i` and `n-1`, but the first loop increments its counter `j` once
more after it has stored `INT_MAX`: the counter overflows, and `Shuffle` has
no defined result. -/
theorem C24_shuffle_counter_overflows :
    (∀ (c : Nat) (i : Int), 0 ≤ i → i ≤ 2 - 1 →
      i ≤ firstChoice c i (2 - 1) ∧ firstChoice c i (2 - 1) ≤ 2 - 1) ∧
    (2147483646 : Int) + 1 ≤ INT_MAX ∧
    (Shuffle firstChoice 2 (fun _ => 0) 2147483646 2).isNone = true :=
  ⟨fun _ _ _ h => ⟨le_refl _, h⟩, by decide, by decide⟩

theorem fillLoop_spec (size : Nat) :
    ∀ (k i : Nat) (j : Int) (list : Nat → Int), i + k ≤ size → j + k ≤ INT_MAX →
      ∃ out, fillLoop size k i j list = some out ∧
        (∀ t, i ≤ t → t < i + k → out t = j + ((t - i : Nat) : Int)) ∧
        (∀ t, t < i ∨ i + k ≤ t → out t = list t) := by
  intro k
  induction k with
  | zero =>
    intro i j list _ _
    refine ⟨list, rfl, ?_, fun _ _ => rfl⟩
    intro t h1 h2
    omega
  | succ k ih =>
    intro i j list hs hj
    unfold fillLoop
    rw [if_neg (by omega), if_neg (by push_cast at hj; omega)]
    obtain ⟨out, h1, h2, h3⟩ := ih (i + 1) (j + 1) (Function.update list i j) (by omega)
      (by push_cast at hj; omega)
    refine ⟨out, h1, ?_, ?_⟩
    · intro t ht1 ht2
      by_cases hti : t = i
      · subst hti
        rw [h3 t (Or.inl (by omega)), Function.update_same]
        simp
      · rw [h2 t (by omega) (by omega)]
        have : ((t - (i + 1) : Nat) : Int) + 1 = ((t - i : Nat) : Int) := by omega
        omega
    · intro t ht
      rw [h3 t (by omega), Function.update_noteq (by omega)]

theorem swap_apply (list : Nat → Int) (i j t : Nat) :
    Function.update (Function.update list j (list i)) i (list j) t
      = list (Equiv.swap i j t) := by
  by_cases hti : t = i
  · subst hti
    rw [Function.update_same, Equiv.swap_apply_left]
  · rw [Function.update_noteq hti]
    by_cases htj : t = j
    · subst htj
      rw [Function.update_same, Equiv.swap_apply_right]
    · rw [Function.update_noteq htj, Equiv.swap_apply_of_ne_of_ne hti htj]

theorem shuffleLoop_spec (IRandom : Nat → Int → Int → Int) (size : Nat) (n : Int)
    (hn : n ≤ size)
    (hR : ∀ (c : Nat) (i : Int), 0 ≤ i → i ≤ n - 1 →
      i ≤ IRandom c i (n - 1) ∧ IRandom c i (n - 1) ≤ n - 1) :
    ∀ (k i : Nat) (list : Nat → Int), k = 0 ∨ (i : Int) + k ≤ n - 1 →
      ∃ (out : Nat → Int) (σ : Equiv.Perm Nat), shuffleLoop IRandom size n k i list = some out ∧
        (∀ t : Nat, n ≤ (t : Int) → σ t = t) ∧ ∀ t, out t = list (σ t) := by
  intro k
  induction k with
  | zero =>
    intro i list _
    exact ⟨list, Equiv.refl _, rfl, fun _ _ => rfl, fun _ => rfl⟩
  | succ k ih =>
    intro i list hk
    have hk : (i : Int) + (k + 1 : Nat) ≤ n - 1 := by omega
    obtain ⟨r1, r2⟩ := hR i i (by omega) (by push_cast at hk; omega)
    unfold shuffleLoop
    simp only []
    rw [if_neg (by omega), if_neg (by omega)]
    obtain ⟨out, σ, h1, h2, h3⟩ := ih (i + 1)
      (Function.update (Function.update list (IRandom i i (n - 1)).toNat (list i)) i
        (list (IRandom i i (n - 1)).toNat)) (by push_cast at hk ⊢; omega)
    refine ⟨out, σ.trans (Equiv.swap i (IRandom i i (n - 1)).toNat), h1, ?_, ?_⟩
    · intro t ht
      rw [Equiv.trans_apply, h2 t ht]
      exact Equiv.swap_apply_of_ne_of_ne (by omega) (by omega)
    · intro t
      rw [h3 t, swap_apply, Equiv.trans_apply]

theorem map_perm_range (σ : Equiv.Perm Nat) (N : Nat) (h : ∀ t, N ≤ t → σ t = t) :
    List.Perm ((List.range N).map σ) (List.range N) := by
  have hlt : ∀ t, t < N → σ t < N := by
    intro t ht
    by_contra hge
    have e := h (σ t) (by omega)
    have := σ.injective e
    omega
  rw [List.perm_ext_iff_of_nodup ((List.nodup_range N).map σ.injective) (List.nodup_range N)]
  intro a
  simp only [List.mem_map, List.mem_range]
  constructor
  · rintro ⟨t, ht, rfl⟩
    exact hlt t ht
  · intro ha
    refine ⟨σ.symm a, ?_, σ.apply_symm_apply a⟩
    by_contra hge
    have e := h (σ.symm a) (by omega)
    rw [σ.apply_symm_apply] at e
    omega

/-- C24, amended.  For every `n >= 0`, every array of at least `n` elements,
every `min` with `min + n <= INT_MAX`, and every behaviour of the random
number generator in which `IRandom(i, n-1)` returns some `j` with
`i <= j <= n-1`: `Shuffle(list, min, n)` returns, the entries `list[0..n)`
afterwards are a permutation of the numbers `min, min+1, ..., min+n-1`, and
the rest of the array is unchanged. -/
theorem C24_shuffle_is_permutation (IRandom : Nat → Int → Int → Int) (size : Nat)
    (list : Nat → Int) (min n : Int) (h0 : 0 ≤ n) (hsize : n ≤ size)
    (hmax : min + n ≤ INT_MAX)
    (hR : ∀ (c : Nat) (i : Int), 0 ≤ i → i ≤ n - 1 →
      i ≤ IRandom c i (n - 1) ∧ IRandom c i (n - 1) ≤ n - 1) :
    ∃ out, Shuffle IRandom size list min n = some out ∧
      List.Perm (entries out n) (numbers min n) ∧ ∀ t : Nat, n ≤ t → out t = list t := by
  obtain ⟨N, rfl⟩ : ∃ N : Nat, n = N := ⟨n.toNat, by omega⟩
  obtain ⟨f, hf1, hf2, hf3⟩ := fillLoop_spec size N 0 min list (by omega) (by omega)
  obtain ⟨out, σ, hs1, hs2, hs3⟩ := shuffleLoop_spec IRandom size N hsize
    hR ((N : Int) - 1).toNat 0 f (by omega)
  refine ⟨out, ?_, ?_, ?_⟩
  · unfold Shuffle
    rw [Int.toNat_ofNat, hf1]
    simp only []
    rw [if_neg (by unfold INT_MIN; omega)]
    exact hs1
  · unfold entries numbers
    rw [Int.toNat_ofNat]
    have hσ : ∀ t, N ≤ t → σ t = t := fun t ht => hs2 t (by omega)
    have hlt : ∀ t, t < N → σ t < N := by
      intro t ht
      by_contra hge
      have e := hσ (σ t) (by omega)
      have := σ.injective e
      omega
    have e1 : (List.range N).map out
        = ((List.range N).map σ).map fun i : Nat => min + (i : Int) := by
      rw [List.map_map]
      apply List.map_congr_left
      intro t ht
      rw [List.mem_range] at ht
      rw [hs3 t, Function.comp, hf2 (σ t) (Nat.zero_le _) (by have := hlt t ht; omega)]
      simp
    rw [e1]
    exact (map_perm_range σ N hσ).map _
  · intro t ht
    have ht' : N ≤ t := by omega
    rw [hs3 t, hs2 t ht, hf3 t (Or.inr (by omega))]


/-- C24, example.  With the generator that always returns the upper bound,
`Shuffle(list, 5, 3)` on an array of 3 elements gives a permutation of
5, 6, 7 (it gives 7, 5, 6). -/
theorem C24_shuffle_is_permutation_witness :
    (Shuffle lastChoice 3 (fun _ => 0) 5 3).map (fun out => entries out 3) = some [7, 5, 6] ∧
    ∃ out, Shuffle lastChoice 3 (fun _ => 0) 5 3 = some out ∧
      List.Perm (entries out 3) (numbers 5 3) ∧ ∀ t : Nat, (3 : Int) ≤ t → out t = 0 :=
  ⟨by decide, C24_shuffle_is_permutation lastChoice 3 (fun _ => 0) 5 3 (by decide) (by decide)
    (by decide) (fun _ _ _ h => ⟨h, le_refl _⟩)⟩

end StochasticLib1

namespace MixedPool

/-- C23, counterexample.  After `Push` of the four bytes 1, 2, 3, 4 and
`Align(-1)`, `DataSize` is 2 and the bytes 2 and 3 of the buffer still hold 3
and 4; `SetDataSize(4)` then gives the data 1, 2, 3, 4, whereas pushing two
zero bytes gives 1, 2, 0, 0. -/
theorem C23_align_negative_uncovers_data :
    ((Push fresh (some [1, 2, 3, 4]) 4).bind fun r => Align r.2 (-1)).map
        (fun S => (S.DataSize, S.BufferSize, (vacant S).take 2)) = some (2, 1040, [3, 4]) ∧
    (((Push fresh (some [1, 2, 3, 4]) 4).bind fun r => Align r.2 (-1)).bind
        fun S => SetDataSize S 4).map (fun S => (S.DataSize, data S)) = some (4, [1, 2, 3, 4]) ∧
    (((Push fresh (some [1, 2, 3, 4]) 4).bind fun r => Align r.2 (-1)).bind
        fun S => Push S (some [0, 0]) (4 - 2)).map (fun r => (r.2.DataSize, data r.2))
      = some (4, [1, 2, 0, 0]) := by
  decide!

theorem int_eq_some {x y : Int} (h : int x = some y) :
    y = x ∧ -2147483648 ≤ x ∧ x ≤ 2147483647 := by
  unfold int at h
  split at h
  · simp only [Option.some.injEq] at h
    omega
  · simp at h

theorem int_of_range {x : Int} (h1 : -2147483648 ≤ x) (h2 : x ≤ 2147483647) :
    int x = some x := by
  unfold int
  rw [if_pos ⟨h1, h2⟩]

theorem and16_bounds (x : Int) : and16 x ≤ x ∧ x < and16 x + 16 := by
  unfold and16
  omega

theorem length_bytes {S : MixedPool} (h : Inv S) : ((bytes S).length : Int) = S.BufferSize := by
  obtain ⟨h0, h1, _, d, hd, hb⟩ := h
  rw [hb, List.length_append, List.length_replicate, hd]
  omega

theorem data_eq {S : MixedPool} (d : List Nat) (hd : d.length = S.DataSize.toNat)
    (hb : bytes S = d ++ List.replicate (S.BufferSize - S.DataSize).toNat 0) : data S = d := by
  unfold data
  rw [hb, ← hd, List.take_left']
  rfl

theorem vacant_eq {S : MixedPool} (h : Inv S) :
    vacant S = List.replicate (S.BufferSize - S.DataSize).toNat 0 := by
  have hl := length_bytes h
  obtain ⟨h0, h1, _, d, hd, hb⟩ := h
  unfold vacant
  rw [List.take_of_length_le (by omega), hb, ← hd, List.drop_left']
  rfl

/-- Growing the buffer with zero bytes and moving `DataSize` forward inside
the new buffer keeps the pool in good order and appends zero bytes to the
data. -/
theorem Inv_extend {S : MixedPool} (S1 : MixedPool) (h : Inv S) (hD : S.DataSize ≤ S1.DataSize)
    (hB : S.BufferSize ≤ S1.BufferSize) (hDB : S1.DataSize ≤ S1.BufferSize)
    (hN : 0 ≤ S1.NumEntries)
    (hb : bytes S1 = bytes S ++ List.replicate (S1.BufferSize - S.BufferSize).toNat 0) :
    Inv S1 ∧ data S1 = data S ++ List.replicate (S1.DataSize - S.DataSize).toNat 0 := by
  obtain ⟨h0, h1, _, d, hd, hbS⟩ := h
  have hd1 : (d ++ List.replicate (S1.DataSize - S.DataSize).toNat 0).length
      = S1.DataSize.toNat := by
    rw [List.length_append, List.length_replicate, hd]
    omega
  have hb1 : bytes S1 = (d ++ List.replicate (S1.DataSize - S.DataSize).toNat 0)
      ++ List.replicate (S1.BufferSize - S1.DataSize).toNat 0 := by
    rw [hb, hbS, List.append_assoc, List.append_assoc, ← List.replicate_add,
      ← List.replicate_add]
    congr 2
    omega
  refine ⟨⟨by omega, hDB, hN, _, hd1, hb1⟩, ?_⟩
  rw [data_eq _ hd1 hb1, data_eq d hd hbS]

theorem newBuffer_Inv {S : MixedPool} (h : Inv S) (size : Int) (hs : S.BufferSize ≤ size) :
    newBuffer S.buffer S.BufferSize size
      = some (bytes S ++ List.replicate (size - S.BufferSize).toNat 0) := by
  have hl := length_bytes h
  obtain ⟨h0, h1, _, d, hd, hb⟩ := h
  unfold newBuffer
  rw [if_neg (by omega)]
  cases hbuf : S.buffer with
  | none =>
    have e : bytes S = [] := by unfold bytes; rw [hbuf]; rfl
    rw [e] at hl
    simp only [List.length_nil] at hl
    simp only [e, List.nil_append]
    congr 2
    omega
  | some b =>
    have e : bytes S = b := by unfold bytes; rw [hbuf]; rfl
    rw [e] at hl
    simp only [e]
    rw [if_pos ⟨by omega, by omega, hs⟩, List.take_of_length_le (by omega)]

theorem ReserveSize_grow {S : MixedPool} (h : Inv S) (size : Int) (hs : S.BufferSize < size)
    (hmax : size + 15 ≤ 2147483647) :
    ReserveSize S size = some { S with
      buffer := some (bytes S ++ List.replicate (and16 (size + 15) - S.BufferSize).toNat 0),
      BufferSize := and16 (size + 15) } := by
  have hB := h.2.1
  have h0 := h.1
  have ha := and16_bounds (size + 15)
  unfold ReserveSize
  rw [if_neg (by omega), int_of_range (by omega) hmax]
  simp only []
  rw [newBuffer_Inv h _ (by omega)]

theorem ReserveSize_Inv {S S1 : MixedPool} (h : Inv S) (size : Int)
    (hr : ReserveSize S size = some S1) : Inv S1 := by
  by_cases hs : size ≤ S.BufferSize
  · unfold ReserveSize at hr
    rw [if_pos hs] at hr
    split at hr
    · split at hr
      · simp at hr
      · simp only [Option.some.injEq] at hr
        rw [← hr]
        exact ⟨le_refl _, le_refl _, le_refl _, [], rfl, rfl⟩
    · simp only [Option.some.injEq] at hr
      rw [← hr]
      exact h
  · have hmax : size + 15 ≤ 2147483647 := by
      unfold ReserveSize at hr
      rw [if_neg hs] at hr
      cases hi : int (size + 15) with
      | none => rw [hi] at hr; simp at hr
      | some s => exact (int_eq_some hi).2.2
    rw [ReserveSize_grow h size (by omega) hmax] at hr
    simp only [Option.some.injEq] at hr
    rw [← hr]
    have ha := and16_bounds (size + 15)
    have hB := h.2.1
    exact (Inv_extend ({ S with
      buffer := some (bytes S ++ List.replicate (and16 (size + 15) - S.BufferSize).toNat 0),
      BufferSize := and16 (size + 15) }) h (le_refl _) (by show S.BufferSize ≤ and16 (size + 15); omega)
      (by show S.DataSize ≤ and16 (size + 15); omega) h.2.2.1 rfl).1

theorem ReserveSize_range {S S1 : MixedPool} {size : Int} (hs : S.BufferSize < size)
    (hr : ReserveSize S size = some S1) : size + 15 ≤ 2147483647 := by
  unfold ReserveSize at hr
  rw [if_neg (by omega)] at hr
  cases hi : int (size + 15) with
  | none => rw [hi] at hr; simp at hr
  | some s => exact (int_eq_some hi).2.2

theorem SetDataSize_spec {S S1 : MixedPool} (h : Inv S) (size : Int)
    (hr : SetDataSize S size = some S1) :
    Inv S1 ∧ S1.DataSize = size ∧
      (S.DataSize ≤ size →
        data S1 = data S ++ List.replicate (size - S.DataSize).toNat 0) := by
  have hl := length_bytes h
  have h0 := h.1
  have hB := h.2.1
  have hN := h.2.2.1
  unfold SetDataSize at hr
  split at hr
  · simp at hr
  · split at hr
    · cases h1 : int (size + AllocateSpace) with
      | none => rw [h1] at hr; simp at hr
      | some a =>
        rw [h1] at hr
        simp only [] at hr
        obtain ⟨rfl, _, _⟩ := int_eq_some h1
        cases h2 : int (size + AllocateSpace + 15) with
        | none => rw [h2] at hr; simp at hr
        | some a =>
          rw [h2] at hr
          simp only [] at hr
          obtain ⟨rfl, _, ha2⟩ := int_eq_some h2
          have hb1 := and16_bounds (size + AllocateSpace + 15)
          have hb2 := and16_bounds (and16 (size + AllocateSpace + 15) + 15)
          have hA : AllocateSpace = 1024 := rfl
          have e16 : and16 (and16 (size + AllocateSpace + 15) + 15)
              = and16 (size + AllocateSpace + 15) := by
            unfold and16
            omega
          rw [ReserveSize_grow h _ (by omega) (by unfold and16; omega)] at hr
          simp only [Option.some.injEq] at hr
          have hx := Inv_extend S1 h (by rw [← hr]; show S.DataSize ≤ size; omega)
            (by rw [← hr]; show S.BufferSize ≤ and16 _; omega)
            (by rw [← hr]; show size ≤ and16 _; omega) (by rw [← hr]; exact hN)
            (by rw [← hr]; rfl)
          have hD : S1.DataSize = size := by rw [← hr]
          rw [hD] at hx
          exact ⟨hx.1, hD, fun _ => hx.2⟩
    · split at hr
      · cases hbuf : S.buffer with
        | none => rw [hbuf] at hr; simp at hr
        | some b =>
          rw [hbuf] at hr
          simp only [] at hr
          have eb : bytes S = b := by unfold bytes; rw [hbuf]; rfl
          obtain ⟨_, _, _, d, hd, hbS⟩ := h
          rw [eb] at hbS hl
          unfold memsetZero at hr
          rw [if_pos ⟨by omega, by omega, by omega⟩] at hr
          simp only [Option.some.injEq] at hr
          have e1 : size.toNat + (S.DataSize - size).toNat = d.length := by omega
          have hb1 : List.take size.toNat b ++ List.replicate (S.DataSize - size).toNat 0
              ++ List.drop (size.toNat + (S.DataSize - size).toNat) b
              = d.take size.toNat ++ List.replicate (S.BufferSize - size).toNat 0 := by
            rw [e1, hbS, List.drop_left, List.take_append_of_le_length (by omega),
              List.append_assoc, ← List.replicate_add]
            congr 2
            omega
          rw [hb1] at hr
          rw [← hr]
          refine ⟨⟨by show (0 : Int) ≤ size; omega, by show size ≤ S.BufferSize; omega, hN, d.take size.toNat, ?_, rfl⟩,
            rfl, ?_⟩
          · rw [List.length_take]
            show min size.toNat d.length = size.toNat
            omega
          · intro hle
            show _ = _
            omega
      · simp only [Option.some.injEq] at hr
        have hx := Inv_extend S1 h (by rw [← hr]; show S.DataSize ≤ size; omega)
          (by rw [← hr])
          (by rw [← hr]; show size ≤ S.BufferSize; omega) (by rw [← hr]; exact hN)
          (by rw [← hr]; show bytes S = bytes S ++ List.replicate (S.BufferSize - S.BufferSize).toNat 0
              simp)
        have hD : S1.DataSize = size := by rw [← hr]
        rw [hD] at hx
        exact ⟨hx.1, hD, fun _ => hx.2⟩

theorem SetDataSize_returns {S : MixedPool} (h : Inv S) (size : Int) (h0 : S.DataSize ≤ size)
    (hmax : size + 1039 ≤ 2147483647) : ∃ S1, SetDataSize S size = some S1 := by
  have hD := h.1
  have hB := h.2.1
  have hA : AllocateSpace = 1024 := rfl
  unfold SetDataSize
  rw [if_neg (by omega)]
  split
  · rw [int_of_range (by omega) (by omega)]
    simp only []
    rw [int_of_range (by omega) (by omega)]
    simp only []
    have hb1 := and16_bounds (size + AllocateSpace + 15)
    rw [ReserveSize_grow h _ (by omega) (by unfold and16; omega)]
    exact ⟨_, rfl⟩
  · rw [if_neg (by omega)]
    exact ⟨_, rfl⟩

theorem memcpyAt_tail {d o b1 : List Nat} {k : Nat} {off size : Int}
    (hoff : off.toNat = d.length)
    (hr : memcpyAt (d ++ List.replicate k 0) off o size = some b1) :
    0 ≤ size ∧ size.toNat ≤ k ∧ (o.take size.toNat).length = size.toNat ∧
      b1 = d ++ o.take size.toNat ++ List.replicate (k - size.toNat) 0 := by
  unfold memcpyAt at hr
  split at hr
  · rename_i hc
    obtain ⟨_, h2, h3, h4⟩ := hc
    simp only [List.length_append, List.length_replicate] at h4
    simp only [Option.some.injEq] at hr
    refine ⟨h2, by omega, by rw [List.length_take]; omega, ?_⟩
    rw [← hr, hoff, List.take_left, List.drop_append, List.drop_replicate]
  · simp at hr

theorem PushEnd_spec (S1 : MixedPool) {S2 : MixedPool} {d w : List Nat} {size off D B : Int}
    (hD : S1.DataSize = D) (hBS : S1.BufferSize = B)
    (h0 : 0 ≤ D) (hs : 0 ≤ size) (hB : D + size ≤ B)
    (hN : 0 ≤ S1.NumEntries) (hd : d.length = D.toNat) (hw : w.length = size.toNat)
    (hb : bytes S1 = d ++ w ++ List.replicate (B - D - size).toNat 0)
    (hr : PushEnd S1 (D + size) size = some (off, S2)) :
    Inv S2 ∧ off = D ∧ S2.DataSize = D + size ∧ data S2 = d ++ w := by
  subst hD hBS
  have key : ∀ e : Int, 0 ≤ e →
      S2 = { S1 with DataSize := S1.DataSize + size, NumEntries := e } →
      Inv S2 ∧ S2.DataSize = S1.DataSize + size ∧ data S2 = d ++ w := by
    intro e he e2
    have hI : Inv S2 := by
      rw [e2]
      refine ⟨by show 0 ≤ S1.DataSize + size; omega, hB, he, d ++ w, ?_, ?_⟩
      · rw [List.length_append, hd, hw]
        show _ = (S1.DataSize + size).toNat
        omega
      · show bytes S1 = _
        rw [hb]
        congr 2
        show _ = (S1.BufferSize - (S1.DataSize + size)).toNat
        omega
    have hD : S2.DataSize = S1.DataSize + size := by rw [e2]
    refine ⟨hI, hD, ?_⟩
    unfold data
    have eb : bytes S2 = bytes S1 := by rw [e2]; rfl
    rw [eb, hb, hD, List.take_left' (by rw [List.length_append, hd, hw]; omega)]
  unfold PushEnd at hr
  split at hr
  · cases h1 : int (S1.NumEntries + 1) with
    | none => rw [h1] at hr; simp at hr
    | some e =>
      rw [h1] at hr
      simp only [Option.some.injEq, Prod.mk.injEq] at hr
      obtain ⟨rfl, _, _⟩ := int_eq_some h1
      obtain ⟨k1, k2, k3⟩ := key _ (by omega) hr.2.symm
      exact ⟨k1, hr.1.symm, k2, k3⟩
  · rename_i hz
    simp only [ne_eq, not_not] at hz
    simp only [Option.some.injEq, Prod.mk.injEq] at hr
    have e2 : S2 = { S1 with DataSize := S1.DataSize + size, NumEntries := S1.NumEntries } := by
      rw [← hr.2, hz, add_zero]
    obtain ⟨k1, k2, k3⟩ := key _ hN e2
    exact ⟨k1, hr.1.symm, k2, k3⟩

/-- What `Push` does in a pool in good order: it returns the old `DataSize`,
advances `DataSize` by `size`, and the data is the old data followed by the
`size` bytes at `obj`, or by `size` zero bytes when `obj` is null. -/
theorem Push_spec {S S1 : MixedPool} {obj : Option (List Nat)} {size off : Int} (h : Inv S)
    (hs : 0 ≤ size) (hr : Push S obj size = some (off, S1)) :
    Inv S1 ∧ off = S.DataSize ∧ S1.DataSize = S.DataSize + size ∧
      data S1 = data S ++ pushed obj size := by
  obtain ⟨h0, hB, hN, d, hd, hb⟩ := id h
  have hdd : data S = d := by
    unfold data
    rw [hb, List.take_left' hd]
  have hA : AllocateSpace = 1024 := rfl
  -- the three ways in which the bytes are laid out before `PushEnd`
  have zer : ∀ (B : Int), S.DataSize + size ≤ B →
      d ++ List.replicate (B - S.DataSize).toNat 0
        = d ++ List.replicate size.toNat 0
          ++ List.replicate (B - S.DataSize - size).toNat 0 := by
    intro B hle
    rw [List.append_assoc, ← List.replicate_add]
    congr 2
    omega
  unfold Push at hr
  cases h1 : int (S.DataSize + size) with
  | none => rw [h1] at hr; simp at hr
  | some NewOffset =>
    rw [h1] at hr
    simp only [] at hr
    obtain ⟨rfl, _, _⟩ := int_eq_some h1
    split at hr
    · rename_i hgt
      cases h2 : int ((S.DataSize + size) * 2) with
      | none => rw [h2] at hr; simp at hr
      | some t =>
        rw [h2] at hr
        simp only [] at hr
        obtain ⟨rfl, _, _⟩ := int_eq_some h2
        cases h3 : int ((S.DataSize + size) * 2 + AllocateSpace) with
        | none => rw [h3] at hr; simp at hr
        | some t =>
          rw [h3] at hr
          simp only [] at hr
          obtain ⟨rfl, _, _⟩ := int_eq_some h3
          cases h4 : int ((S.DataSize + size) * 2 + AllocateSpace + 15) with
          | none => rw [h4] at hr; simp at hr
          | some t =>
            rw [h4] at hr
            simp only [] at hr
            obtain ⟨rfl, _, _⟩ := int_eq_some h4
            have hb1 := and16_bounds ((S.DataSize + size) * 2 + AllocateSpace + 15)
            rw [newBuffer_Inv h _ (by omega)] at hr
            simp only [] at hr
            have eB : bytes S ++ List.replicate
                (and16 ((S.DataSize + size) * 2 + AllocateSpace + 15) - S.BufferSize).toNat 0
                = d ++ List.replicate
                  (and16 ((S.DataSize + size) * 2 + AllocateSpace + 15) - S.DataSize).toNat 0 := by
              rw [hb, List.append_assoc, ← List.replicate_add]
              congr 2
              omega
            rw [eB] at hr
            cases obj with
            | none =>
              simp only [] at hr
              have e := PushEnd_spec { S with
                  buffer := some _, BufferSize := and16 _ } (d := d)
                (w := List.replicate size.toNat 0) (D := S.DataSize)
                (B := and16 ((S.DataSize + size) * 2 + AllocateSpace + 15)) rfl rfl h0 hs (by omega) hN hd
                (by simp) (by
                  show d ++ _ = _
                  exact zer _ (by omega)) hr
              rw [hdd]
              exact e
            | some o =>
              simp only [] at hr
              split at hr
              · cases h5 : memcpyAt (d ++ List.replicate
                    (and16 ((S.DataSize + size) * 2 + AllocateSpace + 15) - S.DataSize).toNat 0)
                    S.DataSize o size with
                | none => rw [h5] at hr; simp at hr
                | some b2 =>
                  rw [h5] at hr
                  simp only [] at hr
                  obtain ⟨_, m2, m3, m4⟩ := memcpyAt_tail hd.symm h5
                  have e := PushEnd_spec { S with
                      buffer := some b2, BufferSize := and16 _ } (d := d)
                    (w := o.take size.toNat) (D := S.DataSize)
                    (B := and16 ((S.DataSize + size) * 2 + AllocateSpace + 15)) rfl rfl h0 hs (by omega) hN hd m3 (by
                      show b2 = _
                      rw [m4]
                      congr 2
                      omega) hr
                  rw [hdd]
                  exact e
              · rename_i hz
                simp only [ne_eq, not_not] at hz
                omega
    · rename_i hle
      have key0 : PushEnd S (S.DataSize + size) size = some (off, S1) →
          Inv S1 ∧ off = S.DataSize ∧ S1.DataSize = S.DataSize + size ∧
            data S1 = d ++ List.replicate size.toNat 0 := fun hr =>
        PushEnd_spec S rfl rfl h0 hs (by omega) hN hd (by simp)
          (by rw [hb]; exact zer _ (by omega)) hr
      cases obj with
      | none =>
        simp only [] at hr
        rw [hdd]
        exact key0 hr
      | some o =>
        simp only [] at hr
        split at hr
        · cases hbuf : S.buffer with
          | none => rw [hbuf] at hr; simp at hr
          | some b =>
            rw [hbuf] at hr
            simp only [] at hr
            have eb : bytes S = b := by unfold bytes; rw [hbuf]; rfl
            rw [eb] at hb
            rw [hb] at hr
            cases h5 : memcpyAt (d ++ List.replicate (S.BufferSize - S.DataSize).toNat 0)
                S.DataSize o size with
            | none => rw [h5] at hr; simp at hr
            | some b2 =>
              rw [h5] at hr
              simp only [] at hr
              obtain ⟨_, m2, m3, m4⟩ := memcpyAt_tail hd.symm h5
              have e := PushEnd_spec { S with buffer := some b2 } (d := d)
                (w := o.take size.toNat) (D := S.DataSize) (B := S.BufferSize) rfl rfl h0 hs
                (by omega) hN hd m3 (by
                  show b2 = _
                  rw [m4]
                  congr 2
                  omega) hr
              rw [hdd]
              exact e
        · rename_i hz
          simp only [ne_eq, not_not] at hz
          have e := key0 hr
          rw [hdd, hz]
          rw [hz] at e
          show _ ∧ _ ∧ _ ∧ _ = d ++ List.take (0 : Int).toNat o
          simpa using e

theorem PushEnd_returns (S : MixedPool) (NewOffset size : Int) (h0 : 0 ≤ S.NumEntries)
    (hN : S.NumEntries < 2147483647) : ∃ off S1, PushEnd S NewOffset size = some (off, S1) := by
  unfold PushEnd
  split
  · rw [int_of_range (by omega) (by omega)]
    exact ⟨_, _, rfl⟩
  · exact ⟨_, _, rfl⟩

/-- In a pool in good order `Push` returns, when `obj` has `size` bytes and
the sizes stay in the range of `int`. -/
theorem Push_returns {S : MixedPool} (h : Inv S) (obj : Option (List Nat)) (size : Int)
    (hs : 0 ≤ size) (hobj : ∀ o, obj = some o → size.toNat ≤ o.length)
    (hmax : 2 * (S.DataSize + size) + 1039 ≤ 2147483647) (hN : S.NumEntries < 2147483647) :
    ∃ off S1, Push S obj size = some (off, S1) := by
  have hl := length_bytes h
  obtain ⟨h0, hB, hN0, d, hd, hb⟩ := id h
  have hA : AllocateSpace = 1024 := rfl
  unfold Push
  rw [int_of_range (by omega) (by omega)]
  simp only []
  split
  · rw [int_of_range (by omega) (by omega)]
    simp only []
    rw [int_of_range (by omega) (by omega)]
    simp only []
    rw [int_of_range (by omega) (by omega)]
    simp only []
    have hb1 := and16_bounds ((S.DataSize + size) * 2 + AllocateSpace + 15)
    rw [newBuffer_Inv h _ (by omega)]
    simp only []
    cases obj with
    | none => exact PushEnd_returns _ _ _ hN0 hN
    | some o =>
      simp only []
      split
      · unfold memcpyAt
        rw [if_pos ⟨h0, hs, hobj o rfl, by
          rw [List.length_append, List.length_replicate]
          omega⟩]
        exact PushEnd_returns _ _ _ hN0 hN
      · exact PushEnd_returns _ _ _ hN0 hN
  · cases obj with
    | none => exact PushEnd_returns _ _ _ hN0 hN
    | some o =>
      simp only []
      split
      · cases hbuf : S.buffer with
        | none =>
          have e : bytes S = [] := by unfold bytes; rw [hbuf]; rfl
          rw [e] at hl
          simp only [List.length_nil] at hl
          omega
        | some b =>
          have e : bytes S = b := by unfold bytes; rw [hbuf]; rfl
          rw [e] at hl
          simp only []
          unfold memcpyAt
          rw [if_pos ⟨h0, hs, hobj o rfl, by omega⟩]
          exact PushEnd_returns _ _ _ hN0 hN
      · exact PushEnd_returns _ _ _ hN0 hN

/-- With `a >= 1`, `Align(a)` keeps a pool in good order: the data size does
not shrink. -/
theorem Align_Inv {S S1 : MixedPool} (h : Inv S) (a : Int) (ha : 1 ≤ a)
    (hr : Align S a = some S1) : Inv S1 := by
  have h0 := h.1
  have hB := h.2.1
  have hN := h.2.2.1
  have hA : AllocateSpace = 1024 := rfl
  unfold Align at hr
  cases h1 : int (S.DataSize + a) with
  | none => rw [h1] at hr; simp at hr
  | some t =>
    rw [h1] at hr
    simp only [] at hr
    obtain ⟨rfl, _, _⟩ := int_eq_some h1
    cases h2 : int (S.DataSize + a - 1) with
    | none => rw [h2] at hr; simp at hr
    | some t =>
      rw [h2] at hr
      simp only [] at hr
      obtain ⟨rfl, _, _⟩ := int_eq_some h2
      rw [if_neg (by omega)] at hr
      rw [Int.tdiv_eq_ediv (by omega) (by omega)] at hr
      have q1 := Int.ediv_mul_le (S.DataSize + a - 1) (show a ≠ 0 by omega)
      have q2 := Int.lt_ediv_add_one_mul_self (S.DataSize + a - 1) (show 0 < a by omega)
      rw [add_mul, one_mul] at q2
      cases h3 : int ((S.DataSize + a - 1) / a) with
      | none => rw [h3] at hr; simp at hr
      | some q =>
        rw [h3] at hr
        simp only [] at hr
        obtain ⟨rfl, _, _⟩ := int_eq_some h3
        cases h4 : int ((S.DataSize + a - 1) / a * a) with
        | none => rw [h4] at hr; simp at hr
        | some n =>
          rw [h4] at hr
          simp only [] at hr
          obtain ⟨rfl, _, _⟩ := int_eq_some h4
          generalize (S.DataSize + a - 1) / a * a = n at hr q1 q2
          split at hr
          · cases h5 : int (n * 2) with
            | none => rw [h5] at hr; simp at hr
            | some r =>
              rw [h5] at hr
              simp only [] at hr
              obtain ⟨rfl, _, _⟩ := int_eq_some h5
              cases h6 : int (n * 2 + AllocateSpace) with
              | none => rw [h6] at hr; simp at hr
              | some r =>
                rw [h6] at hr
                simp only [] at hr
                obtain ⟨rfl, _, _⟩ := int_eq_some h6
                have hb1 := and16_bounds (n * 2 + AllocateSpace + 15)
                cases h7 : ReserveSize S (n * 2 + AllocateSpace) with
                | none => rw [h7] at hr; simp at hr
                | some S2 =>
                have h8 := ReserveSize_range (by omega) h7
                rw [ReserveSize_grow h _ (by omega) h8] at hr
                simp only [Option.some.injEq] at hr
                exact (Inv_extend S1 h (by rw [← hr]; show S.DataSize ≤ n; omega)
                  (by rw [← hr]; show S.BufferSize ≤ and16 _; omega)
                  (by rw [← hr]; show n ≤ and16 _; omega) (by rw [← hr]; exact hN)
                  (by rw [← hr]; rfl)).1
          · simp only [Option.some.injEq] at hr
            exact (Inv_extend S1 h (by rw [← hr]; show S.DataSize ≤ n; omega)
              (by rw [← hr])
              (by rw [← hr]; show n ≤ S.BufferSize; omega) (by rw [← hr]; exact hN)
              (by rw [← hr]; show bytes S = bytes S ++ List.replicate (S.BufferSize - S.BufferSize).toNat 0
                  simp)).1

theorem Inv_fresh : Inv fresh :=
  ⟨le_refl _, le_refl _, le_refl _, [], rfl, rfl⟩

/-- Every state reached by `Push` (`size >= 0`), `SetDataSize`, `ReserveSize`
and `Align` with `a >= 1` is in good order. -/
theorem ReachableBy_Inv {S : MixedPool} (h : ReachableBy (fun a => 1 ≤ a) S) : Inv S := by
  induction h with
  | fresh => exact Inv_fresh
  | push S S1 obj size off _ hs hr ih => exact (Push_spec ih hs hr).1
  | setDataSize S S1 size _ hr ih => exact (SetDataSize_spec ih size hr).1
  | align S S1 a _ ha hr ih => exact Align_Inv ih a ha hr
  | reserveSize S S1 size _ hr ih => exact ReserveSize_Inv ih size hr

/-- C23 (amended): in every state reached by `Push` (`size >= 0`),
`SetDataSize`, `ReserveSize` and `Align` with an argument `a >= 1`, all
buffer bytes in `[DataSize, BufferSize)` are zero; `SetDataSize(size)` with
`size > DataSize` returns with `DataSize == size`, the bytes
`[0, old DataSize)` unchanged and the bytes `[old DataSize, size)` zero; and
pushing `size - DataSize` zero bytes - from a null pointer or from a block
of zeroes - returns a pool with the same data. -/
theorem C23_setDataSize_growth_pushes_zeroes (S : MixedPool) (size : Int)
    (hS : ReachableBy (fun a => 1 ≤ a) S) (hsize : S.DataSize < size)
    (hmax : size + 1039 ≤ 2147483647) :
    vacant S = List.replicate (S.BufferSize - S.DataSize).toNat 0 ∧
    ∃ S1, SetDataSize S size = some S1 ∧ S1.DataSize = size ∧
      data S1 = data S ++ List.replicate (size - S.DataSize).toNat 0 ∧
      (2 * size + 1039 ≤ 2147483647 → S.NumEntries < 2147483647 →
        ∀ obj, obj = none ∨ obj = some (List.replicate (size - S.DataSize).toNat 0) →
          ∃ off S2, Push S obj (size - S.DataSize) = some (off, S2) ∧
            S2.DataSize = S1.DataSize ∧ data S2 = data S1) := by
  have hI := ReachableBy_Inv hS
  refine ⟨vacant_eq hI, ?_⟩
  obtain ⟨S1, h1⟩ := SetDataSize_returns hI size (by omega) hmax
  obtain ⟨_, s2, s3⟩ := SetDataSize_spec hI size h1
  refine ⟨S1, h1, s2, s3 (by omega), ?_⟩
  intro hm hN obj hobj
  obtain ⟨off, S2, h2⟩ := Push_returns hI obj (size - S.DataSize) (by omega)
    (by
      intro o ho
      rcases hobj with e | e
      · rw [e] at ho
        cases ho
      · rw [e] at ho
        cases ho
        rw [List.length_replicate])
    (by omega) hN
  obtain ⟨_, _, p3, p4⟩ := Push_spec hI (by omega) h2
  refine ⟨off, S2, h2, by rw [p3, s2]; omega, ?_⟩
  rw [p4, s3 (by omega)]
  rcases hobj with e | e
  · rw [e]
    rfl
  · rw [e]
    show _ ++ List.take _ _ = _
    rw [List.take_of_length_le (by rw [List.length_replicate])]

theorem C23_setDataSize_growth_pushes_zeroes_witness :
    ReachableBy (fun a => 1 ≤ a) fourBytes ∧ fourBytes.DataSize < 6 ∧
      ∃ S1, SetDataSize fourBytes 6 = some S1 ∧ S1.DataSize = 6 ∧
        data S1 = [1, 2, 3, 4, 0, 0] ∧
        ∃ off S2, Push fourBytes none (6 - fourBytes.DataSize) = some (off, S2) ∧
          data S2 = data S1 :=
  have hR : ReachableBy (fun a => 1 ≤ a) fourBytes :=
    ReachableBy.push fresh fourBytes (some [1, 2, 3, 4]) 4 0 ReachableBy.fresh (by decide)
      (by decide!)
  have hD : fourBytes.DataSize < 6 := by decide!
  have hN : fourBytes.NumEntries < 2147483647 := by decide!
  ⟨hR, hD,
    let ⟨S1, h1, h2, h3, h4⟩ :=
      (C23_setDataSize_growth_pushes_zeroes fourBytes 6 hR hD (by decide)).2
    let ⟨off, S2, h5, _, h6⟩ := h4 (by decide) hN none (Or.inl rfl)
    ⟨S1, h1, h2, h3.trans (by decide!), off, S2, h5, h6⟩⟩

end MixedPool

namespace StringPoolL

open StringElement

/-! ### Where `Allocate` puts a record, and what the write leaves there -/

theorem u32_of_lt {x : Nat} (h : x < 4294967296) : u32 x = x := by
  unfold u32
  omega

theorem offsetAt_inv {P : Pool} {i : Int} {v : Nat} (h : offsetAt P i = .ok v) :
    ∃ o, P.Offsets = some o ∧ 0 ≤ i ∧ i.toNat < o.length ∧ o.get? i.toNat = some v := by
  unfold offsetAt at h
  cases ho : P.Offsets with
  | none => rw [ho] at h; simp at h
  | some o =>
    rw [ho] at h
    simp only [] at h
    split at h
    · simp at h
    · cases hg : o.get? i.toNat with
      | none => rw [hg] at h; simp at h
      | some x =>
        rw [hg] at h
        simp only [Except.ok.injEq] at h
        subst h
        refine ⟨o, rfl, by omega, ?_, hg⟩
        exact (List.get?_eq_some.mp hg).1

theorem offsetAt_of {P : Pool} {i : Int} {v : Nat} {o : List Nat} (ho : P.Offsets = some o)
    (hi : 0 ≤ i) (hg : o.get? i.toNat = some v) : offsetAt P i = .ok v := by
  unfold offsetAt
  rw [ho]
  simp only []
  rw [if_neg (by omega), hg]

theorem setOffset_of {P : Pool} {i : Int} {o : List Nat} (x : Nat) (ho : P.Offsets = some o)
    (hi : 0 ≤ i) (hl : i.toNat < o.length) :
    setOffset P i x = .ok { P with Offsets := some (o.set i.toNat x) } := by
  unfold setOffset
  rw [ho]
  simp only []
  rw [if_neg (by omega), if_pos hl]

theorem pure_bind_result {α β : Type} (a : α) (f : α → Result β) :
    (pure a : Result α) >>= f = f a := rfl

theorem AllocateAtEnd_fits {P : Pool} {i : Int} {o : List Nat} (len : Nat)
    (ho : P.Offsets = some o) (hi : 0 ≤ i) (hl : i.toNat < o.length)
    (hfit : P.DataSize + 3 + len ≤ P.BufferSize) (h32 : P.BufferSize < 4294967296) :
    AllocateAtEnd P i len = .ok ({ P with
      Top := P.DataSize, Offsets := some (o.set i.toNat P.DataSize),
      DataSize := P.DataSize + (3 + len) }, P.DataSize, false) := by
  unfold AllocateAtEnd
  have e1 : u32 (P.DataSize + sizeofLengthType + 1 + len) = P.DataSize + 3 + len := by
    unfold sizeofLengthType
    exact (u32_of_lt (by omega)).trans (by omega)
  have e2 : u32 (P.DataSize + (sizeofLengthType + 1 + len)) = P.DataSize + (3 + len) := by
    unfold sizeofLengthType
    exact (u32_of_lt (by omega)).trans (by omega)
  simp only [e1]
  have e3 : decide (P.DataSize + 3 + len > P.BufferSize) = false := by
    rw [decide_eq_false_iff_not]
    omega
  rw [e3]
  simp only [Bool.false_eq_true, if_false, pure_bind_result]
  rw [setOffset_of (P := { P with Top := P.DataSize }) P.DataSize ho hi hl]
  simp only [ok_bind]
  rw [e2]

/-- `Allocate` for a handle whose record is the last one, when the longer
record still fits the buffer: the record stays where it is. -/
theorem Allocate_tail {P : Pool} {i : Int} (len : Nat) (hoff : offsetAt P i = .ok P.Top)
    (htop : P.Top ≠ 0) (hfit : P.Top + 3 + len ≤ P.BufferSize)
    (h32 : P.BufferSize < 4294967296) :
    Allocate P i len
      = .ok ({ P with DataSize := P.Top + 3 + len }, P.Top, false) := by
  unfold Allocate
  rw [hoff]
  simp only [ok_bind]
  rw [if_pos htop, if_pos trivial]
  have e1 : u32 (P.Top + sizeofLengthType + 1 + len) = P.Top + 3 + len := by
    unfold sizeofLengthType
    exact (u32_of_lt (by omega)).trans (by omega)
  simp only [e1]
  have e3 : decide (P.Top + 3 + len > P.BufferSize) = false := by
    rw [decide_eq_false_iff_not]
    omega
  rw [e3]
  simp only [Bool.false_eq_true, if_false, pure_bind_result]
  rw [e1]

/-- `Allocate` for a handle whose record is not the last one and is long
enough: the record is used again, and the bytes it no longer needs are
counted as garbage. -/
theorem Allocate_reuse {P : Pool} {i : Int} {off oldLen : Nat} (len : Nat)
    (hoff : offsetAt P i = .ok off) (h0 : off ≠ 0) (htop : off ≠ P.Top)
    (hlen : Len P i = .ok oldLen) (hle : len ≤ oldLen) :
    Allocate P i len
      = .ok ({ P with GarbageSize := u32 (P.GarbageSize + (oldLen - len)) }, off, false) := by
  unfold Allocate
  rw [hoff]
  simp only [ok_bind]
  rw [if_pos h0, if_neg htop, hlen]
  simp only [ok_bind]
  rw [if_pos (by omega)]

/-- `Allocate` for a handle whose record is not the last one and is too
short, when the new record fits the buffer: the old record becomes garbage
and the new one is put at the end of the data. -/
theorem Allocate_relocate {P : Pool} {i : Int} {off oldLen : Nat} {o : List Nat} (len : Nat)
    (hoff : offsetAt P i = .ok off) (h0 : off ≠ 0) (htop : off ≠ P.Top)
    (hlen : Len P i = .ok oldLen) (hlt : oldLen < len) (ho : P.Offsets = some o)
    (hfit : P.DataSize + 3 + len ≤ P.BufferSize) (h32 : P.BufferSize < 4294967296) :
    Allocate P i len = .ok ({ P with
      GarbageSize := u32 (P.GarbageSize + (oldLen + 3)),
      Top := P.DataSize, Offsets := some (o.set i.toNat P.DataSize),
      DataSize := P.DataSize + (3 + len) }, P.DataSize, false) := by
  obtain ⟨o2, ho2, hi, hl, _⟩ := offsetAt_inv hoff
  rw [ho] at ho2
  cases ho2
  unfold Allocate
  rw [hoff]
  simp only [ok_bind]
  rw [if_pos h0, if_neg htop, hlen]
  simp only [ok_bind]
  rw [if_neg (by omega)]
  exact AllocateAtEnd_fits (P := { P with
    GarbageSize := u32 (P.GarbageSize + (oldLen + sizeofLengthType + 1)) }) len ho hi hl hfit h32

/-- `Allocate` for an empty handle, when the new record fits the buffer: the
record is put at the end of the data. -/
theorem Allocate_empty {P : Pool} {i : Int} {o : List Nat} (len : Nat)
    (hoff : offsetAt P i = .ok 0) (ho : P.Offsets = some o)
    (hfit : P.DataSize + 3 + len ≤ P.BufferSize) (h32 : P.BufferSize < 4294967296) :
    Allocate P i len = .ok ({ P with
      Top := P.DataSize, Offsets := some (o.set i.toNat P.DataSize),
      DataSize := P.DataSize + (3 + len) }, P.DataSize, false) := by
  obtain ⟨o2, ho2, hi, hl, _⟩ := offsetAt_inv hoff
  rw [ho] at ho2
  cases ho2
  unfold Allocate
  rw [hoff]
  simp only [ok_bind]
  rw [if_neg (by simp)]
  exact AllocateAtEnd_fits len ho hi hl hfit h32

theorem record_split (b : Mem) (p n : Nat) (h : p + (n + 3) ≤ b.length) :
    ∃ (A : Mem) (x y : Cell) (X B : Mem), b = A ++ x :: y :: (X ++ B) ∧ A.length = p ∧
      X.length = n + 1 ∧ A = b.take p ∧ B = b.drop (p + (n + 3)) ∧
      X = (b.drop (p + 2)).take (n + 1) := by
  have h1 : b = b.take p ++ b.drop p := (List.take_append_drop p b).symm
  have hl : (b.drop p).length = b.length - p := List.length_drop p b
  cases hr : b.drop p with
  | nil => rw [hr] at hl; simp only [List.length_nil] at hl; omega
  | cons x r1 =>
    cases r1 with
    | nil => rw [hr] at hl; simp only [List.length_cons, List.length_nil] at hl; omega
    | cons y r2 =>
      rw [hr] at hl
      simp only [List.length_cons] at hl
      have e2 : b.drop (p + 2) = r2 := by
        rw [← List.drop_drop, hr]
        rfl
      refine ⟨b.take p, x, y, r2.take (n + 1), r2.drop (n + 1), ?_, ?_, ?_, rfl, ?_, ?_⟩
      · rw [List.take_append_drop, ← hr, List.take_append_drop]
      · rw [List.length_take]
        omega
      · rw [List.length_take]
        omega
      · show r2.drop (n + 1) = _
        rw [← e2, List.drop_drop]
        congr 1
        omega
      · rw [e2]

theorem putRecord_split (A X B : Mem) (x y : Cell) (p : Nat) (s : List Nat) (hA : A.length = p)
    (hX : X.length = s.length + 1) :
    putRecord (A ++ x :: y :: (X ++ B)) p s = A ++ recordCells s.length s ++ B := by
  unfold putRecord
  subst hA
  rw [List.take_left, show A.length + (s.length + 3) = A.length + (X.length + 2) by omega,
    List.drop_append]
  show A ++ recordCells _ _ ++ List.drop X.length (X ++ B) = _
  rw [List.drop_left]

theorem SetIndex_valid {P : Pool} {h : Int} (h0 : 0 ≤ h) (hN : h < P.Num) :
    SetIndex P h = .ok P := by
  unfold SetIndex
  rw [if_neg (by omega), if_neg (by omega)]

theorem memcpySource_mem (P : Pool) (moved : Bool) (block : List Nat) (dst n : Nat) :
    memcpySource P moved (.mem block) dst n = readCells (block.map some) 0 n := by
  unfold memcpySource overlaps PChar.read PChar.deref
  simp only [Bool.false_eq_true, if_false, ok_bind]

/-- The bytes that `Set(h, s)` leaves in the buffer, given where `Allocate`
puts the record. -/
theorem Set_of_Allocate {P P1 : Pool} {h : Int} {s : List Nat} {p : Nat} {b : Mem}
    {moved : Bool}
    (h0 : 0 ≤ h) (hN : h < P.Num) (hs : ∀ x ∈ s, x ≠ 0) (hL1 : 1 ≤ s.length)
    (hL2 : s.length ≤ 65535) (hA : Allocate P h s.length = .ok (P1, p, moved))
    (hb : P1.Buffer = some b) (hp : p + (s.length + 3) ≤ b.length) :
    Set P h (cstr s)
      = .ok { P1 with Buffer := some (putRecord b p s), OldBuffer := none } := by
  obtain ⟨A, x, y, X, B, rfl, hAl, hXl, _, _, _⟩ := record_split b p s.length hp
  rw [putRecord_split A X B x y p s hAl hXl]
  unfold Set
  rw [SetIndex_valid h0 hN]
  simp only [ok_bind]
  rw [strlen_cstr _ s hs]
  simp only [ok_bind]
  rw [if_neg (show ¬ s.length = 0 by omega),
    if_neg (show ¬ s.length > maxLength by unfold maxLength; omega),
    u32_of_lt (show s.length < 4294967296 by omega), hA]
  simp only [ok_bind]
  rw [hb]
  simp only []
  rw [writeU16_append A (X ++ B) x y p _ hAl.symm]
  simp only [ok_bind]
  unfold cstr
  rw [memcpySource_mem]
  have hr : readCells ((s ++ [0]).map some) 0 (s.length + 1) = .ok (s.map some ++ [some 0]) := by
    unfold readCells
    rw [if_pos (by simp)]
    simp
  rw [hr]
  simp only [ok_bind]
  have hw := writeCells_append (A ++ [some (u16 s.length % 256), some (u16 s.length / 256 % 256)])
    (X ++ B) (s.map some ++ [some 0]) (p + sizeofLengthType)
    (by simp [sizeofLengthType, hAl]) (by simp; omega)
  simp only [List.append_assoc, List.cons_append, List.nil_append] at hw
  rw [hw]
  simp only [ok_bind]
  have hu : u16 s.length = s.length := by unfold u16; omega
  have hd : List.drop (s.map some ++ [some 0]).length (X ++ B) = B := by
    have e : (s.map some ++ [some 0]).length = X.length := by
      simp only [List.length_append, List.length_map, List.length_singleton]
      omega
    rw [e, List.drop_left]
  rw [hu, hd]
  simp [recordCells]

theorem u16_bytes (n : Nat) : u16 n % 256 = n % 256 ∧ u16 n / 256 % 256 = n / 256 % 256 := by
  unfold u16
  omega

/-- The bytes that `Set(h, block, len)` leaves in the buffer, given where
`Allocate` puts the record. -/
theorem SetN_of_Allocate {P P1 : Pool} {h : Int} {block : List Nat} {len p : Nat} {b : Mem}
    {moved : Bool}
    (h0 : 0 ≤ h) (hN : h < P.Num) (hL1 : 1 ≤ len) (hl : len ≤ block.length)
    (hA : Allocate P h len = .ok (P1, p, moved))
    (hb : P1.Buffer = some b) (hp : p + (len + 3) ≤ b.length) :
    SetN P h (.mem block) len
      = .ok { P1 with Buffer := some (putRecord b p (block.take len)), OldBuffer := none } := by
  have hsl : (block.take len).length = len := by
    rw [List.length_take]
    omega
  obtain ⟨A, x, y, X, B, rfl, hAl, hXl, _, _, _⟩ := record_split b p len hp
  rw [putRecord_split A X B x y p _ hAl (by rw [hsl]; exact hXl)]
  unfold SetN
  rw [SetIndex_valid h0 hN]
  simp only [ok_bind]
  rw [if_neg (show ¬ len ≤ 0 by omega), hA]
  simp only [ok_bind]
  rw [hb]
  simp only []
  rw [writeU16_append A (X ++ B) x y p _ hAl.symm]
  simp only [ok_bind]
  rw [memcpySource_mem]
  have hr : readCells (block.map some) 0 len = .ok ((block.take len).map some) := by
    unfold readCells
    rw [if_pos (by simp; omega)]
    simp [List.map_take]
  rw [hr]
  simp only [ok_bind]
  have hw := writeCells_append (A ++ [some (u16 len % 256), some (u16 len / 256 % 256)])
    (X ++ B) ((block.take len).map some) (p + sizeofLengthType)
    (by simp [sizeofLengthType, hAl]) (by simp; omega)
  simp only [List.append_assoc, List.cons_append, List.nil_append] at hw
  rw [hw]
  simp only [ok_bind]
  have hw2 := writeCells_append
    (A ++ some (u16 len % 256) :: some (u16 len / 256 % 256) :: (block.take len).map some)
    (List.drop ((block.take len).map some).length (X ++ B)) [some 0] (p + (len + sizeofLengthType))
    (by simp [sizeofLengthType, hAl]; omega) (by simp; omega)
  simp only [List.append_assoc, List.cons_append, List.nil_append] at hw2
  rw [hw2]
  simp only [ok_bind]
  have hd : List.drop [some (0 : Nat)].length (List.drop ((block.take len).map some).length (X ++ B))
      = B := by
    rw [List.drop_drop]
    have e : ((block.take len).map some).length + [some (0 : Nat)].length = X.length := by
      simp only [List.length_map, List.length_singleton, hsl]
      omega
    rw [e, List.drop_left]
  rw [hd, (u16_bytes len).1, (u16_bytes len).2, hsl]
  simp [recordCells]

theorem read_pool (m : Mem) (q n : Nat) :
    (PChar.pool q).read (some m) n = readCells m q n := by
  unfold PChar.read PChar.deref readCells
  simp only []
  by_cases h : q + n ≤ m.length
  · rw [if_pos (show q ≤ m.length by omega)]
    simp only [ok_bind, List.length_drop]
    rw [if_pos (by omega), if_pos h]
    rfl
  · rw [if_neg h]
    by_cases h2 : q ≤ m.length
    · rw [if_pos h2]
      simp only [ok_bind, List.length_drop]
      rw [if_neg (by omega)]
    · rw [if_neg h2]
      rfl

theorem readCells_length {m : Mem} {q n : Nat} {cells : List Cell}
    (h : readCells m q n = .ok cells) : cells.length = n ∧ q + n ≤ m.length := by
  unfold readCells at h
  split at h
  · simp only [Except.ok.injEq] at h
    subst h
    rw [List.length_take, List.length_drop]
    omega
  · simp at h

/-- What a handle with payload `cells` says about the pool. -/
theorem payload_inv {P : Pool} {h : Int} {cells : List Cell} (hc : payload P h = .ok cells) :
    ∃ off b, offsetAt P h = .ok off ∧ P.Buffer = some b ∧ Len P h = .ok cells.length ∧
      toUnsigned h < toUnsigned P.Num ∧ Get P h = .ok (2 + off) ∧
      readCells b (2 + off) cells.length = .ok cells := by
  unfold payload at hc
  simp only [bind_ok_iff] at hc
  obtain ⟨len, h1, q, h2, h3⟩ := hc
  have hv := (Len_range h1).1
  have h1c := h1
  unfold Len at h1
  rw [if_neg (by omega)] at h1
  simp only [bind_ok_iff] at h1
  obtain ⟨off, h4, h5⟩ := h1
  unfold Get at h2
  rw [if_neg (by omega), h4] at h2
  simp only [ok_bind, Except.ok.injEq] at h2
  cases hb : P.Buffer with
  | none => rw [hb] at h5; simp at h5
  | some b =>
    rw [hb, read_pool] at h3
    have hl := (readCells_length h3).1
    subst h2
    subst hl
    unfold sizeofLengthType at h3
    exact ⟨off, b, h4, rfl, h1c, hv, by
      unfold Get
      rw [if_neg (by omega), h4]
      rfl, h3⟩

theorem readCells_header (A X : Mem) (x y lo hi : Cell) (a n : Nat)
    (h : a + n ≤ A.length ∨ A.length + 2 ≤ a) :
    readCells (A ++ lo :: hi :: X) a n = readCells (A ++ x :: y :: X) a n := by
  unfold readCells
  simp only [List.length_append, List.length_cons]
  by_cases hf : a + n ≤ A.length + (X.length + 1 + 1)
  · rw [if_pos hf, if_pos hf]
    rcases h with h | h
    · rw [List.drop_append_of_le_length (by omega), List.drop_append_of_le_length (by omega),
        List.take_append_of_le_length (by rw [List.length_drop]; omega),
        List.take_append_of_le_length (by rw [List.length_drop]; omega)]
    · obtain ⟨k, rfl⟩ : ∃ k, a = A.length + (k + 2) := ⟨a - A.length - 2, by omega⟩
      rw [List.drop_append, List.drop_append]
      rfl
  · rw [if_neg hf, if_neg hf]

theorem memcpySource_pool (P : Pool) (m : Mem) (q dst n : Nat) (hb : P.Buffer = some m)
    (h : q = dst ∨ dst + n ≤ q ∨ q + n ≤ dst) :
    memcpySource P false (.pool q) dst n = readCells m q n := by
  unfold memcpySource overlaps sourceBlock
  have e : (!false && decide (q ≠ dst) && decide (q < dst + n) && decide (dst < q + n)) = false := by
    simp only [Bool.not_false, Bool.true_and, Bool.and_eq_false_iff, decide_eq_false_iff_not]
    omega
  simp only [e, Bool.false_eq_true, if_false]
  rw [hb, read_pool]

/-- The bytes that `Concatenate(h, t)` leaves in the buffer, given where
`Allocate` puts the record, when the buffer is not replaced. -/
theorem Concatenate_of_Allocate {P P1 : Pool} {h : Int} {c t : List Nat} {off p : Nat} {b : Mem}
    (h0 : 0 ≤ h) (hN : h < P.Num)
    (hc : payload P h = .ok (c.map some)) (hoff : offsetAt P h = .ok off)
    (hbP : P.Buffer = some b) (ht : ∀ x ∈ t, x ≠ 0) (ht1 : 1 ≤ t.length)
    (hL2 : c.length + t.length ≤ 65535)
    (hA : Allocate P h (c.length + t.length) = .ok (P1, p, false))
    (hb : P1.Buffer = some b) (hp : p + (c.length + t.length + 3) ≤ b.length)
    (hov : c = [] ∨ p = off ∨ off + c.length + 2 ≤ p) :
    Concatenate P h (cstr t)
      = .ok { P1 with Buffer := some (putRecord b p (c ++ t)), OldBuffer := none } := by
  obtain ⟨off2, b2, q1, q2, q3, q4, q5, q6⟩ := payload_inv hc
  rw [hoff] at q1
  rw [hbP] at q2
  simp only [Except.ok.injEq, Option.some.injEq] at q1 q2
  subst q1 q2
  rw [List.length_map] at q3 q6
  unfold Concatenate
  rw [q3]
  simp only [ok_bind]
  rw [if_neg (cstr_ne_null t), strlen_cstr _ t ht]
  simp only [ok_bind]
  rw [if_neg (show ¬ t.length = 0 by omega),
    if_neg (show ¬ t.length > maxLength by unfold maxLength; omega),
    if_neg (show ¬ toUnsigned h ≥ toUnsigned P.Num by omega)]
  by_cases hc0 : c.length = 0
  · rw [if_pos hc0]
    have hcn : c = [] := List.eq_nil_of_length_eq_zero hc0
    subst hcn
    simp only [List.length_nil, Nat.zero_add, List.nil_append] at hA hp ⊢
    exact Set_of_Allocate h0 hN ht ht1 (by omega) hA hb hp
  · rw [if_neg hc0, q5]
    simp only [ok_bind]
    rw [u32_of_lt (show c.length + t.length < 4294967296 by omega), hA]
    simp only [ok_bind]
    have hsl : (c ++ t).length = c.length + t.length := List.length_append c t
    obtain ⟨A, x, y, X, B, rfl, hAl, hXl, _, _, _⟩ := record_split b p (c.length + t.length) hp
    rw [putRecord_split A X B x y p _ hAl (by rw [hsl]; exact hXl), hb]
    simp only []
    rw [writeU16_append A (X ++ B) x y p _ hAl.symm]
    simp only [ok_bind]
    have hov2 : p = off ∨ off + c.length + 2 ≤ p := by
      rcases hov with e | e
      · subst e
        exact absurd rfl hc0
      · exact e
    rw [memcpySource_pool _ _ (2 + off) (p + sizeofLengthType) c.length rfl (by
        unfold sizeofLengthType
        omega),
      readCells_header A (X ++ B) x y _ _ (2 + off) c.length (by omega), q6]
    simp only [ok_bind]
    have hw := writeCells_append
      (A ++ [some (u16 (c.length + t.length) % 256), some (u16 (c.length + t.length) / 256 % 256)])
      (X ++ B) (c.map some) (p + sizeofLengthType)
      (by simp [sizeofLengthType, hAl]) (by simp; omega)
    simp only [List.append_assoc, List.cons_append, List.nil_append] at hw
    rw [hw]
    simp only [ok_bind]
    unfold cstr
    rw [memcpySource_mem]
    have hr : readCells ((t ++ [0]).map some) 0 (t.length + 1) = .ok (t.map some ++ [some 0]) := by
      unfold readCells
      rw [if_pos (by simp)]
      simp
    rw [hr]
    simp only [ok_bind]
    have hw2 := writeCells_append
      (A ++ some (u16 (c.length + t.length) % 256) :: some (u16 (c.length + t.length) / 256 % 256)
        :: c.map some)
      (List.drop (c.map some).length (X ++ B)) (t.map some ++ [some 0])
      (p + sizeofLengthType + c.length)
      (by simp [sizeofLengthType, hAl]; omega) (by simp; omega)
    simp only [List.append_assoc, List.cons_append, List.nil_append] at hw2
    rw [hw2]
    simp only [ok_bind]
    have hd : List.drop (t.map some ++ [some 0]).length (List.drop (c.map some).length (X ++ B))
        = B := by
      rw [List.drop_drop]
      have e : (c.map some).length + (t.map some ++ [some 0]).length = X.length := by
        simp only [List.length_map, List.length_append, List.length_singleton]
        omega
      rw [e, List.drop_left]
    rw [hd, (u16_bytes _).1, (u16_bytes _).2, hsl]
    simp [recordCells]

/-- Reading a record back: the length, the payload, and the string when the
payload holds no zero byte. -/
theorem readback {Q : Pool} {h : Int} {b : Mem} {p : Nat} {s : List Nat}
    (hv : toUnsigned h < toUnsigned Q.Num) (hoff : offsetAt Q h = .ok p)
    (hQ : Q.Buffer = some (putRecord b p s)) (hp : p + (s.length + 3) ≤ b.length)
    (hs : s.length ≤ 65535) :
    Len Q h = .ok s.length ∧ payload Q h = .ok (s.map some) ∧
      ((∀ x ∈ s, x ≠ 0) → content Q h = .ok s) := by
  obtain ⟨A, x, y, X, B, rfl, hAl, hXl, _, _, _⟩ := record_split b p s.length hp
  rw [putRecord_split A X B x y p s hAl hXl] at hQ
  have hLen : Len Q h = .ok s.length := by
    unfold Len
    rw [if_neg (by omega), hoff]
    simp only [ok_bind]
    rw [hQ]
    simp only [recordCells, List.append_assoc, List.cons_append]
    rw [readU16_append A _ _ _ p hAl.symm, decode_length s.length hs]
  have hGet : Get Q h = .ok (2 + p) := by
    unfold Get
    rw [if_neg (by omega), hoff]
    rfl
  refine ⟨hLen, ?_, ?_⟩
  · unfold payload
    rw [hLen, hGet]
    simp only [ok_bind]
    rw [hQ, read_pool]
    have hr := readCells_append (A ++ [some (s.length % 256), some (s.length / 256 % 256)])
      (s.map some ++ [some 0] ++ B) (2 + p) s.length (by simp [hAl]; omega) (by simp)
    simp only [recordCells, List.append_assoc, List.cons_append, List.nil_append] at hr ⊢
    rw [hr]
    simp
  · intro h0
    unfold content
    rw [hGet]
    simp only [ok_bind]
    unfold PChar.string PChar.deref
    rw [hQ]
    simp only []
    have hd : List.drop (2 + p) (A ++ recordCells s.length s ++ B)
        = s.map some ++ some 0 :: B := by
      subst hAl
      rw [List.append_assoc, Nat.add_comm, List.drop_append]
      simp [recordCells]
    rw [if_pos (by
      simp only [List.length_append, recordCells, List.length_cons, List.length_map,
        List.length_singleton]
      omega), hd]
    simp only [ok_bind]
    rw [cstrCells_cstr s B h0]

/-! ### Tail growth across a compaction -/

/-- C26, failing input.  After `Set(1,"a"); Set(0,"b")` the record of
handle 0 is the last one (`Offsets[0] == Top == 7`) and `BufferSize` is 4099.
Assigning a string of 4090 characters to handle 0 needs `7 + 3 + 4090 = 4100`
bytes and calls `ReserveBuf`, which lays the records out in handle order and
leaves `Top` at the record of handle 1.  After the write `Offsets[0]` is 3,
not `Top` (7); handle 0 still has length 1 and reads "b"; and handle 1, which
read "a", reads the 4090 characters. -/
theorem C26_compaction_moves_tail_record :
    (runOps [(Set · 1 (cstr (bytes "a"))), (Set · 0 (cstr (bytes "b")))] >>= fun P =>
      pure (offsetAt P 0, P.Top, P.BufferSize)) = .ok (.ok 7, 7, 4099) ∧
    (runOps [(Set · 1 (cstr (bytes "a"))), (Set · 0 (cstr (bytes "b")))] >>= (content · 1))
      = .ok (bytes "a") ∧
    (runOps [(Set · 1 (cstr (bytes "a"))), (Set · 0 (cstr (bytes "b"))),
             (Set · 0 (cstr longString))] >>= fun P =>
      pure (offsetAt P 0, P.Top, Len P 0, P.DataSize)) = .ok (.ok 3, 7, .ok 1, 4100) ∧
    (runOps [(Set · 1 (cstr (bytes "a"))), (Set · 0 (cstr (bytes "b"))),
             (Set · 0 (cstr longString))] >>= (content · 0)) = .ok (bytes "b") ∧
    (runOps [(Set · 1 (cstr (bytes "a"))), (Set · 0 (cstr (bytes "b"))),
             (Set · 0 (cstr longString))] >>= (content · 1)) = .ok longString := by
  decide!

/-! ### Compaction -/

theorem block_split (m : Mem) (off n : Nat) (h : off + n ≤ m.length) :
    m = m.take off ++ ((m.drop off).take n ++ m.drop (off + n)) ∧ (m.take off).length = off ∧
      ((m.drop off).take n).length = n := by
  refine ⟨?_, ?_, ?_⟩
  · rw [← List.drop_drop, List.take_append_drop, List.take_append_drop]
  · rw [List.length_take]
    omega
  · rw [List.length_take, List.length_drop]
    omega

theorem readCells_of_le (m : Mem) (off n : Nat) (h : off + n ≤ m.length) :
    readCells m off n = .ok ((m.drop off).take n) := by
  unfold readCells
  rw [if_pos h]

/-- Reading the length of a record whose cells are known. -/
theorem readU16_record (m : Mem) (off : Nat) (s : List Nat) (hs : s.length ≤ 65535)
    (hin : off + (s.length + 3) ≤ m.length)
    (hr : (m.drop off).take (s.length + 3) = recordCells s.length s) :
    readU16 m off = .ok s.length := by
  obtain ⟨e, hl, _⟩ := block_split m off (s.length + 3) hin
  rw [hr] at e
  rw [e]
  unfold recordCells
  simp only [List.cons_append]
  rw [readU16_append _ _ _ _ off hl.symm, decode_length s.length hs]

theorem toNat_natCast (k : Nat) : ((k : Int)).toNat = k := Int.toNat_natCast k

/-- `offsetAt` and `Len` look at `Num`, the buffer and one entry of the table. -/
theorem offsetAt_congr {P Q : Pool} {o oq : List Nat} (k : Nat) (hP : P.Offsets = some o)
    (hQ : Q.Offsets = some oq) (hk : oq.get? k = o.get? k) :
    offsetAt Q k = offsetAt P k := by
  unfold offsetAt
  rw [hP, hQ]
  simp only []
  rw [if_neg (by omega), if_neg (by omega), toNat_natCast, hk]

theorem Len_congr {P Q : Pool} {o oq : List Nat} (k : Nat) (hP : P.Offsets = some o)
    (hQ : Q.Offsets = some oq) (hk : oq.get? k = o.get? k) (hN : Q.Num = P.Num)
    (hB : Q.Buffer = P.Buffer) : Len Q k = Len P k := by
  unfold Len
  rw [offsetAt_congr k hP hQ hk, hN, hB]

theorem valid_natCast {P : Pool} {k : Nat} (h0 : 0 ≤ P.Num) (h1 : P.Num ≤ 2147483647)
    (hk : k < P.Num.toNat) : ¬ toUnsigned (k : Int) ≥ toUnsigned P.Num := by
  unfold toUnsigned
  omega

/-- What a well-formed pool says about handle `k`. -/
theorem index_facts {P : Pool} {old : Mem} {o : List Nat} (hB : P.Buffer = some old)
    (hO : P.Offsets = some o) (h0 : 0 ≤ P.Num) (h1 : P.Num ≤ 2147483647)
    (hNo : P.Num.toNat ≤ o.length) (hD : P.DataSize ≤ old.length)
    (hW : ∀ k off, k < P.Num.toNat → o.get? k = some off → off ≠ 0 →
      ∃ s : List Nat, s.length ≤ 65535 ∧ off + (s.length + 3) ≤ P.DataSize ∧
        (old.drop off).take (s.length + 3) = recordCells s.length s)
    (k : Nat) (hk : k < P.Num.toNat) :
    ∃ off, o.get? k = some off ∧ offsetAt P k = .ok off ∧
      (off = 0 → liveSize P k = 0 ∧ recordOf P k = []) ∧
      (off ≠ 0 → ∃ s : List Nat, s.length ≤ 65535 ∧ Len P k = .ok s.length ∧
        off + (s.length + 3) ≤ old.length ∧
        (old.drop off).take (s.length + 3) = recordCells s.length s ∧
        liveSize P k = (if s.length = 0 then 0 else s.length + 3) ∧
        recordOf P k = (if s.length = 0 then [] else recordCells s.length s)) := by
  have hlt : k < o.length := by omega
  have hg : o.get? k = some (o.get ⟨k, hlt⟩) := List.get?_eq_get hlt
  have hoff : offsetAt P k = .ok (o.get ⟨k, hlt⟩) :=
    offsetAt_of hO (by omega) (by rw [toNat_natCast]; exact hg)
  refine ⟨_, hg, hoff, ?_, ?_⟩
  · intro hz
    unfold liveSize recordOf
    rw [hoff, hz]
    cases Len P k with
    | error e => exact ⟨rfl, rfl⟩
    | ok len =>
      simp only [ne_eq, not_true_eq_false, false_and, if_false, true_and]
      cases P.Buffer <;> rfl
  · intro hnz
    obtain ⟨s, hs, hin, hr⟩ := hW k _ hk hg hnz
    have hLen : Len P k = .ok s.length := by
      unfold Len
      rw [if_neg (valid_natCast h0 h1 hk), hoff]
      simp only [ok_bind]
      rw [hB]
      exact readU16_record old _ s hs (by omega) hr
    refine ⟨s, hs, hLen, by omega, hr, ?_, ?_⟩
    · unfold liveSize
      rw [hoff, hLen]
      simp only [ne_eq, hnz, not_false_eq_true, true_and]
      by_cases hz : s.length = 0
      · rw [if_pos hz, if_neg (by omega)]
      · rw [if_neg hz, if_pos hz]
        omega
    · unfold recordOf
      rw [hoff, hLen, hB]
      simp only [ne_eq, hnz, not_false_eq_true, true_and]
      by_cases hz : s.length = 0
      · rw [if_pos hz, if_neg (by omega)]
      · rw [if_neg hz, if_pos hz, show 2 + s.length + 1 = s.length + 3 by omega, hr]

theorem liveBytes_mono (P : Pool) {a b : Nat} (h : a ≤ b) : liveBytes P a ≤ liveBytes P b := by
  induction b with
  | zero =>
    have : a = 0 := by omega
    subst this
    exact le_refl _
  | succ n ih =>
    by_cases e : a = n + 1
    · subst e
      exact le_refl _
    · have := ih (by omega)
      show _ ≤ liveBytes P n + liveSize P n
      omega

theorem setOffset_natCast {P : Pool} {o : List Nat} (k v : Nat) (hO : P.Offsets = some o)
    (hk : k < o.length) :
    setOffset P (k : Int) v = .ok { P with Offsets := some (o.set k v) } := by
  have e := setOffset_of (i := (k : Int)) v hO (by omega) (by rw [toNat_natCast]; exact hk)
  rw [toNat_natCast] at e
  exact e

theorem getOpt_set_self {o : List Nat} {k : Nat} (v : Nat) (hk : k < o.length) :
    (o.set k v).get? k = some v := by
  rw [List.get?_eq_getElem?, List.getElem?_set_self hk]

theorem getOpt_set_ne {o : List Nat} {k j : Nat} (v : Nat) (h : k ≠ j) :
    (o.set k v).get? j = o.get? j := by
  rw [List.get?_eq_getElem?, List.get?_eq_getElem?, List.getElem?_set_ne h]

theorem take_write (b : Mem) (d : Nat) (r : List Cell) (h : d ≤ b.length) :
    (b.take d ++ r ++ b.drop (d + r.length)).take (d + r.length) = b.take d ++ r := by
  have hl : (b.take d ++ r).length = d + r.length := by
    rw [List.length_append, List.length_take]
    omega
  rw [← hl, List.take_left]

theorem drop_write (b : Mem) (d x : Nat) (r : List Cell) (h : d + r.length ≤ b.length)
    (hx : d + r.length ≤ x) :
    (b.take d ++ r ++ b.drop (d + r.length)).drop x = b.drop x := by
  have hl : (b.take d ++ r).length = d + r.length := by
    rw [List.length_append, List.length_take]
    omega
  obtain ⟨y, rfl⟩ : ∃ y, x = (b.take d ++ r).length + y := ⟨x - (d + r.length), by omega⟩
  rw [List.drop_append, List.drop_drop, hl]

theorem length_write (b : Mem) (d : Nat) (r : List Cell) (h : d + r.length ≤ b.length) :
    (b.take d ++ r ++ b.drop (d + r.length)).length = b.length := by
  simp only [List.length_append, List.length_take, List.length_drop]
  omega

/-- One turn of the loop of `ReserveBuf` in a well-formed pool `P0`, when the
turns before have laid out the live records of the handles below `i`. -/
theorem ReserveBufLoop_step {P0 : Pool} {old : Mem} {o : List Nat} (hB : P0.Buffer = some old)
    (hO : P0.Offsets = some o) (h0 : 0 ≤ P0.Num) (h1 : P0.Num ≤ 2147483647)
    (hNo : P0.Num.toNat ≤ o.length) (hD : P0.DataSize ≤ old.length)
    (hW : ∀ k off, k < P0.Num.toNat → o.get? k = some off → off ≠ 0 →
      ∃ s : List Nat, s.length ≤ 65535 ∧ off + (s.length + 3) ≤ P0.DataSize ∧
        (old.drop off).take (s.length + 3) = recordCells s.length s)
    (cap : Nat) (hcap : 3 + liveBytes P0 P0.Num.toNat ≤ cap) (hcap32 : cap < 4294967296)
    (n i : Nat) (P : Pool) (b2 : Mem) (oi : List Nat) (hi : i < P0.Num.toNat)
    (hPB : P.Buffer = some old) (hPN : P.Num = P0.Num) (hPO : P.Offsets = some oi)
    (hol : oi.length = o.length) (hoi : oi.get? i = o.get? i) (hbl : b2.length = cap)
    (hpre : b2.take (3 + liveBytes P0 i) = [some 0, some 0, some 0] ++ liveCells P0 i) :
    ∃ (P1 : Pool) (b21 : Mem) (oi1 : List Nat),
      ReserveBufLoop old (n + 1) (i : Int) P b2 (3 + liveBytes P0 i)
        = ReserveBufLoop old n ((i + 1 : Nat) : Int) P1 b21 (3 + liveBytes P0 (i + 1)) ∧
      P1.Buffer = some old ∧ P1.Num = P0.Num ∧ P1.OldBuffer = P.OldBuffer ∧
      P1.OffsetsSize = P.OffsetsSize ∧ P1.Offsets = some oi1 ∧ oi1.length = o.length ∧
      (∀ k, k ≠ i → oi1.get? k = oi.get? k) ∧ oi1.get? i = some (newOffset P0 i) ∧
      b21.length = cap ∧
      b21.take (3 + liveBytes P0 (i + 1))
        = [some 0, some 0, some 0] ++ liveCells P0 (i + 1) ∧
      b21.drop (3 + liveBytes P0 (i + 1)) = b2.drop (3 + liveBytes P0 (i + 1)) := by
  obtain ⟨off, hg, hoff, hz, hnz⟩ := index_facts hB hO h0 h1 hNo hD hW i hi
  have hoffP : offsetAt P (i : Int) = .ok off := by
    rw [offsetAt_congr i hO hPO hoi]
    exact hoff
  have hLenP : Len P (i : Int) = Len P0 (i : Int) := Len_congr i hO hPO hoi hPN (by rw [hPB, hB])
  have hcast : ((i : Int) + 1) = ((i + 1 : Nat) : Int) := by push_cast; rfl
  have hilt : i < oi.length := by omega
  have hmono := liveBytes_mono P0 (show i + 1 ≤ P0.Num.toNat by omega)
  have hsucc : liveBytes P0 (i + 1) = liveBytes P0 i + liveSize P0 i := rfl
  have hcells : liveCells P0 (i + 1) = liveCells P0 i ++ recordOf P0 i := rfl
  rw [ReserveBufLoop, hoffP]
  simp only [ok_bind]
  by_cases hoz : off = 0
  · obtain ⟨z1, z2⟩ := hz hoz
    rw [if_neg (by simp [hoz]), hcast]
    refine ⟨P, b2, oi, ?_, hPB, hPN, rfl, rfl, hPO, hol, fun _ _ => rfl, ?_, hbl, ?_, ?_⟩
    · simp only [hsucc, z1, Nat.add_zero]
    · rw [hoi, hg, hoz]
      unfold newOffset
      rw [if_pos z1]
    · rw [hsucc, z1, Nat.add_zero, hcells, z2, List.append_nil]
      exact hpre
    · rfl
  · obtain ⟨s, hs, hLen, hin, hr, z1, z2⟩ := hnz hoz
    rw [if_pos hoz, hLenP, hLen]
    simp only [ok_bind]
    have hrl : (recordCells s.length s).length = s.length + 3 := by
      simp [recordCells]
    by_cases hsz : s.length = 0
    · rw [if_pos hsz] at z1 z2
      rw [if_neg (not_not.mpr hsz), setOffset_natCast i 0 hPO hilt]
      simp only [ok_bind]
      rw [hcast]
      refine ⟨{ P with Offsets := some (oi.set i 0),
                       GarbageSize := u32 (P.GarbageSize + (sizeofLengthType + 1)) },
        b2, oi.set i 0, ?_, hPB, hPN, rfl, rfl, rfl, ?_, ?_, ?_, hbl, ?_, ?_⟩
      · simp only [hsucc, z1, Nat.add_zero]
      · rw [List.length_set, hol]
      · intro k hk
        exact getOpt_set_ne 0 (Ne.symm hk)
      · rw [getOpt_set_self 0 hilt]
        unfold newOffset
        rw [if_pos z1]
      · rw [hsucc, z1, Nat.add_zero, hcells, z2, List.append_nil]
        exact hpre
      · rfl
    · rw [if_neg hsz] at z1 z2
      have e3 : s.length + sizeofLengthType + 1 = s.length + 3 := rfl
      have hfit : 3 + liveBytes P0 i + (recordCells s.length s).length ≤ b2.length := by
        rw [hrl, hbl]
        omega
      rw [if_pos hsz, e3, readCells_of_le old off _ hin, hr]
      simp only [ok_bind]
      unfold writeCells
      rw [if_pos hfit]
      simp only [ok_bind]
      rw [setOffset_natCast (P := { P with Top := 3 + liveBytes P0 i }) i _ hPO hilt]
      simp only [ok_bind]
      rw [hcast, u32_of_lt (by omega)]
      refine ⟨{ P with Top := 3 + liveBytes P0 i,
                       Offsets := some (oi.set i (3 + liveBytes P0 i)) },
        b2.take (3 + liveBytes P0 i) ++ recordCells s.length s
          ++ b2.drop (3 + liveBytes P0 i + (recordCells s.length s).length),
        oi.set i (3 + liveBytes P0 i), ?_, hPB, hPN, rfl, rfl, rfl, ?_, ?_, ?_, ?_, ?_, ?_⟩
      · rw [hsucc, z1]
        congr 1
        omega
      · rw [List.length_set, hol]
      · intro k hk
        exact getOpt_set_ne _ (Ne.symm hk)
      · rw [getOpt_set_self _ hilt]
        unfold newOffset
        rw [if_neg (by omega)]
      · rw [length_write b2 _ _ hfit, hbl]
      · have hle : 3 + liveBytes P0 i ≤ b2.length := by omega
        rw [hsucc, z1, hcells, z2, ← Nat.add_assoc, ← hrl, take_write b2 _ _ hle, hpre,
          List.append_assoc]
      · rw [hsucc, z1, ← Nat.add_assoc, ← hrl]
        exact drop_write b2 _ _ _ hfit (le_refl _)

theorem drop_of_drop_eq {l1 l2 : Mem} {y : Nat} (x : Nat) (h : l1.drop y = l2.drop y)
    (hx : y ≤ x) : l1.drop x = l2.drop x := by
  obtain ⟨z, rfl⟩ : ∃ z, x = y + z := ⟨x - y, by omega⟩
  rw [← List.drop_drop, ← List.drop_drop, h]

/-- The loop of `ReserveBuf` in a well-formed pool `P0` whose live records fit
the new buffer: started at handle `i` with the live records of the handles
below `i` laid out, it returns with those of the handles below `i + n` laid
out, and each of these handles has its new offset in the table. -/
theorem ReserveBufLoop_spec {P0 : Pool} {old : Mem} {o : List Nat} (hB : P0.Buffer = some old)
    (hO : P0.Offsets = some o) (h0 : 0 ≤ P0.Num) (h1 : P0.Num ≤ 2147483647)
    (hNo : P0.Num.toNat ≤ o.length) (hD : P0.DataSize ≤ old.length)
    (hW : ∀ k off, k < P0.Num.toNat → o.get? k = some off → off ≠ 0 →
      ∃ s : List Nat, s.length ≤ 65535 ∧ off + (s.length + 3) ≤ P0.DataSize ∧
        (old.drop off).take (s.length + 3) = recordCells s.length s)
    (cap : Nat) (hcap : 3 + liveBytes P0 P0.Num.toNat ≤ cap) (hcap32 : cap < 4294967296) :
    ∀ (n i : Nat) (P : Pool) (b2 : Mem) (oi : List Nat), i + n = P0.Num.toNat →
      P.Buffer = some old → P.Num = P0.Num → P.Offsets = some oi → oi.length = o.length →
      (∀ k, i ≤ k → oi.get? k = o.get? k) → b2.length = cap →
      b2.take (3 + liveBytes P0 i) = [some 0, some 0, some 0] ++ liveCells P0 i →
      ∃ (P1 : Pool) (b21 : Mem) (o1 : List Nat),
        ReserveBufLoop old n (i : Int) P b2 (3 + liveBytes P0 i)
          = .ok (P1, b21, 3 + liveBytes P0 (i + n)) ∧
        P1.Buffer = some old ∧ P1.Num = P0.Num ∧ P1.OldBuffer = P.OldBuffer ∧
        P1.OffsetsSize = P.OffsetsSize ∧ P1.Offsets = some o1 ∧ o1.length = o.length ∧
        (∀ k, k < i → o1.get? k = oi.get? k) ∧
        (∀ k, i ≤ k → k < i + n → o1.get? k = some (newOffset P0 k)) ∧
        b21.length = cap ∧
        b21.take (3 + liveBytes P0 (i + n))
          = [some 0, some 0, some 0] ++ liveCells P0 (i + n) ∧
        b21.drop (3 + liveBytes P0 (i + n)) = b2.drop (3 + liveBytes P0 (i + n)) := by
  intro n
  induction n with
  | zero =>
    intro i P b2 oi _ hPB hPN hPO hol _ hbl hpre
    exact ⟨P, b2, oi, rfl, hPB, hPN, rfl, rfl, hPO, hol, fun _ _ => rfl,
      fun k h1 h2 => absurd h2 (by omega), hbl, hpre, rfl⟩
  | succ n ih =>
    intro i P b2 oi hin hPB hPN hPO hol hoi hbl hpre
    obtain ⟨P1, b21, oi1, s1, s2, s3, s4, s5, s6, s7, s8, s9, s10, s11, s12⟩ :=
      ReserveBufLoop_step hB hO h0 h1 hNo hD hW cap hcap hcap32 n i P b2 oi (by omega)
        hPB hPN hPO hol (hoi i (le_refl _)) hbl hpre
    obtain ⟨P2, b22, o2, t1, t2, t3, t4, t5, t6, t7, t8, t9, t10, t11, t12⟩ :=
      ih (i + 1) P1 b21 oi1 (by omega) s2 s3 s6 s7
        (fun k hk => by rw [s8 k (by omega)]; exact hoi k (by omega)) s10 s11
    have e : i + (n + 1) = i + 1 + n := by omega
    rw [s1, e]
    refine ⟨P2, b22, o2, t1, t2, t3, t4.trans s4, t5.trans s5, t6, t7, ?_, ?_, t10, t11, ?_⟩
    · intro k hk
      rw [t8 k (by omega), s8 k (by omega)]
    · intro k hk1 hk2
      by_cases hki : k = i
      · subst hki
        rw [t8 k (by omega), s9]
      · exact t9 k (by omega) hk2
    · rw [t12]
      exact drop_of_drop_eq _ s12
        (by have := liveBytes_mono P0 (show i + 1 ≤ i + 1 + n by omega); omega)

/-- What `ReserveBuf(n)` does in a well-formed pool whose live records fit the
new buffer: it returns; the new buffer holds the empty record, then the live
records in handle order, then indeterminate bytes; each handle has its new
offset; `DataSize` is 3 plus the live bytes and `GarbageSize` is 0. -/
theorem ReserveBuf_spec {P : Pool} (n : Nat) (hWF : WellFormed P)
    (hcap : 3 + liveBytes P P.Num.toNat ≤ newArenaSize P n + 3)
    (h32 : newArenaSize P n + 3 < 4294967296) :
    ∃ (Q : Pool) (o1 : List Nat), ReserveBuf P n = .ok Q ∧ Q.Num = P.Num ∧
      Q.Offsets = some o1 ∧ (∀ k, k < P.Num.toNat → o1.get? k = some (newOffset P k)) ∧
      Q.Buffer = some ([some 0, some 0, some 0] ++ liveCells P P.Num.toNat
        ++ newChars (newArenaSize P n - liveBytes P P.Num.toNat)) ∧
      Q.BufferSize = newArenaSize P n + 3 ∧ Q.DataSize = 3 + liveBytes P P.Num.toNat ∧
      Q.GarbageSize = 0 ∧ Q.OldBuffer = P.Buffer := by
  obtain ⟨old, o, hB, hO, h0, h1, hNo, hD, hE, hW⟩ := hWF
  have hsz : u32 (newArenaSize P n + 1 + sizeofLengthType + MemPadding) = newArenaSize P n + 3 := by
    simp only [sizeofLengthType, MemPadding, u32]
    omega
  have hbs : u32 (newArenaSize P n + sizeofLengthType + 1) = newArenaSize P n + 3 := by
    simp only [sizeofLengthType, u32]
    omega
  have w1 : writeU16 (newChars (newArenaSize P n + 3)) 0 0
      = .ok (some 0 :: some 0 :: none :: newChars (newArenaSize P n)) := by
    have := writeU16_append [] (newChars (newArenaSize P n + 1)) none none 0 0 rfl
    simpa [newChars_succ] using this
  have w2 : writeCells (some 0 :: some 0 :: none :: newChars (newArenaSize P n))
      sizeofLengthType [some 0]
      = .ok (some 0 :: some 0 :: some 0 :: newChars (newArenaSize P n)) := by
    have := writeCells_append [some 0, some 0] (none :: newChars (newArenaSize P n)) [some 0] 2
      rfl (by simp)
    simpa using this
  obtain ⟨P1, b21, o1, t1, t2, t3, t4, t5, t6, t7, _, t9, t10, t11, t12⟩ :=
    ReserveBufLoop_spec hB hO h0 h1 hNo hD hW (newArenaSize P n + 3) hcap h32 P.Num.toNat 0
      { P with Buffer := some old, Top := sizeofLengthType + 1 }
      (some 0 :: some 0 :: some 0 :: newChars (newArenaSize P n)) o (by omega) rfl rfl hO rfl
      (fun _ _ => rfl) (by simp [length_newChars]) rfl
  rw [Nat.zero_add] at t1 t9 t11 t12
  have hbuf : b21 = [some 0, some 0, some 0] ++ liveCells P P.Num.toNat
      ++ newChars (newArenaSize P n - liveBytes P P.Num.toNat) := by
    have hd : List.drop (3 + liveBytes P P.Num.toNat)
        (some 0 :: some 0 :: some 0 :: newChars (newArenaSize P n))
        = newChars (newArenaSize P n - liveBytes P P.Num.toNat) := by
      rw [Nat.add_comm]
      show List.drop (liveBytes P P.Num.toNat) (newChars (newArenaSize P n)) = _
      exact drop_newChars _ _
    rw [← List.take_append_drop (3 + liveBytes P P.Num.toNat) b21, t11, t12, hd]
  unfold ReserveBuf
  simp only []
  have hns : (if n < u32 (sub32 P.DataSize P.GarbageSize * 2 + AllocateSpace1) then
      u32 (sub32 P.DataSize P.GarbageSize * 2 + AllocateSpace1) else n) = newArenaSize P n := rfl
  rw [hns, hsz, hbs, w1, ok_bind, w2, ok_bind]
  simp only [hB]
  have t1b : ReserveBufLoop old P.Num.toNat 0
      { P with Buffer := some old, Top := sizeofLengthType + 1 }
      (some 0 :: some 0 :: some 0 :: newChars (newArenaSize P n)) (sizeofLengthType + 1)
      = .ok (P1, b21, 3 + liveBytes P P.Num.toNat) := t1
  rw [t1b]
  simp only [ok_bind, pure, Except.pure]
  exact ⟨_, o1, rfl, t3, t6, fun k hk => t9 k (Nat.zero_le k) hk, by rw [hbuf], rfl, rfl, rfl,
    rfl⟩

theorem cstrCells_upToZero (s : List Nat) (rest : List Cell) :
    cstrCells (s.map some ++ some 0 :: rest) = some (upToZero s) := by
  induction s with
  | nil => simp [cstrCells, upToZero]
  | cons b t ih =>
    by_cases hb : b = 0
    · subst hb
      simp [cstrCells, upToZero]
    · have e : cstrCells ((b :: t).map some ++ some 0 :: rest)
          = (cstrCells (t.map some ++ some 0 :: rest)).map (b :: ·) := by
        show (if b = 0 then some [] else _) = _
        rw [if_neg hb]
        rfl
      rw [e, ih]
      unfold upToZero
      rw [List.takeWhile_cons_of_pos (by simp [hb])]
      rfl

/-- Reading a handle whose record is known: the length is that of the
payload, and the string is the payload up to its first zero byte. -/
theorem record_read {Q : Pool} {h : Int} {A B : Mem} {s : List Nat}
    (hv : ¬ toUnsigned h ≥ toUnsigned Q.Num) (hoff : offsetAt Q h = .ok A.length)
    (hQ : Q.Buffer = some (A ++ recordCells s.length s ++ B)) (hs : s.length ≤ 65535) :
    Len Q h = .ok s.length ∧ content Q h = .ok (upToZero s) := by
  constructor
  · unfold Len
    rw [if_neg hv, hoff]
    simp only [ok_bind]
    rw [hQ]
    simp only [recordCells, List.append_assoc, List.cons_append]
    rw [readU16_append A _ _ _ _ rfl, decode_length s.length hs]
  · unfold content Get
    rw [if_neg hv, hoff]
    simp only [ok_bind]
    unfold PChar.string PChar.deref
    rw [hQ]
    simp only []
    have hd : List.drop (sizeofLengthType + A.length) (A ++ recordCells s.length s ++ B)
        = s.map some ++ some 0 :: B := by
      rw [List.append_assoc, Nat.add_comm, List.drop_append]
      simp [recordCells, sizeofLengthType]
    rw [if_pos (by
      simp only [List.length_append, recordCells, List.length_cons, List.length_map,
        List.length_singleton, sizeofLengthType]
      omega), hd]
    simp only [ok_bind]
    rw [cstrCells_upToZero s B]

theorem liveCells_split (P : Pool) (N k : Nat) (h : k < N) :
    ∃ X, liveCells P N = liveCells P k ++ recordOf P k ++ X := by
  induction N with
  | zero => omega
  | succ m ih =>
    by_cases e : k = m
    · subst e
      exact ⟨[], by rw [List.append_nil]; rfl⟩
    · obtain ⟨X, hX⟩ := ih (by omega)
      refine ⟨X ++ recordOf P m, ?_⟩
      show liveCells P m ++ recordOf P m = _
      rw [hX, List.append_assoc]

theorem length_liveCells {P : Pool} {old : Mem} {o : List Nat} (hB : P.Buffer = some old)
    (hO : P.Offsets = some o) (h0 : 0 ≤ P.Num) (h1 : P.Num ≤ 2147483647)
    (hNo : P.Num.toNat ≤ o.length) (hD : P.DataSize ≤ old.length)
    (hW : ∀ k off, k < P.Num.toNat → o.get? k = some off → off ≠ 0 →
      ∃ s : List Nat, s.length ≤ 65535 ∧ off + (s.length + 3) ≤ P.DataSize ∧
        (old.drop off).take (s.length + 3) = recordCells s.length s)
    (k : Nat) (hk : k ≤ P.Num.toNat) : (liveCells P k).length = liveBytes P k := by
  induction k with
  | zero => rfl
  | succ m ih =>
    show (liveCells P m ++ recordOf P m).length = liveBytes P m + liveSize P m
    rw [List.length_append, ih (by omega)]
    congr 1
    obtain ⟨off, _, _, hz, hnz⟩ := index_facts hB hO h0 h1 hNo hD hW m (by omega)
    by_cases hoz : off = 0
    · obtain ⟨z1, z2⟩ := hz hoz
      rw [z1, z2]
      rfl
    · obtain ⟨s, _, _, _, _, z1, z2⟩ := hnz hoz
      rw [z1, z2]
      by_cases hsz : s.length = 0
      · rw [if_pos hsz, if_pos hsz]
        rfl
      · rw [if_neg hsz, if_neg hsz]
        simp [recordCells]

/-- In a well-formed pool every handle has a record `s` (the empty one for a
handle that is not live) that it reads before the compaction and after it. -/
theorem ReserveBuf_reads {P : Pool} (n : Nat) (hWF : WellFormed P)
    (hcap : 3 + liveBytes P P.Num.toNat ≤ newArenaSize P n + 3)
    (h32 : newArenaSize P n + 3 < 4294967296) :
    ∃ Q, ReserveBuf P n = .ok Q ∧ Q.Num = P.Num ∧
      (∀ k, k < P.Num.toNat → offsetAt Q (k : Int) = .ok (newOffset P k)) ∧
      Q.Buffer = some ([some 0, some 0, some 0] ++ liveCells P P.Num.toNat
        ++ newChars (newArenaSize P n - liveBytes P P.Num.toNat)) ∧
      Q.BufferSize = newArenaSize P n + 3 ∧ Q.DataSize = 3 + liveBytes P P.Num.toNat ∧
      Q.GarbageSize = 0 ∧
      (∀ k, k < P.Num.toNat → ∃ s : List Nat,
        Len P (k : Int) = .ok s.length ∧ content P (k : Int) = .ok (upToZero s) ∧
        Len Q (k : Int) = .ok s.length ∧ content Q (k : Int) = .ok (upToZero s)) := by
  obtain ⟨Q, o1, q1, q2, q3, q4, q5, q6, q7, q8, _⟩ := ReserveBuf_spec n hWF hcap h32
  obtain ⟨old, o, hB, hO, h0, h1, hNo, hD, hE, hW⟩ := hWF
  have hoffQ : ∀ k, k < P.Num.toNat → offsetAt Q (k : Int) = .ok (newOffset P k) :=
    fun k hk => offsetAt_of q3 (by omega) (by rw [toNat_natCast]; exact q4 k hk)
  refine ⟨Q, q1, q2, hoffQ, q5, q6, q7, q8, ?_⟩
  intro k hk
  have hvP := valid_natCast h0 h1 hk
  have hvQ : ¬ toUnsigned (k : Int) ≥ toUnsigned Q.Num := by rw [q2]; exact hvP
  have hempty : recordCells ([] : List Nat).length [] = [some 0, some 0, some 0] := rfl
  -- the empty record at offset 0 of both buffers
  have hold0 : old = [] ++ recordCells ([] : List Nat).length [] ++ old.drop 3 := by
    rw [hempty, ← hE, List.nil_append, List.take_append_drop]
  have hQ0 : Q.Buffer = some ([] ++ recordCells ([] : List Nat).length []
      ++ (liveCells P P.Num.toNat ++ newChars (newArenaSize P n - liveBytes P P.Num.toNat))) := by
    rw [q5, hempty, List.nil_append, List.append_assoc]
  obtain ⟨off, hg, hoff, hz, hnz⟩ := index_facts hB hO h0 h1 hNo hD hW k hk
  have dead : liveSize P k = 0 → ∃ s : List Nat, Len Q (k : Int) = .ok s.length ∧
      content Q (k : Int) = .ok (upToZero s) ∧ s = [] := by
    intro hl
    have e : offsetAt Q (k : Int) = .ok ([] : Mem).length := by
      rw [hoffQ k hk]
      unfold newOffset
      rw [if_pos hl]
      rfl
    obtain ⟨r1, r2⟩ := record_read hvQ e hQ0 (by simp)
    exact ⟨[], r1, r2, rfl⟩
  by_cases hoz : off = 0
  · obtain ⟨z1, _⟩ := hz hoz
    obtain ⟨s, d1, d2, rfl⟩ := dead z1
    have e : offsetAt P (k : Int) = .ok ([] : Mem).length := by rw [hoff, hoz]; rfl
    obtain ⟨r1, r2⟩ := record_read hvP e (hB.trans (congrArg some hold0)) (by simp)
    exact ⟨[], r1, r2, d1, d2⟩
  · obtain ⟨s, hs, hLen, hin, hr, z1, z2⟩ := hnz hoz
    obtain ⟨e, hl, _⟩ := block_split old off (s.length + 3) hin
    rw [hr, ← List.append_assoc] at e
    have eP : offsetAt P (k : Int) = .ok (old.take off).length := by rw [hoff, hl]
    obtain ⟨r1, r2⟩ := record_read hvP eP (hB.trans (congrArg some e)) hs
    by_cases hsz : s.length = 0
    · rw [if_pos hsz] at z1
      obtain ⟨s2, d1, d2, rfl⟩ := dead z1
      have hs0 : s = [] := List.eq_nil_of_length_eq_zero hsz
      subst hs0
      exact ⟨[], r1, r2, d1, d2⟩
    · rw [if_neg hsz] at z1 z2
      obtain ⟨X, hX⟩ := liveCells_split P P.Num.toNat k hk
      have hlc := length_liveCells hB hO h0 h1 hNo hD hW k (by omega)
      have eQ : offsetAt Q (k : Int)
          = .ok ([some 0, some 0, some 0] ++ liveCells P k : Mem).length := by
        rw [hoffQ k hk, List.length_append, hlc]
        unfold newOffset
        rw [if_neg (by omega)]
        rfl
      have hQb : Q.Buffer = some (([some 0, some 0, some 0] ++ liveCells P k)
          ++ recordCells s.length s
          ++ (X ++ newChars (newArenaSize P n - liveBytes P P.Num.toNat))) := by
        rw [q5, hX, z2]
        simp only [List.append_assoc]
      obtain ⟨d1, d2⟩ := record_read hvQ eQ hQb hs
      exact ⟨s, r1, r2, d1, d2⟩

theorem offsetAt_setOffset {P Q : Pool} {i : Int} {v : Nat} (h : setOffset P i v = .ok Q) :
    Q.Buffer = P.Buffer ∧ Q.Num = P.Num ∧
      ∀ k : Nat, (k : Int) ≠ i → offsetAt Q (k : Int) = offsetAt P (k : Int) := by
  unfold setOffset at h
  cases ho : P.Offsets with
  | none => rw [ho] at h; simp at h
  | some o =>
    rw [ho] at h
    simp only [] at h
    split at h
    · simp at h
    · split at h
      · simp only [Except.ok.injEq] at h
        subst h
        refine ⟨rfl, rfl, ?_⟩
        intro k hk
        have hk0 : ¬ ((k : Int) < 0) := by omega
        have hne : i.toNat ≠ k := by omega
        unfold offsetAt
        simp only [ho, hk0, if_false, toNat_natCast, getOpt_set_ne v hne]
      · simp at h

theorem Len_eq_of {P Q : Pool} {k : Int} (hB : Q.Buffer = P.Buffer) (hN : Q.Num = P.Num)
    (ho : offsetAt Q k = offsetAt P k) : Len Q k = Len P k := by
  unfold Len
  rw [hB, hN, ho]

theorem writeCells_length {m m1 : Mem} {off : Nat} {d : List Cell}
    (h : writeCells m off d = .ok m1) : off + d.length ≤ m.length ∧ m1.length = m.length := by
  unfold writeCells at h
  split at h
  · rename_i hle
    simp only [Except.ok.injEq] at h
    subst h
    refine ⟨hle, ?_⟩
    simp only [List.length_append, List.length_take, List.length_drop]
    omega
  · simp at h

/-- When the loop of `ReserveBuf` returns, `DataSize2` has grown by the sizes
of the live records of the handles it went through. -/
theorem ReserveBufLoop_size (P0 : Pool) (old : Mem) :
    ∀ (n i : Nat) (P : Pool) (b2 : Mem) (d2 : Nat) (P1 : Pool) (b21 : Mem) (d21 : Nat),
      ReserveBufLoop old n (i : Int) P b2 d2 = .ok (P1, b21, d21) →
      P.Buffer = P0.Buffer → P.Num = P0.Num →
      (∀ k : Nat, i ≤ k → offsetAt P (k : Int) = offsetAt P0 (k : Int)) →
      b2.length < 4294967296 →
      d21 + liveBytes P0 i = d2 + liveBytes P0 (i + n) := by
  intro n
  induction n with
  | zero =>
    intro i P b2 d2 P1 b21 d21 h _ _ _ _
    simp [ReserveBufLoop] at h
    rw [h.2.2]
    rfl
  | succ n ih =>
    intro i P b2 d2 P1 b21 d21 h hB hN hoffs hlen
    have hcast : ((i : Int) + 1) = ((i + 1 : Nat) : Int) := by push_cast; rfl
    have e : i + (n + 1) = i + 1 + n := by omega
    have hsucc : liveBytes P0 (i + 1) = liveBytes P0 i + liveSize P0 i := rfl
    have hLenP : Len P (i : Int) = Len P0 (i : Int) := Len_eq_of hB hN (hoffs i (le_refl _))
    unfold ReserveBufLoop at h
    simp only [bind_ok_iff] at h
    obtain ⟨off, hoff, h⟩ := h
    have hoff0 : offsetAt P0 (i : Int) = .ok off := by rw [← hoffs i (le_refl _)]; exact hoff
    split_ifs at h with hnz
    · simp only [bind_ok_iff] at h
      obtain ⟨l, hl, h⟩ := h
      have hl0 : Len P0 (i : Int) = .ok l := by rw [← hLenP]; exact hl
      split_ifs at h with hlz
      · simp only [bind_ok_iff] at h
        obtain ⟨rec_, hr, b3, hw, P2, hs, h⟩ := h
        obtain ⟨s1, s2, s3⟩ := offsetAt_setOffset hs
        obtain ⟨w1, w2⟩ := writeCells_length hw
        have hrl := (readCells_length hr).1
        have hu : u32 (d2 + (l + sizeofLengthType + 1)) = d2 + (l + sizeofLengthType + 1) := by
          apply u32_of_lt
          omega
        rw [hu, hcast] at h
        have := ih (i + 1) P2 b3 _ P1 b21 d21 h (by rw [s1]; exact hB) (by rw [s2]; exact hN)
          (fun k hk => by rw [s3 k (by omega)]; exact hoffs k (by omega)) (by omega)
        have hls : liveSize P0 i = 2 + l + 1 := by
          unfold liveSize
          rw [hoff0, hl0]
          simp only []
          rw [if_pos ⟨hnz, hlz⟩]
        rw [hsucc, hls] at this
        rw [e]
        unfold sizeofLengthType at this
        omega
      · simp only [bind_ok_iff] at h
        obtain ⟨P2, hs, h⟩ := h
        obtain ⟨s1, s2, s3⟩ := offsetAt_setOffset hs
        rw [hcast] at h
        have := ih (i + 1) _ b2 d2 P1 b21 d21 h (by show P2.Buffer = _; rw [s1]; exact hB)
          (by show P2.Num = _; rw [s2]; exact hN)
          (fun k hk => by
            show offsetAt { P2 with GarbageSize := _ } (k : Int) = _
            have e2 : offsetAt { P2 with
                GarbageSize := u32 (P2.GarbageSize + (sizeofLengthType + 1)) } (k : Int)
                = offsetAt P2 (k : Int) := rfl
            rw [e2, s3 k (by omega)]
            exact hoffs k (by omega)) hlen
        have hls : liveSize P0 i = 0 := by
          unfold liveSize
          rw [hoff0, hl0]
          simp only []
          rw [if_neg (by simp [hlz])]
        rw [hsucc, hls] at this
        rw [e]
        omega
    · rw [hcast] at h
      have := ih (i + 1) P b2 d2 P1 b21 d21 h hB hN (fun k hk => hoffs k (by omega)) hlen
      have hls : liveSize P0 i = 0 := by
        unfold liveSize
        rw [hoff0]
        cases Len P0 (i : Int) with
        | error _ => rfl
        | ok l =>
          simp only []
          rw [if_neg (by simp [hnz])]
      rw [hsucc, hls] at this
      rw [e]
      omega

/-- When `ReserveBuf` returns, `GarbageSize` is 0 and `DataSize` is 3 (the
empty record at offset 0) plus the sizes of the live records. -/
theorem ReserveBuf_counters {P Q : Pool} {n : Nat} (h : ReserveBuf P n = .ok Q) :
    Q.GarbageSize = 0 ∧ Q.DataSize = 3 + liveBytes P P.Num.toNat := by
  unfold ReserveBuf at h
  simp only [bind_ok_iff] at h
  obtain ⟨b1, h1, b2, h2, h⟩ := h
  have hlen : b2.length < 4294967296 := by
    have l1 : b1.length = (newChars _).length := (writeCells_length h1).2
    have l2 := (writeCells_length h2).2
    rw [l2, l1, length_newChars]
    unfold u32
    omega
  have hz : P.Buffer = none → ∀ k, liveSize P k = 0 := by
    intro hB k
    unfold liveSize
    cases hoff : offsetAt P (k : Int) with
    | error _ => rfl
    | ok off =>
      have hL : ∀ l, Len P (k : Int) ≠ .ok l := by
        intro l hl
        unfold Len at hl
        split at hl
        · simp at hl
        · rw [hoff, hB] at hl
          simp only [ok_bind] at hl
          cases hl
      cases hl : Len P (k : Int) with
      | error _ => rfl
      | ok l => exact absurd hl (hL l)
  cases hB : P.Buffer with
  | none =>
    rw [hB] at h
    simp only [pure, Except.pure, ok_bind, Except.ok.injEq] at h
    subst h
    refine ⟨rfl, ?_⟩
    have hlb : ∀ m, liveBytes P m = 0 := by
      intro m
      induction m with
      | zero => rfl
      | succ m ih =>
        show liveBytes P m + liveSize P m = 0
        rw [ih, hz hB]
    show sizeofLengthType + 1 = _
    rw [hlb]
    rfl
  | some old =>
    rw [hB] at h
    simp only [bind_ok_iff] at h
    obtain ⟨⟨P2, b4, d4⟩, hloop, y, hy, h⟩ := h
    simp only [pure, Except.pure, Except.ok.injEq] at hy h
    subst h
    subst hy
    refine ⟨rfl, ?_⟩
    show d4 = _
    have := ReserveBufLoop_size P old P.Num.toNat 0 _ _ _ P2 b4 d4 hloop (by rw [hB]) rfl
      (fun _ _ => rfl) hlen
    simp only [Nat.zero_add] at this
    have e0 : liveBytes P 0 = 0 := rfl
    rw [e0] at this
    unfold sizeofLengthType at this
    omega

theorem WellFormed_gappyPool : WellFormed gappyPool := by
  refine ⟨_, _, rfl, rfl, by decide, by decide, by decide, by decide, by decide, ?_⟩
  intro k off hk hg hnz
  have hk2 : k < 2 := hk
  interval_cases k
  · have e : off = 13 := by
      have : some 13 = some off := hg
      exact (Option.some.inj this).symm
    subst e
    exact ⟨bytes "abcd", by decide, by decide, by decide⟩
  · have e : off = 9 := by
      have : some 9 = some off := hg
      exact (Option.some.inj this).symm
    subst e
    exact ⟨bytes "x", by decide, by decide, by decide⟩

/-- Compaction where the new buffer is large enough: for every pool state in
which offset 0 holds the empty record, every nonzero table offset points at a
well-formed record inside the used arena, and the empty record and the live
records together fit the new buffer (`3 + liveBytes <= newArenaSize + 3 < 2^32`), `ReserveBuf(n)` returns;
afterwards every handle `h < count()` has the length and the content it had
before, the new buffer starts with the empty record, the live records follow
it in increasing handle order without gaps, and each live handle's offset is
3 plus the sizes of the live records of the handles below it. -/
theorem ReserveBuf_preserves_contents (P : Pool) (n : Nat) (hWF : WellFormed P)
    (hcap : 3 + liveBytes P P.Num.toNat ≤ newArenaSize P n + 3)
    (h32 : newArenaSize P n + 3 < 4294967296) :
    ∃ Q, ReserveBuf P n = .ok Q ∧ Q.Num = P.Num ∧
      (∀ h : Int, 0 ≤ h → h < P.Num → ∃ (l : Nat) (c : List Nat),
        Len P h = .ok l ∧ content P h = .ok c ∧ Len Q h = .ok l ∧ content Q h = .ok c) ∧
      (∀ k : Nat, k < P.Num.toNat → offsetAt Q (k : Int) = .ok (newOffset P k)) ∧
      Q.Buffer = some ([some 0, some 0, some 0] ++ liveCells P P.Num.toNat
        ++ newChars (newArenaSize P n - liveBytes P P.Num.toNat)) := by
  obtain ⟨Q, q1, q2, q3, q4, _, _, _, q8⟩ := ReserveBuf_reads n hWF hcap h32
  refine ⟨Q, q1, q2, ?_, q3, q4⟩
  intro h h0 hN
  obtain ⟨s, r1, r2, r3, r4⟩ := q8 h.toNat (by omega)
  rw [Int.toNat_of_nonneg h0] at r1 r2 r3 r4
  exact ⟨s.length, upToZero s, r1, r2, r3, r4⟩

/-- Compaction of the pool with "abcd" under handle 0 at
offset 13, "x" under handle 1 at offset 9 and 6 bytes of garbage: handle 0
still reads "abcd" and handle 1 still reads "x", and their records lie at
offsets 3 and 10. -/
theorem ReserveBuf_preserves_contents_example :
    ∃ Q, ReserveBuf gappyPool 0 = .ok Q ∧ content Q 0 = .ok (bytes "abcd") ∧
      content Q 1 = .ok (bytes "x") ∧ offsetAt Q 0 = .ok 3 ∧ offsetAt Q 1 = .ok 10 := by
  obtain ⟨Q, q1, _, q3, q4, _⟩ :=
    ReserveBuf_preserves_contents gappyPool 0 WellFormed_gappyPool (by decide) (by decide)
  obtain ⟨l0, c0, _, a2, _, a4⟩ := q3 0 (by decide) (by decide)
  obtain ⟨l1, c1, _, b2, _, b4⟩ := q3 1 (by decide) (by decide)
  have e0 : content gappyPool 0 = .ok (bytes "abcd") := by decide
  have e1 : content gappyPool 1 = .ok (bytes "x") := by decide
  rw [e0] at a2
  rw [e1] at b2
  cases a2
  cases b2
  exact ⟨Q, q1, a4, b4, q4 0 (by decide), q4 1 (by decide)⟩

/-- C29, failing input.  After `Set(0, s)` with a string `s` of 24 characters
on a new pool offset 0 holds the empty record and the only nonzero table
offset, 3, points at the record of `s`, which ends at `DataSize == 30`; handle
0 has length 24 and reads `s`.  `ReserveBuf(4294967295)` computes the size of
the new block in `unsigned int`: `4294967295 + 1 + 2` wraps to 2.  The block
has 2 bytes; the empty record alone takes 3, and the 27 bytes of the record of
handle 0 are then copied to offset 3: the call writes outside the block and
has no defined result. -/
theorem C29_reserve_size_wraps :
    (runOps [(Set · 0 (cstr shortString))] >>= fun P =>
      pure (P.Buffer.map (List.take 3), offsetAt P 0, Len P 0, P.DataSize, P.Num))
      = .ok (some [some 0, some 0, some 0], .ok 3, .ok 24, 30, 1) ∧
    (runOps [(Set · 0 (cstr shortString))] >>= (content · 0)) = .ok shortString ∧
    u32 (4294967295 + 1 + sizeofLengthType + MemPadding) = 2 ∧
    runOps [(Set · 0 (cstr shortString)), (ReserveBuf · 4294967295)] = .error .Undefined := by
  decide!

/-- C30, counterexample.  After `Set(0,"abc")` the only live record has
`2 + 3 + 1 = 6` bytes.  After a compaction (`ReserveBuf(0)`) `GarbageSize` is
0 and `DataSize` is 9, not 6: the 3 bytes of the empty record at offset 0
are counted too. -/
theorem C30_dataSize_counts_empty_record :
    (runOps [(Set · 0 (cstr (bytes "abc")))] >>= fun P => pure (liveBytes P P.Num.toNat))
      = .ok 6 ∧
    (runOps [(Set · 0 (cstr (bytes "abc"))), (ReserveBuf · 0)] >>= fun P =>
      pure (P.GarbageSize, P.DataSize)) = .ok (0, 9) := by
  decide!

/-- C30 (amended): immediately after a compaction (`ReserveBuf`) `GarbageSize`
is 0 and `DataSize` is 3 - the empty record at offset 0 - plus the sum, over
the handles whose records are live (nonzero offset, nonzero length), of
`2 + length + 1`; and the compaction returns in every well-formed pool whose
live records fit the new buffer. -/
theorem C30_post_compaction_counters (P : Pool) (n : Nat) :
    (∀ Q, ReserveBuf P n = .ok Q →
      Q.GarbageSize = 0 ∧ Q.DataSize = 3 + liveBytes P P.Num.toNat) ∧
    (WellFormed P → 3 + liveBytes P P.Num.toNat ≤ newArenaSize P n + 3 →
      newArenaSize P n + 3 < 4294967296 → ∃ Q, ReserveBuf P n = .ok Q) := by
  refine ⟨fun Q h => ReserveBuf_counters h, ?_⟩
  intro hWF hcap h32
  obtain ⟨Q, _, q1, _⟩ := ReserveBuf_spec n hWF hcap h32
  exact ⟨Q, q1⟩

/-- C30, example.  Compaction of the pool with the live records "abcd" and
"x" and 6 bytes of garbage leaves `GarbageSize == 0` and
`DataSize == 3 + 7 + 4`. -/
theorem C30_post_compaction_counters_witness :
    ∃ Q, ReserveBuf gappyPool 0 = .ok Q ∧ Q.GarbageSize = 0 ∧ Q.DataSize = 14 := by
  obtain ⟨Q, q⟩ := (C30_post_compaction_counters gappyPool 0).2 WellFormed_gappyPool
    (by decide) (by decide)
  obtain ⟨g, d⟩ := (C30_post_compaction_counters gappyPool 0).1 Q q
  exact ⟨Q, q, g, d.trans (by decide)⟩

/-! ### The capacities -/

theorem setOffset_caps {P Q : Pool} {i : Int} {v : Nat} (h : setOffset P i v = .ok Q) :
    Q.BufferSize = P.BufferSize ∧ Q.OffsetsSize = P.OffsetsSize := by
  unfold setOffset at h
  split at h
  · simp at h
  · split_ifs at h
    all_goals simp at h
    rw [← h]
    exact ⟨rfl, rfl⟩

/-- The loop of `ReserveBuf` changes neither the capacities nor the length of
the new block. -/
theorem ReserveBufLoop_caps (old : Mem) :
    ∀ (n : Nat) (i : Int) (P : Pool) (b2 : Mem) (d2 : Nat) (Q : Pool) (b3 : Mem) (d3 : Nat),
      ReserveBufLoop old n i P b2 d2 = .ok (Q, b3, d3) →
      Q.BufferSize = P.BufferSize ∧ Q.OffsetsSize = P.OffsetsSize ∧ b3.length = b2.length := by
  intro n
  induction n with
  | zero =>
    intro i P b2 d2 Q b3 d3 h
    simp [ReserveBufLoop] at h
    rw [← h.1, ← h.2.1]
    exact ⟨rfl, rfl, rfl⟩
  | succ n ih =>
    intro i P b2 d2 Q b3 d3 h
    unfold ReserveBufLoop at h
    simp only [bind_ok_iff] at h
    obtain ⟨off, _, h⟩ := h
    split_ifs at h
    · simp only [bind_ok_iff] at h
      obtain ⟨l, _, h⟩ := h
      split_ifs at h
      · simp only [bind_ok_iff] at h
        obtain ⟨_, _, b, hw, P1, h1, h⟩ := h
        obtain ⟨e1, e2, e3⟩ := ih _ _ _ _ _ _ _ h
        obtain ⟨c1, c2⟩ := setOffset_caps h1
        rw [e1, e2, e3, c1, c2, (writeCells_length hw).2]
        exact ⟨rfl, rfl, rfl⟩
      · simp only [bind_ok_iff] at h
        obtain ⟨P1, h1, h⟩ := h
        obtain ⟨e1, e2, e3⟩ := ih _ _ _ _ _ _ _ h
        obtain ⟨c1, c2⟩ := setOffset_caps h1
        rw [e1, e2, e3]
        exact ⟨c1, c2, rfl⟩
    · exact ih _ _ _ _ _ _ _ h

/-- When `ReserveBuf(n)` returns, the new block and `BufferSize` are 3 bytes
larger than the size it decided on, and the table is as large as before. -/
theorem ReserveBuf_caps {P Q : Pool} {n : Nat} (hn : n < 4294967296)
    (h : ReserveBuf P n = .ok Q) :
    Q.BufferSize = newArenaSize P n + 3 ∧ Q.OffsetsSize = P.OffsetsSize ∧
      ∃ b, Q.Buffer = some b ∧ b.length = newArenaSize P n + 3 := by
  unfold ReserveBuf at h
  simp only [bind_ok_iff] at h
  obtain ⟨b1, h1, b2, h2, h⟩ := h
  have l1 : b1.length = (newChars _).length := (writeCells_length h1).2
  have l2 := writeCells_length h2
  rw [l1, length_newChars] at l2
  have hns : newArenaSize P n < 4294967296 := by
    unfold newArenaSize
    split
    · unfold u32; omega
    · exact hn
  have hfold : (if n < u32 (sub32 P.DataSize P.GarbageSize * 2 + AllocateSpace1) then
      u32 (sub32 P.DataSize P.GarbageSize * 2 + AllocateSpace1) else n) = newArenaSize P n := rfl
  rw [hfold] at l2 h
  have hsz : u32 (newArenaSize P n + 1 + sizeofLengthType + MemPadding) = newArenaSize P n + 3 := by
    have := l2.1
    simp only [sizeofLengthType, MemPadding, u32, List.length_singleton] at this ⊢
    omega
  have hsz2 : u32 (newArenaSize P n + sizeofLengthType + 1) = newArenaSize P n + 3 := by
    simp only [sizeofLengthType, MemPadding, u32] at hsz ⊢
    omega
  rw [hsz] at l2
  rw [hsz2] at h
  split at h
  · simp only [bind_ok_iff] at h
    obtain ⟨⟨P2, b3, d2⟩, hl, y, hy, h⟩ := h
    simp only [pure, Except.pure, Except.ok.injEq] at hy h
    obtain ⟨e1, e2, e3⟩ := ReserveBufLoop_caps _ _ _ _ _ _ _ _ _ hl
    subst hy
    subst h
    exact ⟨rfl, e2, _, rfl, by rw [e3]; exact l2.2⟩
  · simp only [pure, Except.pure, ok_bind, Except.ok.injEq] at h
    subst h
    exact ⟨rfl, rfl, _, rfl, l2.2⟩

/-- C31, counterexample.  On a new pool `ReserveBuf(0)` makes `BufferSize`
4099, not `max(0, 2 * 0 + 4096) = 4096`; and in a state with
`DataSize - GarbageSize = 2^31` the sum `2 * 2^31 + 4096` is 4096 in 32-bit
arithmetic, so `ReserveBuf(0)` makes `BufferSize` 4099, which is less than
twice the live occupancy. -/
theorem C31_capacity_is_three_more :
    (ReserveBuf fresh 0 >>= fun Q => pure (Q.BufferSize, Q.Buffer.map List.length))
      = .ok (4099, some 4099) ∧
    (ReserveBuf hugePool 0 >>= fun Q => pure Q.BufferSize) = .ok 4099 ∧
    sub32 hugePool.DataSize hugePool.GarbageSize = 2147483648 := by
  decide!

/-- C31, amended.  For a request `n` (an `unsigned int`), when `ReserveBuf(n)`
returns, `BufferSize` and the size of the new block are
`max(n, (2 * (DataSize - GarbageSize) + 4096) mod 2^32) + 3`, with the counters
as they were before the call: at least `n + 3`, and, when `GarbageSize` does
not exceed `DataSize` and the sum does not wrap, equal to
`max(n, 2 * (DataSize - GarbageSize) + 4096) + 3`, which is at least
`2 * (DataSize - GarbageSize) + 4099`.  `ReserveBuf(n)` returns on a pool
without a buffer and on a well-formed pool whose live records fit the new
size, when the new size plus 3 fits 32 bits. -/
theorem C31_compaction_sizing (P : Pool) (n : Nat) (hn : n < 4294967296) :
    (∀ Q, ReserveBuf P n = .ok Q →
      Q.BufferSize = max n (u32 (sub32 P.DataSize P.GarbageSize * 2 + AllocateSpace1)) + 3 ∧
      (∃ b, Q.Buffer = some b ∧ b.length = Q.BufferSize) ∧
      n + 3 ≤ Q.BufferSize ∧
      (P.GarbageSize ≤ P.DataSize → P.DataSize < 4294967296 →
        (P.DataSize - P.GarbageSize) * 2 + 4096 < 4294967296 →
        Q.BufferSize = max n ((P.DataSize - P.GarbageSize) * 2 + 4096) + 3 ∧
        2 * (P.DataSize - P.GarbageSize) + 4099 ≤ Q.BufferSize)) ∧
    (newArenaSize P n + 3 < 4294967296 →
      P.Buffer = none ∨ (WellFormed P ∧ 3 + liveBytes P P.Num.toNat ≤ newArenaSize P n + 3) →
      ∃ Q, ReserveBuf P n = .ok Q) := by
  have hmax : newArenaSize P n
      = max n (u32 (sub32 P.DataSize P.GarbageSize * 2 + AllocateSpace1)) := by
    unfold newArenaSize
    split
    · rw [max_eq_right (by omega)]
    · rw [max_eq_left (by omega)]
  refine ⟨?_, ?_⟩
  · intro Q hQ
    obtain ⟨h1, _, b, h3, h4⟩ := ReserveBuf_caps hn hQ
    rw [hmax] at h1 h4
    refine ⟨h1, ⟨b, h3, by rw [h4, h1]⟩, ?_, ?_⟩
    · rw [h1]
      have := le_max_left n (u32 (sub32 P.DataSize P.GarbageSize * 2 + AllocateSpace1))
      omega
    · intro hG hD hS
      have e : u32 (sub32 P.DataSize P.GarbageSize * 2 + AllocateSpace1)
          = (P.DataSize - P.GarbageSize) * 2 + 4096 := by
        have e1 : sub32 P.DataSize P.GarbageSize = P.DataSize - P.GarbageSize := by
          unfold sub32
          omega
        rw [e1]
        unfold u32 AllocateSpace1
        omega
      rw [e] at h1
      refine ⟨h1, ?_⟩
      rw [h1]
      have := le_max_right n ((P.DataSize - P.GarbageSize) * 2 + 4096)
      omega
  · intro hfit hP
    rcases hP with hB | ⟨hWF, hcap⟩
    · exact ⟨_, ReserveBuf_null P n (newArenaSize P n) (newArenaSize P n) hB rfl
        (by simp only [sizeofLengthType, MemPadding, u32]; omega)⟩
    · obtain ⟨Q, _, hQ, _⟩ := ReserveBuf_spec n hWF hcap hfit
      exact ⟨Q, hQ⟩

/-- C31, example.  In the pool after a relocation (`DataSize = 20`,
`GarbageSize = 6`) `ReserveBuf(0)` returns with
`BufferSize = max(0, 2 * 14 + 4096) + 3 = 4127`. -/
theorem C31_compaction_sizing_witness :
    (0 : Nat) < 4294967296 ∧ ∃ Q, ReserveBuf gappyPool 0 = .ok Q ∧ Q.BufferSize = 4127 := by
  have h := C31_compaction_sizing gappyPool 0 (by decide)
  obtain ⟨Q, hQ⟩ := h.2 (by decide) (Or.inr ⟨WellFormed_gappyPool, by decide⟩)
  exact ⟨by decide, Q, hQ, ((h.1 Q hQ).2.2.2 (by decide) (by decide) (by decide)).1.trans
    (by decide)⟩

/-- What a call `ReserveNum(n)` that returns has done. -/
theorem ReserveNum_ok {P Q : Pool} {n : Nat} (h : ReserveNum P n = .ok Q) :
    (n ≤ P.OffsetsSize ∧ Q = P) ∨
    (P.OffsetsSize < n ∧ ∃ old : List Nat, old.length = P.OffsetsSize ∧
      (P.Offsets = none ∨ ∃ o, P.Offsets = some o ∧ old = o.take P.OffsetsSize) ∧
      Q.Offsets = some (old ++ zeroFill (newTableSize P n - P.OffsetsSize)) ∧
      Q.OffsetsSize = newTableSize P n ∧ Q.Num = P.Num ∧ Q.BufferSize = P.BufferSize) := by
  unfold ReserveNum at h
  split at h
  · rename_i hle
    simp only [Except.ok.injEq] at h
    exact Or.inl ⟨hle, h.symm⟩
  · rename_i hlt
    refine Or.inr ⟨by omega, ?_⟩
    dsimp only at h
    have hfold : (if n < u32 (P.OffsetsSize * 2 + AllocateSpace2) then
        u32 (P.OffsetsSize * 2 + AllocateSpace2) else n) = newTableSize P n := rfl
    rw [hfold] at h
    cases ho : P.Offsets with
    | none =>
      simp only [ho] at h
      split at h
      · rename_i h0
        simp only [ok_bind, Except.ok.injEq] at h
        subst h
        exact ⟨[], by rw [h0]; rfl, Or.inl rfl, by dsimp only, by dsimp only, by dsimp only,
          by dsimp only⟩
      · simp [error_bind] at h
    | some o =>
      simp only [ho] at h
      split at h
      · rename_i hl
        simp only [ok_bind, Except.ok.injEq] at h
        subst h
        exact ⟨o.take P.OffsetsSize, by rw [List.length_take]; omega, Or.inr ⟨o, rfl, rfl⟩,
          by dsimp only, by dsimp only, by dsimp only, by dsimp only⟩
      · simp [error_bind] at h

theorem newTableSize_ge (P : Pool) (n : Nat) : n ≤ newTableSize P n := by
  unfold newTableSize
  split <;> omega

theorem ReserveNum_caps {P Q : Pool} {n : Nat} (h : ReserveNum P n = .ok Q) :
    Q.BufferSize = P.BufferSize ∧ P.OffsetsSize ≤ Q.OffsetsSize ∧
      (P.OffsetsSize < n → n ≤ Q.OffsetsSize) := by
  rcases ReserveNum_ok h with ⟨h1, h2⟩ | ⟨h1, old, _, _, _, h2, _, h3⟩
  · rw [h2]
    exact ⟨rfl, le_refl _, fun hn => by omega⟩
  · have := newTableSize_ge P n
    rw [h2, h3]
    exact ⟨rfl, by omega, fun _ => this⟩

/-- `ReserveBuf(n)` with `n` above the old `BufferSize` enlarges the buffer. -/
theorem ReserveBuf_grows {P Q : Pool} {n : Nat} (hn : n < 4294967296) (hgt : P.BufferSize < n)
    (h : ReserveBuf P n = .ok Q) :
    P.BufferSize ≤ Q.BufferSize ∧ P.OffsetsSize ≤ Q.OffsetsSize := by
  obtain ⟨e1, e2, _⟩ := ReserveBuf_caps hn h
  rw [e1, e2]
  refine ⟨?_, le_refl _⟩
  unfold newArenaSize
  split <;> omega

theorem AllocateAtEnd_caps {P Q : Pool} {i : Int} {len p : Nat} {moved : Bool}
    (h : AllocateAtEnd P i len = .ok (Q, p, moved)) :
    P.BufferSize ≤ Q.BufferSize ∧ P.OffsetsSize ≤ Q.OffsetsSize := by
  unfold AllocateAtEnd at h
  dsimp only at h
  split at h
  · rename_i hm
    simp only [bind_ok_iff, Except.ok.injEq, Prod.mk.injEq] at h
    obtain ⟨P1, h1, P2, h2, h, _⟩ := h
    have e1 := ReserveBuf_grows (by unfold u32; omega) (of_decide_eq_true hm) h1
    obtain ⟨c1, c2⟩ := setOffset_caps h2
    rw [← h]
    exact ⟨by show _ ≤ P2.BufferSize; rw [c1]; exact e1.1,
      by show _ ≤ P2.OffsetsSize; rw [c2]; exact e1.2⟩
  · simp only [bind_ok_iff, pure, Except.pure, Except.ok.injEq, Prod.mk.injEq] at h
    obtain ⟨P1, h1, P2, h2, h, _⟩ := h
    subst h1
    obtain ⟨c1, c2⟩ := setOffset_caps h2
    rw [← h]
    exact ⟨by show _ ≤ P2.BufferSize; rw [c1],
      by show _ ≤ P2.OffsetsSize; rw [c2]⟩

theorem Allocate_caps {P Q : Pool} {i : Int} {len p : Nat} {moved : Bool}
    (h : Allocate P i len = .ok (Q, p, moved)) :
    P.BufferSize ≤ Q.BufferSize ∧ P.OffsetsSize ≤ Q.OffsetsSize := by
  unfold Allocate at h
  simp only [bind_ok_iff] at h
  obtain ⟨off, _, h⟩ := h
  split at h
  · split at h
    · split at h
      · rename_i hm
        simp only [bind_ok_iff, Except.ok.injEq, Prod.mk.injEq] at h
        obtain ⟨P1, h1, h, _⟩ := h
        have e1 := ReserveBuf_grows (by unfold u32; omega) (of_decide_eq_true hm) h1
        rw [← h]
        exact e1
      · simp only [bind_ok_iff, pure, Except.pure, Except.ok.injEq, Prod.mk.injEq] at h
        obtain ⟨P1, h1, h, _⟩ := h
        rw [← h, ← h1]
        exact ⟨le_refl _, le_refl _⟩
    · simp only [bind_ok_iff] at h
      obtain ⟨OldLen, _, h⟩ := h
      split at h
      · simp only [Except.ok.injEq, Prod.mk.injEq] at h
        rw [← h.1]
        refine ⟨?_, ?_⟩
        · show P.BufferSize ≤ P.BufferSize
          exact le_refl _
        · show P.OffsetsSize ≤ P.OffsetsSize
          exact le_refl _
      · have e := AllocateAtEnd_caps h
        exact e
  · exact AllocateAtEnd_caps h

theorem SetErase_caps {P Q : Pool} {i : Int} (h : SetErase P i = .ok Q) :
    P.BufferSize ≤ Q.BufferSize ∧ P.OffsetsSize ≤ Q.OffsetsSize := by
  unfold SetErase at h
  simp only [bind_ok_iff] at h
  obtain ⟨off, _, h⟩ := h
  split at h
  · simp only [bind_ok_iff] at h
    obtain ⟨l, _, h⟩ := h
    obtain ⟨c1, c2⟩ := setOffset_caps h
    rw [c1, c2]
    exact ⟨le_refl _, le_refl _⟩
  · simp only [Except.ok.injEq] at h
    rw [← h]
    exact ⟨le_refl _, le_refl _⟩

theorem SetIndex_caps {P Q : Pool} {i : Int} (h : SetIndex P i = .ok Q) :
    P.BufferSize ≤ Q.BufferSize ∧ P.OffsetsSize ≤ Q.OffsetsSize := by
  unfold SetIndex at h
  split at h
  · simp at h
  · split at h
    · split at h
      · simp at h
      · dsimp only at h
        split at h
        · obtain ⟨c1, c2, _⟩ := ReserveNum_caps h
          rw [c1]
          exact ⟨le_refl _, c2⟩
        · simp only [Except.ok.injEq] at h
          rw [← h]
          exact ⟨le_refl _, le_refl _⟩
    · simp only [Except.ok.injEq] at h
      rw [← h]
      exact ⟨le_refl _, le_refl _⟩

theorem Set_caps {P Q : Pool} {i : Int} {s : PChar} (h : Set P i s = .ok Q) :
    P.BufferSize ≤ Q.BufferSize ∧ P.OffsetsSize ≤ Q.OffsetsSize := by
  unfold Set at h
  simp only [bind_ok_iff] at h
  obtain ⟨P1, h1, h⟩ := h
  have e1 := SetIndex_caps h1
  suffices hQ : P1.BufferSize ≤ Q.BufferSize ∧ P1.OffsetsSize ≤ Q.OffsetsSize from
    ⟨e1.1.trans hQ.1, e1.2.trans hQ.2⟩
  split at h
  all_goals
    simp only [bind_ok_iff] at h
    obtain ⟨len, _, h⟩ := h
    split at h
    · exact SetErase_caps h
    · split at h
      · simp at h
      · simp only [bind_ok_iff] at h
        obtain ⟨⟨P2, p, moved⟩, h2, h⟩ := h
        have e2 := Allocate_caps h2
        dsimp only at h
        split at h
        · simp at h
        · simp only [bind_ok_iff, Except.ok.injEq] at h
          obtain ⟨_, _, _, _, _, _, h⟩ := h
          rw [← h]
          exact e2

theorem SetN_caps {P Q : Pool} {i : Int} {s : PChar} {len : Nat} (h : SetN P i s len = .ok Q) :
    P.BufferSize ≤ Q.BufferSize ∧ P.OffsetsSize ≤ Q.OffsetsSize := by
  unfold SetN at h
  simp only [bind_ok_iff] at h
  obtain ⟨P1, h1, h⟩ := h
  have e1 := SetIndex_caps h1
  suffices hQ : P1.BufferSize ≤ Q.BufferSize ∧ P1.OffsetsSize ≤ Q.OffsetsSize from
    ⟨e1.1.trans hQ.1, e1.2.trans hQ.2⟩
  split at h
  · exact SetErase_caps h
  · simp only [bind_ok_iff] at h
    obtain ⟨⟨P2, p, moved⟩, h2, h⟩ := h
    have e2 := Allocate_caps h2
    dsimp only at h
    split at h
    · simp at h
    · simp only [bind_ok_iff, Except.ok.injEq] at h
      obtain ⟨_, _, _, _, _, _, _, _, h⟩ := h
      rw [← h]
      exact e2

theorem Concatenate_caps {P Q : Pool} {i : Int} {s : PChar}
    (h : Concatenate P i s = .ok Q) :
    P.BufferSize ≤ Q.BufferSize ∧ P.OffsetsSize ≤ Q.OffsetsSize := by
  unfold Concatenate at h
  simp only [bind_ok_iff] at h
  obtain ⟨len1, hl, h⟩ := h
  split at h
  all_goals
    simp only [bind_ok_iff] at h
    obtain ⟨len2, _, h⟩ := h
    split at h
    · simp only [Except.ok.injEq] at h
      rw [← h]
      exact ⟨le_refl _, le_refl _⟩
    · split at h
      · simp at h
      · split at h
        · simp at h
        · split at h
          · exact Set_caps h
          · simp only [bind_ok_iff] at h
            obtain ⟨string1, _, ⟨P2, p, moved⟩, h2, h⟩ := h
            have e2 := Allocate_caps h2
            dsimp only at h
            split at h
            · simp at h
            · simp only [bind_ok_iff, Except.ok.injEq] at h
              obtain ⟨_, _, _, _, _, _, _, _, _, _, h⟩ := h
              rw [← h]
              exact e2

theorem Clear_caps {P Q : Pool} (h : Clear P = .ok Q) :
    P.BufferSize ≤ Q.BufferSize ∧ P.OffsetsSize ≤ Q.OffsetsSize := by
  unfold Clear at h
  split at h
  · split at h
    · simp only [Except.ok.injEq] at h
      rw [← h]
      exact ⟨le_refl _, le_refl _⟩
    · simp at h
  · simp only [Except.ok.injEq] at h
    rw [← h]
    exact ⟨le_refl _, le_refl _⟩

theorem writeChar_caps {P Q : Pool} {index i : Int} {v : Nat}
    (h : writeChar P index i v = .ok Q) :
    P.BufferSize ≤ Q.BufferSize ∧ P.OffsetsSize ≤ Q.OffsetsSize := by
  unfold writeChar at h
  simp only [bind_ok_iff] at h
  obtain ⟨p, _, h⟩ := h
  split at h
  · simp at h
  · simp only [bind_ok_iff, Except.ok.injEq] at h
    obtain ⟨_, _, h⟩ := h
    rw [← h]
    exact ⟨le_refl _, le_refl _⟩

/-- C33, failing input.  After `ReserveBuf(5000)` on a new pool `BufferSize`
is 5003; a second direct call `ReserveBuf(0)` allocates a buffer for
`2 * 3 + 4096` bytes and leaves `BufferSize` at 4105: the capacity of the
arena has shrunk. -/
theorem C33_direct_ReserveBuf_shrinks :
    (runAll [Op.ReserveBuf 5000] >>= fun P => pure P.BufferSize) = .ok 5003 ∧
    (runAll [Op.ReserveBuf 5000, Op.ReserveBuf 0] >>= fun P => pure P.BufferSize)
      = .ok 4105 := by
  decide!

/-- The capacities under the other calls.  Every call other than a direct call
of `ReserveBuf` that returns leaves `BufferSize` and `OffsetsSize` at least as large as they were;
a direct call `ReserveBuf(n)` that returns leaves `OffsetsSize` as it was and
sets `BufferSize` to `max(n, (2 * (DataSize - GarbageSize) + 4096) mod 2^32) + 3`,
which is not less than before when `n` exceeds the old `BufferSize`. -/
theorem capacities_do_not_shrink (op : Op) (P Q : Pool) (h : op.run P = .ok Q) :
    ((∀ n, op ≠ Op.ReserveBuf n) →
      P.BufferSize ≤ Q.BufferSize ∧ P.OffsetsSize ≤ Q.OffsetsSize) ∧
    (∀ n, op = Op.ReserveBuf n → n < 4294967296 →
      Q.OffsetsSize = P.OffsetsSize ∧ Q.BufferSize = newArenaSize P n + 3 ∧
      (P.BufferSize < n → P.BufferSize ≤ Q.BufferSize)) := by
  cases op with
  | assign index s => exact ⟨fun _ => Set_caps h, fun n hn => by cases hn⟩
  | assignElement index src =>
    refine ⟨fun _ => ?_, fun n hn => by cases hn⟩
    simp only [Op.run, assignElement, bind_ok_iff] at h
    obtain ⟨_, _, _, _, h⟩ := h
    exact SetN_caps h
  | SetN index s len => exact ⟨fun _ => SetN_caps h, fun n hn => by cases hn⟩
  | append index s => exact ⟨fun _ => Concatenate_caps h, fun n hn => by cases hn⟩
  | SetToSubstring index s start len =>
    refine ⟨fun _ => ?_, fun n hn => by cases hn⟩
    simp only [Op.run, SetToSubstring] at h
    split at h
    all_goals
      simp only [bind_ok_iff] at h
      obtain ⟨_, _, h⟩ := h
      split at h
      · simp at h
      · exact SetN_caps h
  | SetToSubstringOf index src start len =>
    refine ⟨fun _ => ?_, fun n hn => by cases hn⟩
    simp only [Op.run, SetToSubstringOf, SetToSubstring, bind_ok_iff] at h
    obtain ⟨_, _, h⟩ := h
    split at h
    all_goals
      simp only [bind_ok_iff] at h
      obtain ⟨_, _, h⟩ := h
      split at h
      · simp at h
      · exact SetN_caps h
  | Printf index r =>
    refine ⟨fun _ => ?_, fun n hn => by cases hn⟩
    simp only [Op.run, Printf] at h
    split at h
    · simp at h
    · exact Set_caps h
  | writeChar index i v => exact ⟨fun _ => writeChar_caps h, fun n hn => by cases hn⟩
  | readChar index i =>
    refine ⟨fun _ => ?_, fun n hn => by cases hn⟩
    simp only [Op.run, bind_ok_iff, pure, Except.pure, Except.ok.injEq] at h
    obtain ⟨_, _, h⟩ := h
    rw [← h]
    exact ⟨le_refl _, le_refl _⟩
  | Clear => exact ⟨fun _ => Clear_caps h, fun n hn => by cases hn⟩
  | ReserveBuf newsize =>
    refine ⟨fun hne => absurd rfl (hne newsize), fun n hn hlt => ?_⟩
    cases hn
    obtain ⟨e1, e2, _⟩ := ReserveBuf_caps hlt h
    exact ⟨e2, e1, fun hgt => (ReserveBuf_grows hlt hgt h).1⟩
  | ReserveNum newsize =>
    refine ⟨fun _ => ?_, fun n hn => by cases hn⟩
    obtain ⟨c1, c2, _⟩ := ReserveNum_caps h
    rw [c1]
    exact ⟨le_refl _, c2⟩

/-- In the pool with two records and 24 bytes of buffer,
`strings[1] += "0123456789ab"` does not fit, the buffer is replaced, and the
call returns with `BufferSize = 4125` and `OffsetsSize = 2`: neither is less
than before. -/
theorem capacities_do_not_shrink_example :
    ∃ Q, (Op.append 1 (cstr (bytes "0123456789ab"))).run twoRecords = .ok Q ∧
      twoRecords.BufferSize ≤ Q.BufferSize ∧ twoRecords.OffsetsSize ≤ Q.OffsetsSize ∧
      Q.BufferSize = 4125 ∧ Q.OffsetsSize = 2 := by
  have hv : ((Op.append 1 (cstr (bytes "0123456789ab"))).run twoRecords >>= fun Q =>
      pure (Q.BufferSize, Q.OffsetsSize)) = .ok (4125, 2) := by decide!
  cases hq : (Op.append 1 (cstr (bytes "0123456789ab"))).run twoRecords with
  | error e =>
    rw [hq] at hv
    cases hv
  | ok Q =>
    rw [hq] at hv
    simp only [ok_bind, pure, Except.pure, Except.ok.injEq, Prod.mk.injEq] at hv
    have h := (capacities_do_not_shrink _ _ _ hq).1 (fun n hn => by cases hn)
    exact ⟨Q, rfl, h.1, h.2, hv.1, hv.2⟩

/-! ### The table of offsets -/

theorem TableOK_of_eq {P Q : Pool} (hN : Q.Num = P.Num) (hO : Q.Offsets = P.Offsets)
    (hS : Q.OffsetsSize = P.OffsetsSize) (h : TableOK P) : TableOK Q := by
  unfold TableOK at h ⊢
  rw [hN, hO, hS]
  exact h

theorem TableOK_fresh : TableOK fresh :=
  ⟨by decide, by decide, Or.inl ⟨rfl, rfl, rfl⟩⟩

theorem setOffset_ok {P Q : Pool} {i : Int} {v : Nat} (h : setOffset P i v = .ok Q) :
    ∃ o, P.Offsets = some o ∧ 0 ≤ i ∧ i.toNat < o.length ∧
      Q.Offsets = some (o.set i.toNat v) ∧ Q.Num = P.Num ∧ Q.OffsetsSize = P.OffsetsSize := by
  unfold setOffset at h
  cases ho : P.Offsets with
  | none => simp only [ho] at h; cases h
  | some o =>
    simp only [ho] at h
    split at h
    · cases h
    · split at h
      · rename_i h0 hl
        simp only [Except.ok.injEq] at h
        subst h
        exact ⟨o, rfl, by omega, hl, by dsimp only, by dsimp only, by dsimp only⟩
      · cases h

theorem setOffset_table {P Q : Pool} {i : Int} {v : Nat} (h : setOffset P i v = .ok Q)
    (hT : TableOK P) (hi : i < P.Num) : TableOK Q := by
  obtain ⟨o, ho, h0, hl, hQ, hN, hS⟩ := setOffset_ok h
  obtain ⟨t1, t2, t3⟩ := hT
  refine ⟨by rw [hN]; exact t1, by rw [hN]; exact t2, Or.inr ?_⟩
  rcases t3 with ⟨hn, _, _⟩ | ⟨o1, ho1, hlen, hle, hz⟩
  · rw [ho] at hn; cases hn
  · rw [ho] at ho1
    cases ho1
    refine ⟨_, hQ, by rw [List.length_set, hS]; exact hlen, by rw [hN, hS]; exact hle, ?_⟩
    intro k hk1 hk2
    rw [hN] at hk1
    rw [hS] at hk2
    rw [getOpt_set_ne v (by omega)]
    exact hz k hk1 hk2

/-- The entries of a table that was grown: the old ones, then zeros. -/
theorem getOpt_grown (old : List Nat) (m k : Nat) :
    (old ++ zeroFill m).get? k
      = if k < old.length then old.get? k else if k < old.length + m then some 0 else none := by
  simp only [List.get?_eq_getElem?]
  split
  · rename_i h
    exact List.getElem?_append_left h
  · rename_i h
    rw [List.getElem?_append_right (by omega)]
    unfold zeroFill
    split
    · rw [List.getElem?_replicate, if_pos (by omega)]
    · rw [List.getElem?_replicate, if_neg (by omega)]

theorem ReserveNum_table {P Q : Pool} {n : Nat} (h : ReserveNum P n = .ok Q)
    (hT : TableOK P) : TableOK Q := by
  rcases ReserveNum_ok h with ⟨_, h2⟩ | ⟨h1, old, hl, hold, hQ, hS, hN, _⟩
  · rw [h2]; exact hT
  · obtain ⟨t1, t2, t3⟩ := hT
    have hge := newTableSize_ge P n
    refine ⟨by rw [hN]; exact t1, by rw [hN]; exact t2, Or.inr ⟨_, hQ, ?_, ?_, ?_⟩⟩
    · rw [List.length_append, hl, hS]
      unfold zeroFill
      rw [List.length_replicate]
      omega
    · rw [hN, hS]
      rcases t3 with ⟨_, _, hn⟩ | ⟨_, _, _, hle, _⟩
      · rw [hn]; exact Nat.zero_le _
      · omega
    · intro k hk1 hk2
      rw [hN] at hk1
      rw [hS] at hk2
      rw [getOpt_grown, hl]
      split
      · rename_i hk
        rcases t3 with ⟨_, h0, _⟩ | ⟨o, ho, hlen, hle, hz⟩
        · omega
        · rcases hold with hnone | ⟨o1, ho1, hold⟩
          · rw [ho] at hnone; cases hnone
          · rw [ho] at ho1
            cases ho1
            rw [hold, List.get?_eq_getElem?, List.getElem?_take_of_lt hk,
              ← List.get?_eq_getElem?]
            exact hz k hk1 hk
      · rw [if_pos (by omega)]

theorem ReserveBufLoop_table (old : Mem) :
    ∀ (n i : Nat) (P : Pool) (b2 : Mem) (d2 : Nat) (Q : Pool) (b3 : Mem) (d3 : Nat),
      ReserveBufLoop old n (i : Int) P b2 d2 = .ok (Q, b3, d3) → TableOK P →
      i + n ≤ P.Num.toNat → TableOK Q := by
  intro n
  induction n with
  | zero =>
    intro i P b2 d2 Q b3 d3 h hT _
    simp [ReserveBufLoop] at h
    rw [← h.1]
    exact hT
  | succ n ih =>
    intro i P b2 d2 Q b3 d3 h hT hi
    have hcast : ((i : Int) + 1) = ((i + 1 : Nat) : Int) := by push_cast; rfl
    have hiN : (i : Int) < P.Num := by omega
    unfold ReserveBufLoop at h
    simp only [bind_ok_iff] at h
    obtain ⟨off, _, h⟩ := h
    split_ifs at h
    · simp only [bind_ok_iff] at h
      obtain ⟨l, _, h⟩ := h
      split_ifs at h
      · simp only [bind_ok_iff] at h
        obtain ⟨_, _, b, _, P1, h1, h⟩ := h
        have hT0 : TableOK { P with Top := d2 } := TableOK_of_eq rfl rfl rfl hT
        have hT1 := setOffset_table h1 hT0 hiN
        have hN1 : P1.Num = P.Num := by
          have e := setOffset_Num h1
          exact e
        rw [hcast] at h
        exact ih _ _ _ _ _ _ _ h hT1 (by rw [hN1]; omega)
      · simp only [bind_ok_iff] at h
        obtain ⟨P1, h1, h⟩ := h
        have hT1 := setOffset_table h1 hT hiN
        have hN1 : P1.Num = P.Num := setOffset_Num h1
        have hT2 : TableOK { P1 with
            GarbageSize := u32 (P1.GarbageSize + (sizeofLengthType + 1)) } :=
          TableOK_of_eq rfl rfl rfl hT1
        rw [hcast] at h
        exact ih _ _ _ _ _ _ _ h hT2 (by show _ ≤ P1.Num.toNat; rw [hN1]; omega)
    · rw [hcast] at h
      exact ih _ _ _ _ _ _ _ h hT (by omega)

theorem ReserveBuf_table {P Q : Pool} {n : Nat} (h : ReserveBuf P n = .ok Q)
    (hT : TableOK P) : TableOK Q := by
  unfold ReserveBuf at h
  simp only [bind_ok_iff] at h
  obtain ⟨B1, _, B2, _, h⟩ := h
  split at h
  · simp only [bind_ok_iff] at h
    obtain ⟨⟨P2, b2, d2⟩, h2, y, hy, h⟩ := h
    simp only [pure, Except.pure, Except.ok.injEq] at hy h
    have hT0 : TableOK { P with Top := sizeofLengthType + 1 } := TableOK_of_eq rfl rfl rfl hT
    have e := ReserveBufLoop_table _ _ 0 _ _ _ _ _ _ h2 hT0 (by simp)
    subst hy
    subst h
    exact TableOK_of_eq rfl rfl rfl e
  · simp only [pure, Except.pure, ok_bind, Except.ok.injEq] at h
    subst h
    exact TableOK_of_eq rfl rfl rfl hT

theorem AllocateAtEnd_table {P Q : Pool} {i : Int} {len p : Nat} {moved : Bool}
    (h : AllocateAtEnd P i len = .ok (Q, p, moved)) (hT : TableOK P) (hi : i < P.Num) :
    TableOK Q := by
  unfold AllocateAtEnd at h
  dsimp only at h
  split at h
  · simp only [bind_ok_iff, Except.ok.injEq, Prod.mk.injEq] at h
    obtain ⟨P1, h1, P2, h2, h, _⟩ := h
    have e1 := ReserveBuf_table h1 hT
    have hN1 := ReserveBuf_Num h1
    have hT0 : TableOK { P1 with Top := P1.DataSize } := TableOK_of_eq rfl rfl rfl e1
    have e2 := setOffset_table h2 hT0 (by show i < P1.Num; rw [hN1]; exact hi)
    subst h
    exact TableOK_of_eq rfl rfl rfl e2
  · simp only [bind_ok_iff, pure, Except.pure, Except.ok.injEq, Prod.mk.injEq] at h
    obtain ⟨P1, h1, P2, h2, h, _⟩ := h
    subst h1
    have hT0 : TableOK { P with Top := P.DataSize } := TableOK_of_eq rfl rfl rfl hT
    have e2 := setOffset_table h2 hT0 hi
    subst h
    exact TableOK_of_eq rfl rfl rfl e2

theorem Allocate_table {P Q : Pool} {i : Int} {len p : Nat} {moved : Bool}
    (h : Allocate P i len = .ok (Q, p, moved)) (hT : TableOK P) (hi : i < P.Num) :
    TableOK Q := by
  unfold Allocate at h
  simp only [bind_ok_iff] at h
  obtain ⟨off, _, h⟩ := h
  split at h
  · split at h
    · split at h
      · simp only [bind_ok_iff, Except.ok.injEq, Prod.mk.injEq] at h
        obtain ⟨P1, h1, h, _⟩ := h
        have e1 := ReserveBuf_table h1 hT
        subst h
        exact TableOK_of_eq rfl rfl rfl e1
      · simp only [bind_ok_iff, pure, Except.pure, Except.ok.injEq, Prod.mk.injEq] at h
        obtain ⟨P1, h1, h, _⟩ := h
        subst h1
        subst h
        exact TableOK_of_eq rfl rfl rfl hT
    · simp only [bind_ok_iff] at h
      obtain ⟨OldLen, _, h⟩ := h
      split at h
      · simp only [Except.ok.injEq, Prod.mk.injEq] at h
        rw [← h.1]
        exact TableOK_of_eq rfl rfl rfl hT
      · have hT0 : TableOK { P with
            GarbageSize := u32 (P.GarbageSize + (OldLen + sizeofLengthType + 1)) } :=
          TableOK_of_eq rfl rfl rfl hT
        have e := AllocateAtEnd_table h hT0 hi
        exact e
  · exact AllocateAtEnd_table h hT hi

theorem SetErase_table {P Q : Pool} {i : Int} (h : SetErase P i = .ok Q) (hT : TableOK P)
    (hi : i < P.Num) : TableOK Q := by
  unfold SetErase at h
  simp only [bind_ok_iff] at h
  obtain ⟨off, _, h⟩ := h
  split at h
  · simp only [bind_ok_iff] at h
    obtain ⟨l, _, h⟩ := h
    have hT0 : TableOK { P with
        GarbageSize := u32 (P.GarbageSize + (l + 1 + sizeofLengthType)) } :=
      TableOK_of_eq rfl rfl rfl hT
    have e := setOffset_table h hT0 hi
    exact e
  · simp only [Except.ok.injEq] at h
    rw [← h]
    exact hT

/-- After the opening of `Set`, the handle is an index into the table. -/
theorem SetIndex_table {P Q : Pool} {i : Int} (h : SetIndex P i = .ok Q) (hT : TableOK P) :
    TableOK Q ∧ 0 ≤ i ∧ i < Q.Num := by
  have hN := SetIndex_Num h
  refine ⟨?_, hN.2.1, hN.2.2.1⟩
  unfold SetIndex at h
  split at h
  · simp at h
  · rename_i h0
    split at h
    · rename_i hge
      split at h
      · simp at h
      · rename_i hmax
        dsimp only at h
        obtain ⟨t1, t2, t3⟩ := hT
        have hu : toUnsigned i = i.toNat := by unfold toUnsigned; omega
        have hu1 : toUnsigned (i + 1) = i.toNat + 1 := by unfold toUnsigned; omega
        split at h
        · rename_i hbig
          rw [hu] at hbig
          have hbig1 : P.OffsetsSize ≤ i.toNat := hbig
          rcases ReserveNum_ok h with ⟨h1, _⟩ | ⟨h1, old, hl, hold, hQ, hS, hNq, _⟩
          · rw [hu1] at h1
            have : i.toNat + 1 ≤ P.OffsetsSize := h1
            omega
          · have hge2 := newTableSize_ge { P with Num := i + 1 } (toUnsigned (i + 1))
            obtain ⟨T, hTdef⟩ : ∃ T, T = newTableSize { P with Num := i + 1 }
                (toUnsigned (i + 1)) := ⟨_, rfl⟩
            rw [← hTdef] at hge2 hQ hS
            rw [hu1] at hge2
            have hNq1 : Q.Num = i + 1 := hNq
            have hl1 : old.length = P.OffsetsSize := hl
            have hQ1 : Q.Offsets = some (old ++ zeroFill (T - P.OffsetsSize)) := hQ
            refine ⟨by omega, by omega, Or.inr ⟨_, hQ1, ?_, ?_, ?_⟩⟩
            · rw [List.length_append, hl1, hS]
              unfold zeroFill
              rw [List.length_replicate]
              omega
            · rw [hNq1, hS]
              omega
            · intro k hk1 hk2
              rw [hNq1] at hk1
              rw [hS] at hk2
              rw [getOpt_grown, hl1, if_neg (by omega)]
              rw [if_pos (by omega)]
        · rename_i hsmall
          rw [hu] at hsmall
          have hsmall1 : i.toNat < P.OffsetsSize := by
            have : ¬ (i.toNat ≥ P.OffsetsSize) := hsmall
            omega
          simp only [Except.ok.injEq] at h
          subst h
          rcases t3 with ⟨_, h0s, _⟩ | ⟨o, ho, hlen, hle, hz⟩
          · omega
          · refine ⟨by show 0 ≤ i + 1; omega, by show i + 1 ≤ 2147483647; omega,
              Or.inr ⟨o, ho, hlen, by show (i + 1).toNat ≤ P.OffsetsSize; omega, ?_⟩⟩
            intro k hk1 hk2
            have hk1a : (i + 1).toNat ≤ k := hk1
            exact hz k (by omega) hk2
    · simp only [Except.ok.injEq] at h
      rw [← h]
      exact hT

theorem Set_table {P Q : Pool} {i : Int} {s : PChar} (h : Set P i s = .ok Q)
    (hT : TableOK P) : TableOK Q := by
  unfold Set at h
  simp only [bind_ok_iff] at h
  obtain ⟨P1, h1, h⟩ := h
  obtain ⟨hT1, _, hi⟩ := SetIndex_table h1 hT
  split at h
  all_goals
    simp only [bind_ok_iff] at h
    obtain ⟨len, _, h⟩ := h
    split at h
    · exact SetErase_table h hT1 hi
    · split at h
      · simp at h
      · simp only [bind_ok_iff] at h
        obtain ⟨⟨P2, p, moved⟩, h2, h⟩ := h
        have e2 := Allocate_table h2 hT1 hi
        dsimp only at h
        split at h
        · simp at h
        · simp only [bind_ok_iff, Except.ok.injEq] at h
          obtain ⟨_, _, _, _, _, _, h⟩ := h
          subst h
          exact TableOK_of_eq rfl rfl rfl e2

theorem SetN_table {P Q : Pool} {i : Int} {s : PChar} {len : Nat} (h : SetN P i s len = .ok Q)
    (hT : TableOK P) : TableOK Q := by
  unfold SetN at h
  simp only [bind_ok_iff] at h
  obtain ⟨P1, h1, h⟩ := h
  obtain ⟨hT1, _, hi⟩ := SetIndex_table h1 hT
  split at h
  · exact SetErase_table h hT1 hi
  · simp only [bind_ok_iff] at h
    obtain ⟨⟨P2, p, moved⟩, h2, h⟩ := h
    have e2 := Allocate_table h2 hT1 hi
    dsimp only at h
    split at h
    · simp at h
    · simp only [bind_ok_iff, Except.ok.injEq] at h
      obtain ⟨_, _, _, _, _, _, _, _, h⟩ := h
      subst h
      exact TableOK_of_eq rfl rfl rfl e2

theorem Concatenate_table {P Q : Pool} {i : Int} {s : PChar}
    (h : Concatenate P i s = .ok Q) (hT : TableOK P) (himax : i ≤ 2147483647) :
    TableOK Q := by
  unfold Concatenate at h
  simp only [bind_ok_iff] at h
  obtain ⟨len1, hl, h⟩ := h
  have hr := Len_range hl
  have hi : i < P.Num := by
    have h1 : toUnsigned i < toUnsigned P.Num := hr.1
    have h2 := hr.2
    have := hT.1
    have := hT.2.1
    unfold toUnsigned at h1
    omega
  split at h
  all_goals
    simp only [bind_ok_iff] at h
    obtain ⟨len2, _, h⟩ := h
    split at h
    · simp only [Except.ok.injEq] at h
      rw [← h]
      exact hT
    · split at h
      · simp at h
      · split at h
        · simp at h
        · split at h
          · exact Set_table h hT
          · simp only [bind_ok_iff] at h
            obtain ⟨string1, _, ⟨P2, p, moved⟩, h2, h⟩ := h
            have e2 := Allocate_table h2 hT hi
            dsimp only at h
            split at h
            · simp at h
            · simp only [bind_ok_iff, Except.ok.injEq] at h
              obtain ⟨_, _, _, _, _, _, _, _, _, _, h⟩ := h
              subst h
              exact TableOK_of_eq rfl rfl rfl e2

theorem Clear_table {P Q : Pool} (h : Clear P = .ok Q) (hT : TableOK P) : TableOK Q := by
  obtain ⟨t1, t2, t3⟩ := hT
  unfold Clear at h
  split at h
  · rename_i o ho
    split at h
    · rename_i hle
      simp only [Except.ok.injEq] at h
      subst h
      rcases t3 with ⟨hn, _, _⟩ | ⟨o1, ho1, hlen, hle1, hz⟩
      · rw [ho] at hn; cases hn
      · rw [ho] at ho1
        cases ho1
        refine ⟨t1, t2, Or.inr ⟨_, rfl, ?_, hle1, ?_⟩⟩
        · show (zeroFill P.Num.toNat ++ o.drop P.Num.toNat).length = P.OffsetsSize
          unfold zeroFill
          rw [List.length_append, List.length_replicate, List.length_drop]
          omega
        · intro k hk1 hk2
          have hk1a : P.Num.toNat ≤ k := hk1
          have hk2a : k < P.OffsetsSize := hk2
          have e : (zeroFill P.Num.toNat).length = P.Num.toNat := by
            unfold zeroFill; exact List.length_replicate _ _
          rw [List.get?_eq_getElem?, List.getElem?_append_right (by rw [e]; exact hk1a), e,
            List.getElem?_drop, ← List.get?_eq_getElem?]
          exact hz _ (by omega) (by omega)
    · simp at h
  · rename_i ho
    simp only [Except.ok.injEq] at h
    subst h
    exact TableOK_of_eq rfl rfl rfl ⟨t1, t2, t3⟩

theorem writeChar_table {P Q : Pool} {index i : Int} {v : Nat}
    (h : writeChar P index i v = .ok Q) (hT : TableOK P) : TableOK Q := by
  unfold writeChar at h
  simp only [bind_ok_iff] at h
  obtain ⟨p, _, h⟩ := h
  split at h
  · simp at h
  · simp only [bind_ok_iff, Except.ok.injEq] at h
    obtain ⟨_, _, h⟩ := h
    subst h
    exact TableOK_of_eq rfl rfl rfl hT

theorem Op_run_table {op : Op} {P Q : Pool} (h : op.run P = .ok Q) (hT : TableOK P)
    (hop : op.Typed) : TableOK Q := by
  cases op with
  | assign index s => exact Set_table h hT
  | assignElement index src =>
    simp only [Op.run, assignElement, bind_ok_iff] at h
    obtain ⟨_, _, _, _, h⟩ := h
    exact SetN_table h hT
  | SetN index s len => exact SetN_table h hT
  | append index s => exact Concatenate_table h hT hop.2
  | SetToSubstring index s start len =>
    simp only [Op.run, SetToSubstring] at h
    split at h
    all_goals
      simp only [bind_ok_iff] at h
      obtain ⟨_, _, h⟩ := h
      split at h
      · simp at h
      · exact SetN_table h hT
  | SetToSubstringOf index src start len =>
    simp only [Op.run, SetToSubstringOf, SetToSubstring, bind_ok_iff] at h
    obtain ⟨_, _, h⟩ := h
    split at h
    all_goals
      simp only [bind_ok_iff] at h
      obtain ⟨_, _, h⟩ := h
      split at h
      · simp at h
      · exact SetN_table h hT
  | Printf index r =>
    simp only [Op.run, Printf] at h
    split at h
    · simp at h
    · exact Set_table h hT
  | writeChar index i v => exact writeChar_table h hT
  | readChar index i =>
    simp only [Op.run, bind_ok_iff, pure, Except.pure, Except.ok.injEq] at h
    obtain ⟨_, _, h⟩ := h
    rw [← h]
    exact hT
  | Clear => exact Clear_table h hT
  | ReserveBuf newsize => exact ReserveBuf_table h hT
  | ReserveNum newsize => exact ReserveNum_table h hT

/-- Every state that a sequence of calls reaches from a new pool has its table
in order. -/
theorem runAll_table (ops : List Op) (P : Pool) (hops : ∀ op ∈ ops, op.Typed)
    (h : runAll ops = .ok P) : TableOK P := by
  have key : ∀ (ops : List Op) (P Q : Pool), (∀ op ∈ ops, op.Typed) → TableOK P →
      runFrom P ops = .ok Q → TableOK Q := by
    intro ops
    induction ops with
    | nil =>
      intro P Q _ hT h
      simp only [runFrom, List.foldlM, pure, Except.pure, Except.ok.injEq] at h
      rw [← h]
      exact hT
    | cons op ops ih =>
      intro P Q hops hT h
      simp only [runFrom, List.foldlM, bind_ok_iff] at h
      obtain ⟨P1, h1, h⟩ := h
      exact ih P1 Q (fun o ho => hops o (List.mem_cons_of_mem _ ho))
        (Op_run_table h1 hT (hops op (List.mem_cons_self _ _))) h
  exact key ops fresh P hops TableOK_fresh h

/-- In a pool whose table is in order the entries from `Num` on read 0. -/
theorem TableOK_zero {P : Pool} (hT : TableOK P) (k : Nat) (hk1 : P.Num.toNat ≤ k)
    (hk2 : k < P.OffsetsSize) : offsetAt P (k : Int) = .ok 0 := by
  obtain ⟨_, _, t3⟩ := hT
  rcases t3 with ⟨_, h0, _⟩ | ⟨o, ho, _, _, hz⟩
  · omega
  · unfold offsetAt
    rw [ho]
    simp only []
    rw [if_neg (by omega), toNat_natCast, hz k hk1 hk2]

/-- `ReserveNum(n)` with `n` above `OffsetsSize` returns. -/
theorem ReserveNum_grows {P : Pool} {n : Nat} (hT : TableOK P) (hn : P.OffsetsSize < n) :
    ∃ Q, ReserveNum P n = .ok Q := by
  obtain ⟨_, _, t3⟩ := hT
  unfold ReserveNum
  rw [if_neg (by omega)]
  rcases t3 with ⟨ho, h0, _⟩ | ⟨o, ho, hl, _, _⟩
  · simp only [ho]
    rw [if_pos h0]
    exact ⟨_, rfl⟩
  · simp only [ho]
    rw [if_pos (by omega)]
    exact ⟨_, rfl⟩

/-- C32.  In a pool whose table is in order (the block has `OffsetsSize`
entries, those from `Num` on are 0) and with `2 * OffsetsSize + 1024` below
2^32: `ReserveNum(n)` with `n <= OffsetsSize` changes nothing; with
`n > OffsetsSize` it returns, sets `OffsetsSize` to
`max(n, 2 * OffsetsSize + 1024)`, keeps every entry below the old
`OffsetsSize`, makes every new entry 0 and leaves `Num` and `BufferSize` as
they were.  After an assignment `Set(h, s)` that returns, `h` is below
`OffsetsSize` and every entry from `Num` on is 0.  The table is in order in
every state that calls with arguments of their C++ types reach from a new
pool. -/
theorem C32_handle_table_growth (P : Pool) (n : Nat) (hP : TableOK P)
    (hsize : P.OffsetsSize * 2 + 1024 < 4294967296) :
    (n ≤ P.OffsetsSize → ReserveNum P n = .ok P) ∧
    (P.OffsetsSize < n → ∃ Q, ReserveNum P n = .ok Q ∧
      Q.OffsetsSize = max n (2 * P.OffsetsSize + 1024) ∧
      (∀ k : Nat, k < P.OffsetsSize → offsetAt Q (k : Int) = offsetAt P (k : Int)) ∧
      (∀ k : Nat, P.OffsetsSize ≤ k → k < Q.OffsetsSize → offsetAt Q (k : Int) = .ok 0) ∧
      Q.Num = P.Num ∧ Q.BufferSize = P.BufferSize) ∧
    (∀ (h : Int) (s : PChar) (Q : Pool), Set P h s = .ok Q →
      0 ≤ h ∧ h.toNat < Q.OffsetsSize ∧
      ∀ k : Nat, Q.Num.toNat ≤ k → k < Q.OffsetsSize → offsetAt Q (k : Int) = .ok 0) ∧
    (∀ (ops : List Op) (R : Pool), (∀ op ∈ ops, op.Typed) → runAll ops = .ok R →
      TableOK R) := by
  refine ⟨?_, ?_, ?_, fun ops R hops hR => runAll_table ops R hops hR⟩
  · intro hn
    unfold ReserveNum
    rw [if_pos hn]
  · intro hn
    obtain ⟨Q, hQ⟩ := ReserveNum_grows hP hn
    rcases ReserveNum_ok hQ with ⟨h1, _⟩ | ⟨_, old, hl, hold, hQo, hS, hN, hB⟩
    · omega
    · have hS2 : newTableSize P n = max n (2 * P.OffsetsSize + 1024) := by
        unfold newTableSize u32 AllocateSpace2
        split
        · rw [max_eq_right (by omega)]
          omega
        · rw [max_eq_left (by omega)]
      have hTQ := ReserveNum_table hQ hP
      refine ⟨Q, hQ, by rw [hS, hS2], ?_, ?_, hN, hB⟩
      · intro k hk
        obtain ⟨_, _, t3⟩ := hP
        rcases t3 with ⟨_, h0, _⟩ | ⟨o, ho, hlen, _, _⟩
        · omega
        · rcases hold with hnone | ⟨o1, ho1, hold⟩
          · rw [ho] at hnone; cases hnone
          · rw [ho] at ho1
            cases ho1
            refine offsetAt_congr k ho hQo ?_
            rw [getOpt_grown, if_pos (by omega), hold,
              List.get?_eq_getElem?, List.getElem?_take_of_lt hk, ← List.get?_eq_getElem?]
      · intro k hk1 hk2
        unfold offsetAt
        rw [hQo]
        simp only []
        rw [if_neg (by omega), toNat_natCast, getOpt_grown, if_neg (by omega),
          if_pos (by rw [hS] at hk2; omega)]
  · intro h s Q hQ
    have hTQ := Set_table hQ hP
    obtain ⟨hN1, h0, hlt, _⟩ := Set_Num hQ
    refine ⟨h0, ?_, fun k hk1 hk2 => TableOK_zero hTQ k hk1 hk2⟩
    obtain ⟨_, _, t3⟩ := hTQ
    rcases t3 with ⟨_, _, hz⟩ | ⟨_, _, _, hle, _⟩
    · omega
    · omega

/-- C32, example.  In the pool with the two entries 3 and 9 (`OffsetsSize = 2`)
`ReserveNum(3)` returns with `OffsetsSize = max(3, 2 * 2 + 1024) = 1028`, the
entries 3 and 9 in their places and 0 in entry 2. -/
theorem C32_handle_table_growth_witness :
    ∃ Q, ReserveNum twoRecords 3 = .ok Q ∧ Q.OffsetsSize = 1028 ∧
      offsetAt Q 0 = .ok 3 ∧ offsetAt Q 1 = .ok 9 ∧ offsetAt Q 2 = .ok 0 := by
  have hT : TableOK twoRecords :=
    ⟨by decide, by decide, Or.inr ⟨[3, 9], rfl, rfl, by decide, fun k h1 h2 => by
      have h1a : 2 ≤ k := h1
      have h2a : k < 2 := h2
      omega⟩⟩
  obtain ⟨Q, h1, h2, h3, h4, _⟩ :=
    (C32_handle_table_growth twoRecords 3 hT (by decide)).2.1 (by decide)
  exact ⟨Q, h1, h2.trans (by decide), (h3 0 (by decide)).trans (by decide),
    (h3 1 (by decide)).trans (by decide), h4 2 (by decide) (by rw [h2]; decide)⟩

/-! ### Traces -/

theorem SetN_block_65536 (blk : List Nat) (hlen : blk.length = 65536) :
    ∃ Q, SetN fresh 0 (.mem blk) 65536 = .ok Q ∧ Q.Num = 1 ∧ offsetAt Q 0 = .ok 3 ∧
      Q.Top = 3 ∧ Len Q 0 = .ok 0 ∧ Q.DataSize = 65542 ∧ Q.GarbageSize = 0 := by
  have hN := SetN_fresh_zero blk 65536 65539 (by omega) (by omega) (by omega)
    (by rw [if_neg (by omega)])
  have hu : u16 65536 = 0 := by unfold u16; omega
  rw [hu] at hN
  refine ⟨_, hN, rfl, ?_, rfl, ?_, rfl, rfl⟩
  · simp [singleRecordPool, offsetAt]
  · have := Len_singleRecordPool (0 % 256) (0 / 256 % 256)
      ((blk.take 65536).map some ++ [some 0] ++ newChars (65539 - (65536 + 3))) (65539 + 3)
      (65536 + 6)
    simpa [recordCells] using this

/-- C34, failing input.  On a new pool `Set(0, block, 65536)` with a block of
65536 bytes returns: the record of handle 0 lies at offset 3, which is `Top`,
its length field is `(LengthType)65536 = 0`, so `Len(0)` is 0, and `DataSize`
is `3 + 2 + 65536 + 1 = 65542`, not `Offsets[0] + 2 + Len(0) + 1 = 6`. -/
theorem C34_top_record_does_not_end_at_DataSize :
    ∃ Q, SetN fresh 0 (.mem (List.replicate 65536 97)) 65536 = .ok Q ∧
      offsetAt Q 0 = .ok 3 ∧ Q.Top = 3 ∧ Len Q 0 = .ok 0 ∧ Q.DataSize = 65542 :=
  let ⟨Q, h1, _, h3, h4, h5, h6, _⟩ :=
    SetN_block_65536 (List.replicate 65536 97) (List.length_replicate _ _)
  ⟨Q, h1, h3, h4, h5, h6⟩

/-- C36, failing input.  After `Set(1,"a"); Set(0,"b")` handle 1 reads "a"
and has length 1.  A write of 4090 characters to handle 0, whose record is the
last one, does not fit the buffer: `Allocate` calls `ReserveBuf` and then
stores the record at `Top`, which now is the record of handle 1.  After
`Set(0, s)` handle 1 has length 4090 and reads the 4090 characters; after
`Concatenate(0, s)` it has length 4091 and reads "b" followed by them. -/
theorem C36_write_changes_other_handle :
    (runOps [(Set · 1 (cstr (bytes "a"))), (Set · 0 (cstr (bytes "b")))] >>= fun P =>
      pure (content P 1, Len P 1)) = .ok (.ok (bytes "a"), .ok 1) ∧
    (runOps [(Set · 1 (cstr (bytes "a"))), (Set · 0 (cstr (bytes "b"))),
             (Set · 0 (cstr longString))] >>= fun P => pure (Len P 1)) = .ok (.ok 4090) ∧
    (runOps [(Set · 1 (cstr (bytes "a"))), (Set · 0 (cstr (bytes "b"))),
             (Set · 0 (cstr longString))] >>= (content · 1)) = .ok longString ∧
    (runOps [(Set · 1 (cstr (bytes "a"))), (Set · 0 (cstr (bytes "b"))),
             (Concatenate · 0 (cstr longString))] >>= fun P => pure (Len P 1)) = .ok (.ok 4091) ∧
    (runOps [(Set · 1 (cstr (bytes "a"))), (Set · 0 (cstr (bytes "b"))),
             (Concatenate · 0 (cstr longString))] >>= (content · 1))
      = .ok (bytes "b" ++ longString) := by
  decide!

/-- C37, failing input.  After `Set(1,"a")` and an assignment of 24
characters to handle 0 the record of handle 0 is the last one
(`Offsets[0] == Top == 7`, `DataSize == 34`, `BufferSize == 4099`).
`Allocate(0, 4160)` calls `ReserveBuf(4170)`, which allocates 4173 bytes and
moves `Top` to 30, and returns offset 30 with `DataSize == 4193`: the bytes
from 30 to 4193 do not lie inside the 4173 bytes of the buffer, and
`Set(0, s)` with 4160 characters writes behind its end. -/
theorem C37_tail_growth_leaves_arena :
    (runOps [(Set · 1 (cstr (bytes "a"))), (Set · 0 (cstr shortString))] >>= fun P =>
      pure (offsetAt P 0, P.Top, P.DataSize, P.BufferSize, P.Buffer.map List.length))
      = .ok (.ok 7, 7, 34, 4099, some 4099) ∧
    (runOps [(Set · 1 (cstr (bytes "a"))), (Set · 0 (cstr shortString))] >>= fun P =>
      Allocate P 0 4160 >>= fun (Q, p, _) =>
        pure (p, Q.BufferSize, Q.Buffer.map List.length, Q.DataSize))
      = .ok (30, 4173, some 4173, 4193) ∧
    runOps [(Set · 1 (cstr (bytes "a"))), (Set · 0 (cstr shortString)),
            (Set · 0 (cstr longerString))] = .error .Undefined := by
  decide!

/-- C39, failing input.  After `Set(0,"a"); Set(1,"b")` the records lie at
offsets 3 and 7, `DataSize` is 11 and `GarbageSize` 0.  Assigning 4090
characters to handle 0 relocates its record and replaces the buffer on the
way: afterwards the records lie at offsets 11 and 7 with lengths 4090 and 1,
`DataSize` is 4104 and `GarbageSize` 0, while the empty record and the live
records take `3 + liveBytes == 4100` bytes: the 4 bytes of the old record of
handle 0 are neither live nor counted as garbage. -/
theorem C39_relocated_record_not_counted :
    (runOps [(Set · 0 (cstr (bytes "a"))), (Set · 1 (cstr (bytes "b")))] >>= fun P =>
      pure (offsetAt P 0, offsetAt P 1, P.Top, P.DataSize, P.GarbageSize))
      = .ok (.ok 3, .ok 7, 7, 11, 0) ∧
    (runOps [(Set · 0 (cstr (bytes "a"))), (Set · 1 (cstr (bytes "b"))),
             (Set · 0 (cstr longString))] >>= fun P =>
      pure (offsetAt P 0, Len P 0, offsetAt P 1, Len P 1))
      = .ok (.ok 11, .ok 4090, .ok 7, .ok 1) ∧
    (runOps [(Set · 0 (cstr (bytes "a"))), (Set · 1 (cstr (bytes "b"))),
             (Set · 0 (cstr longString))] >>= fun P =>
      pure (P.Num, P.DataSize, P.GarbageSize, 3 + liveBytes P 2)) = .ok (2, 4104, 0, 4100) := by
  decide!

/-! ### Assigning to a new handle -/

theorem ReserveNum_returns {P : Pool} (n : Nat)
    (hb : (P.Offsets = none ∧ P.OffsetsSize = 0) ∨
      ∃ o, P.Offsets = some o ∧ o.length = P.OffsetsSize) :
    ∃ Q, ReserveNum P n = .ok Q := by
  unfold ReserveNum
  split
  · exact ⟨_, rfl⟩
  · rcases hb with ⟨ho, h0⟩ | ⟨o, ho, hl⟩
    · simp only [ho]
      rw [if_pos h0]
      exact ⟨_, rfl⟩
    · simp only [ho]
      rw [if_pos (by omega)]
      exact ⟨_, rfl⟩

/-- The opening of `Set` returns for every handle from 0 to 2^31 - 2. -/
theorem SetIndex_returns {P : Pool} {h : Int} (hT : TableOK P) (h0 : 0 ≤ h)
    (hmax : h ≤ 2147483646) : ∃ P1, SetIndex P h = .ok P1 := by
  unfold SetIndex
  rw [if_neg (by omega)]
  split
  · rw [if_neg (by omega)]
    dsimp only
    split
    · apply ReserveNum_returns
      obtain ⟨_, _, t3⟩ := hT
      rcases t3 with ⟨ho, h0s, _⟩ | ⟨o, ho, hl, _, _⟩
      · exact Or.inl ⟨ho, h0s⟩
      · exact Or.inr ⟨o, ho, hl⟩
    · exact ⟨_, rfl⟩
  · exact ⟨_, rfl⟩

theorem offsetAt_eq_of_Offsets {P Q : Pool} (h : Q.Offsets = P.Offsets) (i : Int) :
    offsetAt Q i = offsetAt P i := by
  unfold offsetAt
  rw [h]

/-- The entries of the table after the opening of `Set`: those of the handles
in use are unchanged, the others are 0. -/
theorem SetIndex_entries {P P1 : Pool} {h : Int} (h1 : SetIndex P h = .ok P1)
    (hT : TableOK P) :
    (∀ k : Nat, k < P.Num.toNat → offsetAt P1 (k : Int) = offsetAt P (k : Int)) ∧
    (∀ k : Nat, P.Num.toNat ≤ k → k < P1.OffsetsSize → offsetAt P1 (k : Int) = .ok 0) := by
  have same : ∀ P2 : Pool, P2.Offsets = P.Offsets → P2.OffsetsSize = P.OffsetsSize →
      (∀ k : Nat, k < P.Num.toNat → offsetAt P2 (k : Int) = offsetAt P (k : Int)) ∧
      (∀ k : Nat, P.Num.toNat ≤ k → k < P2.OffsetsSize → offsetAt P2 (k : Int) = .ok 0) := by
    intro P2 e1 e2
    refine ⟨fun k _ => offsetAt_eq_of_Offsets e1 _, fun k hk1 hk2 => ?_⟩
    rw [offsetAt_eq_of_Offsets e1]
    exact TableOK_zero hT k hk1 (by rw [← e2]; exact hk2)
  unfold SetIndex at h1
  split at h1
  · simp at h1
  · split at h1
    · split at h1
      · simp at h1
      · dsimp only at h1
        split at h1
        · rcases ReserveNum_ok h1 with ⟨_, e⟩ | ⟨hlt, old, hl, hold, hQ, hS, hNq, _⟩
          · rw [e]
            exact same _ rfl rfl
          · have hl1 : old.length = P.OffsetsSize := hl
            have hlt1 : P.OffsetsSize < toUnsigned (h + 1) := hlt
            obtain ⟨T, hTdef⟩ : ∃ T, T = newTableSize { P with Num := h + 1 }
                (toUnsigned (h + 1)) := ⟨_, rfl⟩
            rw [← hTdef] at hQ hS
            have hQ1 : P1.Offsets = some (old ++ zeroFill (T - P.OffsetsSize)) := hQ
            obtain ⟨_, _, t3⟩ := hT
            refine ⟨fun k hk => ?_, fun k hk1 hk2 => ?_⟩
            · rcases t3 with ⟨_, _, hn⟩ | ⟨o, ho, hlen, hle, hz⟩
              · rw [hn] at hk
                exact absurd hk (Nat.not_lt_zero k)
              · rcases hold with hnone | ⟨o1, ho1, hold⟩
                · have hnone1 : P.Offsets = none := hnone
                  rw [ho] at hnone1
                  cases hnone1
                · have ho2 : P.Offsets = some o1 := ho1
                  rw [ho] at ho2
                  cases ho2
                  have hold1 : old = o.take P.OffsetsSize := hold
                  refine offsetAt_congr k ho hQ1 ?_
                  rw [getOpt_grown, if_pos (by omega), hold1, List.get?_eq_getElem?,
                    List.getElem?_take_of_lt (by omega), ← List.get?_eq_getElem?]
            · rw [hS] at hk2
              refine offsetAt_of hQ1 (by omega) ?_
              rw [toNat_natCast, getOpt_grown]
              split
              · rename_i hk
                rcases t3 with ⟨_, h0s, _⟩ | ⟨o, ho, hlen, hle, hz⟩
                · omega
                · rcases hold with hnone | ⟨o1, ho1, hold⟩
                  · have hnone1 : P.Offsets = none := hnone
                    rw [ho] at hnone1
                    cases hnone1
                  · have ho2 : P.Offsets = some o1 := ho1
                    rw [ho] at ho2
                    cases ho2
                    have hold1 : old = o.take P.OffsetsSize := hold
                    rw [hold1, List.get?_eq_getElem?, List.getElem?_take_of_lt (by omega),
                      ← List.get?_eq_getElem?]
                    exact hz k hk1 (by omega)
              · rw [if_pos (by omega)]
        · simp only [Except.ok.injEq] at h1
          rw [← h1]
          exact same _ rfl rfl
    · simp only [Except.ok.injEq] at h1
      rw [← h1]
      exact same _ rfl rfl

theorem Set_after_SetIndex {P P1 : Pool} {h : Int} (s : PChar) (h1 : SetIndex P h = .ok P1) :
    Set P h s = Set P1 h s := by
  have hN := SetIndex_Num h1
  unfold Set
  rw [h1, SetIndex_valid hN.2.1 hN.2.2.1]

theorem liveBytes_zero_tail (P : Pool) (a : Nat) :
    ∀ n, a ≤ n → (∀ k, a ≤ k → k < n → liveSize P k = 0) → liveBytes P n = liveBytes P a := by
  intro n
  induction n with
  | zero =>
    intro ha _
    have : a = 0 := by omega
    rw [this]
  | succ n ih =>
    intro ha hz
    by_cases e : a = n + 1
    · rw [e]
    · show liveBytes P n + liveSize P n = _
      rw [hz n (by omega) (by omega), ih (by omega) (fun k h1 h2 => hz k h1 (by omega))]
      rfl

/-- The length field at `off` is read from the two cells at `off`. -/
theorem readU16_get (m : Mem) (off : Nat) :
    readU16 m off = match m.get? off, m.get? (off + 1) with
      | some (some lo), some (some hi) => .ok (lo + 256 * hi)
      | _, _ => .error .Undefined := by
  unfold readU16 readCells
  by_cases h : off + 2 ≤ m.length
  · rw [if_pos h]
    obtain ⟨e, hl, hl2⟩ := block_split m off 2 h
    obtain ⟨x, y, hxy⟩ : ∃ x y, (m.drop off).take 2 = [x, y] := by
      match hm : (m.drop off).take 2, hl2 with
      | [x, y], _ => exact ⟨x, y, rfl⟩
    have g0 : m.get? off = some x := by
      rw [e, hxy, List.get?_eq_getElem?, List.getElem?_append_right (by omega), hl]
      simp
    have g1 : m.get? (off + 1) = some y := by
      rw [e, hxy, List.get?_eq_getElem?, List.getElem?_append_right (by omega), hl]
      simp
    rw [hxy, g0, g1]
    cases x <;> cases y <;> rfl
  · rw [if_neg h]
    have g1 : m.get? (off + 1) = none := by
      rw [List.get?_eq_getElem?, List.getElem?_eq_none]
      omega
    rw [g1]
    cases m.get? off with
    | none => rfl
    | some x => cases x <;> rfl

theorem readU16_congr {m m1 : Mem} {off off1 : Nat} (h0 : m1.get? off1 = m.get? off)
    (h1 : m1.get? (off1 + 1) = m.get? (off + 1)) : readU16 m1 off1 = readU16 m off := by
  rw [readU16_get, readU16_get, h0, h1]

/-- The cells of a block after a `memcpy` into it. -/
theorem writeCells_get {m m1 : Mem} {q : Nat} {d : List Cell} (h : writeCells m q d = .ok m1)
    (i : Nat) :
    m1.get? i = if i < q then m.get? i else if i < q + d.length then d.get? (i - q)
      else m.get? i := by
  unfold writeCells at h
  split at h
  · rename_i hle
    simp only [Except.ok.injEq] at h
    subst h
    simp only [List.get?_eq_getElem?]
    split
    · rename_i hi
      rw [List.append_assoc, List.getElem?_append_left (by rw [List.length_take]; omega),
        List.getElem?_take_of_lt hi]
    · rename_i hi
      have hl : (m.take q).length = q := by rw [List.length_take]; omega
      rw [List.append_assoc, List.getElem?_append_right (by omega), hl]
      split
      · rename_i hi2
        rw [List.getElem?_append_left (by omega)]
      · rename_i hi2
        rw [List.getElem?_append_right (by omega), List.getElem?_drop]
        congr 1
        omega
  · simp at h

/-- A `memcpy` that does not touch the two cells at `off` leaves the length
field at `off` as it is. -/
theorem writeCells_frame {m m1 : Mem} {q off : Nat} {d : List Cell}
    (h : writeCells m q d = .ok m1) (hd : off + 2 ≤ q ∨ q + d.length ≤ off) :
    readU16 m1 off = readU16 m off := by
  apply readU16_congr
  · rw [writeCells_get h]
    split
    · rfl
    · rw [if_neg (by omega)]
  · rw [writeCells_get h]
    split
    · rfl
    · rw [if_neg (by omega)]

/-- The length field that was stored is the one that is read. -/
theorem writeU16_read {m m1 : Mem} {p v : Nat} (h : writeU16 m p v = .ok m1) (hv : v ≤ 65535) :
    readU16 m1 p = .ok v := by
  unfold writeU16 at h
  have g0 := writeCells_get h p
  have g1 := writeCells_get h (p + 1)
  rw [if_neg (by omega), if_pos (by simp)] at g0
  rw [if_neg (by omega), if_pos (by simp)] at g1
  rw [readU16_get, g0, g1]
  simp only [Nat.sub_self, Nat.add_sub_cancel_left, List.get?_cons_zero, List.get?_cons_succ]
  rw [decode_length v hv]

/-- `Len` of a handle in use is the length field at its offset. -/
theorem Len_eq_readU16 {P : Pool} {k off : Nat} {b : Mem} (h0 : 0 ≤ P.Num)
    (h1 : P.Num ≤ 2147483647) (hk : k < P.Num.toNat) (ho : offsetAt P (k : Int) = .ok off)
    (hb : P.Buffer = some b) : Len P (k : Int) = readU16 b off := by
  unfold Len
  rw [if_neg (valid_natCast h0 h1 hk), ho, hb]
  rfl

theorem Len_inv {P : Pool} {i : Int} {l : Nat} (h : Len P i = .ok l) :
    ∃ off b, offsetAt P i = .ok off ∧ P.Buffer = some b ∧ readU16 b off = .ok l := by
  unfold Len at h
  split at h
  · cases h
  · simp only [bind_ok_iff] at h
    obtain ⟨off, ho, h⟩ := h
    cases hb : P.Buffer with
    | none => rw [hb] at h; cases h
    | some b =>
      rw [hb] at h
      exact ⟨off, b, ho, rfl, h⟩

theorem setOffset_inv {P Q : Pool} {i : Int} {v : Nat} (h : setOffset P i v = .ok Q) :
    ∃ o, P.Offsets = some o ∧ 0 ≤ i ∧ i.toNat < o.length ∧
      Q = { P with Offsets := some (o.set i.toNat v) } := by
  unfold setOffset at h
  cases ho : P.Offsets with
  | none => simp only [ho] at h; cases h
  | some o =>
    simp only [ho] at h
    split at h
    · cases h
    · split at h
      · rename_i h0 hl
        simp only [Except.ok.injEq] at h
        exact ⟨o, rfl, by omega, hl, h.symm⟩
      · cases h

theorem offsetAt_setOffset_self {P Q : Pool} {i : Int} {v : Nat}
    (h : setOffset P i v = .ok Q) : offsetAt Q i = .ok v := by
  obtain ⟨o, _, h0, hl, hQ⟩ := setOffset_inv h
  rw [hQ]
  exact offsetAt_of rfl h0 (getOpt_set_self v hl)

/-- The loop of `ReserveBuf`, when it returns: the handles it went through
have their new offsets, the length fields of their records are where the new
offsets point, nothing below `DataSize2` was overwritten, and `Top` is the new
offset of the last live record. -/
theorem ReserveBufLoop_layout (P0 : Pool) (old : Mem) (hB0 : P0.Buffer = some old) :
    ∀ (n i : Nat) (P : Pool) (b2 : Mem) (d2 : Nat) (P1 : Pool) (b21 : Mem) (d21 : Nat),
      ReserveBufLoop old n (i : Int) P b2 d2 = .ok (P1, b21, d21) →
      P.Buffer = P0.Buffer → P.Num = P0.Num →
      (∀ k : Nat, i ≤ k → offsetAt P (k : Int) = offsetAt P0 (k : Int)) →
      b2.length < 4294967296 → d2 = 3 + liveBytes P0 i →
      (∀ k : Nat, i ≤ k → k < i + n → offsetAt P1 (k : Int) = .ok (newOffset P0 k)) ∧
      (∀ k : Nat, k < i → offsetAt P1 (k : Int) = offsetAt P (k : Int)) ∧
      (∀ off, off + 2 ≤ d2 → readU16 b21 off = readU16 b2 off) ∧
      (∀ k : Nat, i ≤ k → k < i + n → ∀ l, liveSize P0 k ≠ 0 → Len P0 (k : Int) = .ok l →
        readU16 b21 (3 + liveBytes P0 k) = .ok l) ∧
      ((P1.Top = P.Top ∧ ∀ k, i ≤ k → k < i + n → liveSize P0 k = 0) ∨
       ∃ k, i ≤ k ∧ k < i + n ∧ liveSize P0 k ≠ 0 ∧ P1.Top = 3 + liveBytes P0 k ∧
         ∀ k', k < k' → k' < i + n → liveSize P0 k' = 0) := by
  intro n
  induction n with
  | zero =>
    intro i P b2 d2 P1 b21 d21 h _ _ _ _ _
    simp [ReserveBufLoop] at h
    obtain ⟨e1, e2, _⟩ := h
    subst e1
    subst e2
    exact ⟨fun k h1 h2 => absurd h2 (by omega), fun _ _ => rfl, fun _ _ => rfl,
      fun k h1 h2 => absurd h2 (by omega), Or.inl ⟨rfl, fun k h1 h2 => absurd h2 (by omega)⟩⟩
  | succ n ih =>
    intro i P b2 d2 P1 b21 d21 h hB hN hoffs hlen hd2
    have hcast : ((i : Int) + 1) = ((i + 1 : Nat) : Int) := by push_cast; rfl
    have e : i + (n + 1) = i + 1 + n := by omega
    have hsucc : liveBytes P0 (i + 1) = liveBytes P0 i + liveSize P0 i := rfl
    have hLenP : Len P (i : Int) = Len P0 (i : Int) := Len_eq_of hB hN (hoffs i (le_refl _))
    unfold ReserveBufLoop at h
    simp only [bind_ok_iff] at h
    obtain ⟨off, hoff, h⟩ := h
    have hoff0 : offsetAt P0 (i : Int) = .ok off := by rw [← hoffs i (le_refl _)]; exact hoff
    split_ifs at h with hnz
    · simp only [bind_ok_iff] at h
      obtain ⟨l, hl, h⟩ := h
      have hl0 : Len P0 (i : Int) = .ok l := by rw [← hLenP]; exact hl
      split_ifs at h with hlz
      · simp only [bind_ok_iff] at h
        obtain ⟨rec_, hr, b3, hw, P2, hs, h⟩ := h
        obtain ⟨s1, s2, s3⟩ := offsetAt_setOffset hs
        obtain ⟨o2, _, _, _, hP2⟩ := setOffset_inv hs
        have hself := offsetAt_setOffset_self hs
        obtain ⟨w1, w2⟩ := writeCells_length hw
        obtain ⟨hrl, hrin⟩ := readCells_length hr
        have hu : u32 (d2 + (l + sizeofLengthType + 1)) = d2 + (l + sizeofLengthType + 1) := by
          apply u32_of_lt
          omega
        have hls : liveSize P0 i = 2 + l + 1 := by
          unfold liveSize
          rw [hoff0, hl0]
          simp only []
          rw [if_pos ⟨hnz, hlz⟩]
        have hnew : newOffset P0 i = d2 := by
          unfold newOffset
          rw [if_neg (by omega), hd2]
        rw [hu, hcast] at h
        obtain ⟨a1, a2, a3, a4, a5⟩ := ih (i + 1) P2 b3 _ P1 b21 d21 h
          (by rw [s1]; exact hB) (by rw [s2]; exact hN)
          (fun k hk => by rw [s3 k (by omega)]; exact hoffs k (by omega)) (by omega)
          (by rw [hsucc, hls, hd2]; unfold sizeofLengthType; omega)
        have hTop2 : P2.Top = d2 := by rw [hP2]
        refine ⟨?_, ?_, ?_, ?_, ?_⟩
        · intro k hk1 hk2
          by_cases hki : k = i
          · subst hki
            rw [a2 k (by omega), hself, hnew]
          · exact a1 k (by omega) (by omega)
        · intro k hk
          rw [a2 k (by omega), s3 k (by omega)]
          rfl
        · intro x hx
          rw [a3 x (by unfold sizeofLengthType; omega)]
          exact writeCells_frame hw (Or.inl hx)
        · intro k hk1 hk2 l' hlive hl'
          by_cases hki : k = i
          · subst hki
            rw [hl0] at hl'
            cases hl'
            rw [← hd2, a3 d2 (by unfold sizeofLengthType; omega)]
            obtain ⟨off', b', ho', hb', hrd⟩ := Len_inv hl0
            rw [hoff0] at ho'
            cases ho'
            rw [hB0] at hb'
            cases hb'
            rw [← hrd]
            have hrec : rec_ = (old.drop off).take (l + sizeofLengthType + 1) := by
              rw [readCells_of_le old off _ hrin] at hr
              exact (Except.ok.inj hr).symm
            unfold sizeofLengthType at hrec hrl hrin
            apply readU16_congr
            · rw [writeCells_get hw, if_neg (by omega), if_pos (by omega), Nat.sub_self, hrec,
                List.get?_eq_getElem?, List.get?_eq_getElem?,
                List.getElem?_take_of_lt (by omega), List.getElem?_drop]
              rfl
            · rw [writeCells_get hw, if_neg (by omega), if_pos (by omega),
                Nat.add_sub_cancel_left, hrec, List.get?_eq_getElem?, List.get?_eq_getElem?,
                List.getElem?_take_of_lt (by omega), List.getElem?_drop]
          · exact a4 k (by omega) (by omega) l' hlive hl'
        · rcases a5 with ⟨t1, t2⟩ | ⟨k, k1, k2, k3, k4, k5⟩
          · refine Or.inr ⟨i, le_refl _, by omega, by omega, ?_, ?_⟩
            · rw [t1, hTop2, hd2]
            · intro k' h1' h2'
              exact t2 k' (by omega) (by omega)
          · exact Or.inr ⟨k, by omega, by omega, k3, k4, fun k' h1' h2' => k5 k' h1' (by omega)⟩
      · simp only [bind_ok_iff] at h
        obtain ⟨P2, hs, h⟩ := h
        obtain ⟨s1, s2, s3⟩ := offsetAt_setOffset hs
        obtain ⟨o2, _, _, _, hP2⟩ := setOffset_inv hs
        have hself := offsetAt_setOffset_self hs
        have hls : liveSize P0 i = 0 := by
          unfold liveSize
          rw [hoff0, hl0]
          simp only []
          rw [if_neg (by simp [hlz])]
        have hnew : newOffset P0 i = 0 := by
          unfold newOffset
          rw [if_pos hls]
        rw [hcast] at h
        obtain ⟨a1, a2, a3, a4, a5⟩ := ih (i + 1) _ b2 d2 P1 b21 d21 h
          (by show P2.Buffer = _; rw [s1]; exact hB) (by show P2.Num = _; rw [s2]; exact hN)
          (fun k hk => by
            show offsetAt { P2 with GarbageSize := _ } (k : Int) = _
            have e2 : offsetAt { P2 with
                GarbageSize := u32 (P2.GarbageSize + (sizeofLengthType + 1)) } (k : Int)
                = offsetAt P2 (k : Int) := rfl
            rw [e2, s3 k (by omega)]
            exact hoffs k (by omega)) hlen (by rw [hsucc, hls, hd2]; rfl)
        have hTop2 : P2.Top = P.Top := by rw [hP2]
        have a2' : ∀ k : Nat, k < i + 1 → offsetAt P1 (k : Int) = offsetAt P2 (k : Int) :=
          fun k hk => a2 k hk
        refine ⟨?_, ?_, a3, ?_, ?_⟩
        · intro k hk1 hk2
          by_cases hki : k = i
          · subst hki
            rw [a2' k (by omega), hself, hnew]
          · exact a1 k (by omega) (by omega)
        · intro k hk
          rw [a2' k (by omega), s3 k (by omega)]
        · intro k hk1 hk2 l' hlive hl'
          by_cases hki : k = i
          · subst hki
            exact absurd hls hlive
          · exact a4 k (by omega) (by omega) l' hlive hl'
        · rcases a5 with ⟨t1, t2⟩ | ⟨k, k1, k2, k3, k4, k5⟩
          · refine Or.inl ⟨t1.trans hTop2, ?_⟩
            intro k h1' h2'
            by_cases hki : k = i
            · subst hki
              exact hls
            · exact t2 k (by omega) (by omega)
          · exact Or.inr ⟨k, by omega, by omega, k3, k4, fun k' h1' h2' => k5 k' h1' (by omega)⟩
    · have hz : off = 0 := by
        by_contra hne
        exact hnz hne
      have hls : liveSize P0 i = 0 := by
        unfold liveSize
        rw [hoff0]
        cases Len P0 (i : Int) with
        | error _ => rfl
        | ok l =>
          simp only []
          rw [if_neg (by simp [hz])]
      have hnew : newOffset P0 i = 0 := by
        unfold newOffset
        rw [if_pos hls]
      rw [hcast] at h
      obtain ⟨a1, a2, a3, a4, a5⟩ := ih (i + 1) P b2 d2 P1 b21 d21 h hB hN
        (fun k hk => hoffs k (by omega)) hlen (by rw [hsucc, hls, hd2]; rfl)
      refine ⟨?_, ?_, a3, ?_, ?_⟩
      · intro k hk1 hk2
        by_cases hki : k = i
        · subst hki
          rw [a2 k (by omega), hoff, hnew, hz]
        · exact a1 k (by omega) (by omega)
      · intro k hk
        exact a2 k (by omega)
      · intro k hk1 hk2 l' hlive hl'
        by_cases hki : k = i
        · subst hki
          exact absurd hls hlive
        · exact a4 k (by omega) (by omega) l' hlive hl'
      · rcases a5 with ⟨t1, t2⟩ | ⟨k, k1, k2, k3, k4, k5⟩
        · refine Or.inl ⟨t1, ?_⟩
          intro k h1' h2'
          by_cases hki : k = i
          · subst hki
            exact hls
          · exact t2 k (by omega) (by omega)
        · exact Or.inr ⟨k, by omega, by omega, k3, k4, fun k' h1' h2' => k5 k' h1' (by omega)⟩


theorem ReserveBuf_null_table {P Q : Pool} {n : Nat} (hB : P.Buffer = none)
    (h : ReserveBuf P n = .ok Q) : Q.Offsets = P.Offsets ∧ Q.Num = P.Num := by
  unfold ReserveBuf at h
  simp only [bind_ok_iff] at h
  obtain ⟨b1, _, b2, _, h⟩ := h
  rw [hB] at h
  simp only [pure, Except.pure, ok_bind, Except.ok.injEq] at h
  subst h
  exact ⟨rfl, rfl⟩

/-- What `ReserveBuf(n)` has done when it returns, in a pool with a buffer:
every handle has its new offset, where the length field of its record is, and
`Top` is the new offset of the last live record. -/
theorem ReserveBuf_inv {P Q : Pool} {n : Nat} {old : Mem} (hB : P.Buffer = some old)
    (h : ReserveBuf P n = .ok Q) :
    ∃ b, Q.Buffer = some b ∧
      (∀ k : Nat, k < P.Num.toNat → offsetAt Q (k : Int) = .ok (newOffset P k)) ∧
      (∀ k : Nat, k < P.Num.toNat → ∀ l, liveSize P k ≠ 0 → Len P (k : Int) = .ok l →
        readU16 b (3 + liveBytes P k) = .ok l) ∧
      ((Q.Top = 3 ∧ ∀ k, k < P.Num.toNat → liveSize P k = 0) ∨
       ∃ k, k < P.Num.toNat ∧ liveSize P k ≠ 0 ∧ Q.Top = 3 + liveBytes P k ∧
         ∀ k', k < k' → k' < P.Num.toNat → liveSize P k' = 0) := by
  unfold ReserveBuf at h
  simp only [bind_ok_iff] at h
  obtain ⟨b1, h1, b2, h2, h⟩ := h
  have hlen : b2.length < 4294967296 := by
    have l1 : b1.length = (newChars _).length := (writeCells_length h1).2
    have l2 := (writeCells_length h2).2
    rw [l2, l1, length_newChars]
    unfold u32
    omega
  rw [hB] at h
  simp only [bind_ok_iff] at h
  obtain ⟨⟨P2, b3, d3⟩, hl, y, hy, h⟩ := h
  simp only [pure, Except.pure, Except.ok.injEq] at hy h
  obtain ⟨a1, _, _, a4, a5⟩ := ReserveBufLoop_layout P old hB P.Num.toNat 0
    { P with Buffer := some old, Top := sizeofLengthType + 1 } b2 (sizeofLengthType + 1)
    P2 b3 d3 hl hB.symm rfl (fun _ _ => rfl) hlen rfl
  subst hy
  subst h
  refine ⟨b3, rfl, ?_, ?_, ?_⟩
  · intro k hk
    exact a1 k (Nat.zero_le k) (by omega)
  · intro k hk l hlive hL
    exact a4 k (Nat.zero_le k) (by omega) l hlive hL
  · rcases a5 with ⟨t1, t2⟩ | ⟨k, _, k2, k3, k4, k5⟩
    · exact Or.inl ⟨t1, fun k hk => t2 k (Nat.zero_le k) (by omega)⟩
    · exact Or.inr ⟨k, by omega, k3, k4, fun k' h1 h2 => k5 k' h1 (by omega)⟩


theorem ReserveBuf_lt {P Q : Pool} {n : Nat} (h : ReserveBuf P n = .ok Q) :
    Q.BufferSize < 4294967296 := by
  unfold ReserveBuf at h
  simp only [bind_ok_iff] at h
  obtain ⟨B1, _, B2, _, h⟩ := h
  split at h
  · simp only [bind_ok_iff] at h
    obtain ⟨⟨P2, b2, d2⟩, h2, y, hy, h⟩ := h
    simp only [pure, Except.pure, Except.ok.injEq] at hy h
    subst hy
    subst h
    show u32 _ < _
    unfold u32
    omega
  · simp only [pure, Except.pure, ok_bind, Except.ok.injEq] at h
    subst h
    show u32 _ < _
    unfold u32
    omega

theorem liveSize_inv {P : Pool} {k : Nat} (h : liveSize P k ≠ 0) :
    ∃ off l, offsetAt P (k : Int) = .ok off ∧ Len P (k : Int) = .ok l ∧ off ≠ 0 ∧ l ≠ 0 ∧
      liveSize P k = l + 3 := by
  unfold liveSize at h ⊢
  cases ho : offsetAt P (k : Int) with
  | error e =>
    rw [ho] at h
    exact absurd rfl h
  | ok off =>
    cases hl : Len P (k : Int) with
    | error e =>
      rw [ho, hl] at h
      exact absurd rfl h
    | ok l =>
      rw [ho, hl] at h
      simp only [] at h ⊢
      by_cases hc : off ≠ 0 ∧ l ≠ 0
      · rw [if_pos hc]
        exact ⟨off, l, rfl, rfl, hc.1, hc.2, by omega⟩
      · rw [if_neg hc] at h
        exact absurd rfl h

theorem newOffset_ne_zero {P : Pool} {k : Nat} (h : newOffset P k ≠ 0) :
    liveSize P k ≠ 0 ∧ newOffset P k = 3 + liveBytes P k := by
  unfold newOffset at h ⊢
  split
  · rename_i hz
    rw [if_pos hz] at h
    exact absurd rfl h
  · rename_i hz
    exact ⟨hz, rfl⟩

/-- A compaction keeps the layout in order. -/
theorem ReserveBuf_sound {P Q : Pool} {n : Nat} (hn : n < 4294967296) (hP : Sound P)
    (h : ReserveBuf P n = .ok Q) : Sound Q := by
  obtain ⟨hT, hBS, hD, hBl, hR, hDis⟩ := hP
  have hTQ := ReserveBuf_table h hT
  have hNQ := ReserveBuf_Num h
  obtain ⟨c1, _, bq, hbq, hbql⟩ := ReserveBuf_caps hn h
  obtain ⟨_, hDQ⟩ := ReserveBuf_counters h
  have hlt := ReserveBuf_lt h
  refine ⟨hTQ, hlt, Or.inr (by omega), ?_, ?_⟩
  · intro b hb
    rw [hbq] at hb
    cases hb
    rw [hbql, c1]
  cases hB : P.Buffer with
  | none =>
    obtain ⟨eO, _⟩ := ReserveBuf_null_table hB h
    have none_live : ∀ k off : Nat, k < P.Num.toNat → offsetAt Q (k : Int) = .ok off →
        off ≠ 0 → False := by
      intro k off hk ho hz
      rw [offsetAt_eq_of_Offsets eO] at ho
      obtain ⟨l, hl, _⟩ := hR k off hk ho hz
      obtain ⟨_, b, _, hb, _⟩ := Len_inv hl
      rw [hB] at hb
      cases hb
    rw [hNQ]
    exact ⟨fun k off hk ho hz => absurd (none_live k off hk ho hz) id,
      fun k1 k2 off1 off2 l1 l2 hk1 _ _ ho1 _ hz1 _ _ _ =>
        absurd (none_live k1 off1 hk1 ho1 hz1) id⟩
  | some old =>
    obtain ⟨b, hb, hoffs, hhead, hTop⟩ := ReserveBuf_inv hB h
    rw [hbq] at hb
    cases hb
    have t1 := hTQ.1
    have t2 := hTQ.2.1
    -- the record of a handle with a nonzero offset after the compaction
    have key : ∀ k off' : Nat, k < P.Num.toNat → offsetAt Q (k : Int) = .ok off' → off' ≠ 0 →
        ∃ l, off' = 3 + liveBytes P k ∧ liveSize P k = l + 3 ∧ Len Q (k : Int) = .ok l ∧
          1 ≤ l ∧ l ≤ 65535 := by
      intro k off' hk ho hz
      rw [hoffs k hk] at ho
      simp only [Except.ok.injEq] at ho
      rw [← ho] at hz
      obtain ⟨hlive, hnew⟩ := newOffset_ne_zero hz
      obtain ⟨off, l, hoP, hlP, hoz, hlz, hls⟩ := liveSize_inv hlive
      obtain ⟨l', hl', _, hmax, _⟩ := hR k off hk hoP hoz
      rw [hlP] at hl'
      cases hl'
      refine ⟨l, by rw [← ho, hnew], hls, ?_, by omega, hmax⟩
      rw [Len_eq_readU16 t1 t2 (by rw [hNQ]; exact hk) (hoffs k hk) hbq, hnew]
      exact hhead k hk l hlive hlP
    have hsucc : ∀ k, liveBytes P (k + 1) = liveBytes P k + liveSize P k := fun _ => rfl
    rw [hNQ]
    refine ⟨?_, ?_⟩
    · intro k off' hk ho hz
      obtain ⟨l, e1, e2, e3, e4, e5⟩ := key k off' hk ho hz
      have hm := liveBytes_mono P (show k + 1 ≤ P.Num.toNat by omega)
      rw [hsucc, e2] at hm
      refine ⟨l, e3, e4, e5, by omega, by omega, ?_⟩
      intro hTopEq
      rcases hTop with ⟨_, hnone⟩ | ⟨kT, hkT, hliveT, hTopT, hlater⟩
      · have := hnone k hk
        omega
      · have hkk : k = kT := by
          by_contra hne
          rcases Nat.lt_or_gt_of_ne hne with hlt' | hgt'
          · have hm2 := liveBytes_mono P (show k + 1 ≤ kT by omega)
            rw [hsucc, e2] at hm2
            omega
          · have := hlater k hgt' hk
            omega
        subst hkk
        have hz2 := liveBytes_zero_tail P (k + 1) P.Num.toNat (by omega)
          (fun k' h1 h2 => hlater k' (by omega) h2)
        rw [hsucc, e2] at hz2
        omega
    · intro k1 k2 off1 off2 l1 l2 hk1 hk2 hne ho1 ho2 hz1 hz2 hl1 hl2
      obtain ⟨m1, a1, a2, a3, _, _⟩ := key k1 off1 hk1 ho1 hz1
      obtain ⟨m2, b1, b2, b3, _, _⟩ := key k2 off2 hk2 ho2 hz2
      rw [a3] at hl1
      rw [b3] at hl2
      cases hl1
      cases hl2
      rcases Nat.lt_or_gt_of_ne hne with hlt' | hgt'
      · have hm := liveBytes_mono P (show k1 + 1 ≤ k2 by omega)
        rw [hsucc, a2] at hm
        left
        omega
      · have hm := liveBytes_mono P (show k2 + 1 ≤ k1 by omega)
        rw [hsucc, b2] at hm
        right
        omega


theorem Len_eq_of_fields {P Q : Pool} (hN : Q.Num = P.Num) (hO : Q.Offsets = P.Offsets)
    (hB : Q.Buffer = P.Buffer) (i : Int) : Len Q i = Len P i :=
  Len_eq_of hB hN (offsetAt_eq_of_Offsets hO i)

/-- `Sound` looks at `Num`, the table, the buffer, `DataSize` and `Top`. -/
theorem Sound_congr {P Q : Pool} (hN : Q.Num = P.Num) (hO : Q.Offsets = P.Offsets)
    (hS : Q.OffsetsSize = P.OffsetsSize) (hB : Q.Buffer = P.Buffer)
    (hBS : Q.BufferSize = P.BufferSize) (hD : Q.DataSize = P.DataSize) (hTop : Q.Top = P.Top)
    (h : Sound P) : Sound Q := by
  obtain ⟨hT, h1, h2, h3, h4, h5⟩ := h
  refine ⟨TableOK_of_eq hN hO hS hT, by rw [hBS]; exact h1, by rw [hD]; exact h2, ?_, ?_, ?_⟩
  · intro b hb
    rw [hBS]
    exact h3 b (by rw [← hB]; exact hb)
  · intro k off hk ho hz
    rw [hN] at hk
    rw [offsetAt_eq_of_Offsets hO] at ho
    rw [Len_eq_of_fields hN hO hB, hD, hTop]
    exact h4 k off hk ho hz
  · intro k1 k2 off1 off2 l1 l2 hk1 hk2 hne ho1 ho2 hz1 hz2 hl1 hl2
    rw [hN] at hk1 hk2
    rw [offsetAt_eq_of_Offsets hO] at ho1 ho2
    rw [Len_eq_of_fields hN hO hB] at hl1 hl2
    exact h5 k1 k2 off1 off2 l1 l2 hk1 hk2 hne ho1 ho2 hz1 hz2 hl1 hl2

theorem Sound_fresh : Sound fresh := by
  refine ⟨TableOK_fresh, by decide, Or.inl rfl, ?_, ?_, ?_⟩
  · intro b hb
    cases hb
  · intro k off hk
    exact absurd hk (Nat.not_lt_zero k)
  · intro k1 k2 off1 off2 l1 l2 hk1
    exact absurd hk1 (Nat.not_lt_zero k1)

/-- In a pool whose layout is in order two handles with the same nonzero
offset are the same handle. -/
theorem Sound_unique {P : Pool} (hP : Sound P) {k1 k2 off : Nat} (hk1 : k1 < P.Num.toNat)
    (hk2 : k2 < P.Num.toNat) (hz : off ≠ 0) (ho1 : offsetAt P (k1 : Int) = .ok off)
    (ho2 : offsetAt P (k2 : Int) = .ok off) : k1 = k2 := by
  obtain ⟨_, _, _, _, hR, hDis⟩ := hP
  by_contra hne
  obtain ⟨l1, hl1, _⟩ := hR k1 off hk1 ho1 hz
  obtain ⟨l2, hl2, _⟩ := hR k2 off hk2 ho2 hz
  have := hDis k1 k2 off off l1 l2 hk1 hk2 hne ho1 ho2 hz hz hl1 hl2
  omega

/-- The record at `Top` grows or shrinks in place: the other records end
before it. -/
theorem Ready_tail {P P1 : Pool} {kT L : Nat} (hP : Sound P) (hkT : kT < P.Num.toNat)
    (hoT : offsetAt P (kT : Int) = .ok P.Top) (hTz : P.Top ≠ 0)
    (hN : P1.Num = P.Num) (hO : P1.Offsets = P.Offsets) (hS : P1.OffsetsSize = P.OffsetsSize)
    (hB : P1.Buffer = P.Buffer) (hBS : P1.BufferSize = P.BufferSize)
    (hTop : P1.Top = P.Top) (hD : P1.DataSize = P.Top + (L + 3)) :
    Ready P1 P.Top L := by
  have hu := @Sound_unique P hP
  obtain ⟨hT, h1, h2, h3, hR, hDis⟩ := hP
  obtain ⟨lT, hlT, _, _, hT3, _, hTend⟩ := hR kT P.Top hkT hoT hTz
  have hTend' := hTend rfl
  refine ⟨TableOK_of_eq hN hO hS hT, by rw [hBS]; exact h1, ?_, by rw [hD], fun _ => by rw [hD],
    ?_, ?_, ?_⟩
  · intro b hb
    rw [hBS]
    exact h3 b (by rw [← hB]; exact hb)
  · intro k1 k2 hk1 hk2 hz ho1 ho2
    rw [hN] at hk1 hk2
    rw [offsetAt_eq_of_Offsets hO] at ho1 ho2
    exact hu hk1 hk2 hz ho1 ho2
  · intro k off hk ho hz
    rw [hN] at hk
    rw [offsetAt_eq_of_Offsets hO] at ho
    obtain ⟨l, hl, a1, a2, a3, a4, _⟩ := hR k off hk ho hz
    refine ⟨a3, fun hne => ?_⟩
    have hkne : k ≠ kT := by
      intro e
      rw [e, hoT] at ho
      exact hne (Except.ok.inj ho).symm
    have hd := hDis k kT off P.Top l lT hk hkT hkne ho hoT hz hTz hl hlT
    have hle : off + (l + 3) ≤ P.Top := by omega
    refine ⟨l, by rw [Len_eq_of_fields hN hO hB]; exact hl, a1, a2, by rw [hD]; omega,
      Or.inl hle, ?_⟩
    intro e
    rw [hTop] at e
    exact absurd e hne
  · intro k1 k2 off1 off2 l1 l2 hk1 hk2 hne ho1 ho2 hz1 hz2 _ _ hl1 hl2
    rw [hN] at hk1 hk2
    rw [offsetAt_eq_of_Offsets hO] at ho1 ho2
    rw [Len_eq_of_fields hN hO hB] at hl1 hl2
    exact hDis k1 k2 off1 off2 l1 l2 hk1 hk2 hne ho1 ho2 hz1 hz2 hl1 hl2

/-- A record that is not the one at `Top` is used again for a string that is
not longer. -/
theorem Ready_reuse {P P1 : Pool} {kh off OldLen L : Nat} (hP : Sound P)
    (hkh : kh < P.Num.toNat) (hoh : offsetAt P (kh : Int) = .ok off) (hz : off ≠ 0)
    (hnt : off ≠ P.Top) (hlh : Len P (kh : Int) = .ok OldLen) (hle : L ≤ OldLen)
    (hN : P1.Num = P.Num) (hO : P1.Offsets = P.Offsets) (hS : P1.OffsetsSize = P.OffsetsSize)
    (hB : P1.Buffer = P.Buffer) (hBS : P1.BufferSize = P.BufferSize)
    (hTop : P1.Top = P.Top) (hD : P1.DataSize = P.DataSize) :
    Ready P1 off L := by
  have hu := @Sound_unique P hP
  obtain ⟨hT, h1, h2, h3, hR, hDis⟩ := hP
  obtain ⟨lh, hlh', _, _, _, hend, _⟩ := hR kh off hkh hoh hz
  rw [hlh] at hlh'
  cases hlh'
  refine ⟨TableOK_of_eq hN hO hS hT, by rw [hBS]; exact h1, ?_, by rw [hD]; omega,
    fun e => absurd (e.symm.trans hTop) hnt, ?_, ?_, ?_⟩
  · intro b hb
    rw [hBS]
    exact h3 b (by rw [← hB]; exact hb)
  · intro k1 k2 hk1 hk2 hz' ho1 ho2
    rw [hN] at hk1 hk2
    rw [offsetAt_eq_of_Offsets hO] at ho1 ho2
    exact hu hk1 hk2 hz' ho1 ho2
  · intro k off' hk ho hz'
    rw [hN] at hk
    rw [offsetAt_eq_of_Offsets hO] at ho
    obtain ⟨l, hl, a1, a2, a3, a4, a5⟩ := hR k off' hk ho hz'
    refine ⟨a3, fun hne => ?_⟩
    have hkne : k ≠ kh := by
      intro e
      rw [e, hoh] at ho
      exact hne (Except.ok.inj ho).symm
    have hd := hDis k kh off' off l OldLen hk hkh hkne ho hoh hz' hz hl hlh
    refine ⟨l, by rw [Len_eq_of_fields hN hO hB]; exact hl, a1, a2, by rw [hD]; exact a4,
      by omega, ?_⟩
    rw [hTop, hD]
    exact a5
  · intro k1 k2 off1 off2 l1 l2 hk1 hk2 hne ho1 ho2 hz1 hz2 _ _ hl1 hl2
    rw [hN] at hk1 hk2
    rw [offsetAt_eq_of_Offsets hO] at ho1 ho2
    rw [Len_eq_of_fields hN hO hB] at hl1 hl2
    exact hDis k1 k2 off1 off2 l1 l2 hk1 hk2 hne ho1 ho2 hz1 hz2 hl1 hl2

/-- A record is put at the end of the data: the existing records end before
it, and the handle is the only one with the new offset. -/
theorem Ready_end {P P0 P2 P1 : Pool} {h : Int} {L : Nat} (hP : Sound P)
    (hN0 : P0.Num = P.Num) (hO0 : P0.Offsets = P.Offsets) (hS0 : P0.OffsetsSize = P.OffsetsSize)
    (hi : h < P.Num) (hs : setOffset P0 h P.DataSize = .ok P2)
    (hN : P1.Num = P.Num) (hO : P1.Offsets = P2.Offsets) (hS : P1.OffsetsSize = P.OffsetsSize)
    (hB : P1.Buffer = P.Buffer) (hBS : P1.BufferSize = P.BufferSize)
    (hTop : P1.Top = P.DataSize) (hD : P1.DataSize = P.DataSize + (L + 3)) :
    Ready P1 P.DataSize L := by
  obtain ⟨hT, h1, h2, h3, hR, hDis⟩ := hP
  obtain ⟨o, ho0, h0, hlo, hP2⟩ := setOffset_inv hs
  rw [hO0] at ho0
  have hO1 : P1.Offsets = some (o.set h.toNat P.DataSize) := by rw [hO, hP2]
  -- the entries of the other handles
  have hother : ∀ k : Nat, k ≠ h.toNat → offsetAt P1 (k : Int) = offsetAt P (k : Int) := by
    intro k hk
    exact offsetAt_congr k ho0 hO1 (getOpt_set_ne _ (Ne.symm hk))
  have hself : offsetAt P1 ((h.toNat : Nat) : Int) = .ok P.DataSize :=
    offsetAt_of hO1 (by omega) (by rw [toNat_natCast]; exact getOpt_set_self _ hlo)
  have hLen : ∀ k : Nat, k ≠ h.toNat → Len P1 (k : Int) = Len P (k : Int) :=
    fun k hk => Len_eq_of hB hN (hother k hk)
  -- a handle other than `h` does not have the offset `DataSize`
  have hnotD : ∀ k off : Nat, k < P.Num.toNat → k ≠ h.toNat →
      offsetAt P1 (k : Int) = .ok off → off ≠ 0 → off ≠ P.DataSize := by
    intro k off hk hkh ho hz e
    rw [hother k hkh] at ho
    obtain ⟨l, _, _, _, _, hend, _⟩ := hR k off hk ho hz
    omega
  have hTab : TableOK P1 := by
    have hT0 : TableOK P0 := TableOK_of_eq hN0 hO0 hS0 hT
    have hT2 := setOffset_table hs hT0 (by rw [hN0]; exact hi)
    obtain ⟨_, _, _, _, _, hN2, hS2⟩ := setOffset_ok hs
    exact TableOK_of_eq (by rw [hN, hN2, hN0]) hO (by rw [hS, hS2, hS0]) hT2
  refine ⟨hTab, by rw [hBS]; exact h1, ?_, by rw [hD], fun _ => by rw [hD], ?_, ?_, ?_⟩
  · intro b hb
    rw [hBS]
    exact h3 b (by rw [← hB]; exact hb)
  · intro k1 k2 hk1 hk2 hz ho1 ho2
    rw [hN] at hk1 hk2
    by_contra hne
    by_cases e1 : k1 = h.toNat
    · have e2 : k2 ≠ h.toNat := fun e => hne (e1.trans e.symm)
      exact hnotD k2 _ hk2 e2 ho2 hz rfl
    · exact hnotD k1 _ hk1 e1 ho1 hz rfl
  · intro k off hk ho hz
    rw [hN] at hk
    by_cases e1 : k = h.toNat
    · rw [e1, hself] at ho
      have e := Except.ok.inj ho
      refine ⟨by omega, fun hne => absurd e.symm hne⟩
    · have hne := hnotD k off hk e1 ho hz
      rw [hother k e1] at ho
      obtain ⟨l, hl, a1, a2, a3, a4, _⟩ := hR k off hk ho hz
      refine ⟨a3, fun _ => ⟨l, by rw [hLen k e1]; exact hl, a1, a2, by rw [hD]; omega,
        Or.inl a4, ?_⟩⟩
      intro e
      rw [hTop] at e
      exact absurd e hne
  · intro k1 k2 off1 off2 l1 l2 hk1 hk2 hne ho1 ho2 hz1 hz2 hp1 hp2 hl1 hl2
    rw [hN] at hk1 hk2
    have e1 : k1 ≠ h.toNat := by
      intro e
      rw [e, hself] at ho1
      exact hp1 (Except.ok.inj ho1).symm
    have e2 : k2 ≠ h.toNat := by
      intro e
      rw [e, hself] at ho2
      exact hp2 (Except.ok.inj ho2).symm
    rw [hother k1 e1] at ho1
    rw [hother k2 e2] at ho2
    rw [hLen k1 e1] at hl1
    rw [hLen k2 e2] at hl2
    exact hDis k1 k2 off1 off2 l1 l2 hk1 hk2 hne ho1 ho2 hz1 hz2 hl1 hl2


/-- After a compaction of a pool with a live record, `Top` is the offset of
the last live handle. -/
theorem ReserveBuf_top {P Q : Pool} {n kh off : Nat} (hP : Sound P) (hk : kh < P.Num.toNat)
    (ho : offsetAt P (kh : Int) = .ok off) (hz : off ≠ 0) (h : ReserveBuf P n = .ok Q) :
    ∃ kT, kT < Q.Num.toNat ∧ offsetAt Q (kT : Int) = .ok Q.Top ∧ Q.Top ≠ 0 := by
  obtain ⟨_, _, _, _, hR, _⟩ := hP
  obtain ⟨l, hl, hl1, _⟩ := hR kh off hk ho hz
  have hlive : liveSize P kh ≠ 0 := by
    unfold liveSize
    rw [ho, hl]
    simp only []
    rw [if_pos ⟨hz, by omega⟩]
    omega
  obtain ⟨_, b, _, hB, _⟩ := Len_inv hl
  obtain ⟨_, _, hoff, _, htop⟩ := ReserveBuf_inv hB h
  have hN := ReserveBuf_Num h
  rcases htop with ⟨_, hnone⟩ | ⟨kT, hkT, hlT, hTop, _⟩
  · exact absurd (hnone kh hk) hlive
  · refine ⟨kT, by rw [hN]; exact hkT, ?_, by omega⟩
    rw [hoff kT hkT, hTop]
    unfold newOffset
    rw [if_neg hlT]

theorem AllocateAtEnd_ready {P P1 : Pool} {h : Int} {L p : Nat} {moved : Bool} {b : Mem}
    (hP : Sound P) (hi : h < P.Num)
    (ha : AllocateAtEnd P h L = .ok (P1, p, moved)) (hb : P1.Buffer = some b)
    (hfit : p + (L + 3) ≤ b.length) : Ready P1 p L := by
  have core : ∀ Q P2 : Pool, Sound Q → h < Q.Num →
      setOffset { Q with Top := Q.DataSize } h Q.DataSize = .ok P2 →
      { P2 with DataSize := u32 (P2.DataSize + (sizeofLengthType + 1 + L)) } = P1 →
      P2.Top = p → Ready P1 p L := by
    intro Q P2 hQ hiQ hs hP1 hp
    obtain ⟨o, ho, _, hl, hP2⟩ := setOffset_inv hs
    obtain ⟨_, _, _, _, _, hN2, hS2⟩ := setOffset_ok hs
    have hTopP2 : P2.Top = Q.DataSize := by rw [hP2]
    have hDP2 : P2.DataSize = Q.DataSize := by rw [hP2]
    have hBP2 : P2.Buffer = Q.Buffer := by rw [hP2]
    have hBSP2 : P2.BufferSize = Q.BufferSize := by rw [hP2]
    have hpq : p = Q.DataSize := by rw [← hp, hTopP2]
    have hB1 : P1.Buffer = Q.Buffer := by rw [← hP1]; exact hBP2
    have hlen : b.length = Q.BufferSize := hQ.2.2.2.1 b (by rw [← hB1]; exact hb)
    have hlt := hQ.2.1
    have hu : u32 (P2.DataSize + (sizeofLengthType + 1 + L)) = Q.DataSize + (L + 3) := by
      have e : P2.DataSize + (sizeofLengthType + 1 + L) = Q.DataSize + (L + 3) := by
        rw [hDP2]
        simp only [sizeofLengthType]
        omega
      rw [e]
      exact u32_of_lt (by omega)
    rw [hpq]
    exact @Ready_end Q { Q with Top := Q.DataSize } P2 P1 h L hQ rfl rfl rfl hiQ hs
      (by rw [← hP1]; exact hN2) (by rw [← hP1])
      (by rw [← hP1]; exact hS2) hB1 (by rw [← hP1]; exact hBSP2)
      (by rw [← hP1]; exact hTopP2) (by rw [← hP1]; exact hu)
  unfold AllocateAtEnd at ha
  dsimp only at ha
  split at ha
  · simp only [bind_ok_iff, Except.ok.injEq, Prod.mk.injEq] at ha
    obtain ⟨Q, h1, P2, h2, e1, e2, _⟩ := ha
    have hQ := ReserveBuf_sound (by unfold u32; omega) hP h1
    have hN1 := ReserveBuf_Num h1
    exact core Q P2 hQ (by rw [hN1]; exact hi) h2 e1 e2
  · simp only [bind_ok_iff, pure, Except.pure, Except.ok.injEq, Prod.mk.injEq] at ha
    obtain ⟨Q, h1, P2, h2, e1, e2, _⟩ := ha
    subst h1
    exact core P P2 hP hi h2 e1 e2

/-- `Allocate` returns a place for the record that no other record occupies. -/
theorem Allocate_ready {P P1 : Pool} {h : Int} {L p : Nat} {moved : Bool} {b : Mem}
    (hP : Sound P) (h0 : 0 ≤ h) (hi : h < P.Num)
    (ha : Allocate P h L = .ok (P1, p, moved)) (hb : P1.Buffer = some b)
    (hfit : p + (L + 3) ≤ b.length) : Ready P1 p L := by
  have hkh : h.toNat < P.Num.toNat := by omega
  have hcast : ((h.toNat : Nat) : Int) = h := Int.toNat_of_nonneg h0
  unfold Allocate at ha
  simp only [bind_ok_iff] at ha
  obtain ⟨off, ho, ha⟩ := ha
  have ho' : offsetAt P ((h.toNat : Nat) : Int) = .ok off := by rw [hcast]; exact ho
  split at ha
  · rename_i hz
    split at ha
    · rename_i hTop
      have tail : ∀ Q : Pool, Sound Q →
          (∃ kT, kT < Q.Num.toNat ∧ offsetAt Q (kT : Int) = .ok Q.Top ∧ Q.Top ≠ 0) →
          { Q with DataSize := u32 (Q.Top + sizeofLengthType + 1 + L) } = P1 →
          Q.Top = p → Ready P1 p L := by
        intro Q hQ hk e1 e2
        obtain ⟨kT, hkT, hoT, hTz⟩ := hk
        have hB1 : P1.Buffer = Q.Buffer := by rw [← e1]
        have hlen : b.length = Q.BufferSize := hQ.2.2.2.1 b (by rw [← hB1]; exact hb)
        have hlt := hQ.2.1
        have hu : u32 (Q.Top + sizeofLengthType + 1 + L) = Q.Top + (L + 3) := by
          have e : Q.Top + sizeofLengthType + 1 + L = Q.Top + (L + 3) := by
            simp only [sizeofLengthType]
            omega
          rw [e]
          exact u32_of_lt (by omega)
        rw [← e2]
        exact Ready_tail hQ hkT hoT hTz (by rw [← e1]) (by rw [← e1]) (by rw [← e1]) hB1
          (by rw [← e1]) (by rw [← e1]) (by rw [← e1]; exact hu)
      split at ha
      · simp only [bind_ok_iff, Except.ok.injEq, Prod.mk.injEq] at ha
        obtain ⟨Q, h1, e1, e2, _⟩ := ha
        have hQ := ReserveBuf_sound (by unfold u32; omega) hP h1
        exact tail Q hQ (ReserveBuf_top hP hkh ho' hz h1) e1 e2
      · simp only [bind_ok_iff, pure, Except.pure, Except.ok.injEq, Prod.mk.injEq] at ha
        obtain ⟨Q, h1, e1, e2, _⟩ := ha
        subst h1
        exact tail P hP ⟨h.toNat, hkh, by rw [← hTop]; exact ho', by rw [← hTop]; exact hz⟩ e1 e2
    · rename_i hTop
      simp only [bind_ok_iff] at ha
      obtain ⟨OldLen, hl, ha⟩ := ha
      have hl' : Len P ((h.toNat : Nat) : Int) = .ok OldLen := by rw [hcast]; exact hl
      split at ha
      · rename_i hge
        simp only [Except.ok.injEq, Prod.mk.injEq] at ha
        obtain ⟨e1, e2, _⟩ := ha
        rw [← e2]
        exact Ready_reuse hP hkh ho' hz hTop hl' hge (by rw [← e1]) (by rw [← e1])
          (by rw [← e1]) (by rw [← e1]) (by rw [← e1]) (by rw [← e1]) (by rw [← e1])
      · have hP0 : Sound { P with
            GarbageSize := u32 (P.GarbageSize + (OldLen + sizeofLengthType + 1)) } :=
          Sound_congr rfl rfl rfl rfl rfl rfl rfl hP
        have e := AllocateAtEnd_ready hP0 hi ha hb hfit
        exact e
  · exact AllocateAtEnd_ready hP hi ha hb hfit


/-- Writing the length field of the record at `p`. -/
theorem hole_header {b b1 : Mem} {p L : Nat} (h : writeU16 b p L = .ok b1) (hL : L ≤ 65535) :
    b1.length = b.length ∧ readU16 b1 p = .ok L ∧
      ∀ off, off + 2 ≤ p ∨ p + (L + 3) ≤ off → readU16 b1 off = readU16 b off := by
  refine ⟨?_, writeU16_read h hL, ?_⟩
  · unfold writeU16 at h
    exact (writeCells_length h).2
  · intro off hoff
    unfold writeU16 at h
    exact writeCells_frame h (by simp only [List.length_cons, List.length_nil]; omega)

/-- A `memcpy` into the payload or the terminator of the record at `p`. -/
theorem hole_write {b b1 b2 : Mem} {p L q : Nat} {d : List Cell}
    (h1 : b1.length = b.length ∧ readU16 b1 p = .ok L ∧
      ∀ off, off + 2 ≤ p ∨ p + (L + 3) ≤ off → readU16 b1 off = readU16 b off)
    (h : writeCells b1 q d = .ok b2) (hq : p + 2 ≤ q) (hqe : q + d.length ≤ p + (L + 3)) :
    b2.length = b.length ∧ readU16 b2 p = .ok L ∧
      ∀ off, off + 2 ≤ p ∨ p + (L + 3) ≤ off → readU16 b2 off = readU16 b off := by
  obtain ⟨a1, a2, a3⟩ := h1
  refine ⟨by rw [(writeCells_length h).2, a1], ?_, ?_⟩
  · rw [writeCells_frame h (Or.inl hq)]
    exact a2
  · intro off hoff
    rw [writeCells_frame h (by omega)]
    exact a3 off hoff

theorem memcpySource_length {P : Pool} {moved : Bool} {s : PChar} {dst n : Nat}
    {src : List Cell} (h : memcpySource P moved s dst n = .ok src) : src.length = n := by
  unfold memcpySource at h
  split at h
  · cases h
  · unfold PChar.read at h
    simp only [bind_ok_iff] at h
    obtain ⟨m, _, h⟩ := h
    exact (readCells_length h).1

/-- Storing a record in the place that `Allocate` returned gives a pool whose
layout is in order. -/
theorem Ready_store {P Q : Pool} {p L : Nat} {b b1 : Mem} (hR : Ready P p L) (hL : L ≤ 65535)
    (hL1 : 1 ≤ L) (hst : b1.length = b.length ∧ readU16 b1 p = .ok L ∧
      ∀ off, off + 2 ≤ p ∨ p + (L + 3) ≤ off → readU16 b1 off = readU16 b off)
    (hb : P.Buffer = some b) (hN : Q.Num = P.Num) (hO : Q.Offsets = P.Offsets)
    (hS : Q.OffsetsSize = P.OffsetsSize) (hB : Q.Buffer = some b1)
    (hBS : Q.BufferSize = P.BufferSize) (hD : Q.DataSize = P.DataSize)
    (hTop : Q.Top = P.Top) : Sound Q := by
  obtain ⟨hT, r1, r2, r3, r4, r5, r6, r7⟩ := hR
  obtain ⟨s1, s2, s3⟩ := hst
  have hTQ : TableOK Q := TableOK_of_eq hN hO hS hT
  -- the length of a handle of the new pool
  have hlenAt : ∀ k off : Nat, k < P.Num.toNat → offsetAt Q (k : Int) = .ok off →
      Len Q (k : Int) = readU16 b1 off :=
    fun k off hk ho => Len_eq_readU16 hTQ.1 hTQ.2.1 (by rw [hN]; exact hk) ho hB
  have hlenP : ∀ k off : Nat, k < P.Num.toNat → offsetAt P (k : Int) = .ok off →
      Len P (k : Int) = readU16 b off :=
    fun k off hk ho => Len_eq_readU16 hT.1 hT.2.1 hk ho hb
  have hother : ∀ k off : Nat, k < P.Num.toNat → offsetAt P (k : Int) = .ok off → off ≠ 0 →
      off ≠ p → ∃ l, Len Q (k : Int) = .ok l ∧ Len P (k : Int) = .ok l ∧ 1 ≤ l ∧ l ≤ 65535 ∧
        off + (l + 3) ≤ P.DataSize ∧ (off + (l + 3) ≤ p ∨ p + (L + 3) ≤ off) ∧
        (off = P.Top → off + (l + 3) = P.DataSize) := by
    intro k off hk ho hz hne
    obtain ⟨l, hl, a1, a2, a3, a4, a5⟩ := (r6 k off hk ho hz).2 hne
    refine ⟨l, ?_, hl, a1, a2, a3, a4, a5⟩
    rw [hlenAt k off hk (by rw [offsetAt_eq_of_Offsets hO]; exact ho), s3 off (by omega),
      ← hlenP k off hk ho]
    exact hl
  refine ⟨hTQ, by rw [hBS]; exact r1, by rw [hD]; omega, ?_, ?_, ?_⟩
  · intro b' hb'
    rw [hB] at hb'
    cases hb'
    rw [hBS, s1]
    exact r2 b hb
  · intro k off hk ho hz
    rw [hN] at hk
    have hoP : offsetAt P (k : Int) = .ok off := by
      rw [← offsetAt_eq_of_Offsets hO]; exact ho
    rw [hD, hTop]
    by_cases e : off = p
    · refine ⟨L, ?_, hL1, hL, (r6 k off hk hoP hz).1, by rw [e]; exact r3, ?_⟩
      · rw [hlenAt k off hk ho, e]
        exact s2
      · intro et
        rw [e]
        exact r4 (et.symm.trans e)
    · obtain ⟨l, hl, _, a1, a2, a3, _, a5⟩ := hother k off hk hoP hz e
      exact ⟨l, hl, a1, a2, (r6 k off hk hoP hz).1, a3, a5⟩
  · intro k1 k2 off1 off2 l1 l2 hk1 hk2 hne ho1 ho2 hz1 hz2 hl1 hl2
    rw [hN] at hk1 hk2
    have hoP1 : offsetAt P (k1 : Int) = .ok off1 := by
      rw [← offsetAt_eq_of_Offsets hO]; exact ho1
    have hoP2 : offsetAt P (k2 : Int) = .ok off2 := by
      rw [← offsetAt_eq_of_Offsets hO]; exact ho2
    by_cases e1 : off1 = p
    · by_cases e2 : off2 = p
      · have hp : p ≠ 0 := fun e => hz1 (e1.trans e)
        rw [e1] at hoP1
        rw [e2] at hoP2
        exact absurd (r5 k1 k2 hk1 hk2 hp hoP1 hoP2) hne
      · obtain ⟨l, hl, _, _, _, _, a4, _⟩ := hother k2 off2 hk2 hoP2 hz2 e2
        rw [hl] at hl2
        cases hl2
        rw [hlenAt k1 off1 hk1 ho1, e1, s2] at hl1
        cases hl1
        omega
    · obtain ⟨l, hl, hlP1, _, _, _, a4, _⟩ := hother k1 off1 hk1 hoP1 hz1 e1
      rw [hl] at hl1
      cases hl1
      by_cases e2 : off2 = p
      · rw [hlenAt k2 off2 hk2 ho2, e2, s2] at hl2
        cases hl2
        omega
      · obtain ⟨l', hl', hlP2, _⟩ := hother k2 off2 hk2 hoP2 hz2 e2
        rw [hl'] at hl2
        cases hl2
        exact r7 k1 k2 off1 off2 _ _ hk1 hk2 hne hoP1 hoP2 hz1 hz2 e1 e2 hlP1 hlP2

/-- Making a handle valid keeps the layout in order: a new handle has no
record. -/
theorem SetIndex_sound {P P1 : Pool} {i : Int} (hP : Sound P) (h1 : SetIndex P i = .ok P1) :
    Sound P1 := by
  obtain ⟨hT, p1, p2, p3, hR, hDis⟩ := hP
  obtain ⟨hT1, _, _⟩ := SetIndex_table h1 hT
  obtain ⟨hsame, hnew⟩ := SetIndex_entries h1 hT
  have hf := SetIndex_fields h1
  have hB : P1.Buffer = P.Buffer := by rw [hf]
  have hBS : P1.BufferSize = P.BufferSize := by rw [hf]
  have hD : P1.DataSize = P.DataSize := by rw [hf]
  have hTop : P1.Top = P.Top := by rw [hf]
  have hNle : P.Num ≤ P1.Num := by
    rw [(SetIndex_Num h1).1]
    exact le_max_left _ _
  have hold : ∀ k off : Nat, k < P1.Num.toNat → offsetAt P1 (k : Int) = .ok off → off ≠ 0 →
      k < P.Num.toNat ∧ offsetAt P (k : Int) = .ok off := by
    intro k off hk ho hz
    by_cases hlt : k < P.Num.toNat
    · exact ⟨hlt, by rw [← hsame k hlt]; exact ho⟩
    · exfalso
      have hsz : k < P1.OffsetsSize := by
        rcases hT1.2.2 with ⟨hn, _, _⟩ | ⟨o, _, _, hle, _⟩
        · unfold offsetAt at ho
          rw [hn] at ho
          cases ho
        · omega
      rw [hnew k (by omega) hsz] at ho
      exact hz (Except.ok.inj ho).symm
  have hlen : ∀ k off l : Nat, k < P.Num.toNat → offsetAt P (k : Int) = .ok off →
      Len P (k : Int) = .ok l → Len P1 (k : Int) = .ok l := by
    intro k off l hk ho hl
    obtain ⟨_, b, _, hb, _⟩ := Len_inv hl
    rw [Len_eq_readU16 hT1.1 hT1.2.1 (by omega) (by rw [hsame k hk]; exact ho)
      (by rw [hB]; exact hb), ← Len_eq_readU16 hT.1 hT.2.1 hk ho hb]
    exact hl
  refine ⟨hT1, by rw [hBS]; exact p1, by rw [hD]; exact p2, ?_, ?_, ?_⟩
  · intro b hb
    rw [hBS]
    exact p3 b (by rw [← hB]; exact hb)
  · intro k off hk ho hz
    obtain ⟨hkP, hoP⟩ := hold k off hk ho hz
    obtain ⟨l, hl, a⟩ := hR k off hkP hoP hz
    rw [hD, hTop]
    exact ⟨l, hlen k off l hkP hoP hl, a⟩
  · intro k1 k2 off1 off2 l1 l2 hk1 hk2 hne ho1 ho2 hz1 hz2 hl1 hl2
    obtain ⟨hkP1, hoP1⟩ := hold k1 off1 hk1 ho1 hz1
    obtain ⟨hkP2, hoP2⟩ := hold k2 off2 hk2 ho2 hz2
    obtain ⟨l, hl, _⟩ := hR k1 off1 hkP1 hoP1 hz1
    obtain ⟨l', hl', _⟩ := hR k2 off2 hkP2 hoP2 hz2
    rw [hlen k1 off1 l hkP1 hoP1 hl] at hl1
    rw [hlen k2 off2 l' hkP2 hoP2 hl'] at hl2
    cases hl1
    cases hl2
    exact hDis k1 k2 off1 off2 _ _ hkP1 hkP2 hne hoP1 hoP2 hz1 hz2 hl hl'

/-- Taking the record of one handle away keeps the layout in order. -/
theorem setOffset_zero_sound {P P0 Q : Pool} {i : Int} (hP : Sound P) (hi : i < P.Num)
    (h : setOffset P0 i 0 = .ok Q)
    (hN0 : P0.Num = P.Num) (hO0 : P0.Offsets = P.Offsets) (hS0 : P0.OffsetsSize = P.OffsetsSize)
    (hB0 : P0.Buffer = P.Buffer) (hBS0 : P0.BufferSize = P.BufferSize)
    (hD0 : P0.DataSize = P.DataSize) (hTop0 : P0.Top = P.Top) : Sound Q := by
  obtain ⟨hT, p1, p2, p3, hR, hDis⟩ := hP
  have hT0 : TableOK P0 := TableOK_of_eq hN0 hO0 hS0 hT
  have hTQ := setOffset_table h hT0 (by rw [hN0]; exact hi)
  obtain ⟨o', ho', _, _, hQ⟩ := setOffset_inv h
  obtain ⟨o, ho0, h0, hlo, hOQ, hNQ, hSQ⟩ := setOffset_ok h
  rw [hO0] at ho0
  have hB : Q.Buffer = P.Buffer := by rw [hQ]; exact hB0
  have hBS : Q.BufferSize = P.BufferSize := by rw [hQ]; exact hBS0
  have hD : Q.DataSize = P.DataSize := by rw [hQ]; exact hD0
  have hTop : Q.Top = P.Top := by rw [hQ]; exact hTop0
  have hN : Q.Num = P.Num := by rw [hNQ, hN0]
  have hself : offsetAt Q ((i.toNat : Nat) : Int) = .ok 0 :=
    offsetAt_of hOQ (by omega) (by rw [toNat_natCast]; exact getOpt_set_self _ hlo)
  have hold : ∀ k off : Nat, offsetAt Q (k : Int) = .ok off → off ≠ 0 →
      offsetAt P (k : Int) = .ok off ∧ Len Q (k : Int) = Len P (k : Int) := by
    intro k off ho hz
    have hne : k ≠ i.toNat := by
      intro e
      rw [e, hself] at ho
      exact hz (Except.ok.inj ho).symm
    have e := offsetAt_congr k ho0 hOQ (getOpt_set_ne _ (Ne.symm hne))
    exact ⟨by rw [← e]; exact ho, Len_eq_of hB hN e⟩
  refine ⟨hTQ, by rw [hBS]; exact p1, by rw [hD]; exact p2, ?_, ?_, ?_⟩
  · intro b hb
    rw [hBS]
    exact p3 b (by rw [← hB]; exact hb)
  · intro k off hk ho hz
    rw [hN] at hk
    obtain ⟨hoP, hl⟩ := hold k off ho hz
    rw [hl, hD, hTop]
    exact hR k off hk hoP hz
  · intro k1 k2 off1 off2 l1 l2 hk1 hk2 hne ho1 ho2 hz1 hz2 hl1 hl2
    rw [hN] at hk1 hk2
    obtain ⟨hoP1, e1⟩ := hold k1 off1 ho1 hz1
    obtain ⟨hoP2, e2⟩ := hold k2 off2 ho2 hz2
    rw [e1] at hl1
    rw [e2] at hl2
    exact hDis k1 k2 off1 off2 l1 l2 hk1 hk2 hne hoP1 hoP2 hz1 hz2 hl1 hl2

theorem SetErase_sound {P Q : Pool} {i : Int} (hP : Sound P) (hi : i < P.Num)
    (h : SetErase P i = .ok Q) : Sound Q := by
  unfold SetErase at h
  simp only [bind_ok_iff] at h
  obtain ⟨off, _, h⟩ := h
  split at h
  · simp only [bind_ok_iff] at h
    obtain ⟨l, _, h⟩ := h
    exact setOffset_zero_sound hP hi h rfl rfl rfl rfl rfl rfl rfl
  · simp only [Except.ok.injEq] at h
    rw [← h]
    exact hP

/-- After `Clear` no handle has a record. -/
theorem Clear_sound {P Q : Pool} (hP : Sound P) (h : Clear P = .ok Q) : Sound Q := by
  have hTQ := Clear_table h hP.1
  obtain ⟨hT, p1, p2, p3, hR, hDis⟩ := hP
  have hzero : ∀ k off : Nat, k < Q.Num.toNat → offsetAt Q (k : Int) = .ok off → off = 0 := by
    intro k off hk ho
    unfold Clear at h
    split at h
    · rename_i o ho'
      split at h
      · rename_i hle
        simp only [Except.ok.injEq] at h
        subst h
        unfold offsetAt at ho
        simp only [] at ho
        rw [if_neg (by omega), toNat_natCast] at ho
        have hk' : k < P.Num.toNat := hk
        have hg : (zeroFill P.Num.toNat ++ o.drop P.Num.toNat).get? k = some 0 := by
          unfold zeroFill
          rw [List.get?_eq_getElem?, List.getElem?_append_left (by rw [List.length_replicate]; exact hk'),
            List.getElem?_replicate, if_pos hk']
        rw [hg] at ho
        exact (Except.ok.inj ho).symm
      · cases h
    · rename_i ho'
      simp only [Except.ok.injEq] at h
      subst h
      unfold offsetAt at ho
      simp only [] at ho
      rw [ho'] at ho
      cases ho
  have hfields : Q.Buffer = P.Buffer ∧ Q.BufferSize = P.BufferSize ∧ Q.DataSize = 0 := by
    unfold Clear at h
    split at h
    · split at h
      · simp only [Except.ok.injEq] at h
        subst h
        exact ⟨rfl, rfl, rfl⟩
      · cases h
    · simp only [Except.ok.injEq] at h
      subst h
      exact ⟨rfl, rfl, rfl⟩
  obtain ⟨hB, hBS, hD⟩ := hfields
  refine ⟨hTQ, by rw [hBS]; exact p1, Or.inl hD, ?_, ?_, ?_⟩
  · intro b hb
    rw [hBS]
    exact p3 b (by rw [← hB]; exact hb)
  · intro k off hk ho hz
    exact absurd (hzero k off hk ho) hz
  · intro k1 k2 off1 off2 l1 l2 hk1 hk2 hne ho1 ho2 hz1
    exact absurd (hzero k1 off1 hk1 ho1) hz1


theorem u16_of_le {x : Nat} (h : x ≤ 65535) : u16 x = x := by
  unfold u16
  omega

/-- Assigning a zero-terminated string keeps the layout in order. -/
theorem Set_sound {P Q : Pool} {i : Int} {s : PChar} (hP : Sound P) (h : Set P i s = .ok Q) :
    Sound Q := by
  unfold Set at h
  simp only [bind_ok_iff] at h
  obtain ⟨P1, h1, h⟩ := h
  have hP1 := SetIndex_sound hP h1
  obtain ⟨_, h0, hi⟩ := SetIndex_table h1 hP.1
  split at h
  all_goals
    simp only [bind_ok_iff] at h
    obtain ⟨len, _, h⟩ := h
    split at h
    · exact SetErase_sound hP1 hi h
    · rename_i hne
      split at h
      · simp at h
      · rename_i hmax
        have hL : len ≤ 65535 := by
          unfold maxLength at hmax
          omega
        simp only [bind_ok_iff] at h
        obtain ⟨⟨P2, p, moved⟩, ha, h⟩ := h
        dsimp only at h
        rw [u32_of_lt (by omega)] at ha
        rw [u16_of_le hL] at h
        cases hb : P2.Buffer with
        | none =>
          rw [hb] at h
          simp at h
        | some b =>
          rw [hb] at h
          simp only [bind_ok_iff, Except.ok.injEq] at h
          obtain ⟨b1, hw1, src, hsrc, b2, hw2, hQ⟩ := h
          have hsl := memcpySource_length hsrc
          have hh := hole_header hw1 hL
          have hw2l := (writeCells_length hw2).1
          have hfit : p + (len + 3) ≤ b.length := by
            rw [← hh.1]
            simp only [sizeofLengthType] at hw2l
            omega
          have hR := Allocate_ready hP1 h0 hi ha hb hfit
          have hst := hole_write hh hw2 (by simp only [sizeofLengthType]; omega)
            (by simp only [sizeofLengthType]; omega)
          exact Ready_store hR hL (by omega) hst hb (by rw [← hQ]) (by rw [← hQ])
            (by rw [← hQ]) (by rw [← hQ]) (by rw [← hQ]) (by rw [← hQ]) (by rw [← hQ])

/-- Assigning a string of a given length, at most 65535, keeps the layout in
order. -/
theorem SetN_sound {P Q : Pool} {i : Int} {s : PChar} {len : Nat} (hP : Sound P)
    (hL : len ≤ 65535) (h : SetN P i s len = .ok Q) : Sound Q := by
  unfold SetN at h
  simp only [bind_ok_iff] at h
  obtain ⟨P1, h1, h⟩ := h
  have hP1 := SetIndex_sound hP h1
  obtain ⟨_, h0, hi⟩ := SetIndex_table h1 hP.1
  split at h
  · exact SetErase_sound hP1 hi h
  · rename_i hne
    simp only [bind_ok_iff] at h
    obtain ⟨⟨P2, p, moved⟩, ha, h⟩ := h
    dsimp only at h
    rw [u16_of_le hL] at h
    cases hb : P2.Buffer with
    | none =>
      rw [hb] at h
      simp at h
    | some b =>
      rw [hb] at h
      simp only [bind_ok_iff, Except.ok.injEq] at h
      obtain ⟨b1, hw1, src, hsrc, b2, hw2, b3, hw3, hQ⟩ := h
      have hsl := memcpySource_length hsrc
      have hh := hole_header hw1 hL
      have hw3l := (writeCells_length hw3).1
      have hfit : p + (len + 3) ≤ b.length := by
        rw [← hh.1, ← (writeCells_length hw2).2]
        simp only [sizeofLengthType, List.length_cons, List.length_nil] at hw3l
        omega
      have hR := Allocate_ready hP1 h0 hi ha hb hfit
      have hst2 := hole_write hh hw2 (by simp only [sizeofLengthType]; omega)
        (by simp only [sizeofLengthType]; omega)
      have hst := hole_write hst2 hw3 (by simp only [sizeofLengthType]; omega)
        (by simp only [sizeofLengthType, List.length_cons, List.length_nil]; omega)
      exact Ready_store hR hL (by omega) hst hb (by rw [← hQ]) (by rw [← hQ])
        (by rw [← hQ]) (by rw [← hQ]) (by rw [← hQ]) (by rw [← hQ]) (by rw [← hQ])

/-- Appending keeps the layout in order when the string that results has at
most 65535 characters. -/
theorem Concatenate_sound {P Q : Pool} {i : Int} {s : PChar} (hP : Sound P)
    (himax : i ≤ 2147483647)
    (hsum : ∀ l1 l2, Len P i = .ok l1 → strlen_ P.Buffer s = .ok l2 → l1 + l2 ≤ 65535)
    (h : Concatenate P i s = .ok Q) : Sound Q := by
  unfold Concatenate at h
  simp only [bind_ok_iff] at h
  obtain ⟨len1, hl, h⟩ := h
  have hr := Len_range hl
  have h0 : 0 ≤ i := hr.2
  have hi : i < P.Num := by
    have h1 : toUnsigned i < toUnsigned P.Num := hr.1
    have := hP.1.1
    have := hP.1.2.1
    unfold toUnsigned at h1
    omega
  split at h
  all_goals
    simp only [bind_ok_iff] at h
    obtain ⟨len2, hl2, h⟩ := h
    have hs : len2 ≠ 0 → len1 + len2 ≤ 65535 := by
      intro hne
      first
        | exact hsum len1 len2 hl hl2
        | exact absurd (Except.ok.inj hl2).symm hne
    split at h
    · simp only [Except.ok.injEq] at h
      rw [← h]
      exact hP
    · rename_i hne
      have hL := hs hne
      split at h
      · simp at h
      · split at h
        · simp at h
        · split at h
          · exact Set_sound hP h
          · rename_i hne1
            simp only [bind_ok_iff] at h
            obtain ⟨string1, _, ⟨P2, p, moved⟩, ha, h⟩ := h
            dsimp only at h
            rw [u32_of_lt (by omega)] at ha
            rw [u16_of_le hL] at h
            cases hb : P2.Buffer with
            | none =>
              rw [hb] at h
              simp at h
            | some b =>
              rw [hb] at h
              simp only [bind_ok_iff, Except.ok.injEq] at h
              obtain ⟨b1, hw1, src1, hsrc1, b2, hw2, src2, hsrc2, b3, hw3, hQ⟩ := h
              have hsl1 := memcpySource_length hsrc1
              have hsl2 := memcpySource_length hsrc2
              have hh := hole_header hw1 hL
              have hw3l := (writeCells_length hw3).1
              have hfit : p + (len1 + len2 + 3) ≤ b.length := by
                rw [← hh.1, ← (writeCells_length hw2).2]
                simp only [sizeofLengthType] at hw3l
                omega
              have hR := Allocate_ready hP h0 hi ha hb hfit
              have hst2 := hole_write hh hw2 (by simp only [sizeofLengthType]; omega)
                (by simp only [sizeofLengthType]; omega)
              have hst := hole_write hst2 hw3 (by simp only [sizeofLengthType]; omega)
                (by simp only [sizeofLengthType]; omega)
              exact Ready_store hR hL (by omega) hst hb (by rw [← hQ]) (by rw [← hQ])
                (by rw [← hQ]) (by rw [← hQ]) (by rw [← hQ]) (by rw [← hQ]) (by rw [← hQ])


/-- A call within the limit keeps the layout in order. -/
theorem Op_run_sound {op : Op} {P Q : Pool} (hP : Sound P) (hop : op.withinLimit P = true)
    (h : op.run P = .ok Q) : Sound Q := by
  cases op with
  | assign index s => exact Set_sound hP h
  | assignElement index src =>
    simp only [Op.run, assignElement, bind_ok_iff] at h
    obtain ⟨_, _, l, hl, h⟩ := h
    simp only [Op.withinLimit, hl, decide_eq_true_eq] at hop
    exact SetN_sound hP hop h
  | SetN index s len =>
    simp only [Op.withinLimit, decide_eq_true_eq] at hop
    exact SetN_sound hP hop h
  | append index s =>
    simp only [Op.withinLimit, Bool.and_eq_true, decide_eq_true_eq] at hop
    refine Concatenate_sound hP hop.1 ?_ h
    intro l1 l2 hl1 hl2
    have h2 := hop.2
    rw [hl1, hl2] at h2
    exact of_decide_eq_true h2
  | SetToSubstring index s start len =>
    simp only [Op.withinLimit, decide_eq_true_eq] at hop
    simp only [Op.run, SetToSubstring] at h
    split at h
    all_goals
      simp only [bind_ok_iff] at h
      obtain ⟨_, _, h⟩ := h
      split at h
      · simp at h
      · exact SetN_sound hP hop h
  | SetToSubstringOf index src start len =>
    simp only [Op.withinLimit, decide_eq_true_eq] at hop
    simp only [Op.run, SetToSubstringOf, SetToSubstring, bind_ok_iff] at h
    obtain ⟨_, _, h⟩ := h
    split at h
    all_goals
      simp only [bind_ok_iff] at h
      obtain ⟨_, _, h⟩ := h
      split at h
      · simp at h
      · exact SetN_sound hP hop h
  | Printf index r =>
    simp only [Op.run, Printf] at h
    split at h
    · simp at h
    · exact Set_sound hP h
  | writeChar index i v => simp [Op.withinLimit] at hop
  | readChar index i =>
    simp only [Op.run, bind_ok_iff, pure, Except.pure, Except.ok.injEq] at h
    obtain ⟨_, _, h⟩ := h
    rw [← h]
    exact hP
  | Clear => exact Clear_sound hP h
  | ReserveBuf newsize =>
    simp only [Op.withinLimit, decide_eq_true_eq] at hop
    exact ReserveBuf_sound hop hP h
  | ReserveNum newsize => simp [Op.withinLimit] at hop

/-- Calls within the limit lead from a pool whose layout is in order to pools
whose layout is in order. -/
theorem runFrom_sound (ops : List Op) (P Q : Pool) (hP : Sound P)
    (hops : withinLimits P ops = true) (h : runFrom P ops = .ok Q) : Sound Q := by
  induction ops generalizing P with
  | nil =>
    simp only [runFrom, List.foldlM, pure, Except.pure, Except.ok.injEq] at h
    rw [← h]
    exact hP
  | cons op ops ih =>
    simp only [runFrom, List.foldlM, bind_ok_iff] at h
    obtain ⟨P1, h1, h⟩ := h
    simp only [withinLimits, h1, Bool.and_eq_true] at hops
    exact ih P1 (Op_run_sound hP hops.1 h1) hops.2 h

/-- C38.  In every state that a new pool reaches by assignments, appends,
substring calls, `Printf`, `Clear`, reads of characters and direct calls of
`ReserveBuf`, each storing at most 65535 characters, the record of every valid
handle with a nonzero offset has its length field readable, starts at or after
offset 3 and ends, with its 2 bytes of length, its payload and its terminator,
at or before `DataSize`; and the byte ranges
`[Offsets[h], Offsets[h] + 2 + Len(h) + 1)` of two distinct such handles are
disjoint. -/
theorem C38_live_records_do_not_overlap (ops : List Op) (P : Pool)
    (hops : withinLimits fresh ops = true) (h : runAll ops = .ok P) :
    (∀ (i : Int) (off : Nat), 0 ≤ i → i < P.Num → offsetAt P i = .ok off → off ≠ 0 →
      ∃ l, Len P i = .ok l ∧ 3 ≤ off ∧ off + 2 + l + 1 ≤ P.DataSize) ∧
    (∀ (i j : Int) (off1 off2 l1 l2 : Nat), 0 ≤ i → i < P.Num → 0 ≤ j → j < P.Num → i ≠ j →
      offsetAt P i = .ok off1 → offsetAt P j = .ok off2 → off1 ≠ 0 → off2 ≠ 0 →
      Len P i = .ok l1 → Len P j = .ok l2 →
      off1 + 2 + l1 + 1 ≤ off2 ∨ off2 + 2 + l2 + 1 ≤ off1) := by
  obtain ⟨_, _, _, _, hR, hDis⟩ := runFrom_sound ops fresh P Sound_fresh hops h
  constructor
  · intro i off h0 hi ho hz
    have hc : ((i.toNat : Nat) : Int) = i := Int.toNat_of_nonneg h0
    rw [← hc] at ho ⊢
    obtain ⟨l, hl, _, _, h3, hend, _⟩ := hR i.toNat off (by omega) ho hz
    exact ⟨l, hl, h3, by omega⟩
  · intro i j off1 off2 l1 l2 h0 hi h0' hj hne ho1 ho2 hz1 hz2 hl1 hl2
    have hc1 : ((i.toNat : Nat) : Int) = i := Int.toNat_of_nonneg h0
    have hc2 : ((j.toNat : Nat) : Int) = j := Int.toNat_of_nonneg h0'
    rw [← hc1] at ho1 hl1
    rw [← hc2] at ho2 hl2
    have := hDis i.toNat j.toNat off1 off2 l1 l2 (by omega) (by omega) (by omega) ho1 ho2
      hz1 hz2 hl1 hl2
    omega


theorem C38_live_records_do_not_overlap_witness :
    withinLimits fresh threeCalls = true ∧
    ∃ P, runAll threeCalls = .ok P ∧
      (offsetAt P 0 = .ok 13 ∧ offsetAt P 1 = .ok 9 ∧ Len P 0 = .ok 5 ∧ Len P 1 = .ok 1) ∧
      (∀ (i : Int) (off : Nat), 0 ≤ i → i < P.Num → offsetAt P i = .ok off → off ≠ 0 →
        ∃ l, Len P i = .ok l ∧ 3 ≤ off ∧ off + 2 + l + 1 ≤ P.DataSize) ∧
      (∀ (i j : Int) (off1 off2 l1 l2 : Nat), 0 ≤ i → i < P.Num → 0 ≤ j → j < P.Num → i ≠ j →
        offsetAt P i = .ok off1 → offsetAt P j = .ok off2 → off1 ≠ 0 → off2 ≠ 0 →
        Len P i = .ok l1 → Len P j = .ok l2 →
        off1 + 2 + l1 + 1 ≤ off2 ∨ off2 + 2 + l2 + 1 ≤ off1) := by
  have hw : withinLimits fresh threeCalls = true := by decide!
  have hv : (runAll threeCalls >>= fun P =>
      pure (offsetAt P 0, offsetAt P 1, Len P 0, Len P 1)) =
        .ok (.ok 13, .ok 9, .ok 5, .ok 1) := by decide!
  cases hq : runAll threeCalls with
  | error e =>
    rw [hq] at hv
    cases hv
  | ok P =>
    rw [hq] at hv
    simp only [ok_bind, pure, Except.pure, Except.ok.injEq, Prod.mk.injEq] at hv
    exact ⟨hw, P, rfl, hv, C38_live_records_do_not_overlap threeCalls P hw hq⟩

/-! ### Writes with an argument in caller memory or in the buffer -/

theorem cstrCells_inv {m : Mem} {a : List Nat} (h : cstrCells m = some a) :
    ∃ rest, m = a.map some ++ some 0 :: rest ∧ ∀ x ∈ a, x ≠ 0 := by
  induction m generalizing a with
  | nil => simp [cstrCells] at h
  | cons x m ih =>
    cases x with
    | none => simp [cstrCells] at h
    | some v =>
      unfold cstrCells at h
      by_cases hv : v = 0
      · rw [if_pos hv] at h
        cases h
        subst hv
        exact ⟨m, rfl, fun x hx => by cases hx⟩
      · rw [if_neg hv] at h
        cases hr : cstrCells m with
        | none => rw [hr] at h; cases h
        | some t =>
          rw [hr] at h
          simp only [Option.map_some', Option.some.injEq] at h
          subst h
          obtain ⟨rest, e, hz⟩ := ih hr
          refine ⟨rest, by rw [e]; rfl, ?_⟩
          intro x hx
          rcases List.mem_cons.mp hx with e1 | e1
          · rw [e1]; exact hv
          · exact hz x e1

/-- What the zero-terminated string at a pointer says about the pointer: it is
not null, `strlen` gives the length, and the bytes with their terminator can
be read there. -/
theorem string_inv {cur : Option Mem} {s : PChar} {a : List Nat}
    (h : s.string cur = .ok a) :
    s ≠ .null ∧ strlen_ cur s = .ok a.length ∧
      s.read cur (a.length + 1) = .ok (a.map some ++ [some 0]) ∧ ∀ x ∈ a, x ≠ 0 := by
  unfold PChar.string at h
  simp only [bind_ok_iff] at h
  obtain ⟨m, hm, h⟩ := h
  cases hc : cstrCells m with
  | none => rw [hc] at h; cases h
  | some t =>
    rw [hc] at h
    simp only [Except.ok.injEq] at h
    subst h
    obtain ⟨rest, e, hz⟩ := cstrCells_inv hc
    refine ⟨?_, ?_, ?_, hz⟩
    · intro e0
      rw [e0] at hm
      cases hm
    · unfold strlen_
      rw [hm]
      simp only [ok_bind]
      rw [e, strlenCells_cstr t rest hz]
    · unfold PChar.read
      rw [hm]
      simp only [ok_bind]
      rw [e]
      have := readCells_append [] (t.map some ++ some 0 :: rest) 0 (t.length + 1) rfl
        (by simp)
      simp only [List.nil_append] at this
      rw [this]
      congr 1
      rw [List.take_append_eq_append_take]
      simp

theorem readCells_agree {b b1 : Mem} {q n : Nat} (hl : b1.length = b.length)
    (hag : ∀ i, q ≤ i → i < q + n → b1.get? i = b.get? i) :
    readCells b1 q n = readCells b q n := by
  unfold readCells
  rw [hl]
  split
  · congr 1
    apply List.ext_get?
    intro i
    simp only [List.get?_eq_getElem?] at hag ⊢
    by_cases hi : i < n
    · rw [List.getElem?_take_of_lt hi, List.getElem?_take_of_lt hi, List.getElem?_drop,
        List.getElem?_drop]
      exact hag (q + i) (by omega) (by omega)
    · rw [List.getElem?_eq_none (by rw [List.length_take]; omega),
        List.getElem?_eq_none (by rw [List.length_take]; omega)]
  · rfl

/-- The bytes read at a pointer do not depend on the bytes of the buffer they
are not read from. -/
theorem read_agree {b b1 : Mem} {s : PChar} {n : Nat} (hl : b1.length = b.length)
    (hag : ∀ q, s = .pool q → ∀ i, q ≤ i → i < q + n → b1.get? i = b.get? i) :
    s.read (some b1) n = s.read (some b) n := by
  cases s with
  | null => rfl
  | mem block => rfl
  | pool q =>
    rw [read_pool, read_pool]
    exact readCells_agree hl (hag q rfl)

/-- `memcpy` from a pointer whose bytes do not overlap the destination reads
the bytes at the pointer. -/
theorem memcpySource_read (P : Pool) (s : PChar) (dst n : Nat)
    (h : ∀ q, s = .pool q → q = dst ∨ dst + n ≤ q ∨ q + n ≤ dst) :
    memcpySource P false s dst n = s.read P.Buffer n := by
  unfold memcpySource sourceBlock
  have e : overlaps false s dst n = false := by
    cases s with
    | null => rfl
    | mem block => rfl
    | pool q =>
      have := h q rfl
      unfold overlaps
      simp only [Bool.not_false, Bool.true_and, Bool.and_eq_false_iff, decide_eq_false_iff_not]
      omega
  rw [e]
  simp only [Bool.false_eq_true, if_false]

theorem writeCells_fits {m : Mem} {q : Nat} (d : List Cell) (h : q + d.length ≤ m.length) :
    ∃ m1, writeCells m q d = .ok m1 := by
  unfold writeCells
  rw [if_pos h]
  exact ⟨_, rfl⟩

/-- Two copies to adjacent places are one copy of both blocks. -/
theorem writeCells_then {m m1 m2 : Mem} {q : Nat} {d1 d2 : List Cell}
    (h1 : writeCells m q d1 = .ok m1) (h2 : writeCells m1 (q + d1.length) d2 = .ok m2) :
    writeCells m q (d1 ++ d2) = .ok m2 := by
  have l1 := writeCells_length h1
  have l2 := writeCells_length h2
  obtain ⟨m3, h3⟩ := writeCells_fits (m := m) (q := q) (d1 ++ d2)
    (by rw [List.length_append]; omega)
  rw [h3]
  congr 1
  have l3 := writeCells_length h3
  apply List.ext_get?
  intro i
  rw [writeCells_get h3, writeCells_get h2, writeCells_get h1]
  simp only [List.get?_eq_getElem?, List.length_append]
  by_cases c1 : i < q
  · rw [if_pos c1, if_pos (by omega), if_pos c1]
  · rw [if_neg c1]
    by_cases c2 : i < q + d1.length
    · rw [if_pos (by omega), if_pos c2, if_neg c1, if_pos c2,
        List.getElem?_append_left (by omega)]
    · rw [if_neg c2]
      by_cases c3 : i < q + d1.length + d2.length
      · rw [if_pos (by omega), if_pos c3, List.getElem?_append_right (by omega)]
        congr 1
        omega
      · rw [if_neg (by omega), if_neg c3, if_neg c1, if_neg c2]

theorem writeCells_record (b : Mem) (p : Nat) (s : List Nat)
    (h : p + (s.length + 3) ≤ b.length) :
    writeCells b p (recordCells s.length s) = .ok (putRecord b p s) := by
  have hl : (recordCells s.length s).length = s.length + 3 := by
    simp [recordCells]
  unfold writeCells putRecord
  rw [hl, if_pos h]

theorem writeU16_fits {m : Mem} {p : Nat} (v : Nat) (h : p + 2 ≤ m.length) :
    ∃ m1, writeU16 m p v = .ok m1 ∧ m1.length = m.length ∧
      writeCells m p [some (v % 256), some (v / 256 % 256)] = .ok m1 ∧
      ∀ i, i < p ∨ p + 2 ≤ i → m1.get? i = m.get? i := by
  obtain ⟨m1, h1⟩ := writeCells_fits (m := m) (q := p) [some (v % 256), some (v / 256 % 256)]
    (by simp only [List.length_cons, List.length_nil]; omega)
  refine ⟨m1, h1, (writeCells_length h1).2, h1, ?_⟩
  intro i hi
  rw [writeCells_get h1]
  simp only [List.length_cons, List.length_nil]
  split
  · rfl
  · rw [if_neg (by omega)]

/-- The bytes that `Set(h, s)` leaves in the buffer, given where `Allocate`
puts the record, when the buffer is not replaced and the string at `s` is
apart from the record. -/
theorem Set_of_Allocate_ptr {P P1 : Pool} {h : Int} {s : PChar} {a : List Nat} {p : Nat}
    {b : Mem} (h0 : 0 ≤ h) (hN : h < P.Num) (hs : s.string P.Buffer = .ok a)
    (hL1 : 1 ≤ a.length) (hL2 : a.length ≤ 65535)
    (hA : Allocate P h a.length = .ok (P1, p, false))
    (hbP : P.Buffer = some b) (hb : P1.Buffer = some b) (hp : p + (a.length + 3) ≤ b.length)
    (hap : ∀ q, s = .pool q → q + (a.length + 1) ≤ p ∨ q = p + 2 ∨ p + (a.length + 3) ≤ q) :
    Set P h s = .ok { P1 with Buffer := some (putRecord b p a), OldBuffer := none } := by
  obtain ⟨hnull, hlen, hread, hz⟩ := string_inv hs
  rw [hbP] at hread
  have hu : u16 a.length = a.length := u16_of_le hL2
  obtain ⟨b1, hw1, hl1, hw1c, hg1⟩ := writeU16_fits (m := b) (p := p) a.length (by omega)
  have hsrc : ∀ P2 : Pool, P2.Buffer = some b1 →
      memcpySource P2 false s (p + sizeofLengthType) (a.length + 1)
        = .ok (a.map some ++ [some 0]) := by
    intro P2 hP2
    rw [memcpySource_read _ _ _ _ (fun q hq => by
      have := hap q hq
      unfold sizeofLengthType
      omega), hP2, read_agree hl1 ?_, hread]
    intro q hq i hi1 hi2
    have := hap q hq
    exact hg1 i (by omega)
  obtain ⟨b2, hw2⟩ := writeCells_fits (m := b1) (q := p + sizeofLengthType)
    (a.map some ++ [some 0]) (by
      simp only [List.length_append, List.length_map, List.length_singleton, sizeofLengthType]
      omega)
  have hfin : b2 = putRecord b p a := by
    have h12 := writeCells_then hw1c hw2
    have hrec := writeCells_record b p a hp
    unfold recordCells at hrec
    simp only [List.cons_append, List.nil_append] at h12
    rw [h12] at hrec
    exact Except.ok.inj hrec
  unfold Set
  rw [SetIndex_valid h0 hN]
  simp only [ok_bind]
  rw [if_neg hnull, hlen]
  simp only [ok_bind]
  rw [if_neg (show ¬ a.length = 0 by omega),
    if_neg (show ¬ a.length > maxLength by unfold maxLength; omega),
    u32_of_lt (show a.length < 4294967296 by omega), hA]
  simp only [ok_bind]
  rw [hb]
  simp only []
  rw [hu, hw1]
  simp only [ok_bind]
  rw [hsrc _ rfl]
  simp only [ok_bind]
  rw [hw2]
  simp only [ok_bind]
  rw [hfin]

/-- The bytes that `Set(h, s, len)` leaves in the buffer, given where
`Allocate` puts the record, when the buffer is not replaced and the bytes at
`s` are apart from the record. -/
theorem SetN_of_Allocate_ptr {P P1 : Pool} {h : Int} {s : PChar} {a : List Nat} {len p : Nat}
    {b : Mem} (h0 : 0 ≤ h) (hN : h < P.Num) (hs : s.read P.Buffer len = .ok (a.map some))
    (hL1 : 1 ≤ a.length) (hL2 : a.length ≤ 65535)
    (hA : Allocate P h a.length = .ok (P1, p, false))
    (hbP : P.Buffer = some b) (hb : P1.Buffer = some b) (hp : p + (a.length + 3) ≤ b.length)
    (hap : ∀ q, s = .pool q → q + a.length ≤ p ∨ q = p + 2 ∨ p + (a.length + 3) ≤ q) :
    SetN P h s len = .ok { P1 with Buffer := some (putRecord b p a), OldBuffer := none } := by
  have hlen : len = a.length := by
    unfold PChar.read at hs
    simp only [bind_ok_iff] at hs
    obtain ⟨m, _, hr⟩ := hs
    have := (readCells_length hr).1
    rw [List.length_map] at this
    exact this.symm
  subst hlen
  rw [hbP] at hs
  have hu : u16 a.length = a.length := u16_of_le hL2
  obtain ⟨b1, hw1, hl1, hw1c, hg1⟩ := writeU16_fits (m := b) (p := p) a.length (by omega)
  have hsrc : ∀ P2 : Pool, P2.Buffer = some b1 →
      memcpySource P2 false s (p + sizeofLengthType) a.length = .ok (a.map some) := by
    intro P2 hP2
    rw [memcpySource_read _ _ _ _ (fun q hq => by
      have := hap q hq
      unfold sizeofLengthType
      omega), hP2, read_agree hl1 ?_, hs]
    intro q hq i hi1 hi2
    have := hap q hq
    exact hg1 i (by omega)
  obtain ⟨b2, hw2⟩ := writeCells_fits (m := b1) (q := p + sizeofLengthType) (a.map some) (by
      simp only [List.length_map, sizeofLengthType]
      omega)
  have hl2 := (writeCells_length hw2).2
  obtain ⟨b3, hw3⟩ := writeCells_fits (m := b2) (q := p + (a.length + sizeofLengthType))
    [some 0] (by
      simp only [List.length_singleton, sizeofLengthType]
      omega)
  have hfin : b3 = putRecord b p a := by
    have h12 := writeCells_then hw1c hw2
    have hw3' : writeCells b2
        (p + ([some (a.length % 256), some (a.length / 256 % 256)] ++ a.map some).length)
        [some 0] = .ok b3 := by
      rw [← hw3]
      congr 1
      simp only [List.length_append, List.length_cons, List.length_nil, List.length_map,
        sizeofLengthType]
      omega
    have h123 := writeCells_then h12 hw3'
    have hrec := writeCells_record b p a hp
    unfold recordCells at hrec
    simp only [List.cons_append, List.nil_append, List.append_assoc] at h123
    rw [h123] at hrec
    exact Except.ok.inj hrec
  unfold SetN
  rw [SetIndex_valid h0 hN]
  simp only [ok_bind]
  rw [if_neg (show ¬ a.length ≤ 0 by omega), hA]
  simp only [ok_bind]
  rw [hb]
  simp only []
  rw [hu, hw1]
  simp only [ok_bind]
  rw [hsrc _ rfl]
  simp only [ok_bind]
  rw [hw2]
  simp only [ok_bind]
  rw [hw3]
  simp only [ok_bind]
  rw [hfin]

/-- The bytes that `Concatenate(h, t)` leaves in the buffer, given where
`Allocate` puts the record, when the buffer is not replaced and the string at
`t` is apart from the record. -/
theorem Concatenate_of_Allocate_ptr {P P1 : Pool} {h : Int} {t : PChar} {c a : List Nat}
    {off p : Nat} {b : Mem} (h0 : 0 ≤ h) (hN : h < P.Num)
    (hc : payload P h = .ok (c.map some)) (hoff : offsetAt P h = .ok off)
    (hbP : P.Buffer = some b) (ht : t.string P.Buffer = .ok a) (ht1 : 1 ≤ a.length)
    (hL2 : c.length + a.length ≤ 65535)
    (hA : Allocate P h (c.length + a.length) = .ok (P1, p, false))
    (hb : P1.Buffer = some b) (hp : p + (c.length + a.length + 3) ≤ b.length)
    (hov : c = [] ∨ p = off ∨ off + c.length + 2 ≤ p)
    (hap : ∀ q, t = .pool q → q + (a.length + 1) ≤ p ∨ p + (c.length + a.length + 3) ≤ q) :
    Concatenate P h t
      = .ok { P1 with Buffer := some (putRecord b p (c ++ a)), OldBuffer := none } := by
  obtain ⟨off2, b2, q1, q2, q3, q4, q5, q6⟩ := payload_inv hc
  rw [hoff] at q1
  rw [hbP] at q2
  simp only [Except.ok.injEq, Option.some.injEq] at q1 q2
  subst q1 q2
  rw [List.length_map] at q3 q6
  obtain ⟨hnull, hlen, hread, hz⟩ := string_inv ht
  unfold Concatenate
  rw [q3]
  simp only [ok_bind]
  rw [if_neg hnull, hlen]
  simp only [ok_bind]
  rw [if_neg (show ¬ a.length = 0 by omega),
    if_neg (show ¬ a.length > maxLength by unfold maxLength; omega),
    if_neg (show ¬ toUnsigned h ≥ toUnsigned P.Num by omega)]
  by_cases hc0 : c.length = 0
  · rw [if_pos hc0]
    have hcn : c = [] := List.eq_nil_of_length_eq_zero hc0
    subst hcn
    simp only [List.length_nil, Nat.zero_add, List.nil_append] at hA hp hap ⊢
    exact Set_of_Allocate_ptr h0 hN ht ht1 (by omega) hA hbP hb hp
      (fun q hq => (hap q hq).elim Or.inl (fun e => Or.inr (Or.inr e)))
  · rw [if_neg hc0, q5]
    simp only [ok_bind]
    rw [u32_of_lt (show c.length + a.length < 4294967296 by omega), hA]
    simp only [ok_bind]
    rw [hbP] at hread
    have hov2 : p = off ∨ off + c.length + 2 ≤ p := by
      rcases hov with e | e
      · subst e
        exact absurd rfl hc0
      · exact e
    have hu : u16 (c.length + a.length) = c.length + a.length := u16_of_le hL2
    obtain ⟨b1, hw1, hl1, hw1c, hg1⟩ :=
      writeU16_fits (m := b) (p := p) (c.length + a.length) (by omega)
    have hsrc1 : ∀ P2 : Pool, P2.Buffer = some b1 →
        memcpySource P2 false (.pool (2 + off)) (p + sizeofLengthType) c.length
          = .ok (c.map some) := by
      intro P2 hP2
      rw [memcpySource_read _ _ _ _ (fun q hq => by
        cases hq
        unfold sizeofLengthType
        omega), hP2, read_pool, readCells_agree hl1 ?_, q6]
      intro i hi1 hi2
      exact hg1 i (by omega)
    obtain ⟨b3, hw2⟩ := writeCells_fits (m := b1) (q := p + sizeofLengthType) (c.map some) (by
        simp only [List.length_map, sizeofLengthType]
        omega)
    have hl2 := (writeCells_length hw2).2
    have hg2 : ∀ i, i < p ∨ p + (c.length + a.length + 3) ≤ i → b3.get? i = b.get? i := by
      intro i hi
      rw [writeCells_get hw2, List.length_map]
      unfold sizeofLengthType
      split
      · exact hg1 i (by omega)
      · rw [if_neg (by omega)]
        exact hg1 i (by omega)
    have hsrc2 : ∀ P2 : Pool, P2.Buffer = some b3 →
        memcpySource P2 false t (p + sizeofLengthType + c.length) (a.length + 1)
          = .ok (a.map some ++ [some 0]) := by
      intro P2 hP2
      rw [memcpySource_read _ _ _ _ (fun q hq => by
        have := hap q hq
        unfold sizeofLengthType
        omega), hP2, read_agree (hl2.trans hl1) ?_, hread]
      intro q hq i hi1 hi2
      have := hap q hq
      exact hg2 i (by omega)
    obtain ⟨b4, hw3⟩ := writeCells_fits (m := b3) (q := p + sizeofLengthType + c.length)
      (a.map some ++ [some 0]) (by
        simp only [List.length_append, List.length_map, List.length_singleton, sizeofLengthType]
        omega)
    have hfin : b4 = putRecord b p (c ++ a) := by
      have h12 := writeCells_then hw1c hw2
      have hw3' : writeCells b3
          (p + ([some ((c.length + a.length) % 256),
            some ((c.length + a.length) / 256 % 256)] ++ c.map some).length)
          (a.map some ++ [some 0]) = .ok b4 := by
        rw [← hw3]
        congr 1
        simp only [List.length_append, List.length_cons, List.length_nil, List.length_map,
          sizeofLengthType]
        omega
      have h123 := writeCells_then h12 hw3'
      have hrec := writeCells_record b p (c ++ a) (by rw [List.length_append]; exact hp)
      unfold recordCells at hrec
      simp only [List.cons_append, List.nil_append, List.append_assoc, List.map_append,
        List.length_append] at h123 hrec
      rw [h123] at hrec
      exact Except.ok.inj hrec
    rw [hb]
    simp only []
    rw [hu, hw1]
    simp only [ok_bind]
    rw [hsrc1 _ rfl]
    simp only [ok_bind]
    rw [hw2]
    simp only [ok_bind]
    rw [hsrc2 _ rfl]
    simp only [ok_bind]
    rw [hw3]
    simp only [ok_bind]
    rw [hfin]

/-- The bytes a write leaves in the buffer, given where `Allocate` puts the
record, when the buffer is not replaced. -/
theorem Write_run_of_Allocate {P P1 : Pool} {h : Int} {w : Write} {c a : List Nat}
    {off p : Nat} {b : Mem} (h0 : 0 ≤ h) (hN : h < P.Num)
    (hc : payload P h = .ok (c.map some)) (hoff : offsetAt P h = .ok off)
    (hbP : P.Buffer = some b) (hw : w.Takes P a) (hap : w.Apart p c a)
    (hL1 : 1 ≤ (w.newPayload c a).length) (hL2 : (w.newPayload c a).length ≤ 65535)
    (hA : Allocate P h (w.newPayload c a).length = .ok (P1, p, false))
    (hb : P1.Buffer = some b) (hp : p + ((w.newPayload c a).length + 3) ≤ b.length)
    (hov : c = [] ∨ p = off ∨ off + c.length + 2 ≤ p) :
    w.run P h
      = .ok { P1 with Buffer := some (putRecord b p (w.newPayload c a)), OldBuffer := none } := by
  cases w with
  | assign s =>
    refine Set_of_Allocate_ptr h0 hN hw hL1 hL2 hA hbP hb hp ?_
    intro q hq
    subst hq
    exact hap
  | assignN s len =>
    refine SetN_of_Allocate_ptr h0 hN hw hL1 hL2 hA hbP hb hp ?_
    intro q hq
    subst hq
    exact hap
  | append t =>
    have ht : t.string P.Buffer = .ok a ∧ a ≠ [] := hw
    have ht1 : 1 ≤ a.length := by
      rcases a with _ | ⟨x, a⟩
      · exact absurd rfl ht.2
      · simp
    simp only [Write.newPayload, List.length_append] at hL1 hL2 hA hp
    refine Concatenate_of_Allocate_ptr h0 hN hc hoff hbP ht.1 ht1 hL2 hA hb hp hov ?_
    intro q hq
    subst hq
    exact hap

/-! ### The three placements without compaction -/

/-- C25, counterexample.  After `Set(0,"abc")` the record of handle 0 is the
last one (`Offsets[0] == Top == 3`) and the buffer has room.  Assigning the
empty string (`L = 0`) erases: `Offsets[0]` becomes 0, `GarbageSize` grows
from 0 to 6, and `DataSize` stays 9 instead of becoming `Top + 3 + 0 = 6`.
And after `Set(0,"ab")`, with the record of handle 0 at `Top == 3` and its
string at offset 5, `strings[0] += strings[0]` (new length 4,
`3 + 3 + 4 <= BufferSize`) copies the three bytes at offset 5 to offset 7:
source and destination of the `memcpy` overlap, and the call has no defined
result. -/
theorem C25_empty_assign_erases_tail :
    (runOps [(Set · 0 (cstr (bytes "abc")))] >>= fun P =>
      pure (offsetAt P 0, P.Top, decide (P.Top + 3 + 0 ≤ P.BufferSize), P.GarbageSize, P.DataSize))
      = .ok (.ok 3, 3, true, 0, 9) ∧
    (runOps [(Set · 0 (cstr (bytes "abc"))), ((Write.assign (cstr [])).run · 0)] >>= fun P =>
      pure (offsetAt P 0, P.Top, P.GarbageSize, P.DataSize))
      = .ok (.ok 0, 3, 6, 9) ∧
    (runOps [(Set · 0 (cstr (bytes "ab")))] >>= fun P =>
      pure (offsetAt P 0, P.Top, decide (P.Top + 3 + 4 ≤ P.BufferSize), Get P 0))
      = .ok (.ok 3, 3, true, .ok 5) ∧
    runOps [(Set · 0 (cstr (bytes "ab"))), ((Write.append (.pool 5)).run · 0)]
      = .error .Undefined := by
  decide!

/-- C25 (amended): a write of a payload of length `1 <= L <= 65535` - an
assignment, or an append of a non-empty string - to the handle `h` whose
record is the last one (`Offsets[h] == Top != 0`), with
`Top + 3 + L <= BufferSize` and with an argument in caller memory or in the
buffer apart from the record that is written, returns; it leaves `Offsets`
(so `Offsets[h]`), `Top`, `BufferSize` and `GarbageSize` unchanged, stores the
record at `Top` in the same buffer (no compaction), sets
`DataSize = Top + 3 + L`, and afterwards the length of `h` is `L` and its
content is the new payload. -/
theorem C25_tail_growth_without_compaction (P : Pool) (h : Int) (w : Write) (b : Mem)
    (c a : List Nat) (h0 : 0 ≤ h) (hN : h < P.Num)
    (hb : P.Buffer = some b) (hbl : P.BufferSize ≤ b.length) (h32 : P.BufferSize < 4294967296)
    (hoff : offsetAt P h = .ok P.Top) (htop : P.Top ≠ 0)
    (hc : payload P h = .ok (c.map some)) (hw : w.Takes P a) (hap : w.Apart P.Top c a)
    (hL1 : 1 ≤ (w.newPayload c a).length) (hL2 : (w.newPayload c a).length ≤ 65535)
    (hfit : P.Top + 3 + (w.newPayload c a).length ≤ P.BufferSize) :
    ∃ Q, w.run P h = .ok Q ∧ offsetAt Q h = .ok P.Top ∧ Q.Offsets = P.Offsets ∧
      Q.Top = P.Top ∧ Q.BufferSize = P.BufferSize ∧ Q.GarbageSize = P.GarbageSize ∧
      Q.Buffer = some (putRecord b P.Top (w.newPayload c a)) ∧
      Q.DataSize = P.Top + 3 + (w.newPayload c a).length ∧
      Len Q h = .ok (w.newPayload c a).length ∧
      payload Q h = .ok ((w.newPayload c a).map some) ∧
      ((∀ x ∈ w.newPayload c a, x ≠ 0) → content Q h = .ok (w.newPayload c a)) := by
  have hA := Allocate_tail (w.newPayload c a).length hoff htop hfit h32
  have hrun := Write_run_of_Allocate h0 hN hc hoff hb hw hap hL1 hL2 hA hb (by omega)
    (Or.inr (Or.inl rfl))
  have hv : toUnsigned h < toUnsigned P.Num := by
    obtain ⟨_, _, _, _, _, q4, _, _⟩ := payload_inv hc
    exact q4
  obtain ⟨r1, r2, r3⟩ := readback
    (Q := { P with DataSize := P.Top + 3 + (w.newPayload c a).length,
                   Buffer := some (putRecord b P.Top (w.newPayload c a)), OldBuffer := none })
    hv hoff rfl (by omega) hL2
  exact ⟨_, hrun, hoff, rfl, rfl, rfl, rfl, rfl, rfl, r1, r2, r3⟩

/-- C25, example.  In the pool with "abc" under handle 0 at offset 3 and "x"
under handle 1 in the last record, at offset 9, with 24 bytes of buffer,
`strings[1] += strings[0]` leaves the record at offset 9, sets `DataSize` to
16, and handle 1 reads "xabc". -/
theorem C25_tail_growth_without_compaction_witness :
    ∃ Q, (Write.append (.pool 5)).run twoRecords 1 = .ok Q ∧ offsetAt Q 1 = .ok 9 ∧
      Q.Top = 9 ∧ Q.GarbageSize = 0 ∧ Q.DataSize = 16 ∧ content Q 1 = .ok (bytes "xabc") :=
  let ⟨Q, q1, q2, _, q4, _, q6, _, q8, _, _, q11⟩ :=
    C25_tail_growth_without_compaction twoRecords 1 (.append (.pool 5)) _ (bytes "x")
      (bytes "abc") (by decide) (by decide) rfl (by decide) (by decide) (by decide) (by decide)
      (by decide) (by decide) (by decide) (by decide) (by decide) (by decide)
  ⟨Q, q1, q2, q4, q6, q8, q11 (by decide)⟩

/-- C27, counterexample.  After `Set(0,"abc"); Set(1,"x")` the record of
handle 0 (length 3) lies at offset 3 and is not the last one (`Top == 9`).
Assigning "ab" uses the record again (`Offsets[0]`, `Top` and `DataSize` stay
3, 9 and 13) and `GarbageSize` grows from 0 to 1: the byte the record no
longer needs is counted as garbage.  Assigning the empty string (`L = 0`)
erases instead: `Offsets[0]` becomes 0 and `GarbageSize` becomes 6.  And
assigning the string "bc" that starts at offset 6, inside the record, copies
its three bytes to offset 5: source and destination of the `memcpy` overlap,
and the call has no defined result. -/
theorem C27_reuse_counts_slack_as_garbage :
    (runOps [(Set · 0 (cstr (bytes "abc"))), (Set · 1 (cstr (bytes "x")))] >>= fun P =>
      pure (offsetAt P 0, Len P 0, P.Top, P.DataSize, P.GarbageSize))
      = .ok (.ok 3, .ok 3, 9, 13, 0) ∧
    (runOps [(Set · 0 (cstr (bytes "abc"))), (Set · 1 (cstr (bytes "x"))),
             ((Write.assign (cstr (bytes "ab"))).run · 0)] >>= fun P =>
      pure (offsetAt P 0, content P 0, P.Top, P.DataSize, P.GarbageSize))
      = .ok (.ok 3, .ok (bytes "ab"), 9, 13, 1) ∧
    (runOps [(Set · 0 (cstr (bytes "abc"))), (Set · 1 (cstr (bytes "x"))),
             ((Write.assign (cstr [])).run · 0)] >>= fun P =>
      pure (offsetAt P 0, P.Top, P.DataSize, P.GarbageSize))
      = .ok (.ok 0, 9, 13, 6) ∧
    (runOps [(Set · 0 (cstr (bytes "abc"))), (Set · 1 (cstr (bytes "x")))] >>= fun P =>
      (PChar.pool 6).string P.Buffer) = .ok (bytes "bc") ∧
    runOps [(Set · 0 (cstr (bytes "abc"))), (Set · 1 (cstr (bytes "x"))),
            ((Write.assign (.pool 6)).run · 0)] = .error .Undefined :=
  ⟨by decide!, by decide!, by decide!, by decide!, by decide!⟩

/-- C27 (amended): a write of a payload of length `1 <= L <= 65535` to a
handle `h` whose record is not the last one (`Offsets[h] != Top`) and has a
length `oldLength >= L`, with an argument in caller memory or in the buffer
apart from the record that is written, returns and uses the same storage:
`Offsets` (so `Offsets[h]`), `Top` and `DataSize` are unchanged, the length of
`h` becomes `L` and its content the new payload, and `GarbageSize` grows by
`oldLength - L`: the bytes the record no longer needs are counted as
garbage. -/
theorem C27_in_place_reuse (P : Pool) (h : Int) (w : Write) (b : Mem) (c a : List Nat)
    (off : Nat) (h0 : 0 ≤ h) (hN : h < P.Num)
    (hb : P.Buffer = some b) (hoff : offsetAt P h = .ok off) (hoff0 : off ≠ 0)
    (htop : off ≠ P.Top) (hc : payload P h = .ok (c.map some))
    (hin : off + (c.length + 3) ≤ b.length) (hw : w.Takes P a) (hap : w.Apart off c a)
    (hL1 : 1 ≤ (w.newPayload c a).length) (hL2 : (w.newPayload c a).length ≤ 65535)
    (hle : (w.newPayload c a).length ≤ c.length) :
    ∃ Q, w.run P h = .ok Q ∧ offsetAt Q h = .ok off ∧ Q.Offsets = P.Offsets ∧
      Q.Top = P.Top ∧ Q.DataSize = P.DataSize ∧
      Q.GarbageSize = u32 (P.GarbageSize + (c.length - (w.newPayload c a).length)) ∧
      Q.Buffer = some (putRecord b off (w.newPayload c a)) ∧
      Len Q h = .ok (w.newPayload c a).length ∧
      payload Q h = .ok ((w.newPayload c a).map some) ∧
      ((∀ x ∈ w.newPayload c a, x ≠ 0) → content Q h = .ok (w.newPayload c a)) := by
  obtain ⟨off2, b2, q1, q2, q3, q4, _, _⟩ := payload_inv hc
  rw [List.length_map] at q3
  have hA := Allocate_reuse (w.newPayload c a).length hoff hoff0 htop q3 hle
  have hrun := Write_run_of_Allocate h0 hN hc hoff hb hw hap hL1 hL2 hA hb (by omega)
    (Or.inr (Or.inl rfl))
  obtain ⟨r1, r2, r3⟩ := readback
    (Q := { P with
      GarbageSize := u32 (P.GarbageSize + (c.length - (w.newPayload c a).length)),
      Buffer := some (putRecord b off (w.newPayload c a)), OldBuffer := none })
    q4 hoff rfl (by omega) hL2
  exact ⟨_, hrun, hoff, rfl, rfl, rfl, rfl, rfl, r1, r2, r3⟩

/-- C27, example.  In the pool with "abc" under handle 0 at offset 3 and "x"
under handle 1 in the last record, at offset 9, `strings[0] = strings[1]`
(as `Set(0, Get(1))`) leaves the offset of handle 0, `Top` and `DataSize` as
they are, makes `GarbageSize` 2, and handle 0 reads "x". -/
theorem C27_in_place_reuse_witness :
    ∃ Q, (Write.assign (.pool 11)).run twoRecords 0 = .ok Q ∧ offsetAt Q 0 = .ok 3 ∧
      Q.Top = 9 ∧ Q.DataSize = 13 ∧ Q.GarbageSize = 2 ∧ content Q 0 = .ok (bytes "x") :=
  let ⟨Q, q1, q2, _, q4, q5, q6, _, _, _, q10⟩ :=
    C27_in_place_reuse twoRecords 0 (.assign (.pool 11)) _ (bytes "abc") (bytes "x") 3
      (by decide) (by decide) rfl (by decide) (by decide) (by decide) (by decide)
      (by decide) (by decide) (by decide) (by decide) (by decide) (by decide)
  ⟨Q, q1, q2, q4, q5, q6, q10 (by decide)⟩

theorem Set_too_long_valid (P : Pool) (h : Int) (s : List Nat) (h0 : 0 ≤ h) (hN : h < P.Num)
    (hs : ∀ b ∈ s, b ≠ 0) (hlong : 65535 < s.length) :
    Set P h (cstr s) = .error .StringTooLong := by
  unfold Set
  rw [SetIndex_valid h0 hN]
  simp only [ok_bind]
  rw [if_neg (cstr_ne_null s), strlen_cstr _ s hs]
  simp only [ok_bind]
  rw [if_neg (by omega), if_pos (by unfold maxLength; omega)]

theorem Set_nil_valid (P : Pool) (h : Int) (h0 : 0 ≤ h) (hN : h < P.Num)
    (hoff : offsetAt P h = .ok 0) : Set P h (cstr []) = .ok P := by
  unfold Set
  rw [SetIndex_valid h0 hN]
  simp only [ok_bind]
  rw [if_neg (cstr_ne_null []), strlen_cstr _ [] (fun x hx => by cases hx)]
  simp only [ok_bind, List.length_nil]
  rw [if_pos trivial]
  unfold SetErase
  rw [hoff]
  simp only [ok_bind]
  rw [if_neg (by simp)]

/-- The first assignment of the empty string to handle 0 in a pool without a
table: the handle becomes valid and stays empty, the buffer is not touched. -/
theorem Set_nil_first (B : Option Mem) (bs : Nat) :
    ∃ P, Set { fresh with
        Top := 3, Buffer := B, BufferSize := bs, DataSize := 3, GarbageSize := 0 }
        0 (cstr []) = .ok P ∧
      0 < P.Num ∧ offsetAt P 0 = .ok 0 ∧ P.DataSize = 3 ∧ P.BufferSize = bs := by
  have hT1 : TableOK { fresh with
      Top := 3, Buffer := B, BufferSize := bs, DataSize := 3, GarbageSize := 0 } :=
    TableOK_of_eq rfl rfl rfl TableOK_fresh
  obtain ⟨P2, h1⟩ := SetIndex_returns (h := 0) hT1 (by decide) (by decide)
  obtain ⟨hT2, _, hN2⟩ := SetIndex_table h1 hT1
  have hf := SetIndex_fields h1
  have hD : P2.DataSize = 3 := by rw [hf]
  have hB : P2.BufferSize = bs := by rw [hf]
  have hoff : offsetAt P2 0 = .ok 0 := by
    have hsz : 0 < P2.OffsetsSize := by
      rcases hT2.2.2 with ⟨_, _, hn⟩ | ⟨_, _, _, hle, _⟩
      · rw [hn] at hN2
        exact absurd hN2 (by decide)
      · omega
    exact (SetIndex_entries h1 hT1).2 0 (Nat.zero_le _) hsz
  refine ⟨P2, ?_, hN2, hoff, hD, hB⟩
  rw [Set_after_SetIndex _ h1, Set_nil_valid P2 0 (by decide) hN2 hoff]

theorem runOps_two (f g : Pool → Result Pool) (P1 P2 : Pool) (hf : f fresh = .ok P1)
    (hg : g P1 = .ok P2) : runOps [f, g] = .ok P2 := by
  unfold runOps
  simp only [List.foldlM]
  rw [hf]
  simp only [ok_bind]
  rw [hg]
  rfl

/-- C28, counterexample.  `ReserveBuf(70000); Set(0, "")` on a new pool
returns with a buffer of 70003 bytes of which 3 are used, and with handle 0
valid and empty (`Offsets[0] == 0`).  For a new payload of `L = 65536` bytes
`DataSize + 3 + L <= BufferSize` holds, but `Set(0, s)` with a string `s` of
65536 characters stores nothing: it ends with message 5 (StringTooLong). -/
theorem C28_long_assign_is_refused :
    ∃ P, runOps [(ReserveBuf · 70000), (Set · 0 (cstr []))] = .ok P ∧
      0 < P.Num ∧ offsetAt P 0 = .ok 0 ∧ P.DataSize = 3 ∧ P.BufferSize = 70003 ∧
      P.DataSize + 3 + 65536 ≤ P.BufferSize ∧
      Set P 0 (cstr (List.replicate 65536 97)) = .error .StringTooLong := by
  obtain ⟨P, hP, hN, hoff, hD, hB⟩ :=
    Set_nil_first (some (some 0 :: some 0 :: some 0 :: newChars 70000))
      (u32 (70000 + sizeofLengthType + 1))
  have hB2 : P.BufferSize = 70003 := by
    rw [hB]
    decide
  refine ⟨P, ?_, hN, hoff, hD, hB2, by rw [hD, hB2]; decide, ?_⟩
  · exact runOps_two _ _ _ _
      (ReserveBuf_null fresh 70000 70000 70000 rfl (by decide) (by decide)) hP
  · exact Set_too_long_valid P 0 _ (by decide) hN
      (fun b hb => by rw [List.eq_of_mem_replicate hb]; decide)
      (by rw [List.length_replicate]; decide)

/-- C28 (amended).  A write of a payload of length `L <= 65535` to a handle
`h` that is empty (`Offsets[h] == 0`) or whose record is not the last one
(`Offsets[h] != Top`), when the old length is below `L`,
`DataSize + 3 + L <= BufferSize` and the argument lies in caller memory or in
the buffer apart from the new record (as every string in the used part of the
buffer does), returns; the new record is stored at the old `DataSize`
(`Offsets[h] == Top == old DataSize`, and `h` reads the new payload there),
`DataSize` advances by `2 + L + 1`, and `GarbageSize` grows by
`2 + oldLength + 1` when `h` had a record and is unchanged when `h` was
empty. -/
theorem C28_relocation (P : Pool) (h : Int) (w : Write) (b : Mem) (c a : List Nat) (off : Nat)
    (h0 : 0 ≤ h) (hN : h < P.Num)
    (hb : P.Buffer = some b) (hbl : P.BufferSize ≤ b.length) (h32 : P.BufferSize < 4294967296)
    (hoff : offsetAt P h = .ok off) (htop : off = 0 ∨ off ≠ P.Top)
    (hc : payload P h = .ok (c.map some))
    (hin : c = [] ∨ off + (c.length + 3) ≤ P.DataSize) (hw : w.Takes P a)
    (hap : w.Apart P.DataSize c a)
    (hlt : c.length < (w.newPayload c a).length) (hL2 : (w.newPayload c a).length ≤ 65535)
    (hfit : P.DataSize + 3 + (w.newPayload c a).length ≤ P.BufferSize) :
    ∃ Q, w.run P h = .ok Q ∧ offsetAt Q h = .ok P.DataSize ∧ Q.Top = P.DataSize ∧
      Q.DataSize = P.DataSize + (2 + (w.newPayload c a).length + 1) ∧
      Q.GarbageSize
        = (if off = 0 then P.GarbageSize else u32 (P.GarbageSize + (2 + c.length + 1))) ∧
      Q.BufferSize = P.BufferSize ∧
      Q.Buffer = some (putRecord b P.DataSize (w.newPayload c a)) ∧
      Len Q h = .ok (w.newPayload c a).length ∧
      payload Q h = .ok ((w.newPayload c a).map some) ∧
      ((∀ x ∈ w.newPayload c a, x ≠ 0) → content Q h = .ok (w.newPayload c a)) := by
  obtain ⟨off2, b2, q1, q2, q3, q4, _, _⟩ := payload_inv hc
  rw [List.length_map] at q3
  obtain ⟨o, ho, hi, hl, _⟩ := offsetAt_inv hoff
  have hov : c = [] ∨ P.DataSize = off ∨ off + c.length + 2 ≤ P.DataSize := by
    rcases hin with e | e
    · exact Or.inl e
    · exact Or.inr (Or.inr (by omega))
  have hoffQ : ∀ Q : Pool, Q.Offsets = some (o.set h.toNat P.DataSize) →
      offsetAt Q h = .ok P.DataSize := fun Q hQ =>
    offsetAt_of hQ hi (by
      rw [List.get?_eq_getElem?, List.getElem?_set_self hl])
  by_cases hz : off = 0
  · subst hz
    have hA := Allocate_empty (w.newPayload c a).length hoff ho hfit h32
    have hrun := Write_run_of_Allocate h0 hN hc hoff hb hw hap (by omega) hL2 hA hb (by omega)
      hov
    obtain ⟨r1, r2, r3⟩ := readback
      (Q := { P with
        Top := P.DataSize, Offsets := some (o.set h.toNat P.DataSize),
        DataSize := P.DataSize + (3 + (w.newPayload c a).length),
        Buffer := some (putRecord b P.DataSize (w.newPayload c a)), OldBuffer := none })
      q4 (hoffQ _ rfl) rfl (by omega) hL2
    refine ⟨_, hrun, hoffQ _ rfl, rfl, ?_, ?_, rfl, rfl, r1, r2, r3⟩
    · show P.DataSize + (3 + _) = _
      omega
    · rw [if_pos rfl]
  · have htop2 : off ≠ P.Top := by
      rcases htop with e | e
      · exact absurd e hz
      · exact e
    have hA := Allocate_relocate (w.newPayload c a).length hoff hz htop2 q3 hlt ho hfit h32
    have hrun := Write_run_of_Allocate h0 hN hc hoff hb hw hap (by omega) hL2 hA hb (by omega)
      hov
    obtain ⟨r1, r2, r3⟩ := readback
      (Q := { P with
        GarbageSize := u32 (P.GarbageSize + (c.length + 3)),
        Top := P.DataSize, Offsets := some (o.set h.toNat P.DataSize),
        DataSize := P.DataSize + (3 + (w.newPayload c a).length),
        Buffer := some (putRecord b P.DataSize (w.newPayload c a)), OldBuffer := none })
      q4 (hoffQ _ rfl) rfl (by omega) hL2
    refine ⟨_, hrun, hoffQ _ rfl, rfl, ?_, ?_, rfl, rfl, r1, r2, r3⟩
    · show P.DataSize + (3 + _) = _
      omega
    · rw [if_neg hz]
      show u32 (P.GarbageSize + (c.length + 3)) = _
      congr 1
      omega

/-- C28, example.  In the pool with "abc" under handle 0 at offset 3, "x" under
handle 1 in the last record, at offset 9, and `DataSize == 13`,
`strings[0] += strings[1]` puts the new record at offset 13, makes `Top` 13,
`DataSize` 20 and `GarbageSize` 6, and handle 0 reads "abcx". -/
theorem C28_relocation_witness :
    ∃ Q, (Write.append (.pool 11)).run twoRecords 0 = .ok Q ∧ offsetAt Q 0 = .ok 13 ∧
      Q.Top = 13 ∧ Q.DataSize = 20 ∧ Q.GarbageSize = 6 ∧ content Q 0 = .ok (bytes "abcx") :=
  let ⟨Q, q1, q2, q3, q4, q5, _, _, _, _, q10⟩ :=
    C28_relocation twoRecords 0 (.append (.pool 11)) _ (bytes "abc") (bytes "x") 3
      (by decide) (by decide) rfl (by decide) (by decide) (by decide) (by decide)
      (by decide) (by decide) (by decide) (by decide) (by decide) (by decide) (by decide)
  ⟨Q, q1, q2, q3, q4, q5, q10 (by decide)⟩

end StringPoolL
